import Mathlib

/-!
CFBasic: a shallow embedding of the interpreter core.

The development follows the C sources `utils.c`, `lexer.c`, `interpreter.c`
and, for the immediate commands, `cfbasic.c`.

Modelling conventions

* A C string is the list of its bytes before the terminating NUL (`CStr`); a
  `char *` that may be `NULL` is an `Option CStr`.  Reading past the end of a
  string yields the NUL byte `0`.
* `int` is `Int` (no wrap-around is modelled), `double` is `ℚ` (exact
  arithmetic; rounding, infinities and NaN are outside the model).
* A pointer into the singly linked program list is the suffix of the list that
  starts at the node it points to; `NULL` is the empty suffix.  Two pointers into
  the same list are equal exactly when the suffixes are equal.
* The allocation budget of `safe_malloc` is assumed not to be exhausted by the
  interpreter; `safe_malloc` itself is modelled apart, on the two accounting
  variables, with the sums of `size_t` wrapping around at `2^64`.
* Loops and recursion of the lexer, evaluator and executor are driven by a fuel
  argument; running out of fuel yields `none`.
* A file is the list of its bytes, none of them NUL; `fopen` is a parameter of
  the model: the content of the file read, or whether the file can be written.
-/

namespace CFBasic

/-! ## C library and `utils.c` -/

/-- A C string: the bytes before the terminating NUL. -/
abbrev CStr := List Nat

/-- The bytes of a string literal. -/
def str (s : String) : CStr := s.toList.map Char.toNat

/-- Bytes of a well-formed C string are non-zero and fit in an `unsigned char`. -/
def CStr.wf (s : CStr) : Prop := ∀ c ∈ s, 0 < c ∧ c < 256

instance (s : CStr) : Decidable (CStr.wf s) := by
  unfold CStr.wf; infer_instance

/-- `isdigit` in the C locale. -/
def isdigit (c : Nat) : Bool := 48 ≤ c && c ≤ 57

/-- `isalpha` in the C locale. -/
def isalpha (c : Nat) : Bool := (65 ≤ c && c ≤ 90) || (97 ≤ c && c ≤ 122)

/-- `isalnum` in the C locale. -/
def isalnum (c : Nat) : Bool := isalpha c || isdigit c

/-- `toupper` in the C locale. -/
def toupper (c : Nat) : Nat := if 97 ≤ c ∧ c ≤ 122 then c - 32 else c

/-- `strcmp`: difference of the first pair of differing bytes (as `unsigned char`),
the terminating NUL counting as `0`. -/
def strcmp : CStr → CStr → Int
  | [], [] => 0
  | [], c :: _ => 0 - (c : Int)
  | c :: _, [] => (c : Int) - 0
  | a :: s, b :: t => if a = b then strcmp s t else (a : Int) - (b : Int)

/-- `str_upper` (utils.c): a fresh copy with every byte passed through `toupper`. -/
def str_upper (s : CStr) : CStr := s.map toupper

/-- `str_compare_nocase` (utils.c). -/
def str_compare_nocase : CStr → CStr → Int
  | c1 :: s1, c2 :: s2 =>
    if toupper c1 ≠ toupper c2 then (toupper c1 : Int) - (toupper c2 : Int)
    else str_compare_nocase s1 s2
  | s1, s2 => (toupper (s1.headD 0) : Int) - (toupper (s2.headD 0) : Int)

/-- Conversion `(int)d` of a double: truncation toward zero. -/
def c_trunc (d : ℚ) : Int := Int.tdiv d.num (d.den : Int)

/-- Conversion `(uint16_t)d` of a double, reduced modulo `2^16`. -/
def to_uint16 (d : ℚ) : Nat := (c_trunc d % 65536).toNat

/-- Conversion `(uint8_t)d` / `(char)d` of a double, reduced modulo `2^8`. -/
def to_uint8 (d : ℚ) : Nat := (c_trunc d % 256).toNat

/-! ## Data model (`interpreter.h`, `lexer.h`) -/

/-- The `ProgramLine` node without its `next` pointer. -/
structure ProgramLine where
  line_number : Int
  text : CStr
deriving DecidableEq, Repr

/-- The `VarType` enumeration. -/
inductive VarType where
  | VAR_NUMBER
  | VAR_STRING
  | VAR_ARRAY_NUMBER
  | VAR_ARRAY_STRING
deriving DecidableEq, Repr

/-- The active member of the `value` union of a `Variable`. -/
inductive VarValue where
  | number (d : ℚ)
  | string (s : Option CStr)
deriving DecidableEq, Repr

/-- The `Variable` node without its `next` pointer. -/
structure Variable where
  name : CStr
  type : VarType
  value : VarValue
deriving DecidableEq, Repr

/-- The `ForLoop` node without its `next` pointer. -/
structure ForLoop where
  var_name : CStr
  end_value : ℚ
  step_value : ℚ
  loop_line : Int
deriving DecidableEq, Repr

/-- The fields of `Editor` the interpreter reads. -/
structure Editor where
  rows : Int
  cols : Int
deriving DecidableEq, Repr

/-- One unit of what `basic_print` sends to the display: a byte, or the
rendering of a number by the `%g` or `%d` conversion of `printf`. -/
inductive OutItem where
  | chr (c : Nat)
  | fmt_g (d : ℚ)
  | fmt_d (n : Int)
deriving DecidableEq, Repr

/-- A call made to the display collaborator besides printing. -/
inductive EditorCall where
  | plot (x y : Int) (c : Nat)
  | set_background_color (color : Nat)
  | poke_char (addr : Nat) (val : Nat)
deriving DecidableEq, Repr

/-- The `Interpreter` structure.  `out` collects what `basic_print` emitted,
`err` the messages passed to `error`, `screen` the other calls to the editor. -/
structure Interpreter where
  program : List ProgramLine
  current_line : List ProgramLine
  /-- The field `variables` of the C structure (a reserved word here). -/
  vars : List Variable
  call_stack : List Int
  for_stack : List ForLoop
  editor : Option Editor
  running : Bool
  break_requested : Bool
  exit_requested : Bool
  error_occurred : Bool
  graphics_x : ℚ
  graphics_y : ℚ
  ram : Nat → Nat
  out : List OutItem
  err : List CStr
  screen : List EditorCall

/-- `basic_print` of a literal text. -/
def basic_print (interp : Interpreter) (s : CStr) : Interpreter :=
  { interp with out := interp.out ++ s.map OutItem.chr }

/-- `error` (utils.c): the message goes to the error stream. -/
def error (interp : Interpreter) (msg : CStr) : Interpreter :=
  { interp with err := interp.err ++ [msg] }

/-- `interpreter_init`. -/
def interpreter_init : Interpreter :=
  { program := [], current_line := [], vars := [], call_stack := [],
    for_stack := [], editor := none, running := false, break_requested := false,
    exit_requested := false, error_occurred := false, graphics_x := 0,
    graphics_y := 0, ram := fun _ => 0, out := [], err := [], screen := [] }

/-! ## Program Store (`interpreter.c`, lines 66-142) -/

/-- The scan of `program_delete_line` over `current->next` (lines 108-118);
the argument is the list hanging off `current`. -/
def delete_scan : List ProgramLine → Int → List ProgramLine
  | [], _ => []
  | nxt :: rest, line_num =>
    if nxt.line_number = line_num then rest
    else nxt :: delete_scan rest line_num

/-- `program_delete_line` on the linked list. -/
def delete_line : List ProgramLine → Int → List ProgramLine
  | [], _ => []
  | head :: rest, line_num =>
    if head.line_number = line_num then rest
    else head :: delete_scan rest line_num

/-- `program_delete_line`. -/
def program_delete_line (interp : Interpreter) (line_num : Int) : Interpreter :=
  { interp with program := delete_line interp.program line_num }

/-- The insertion walk of `program_add_line` (lines 87-92): `current` is the
node the walk stands on, `rest` the list hanging off it. -/
def insert_walk (current : ProgramLine) :
    List ProgramLine → ProgramLine → List ProgramLine
  | [], new_line => [current, new_line]
  | nxt :: rest, new_line =>
    if nxt.line_number < new_line.line_number then
      current :: insert_walk nxt rest new_line
    else current :: new_line :: nxt :: rest

/-- The sorted insertion of `program_add_line` (lines 83-93). -/
def insert_line : List ProgramLine → ProgramLine → List ProgramLine
  | [], new_line => [new_line]
  | head :: rest, new_line =>
    if head.line_number > new_line.line_number then new_line :: head :: rest
    else insert_walk head rest new_line

/-- `program_add_line`. -/
def program_add_line (interp : Interpreter) (line_num : Int)
    (text : Option CStr) : Interpreter :=
  let interp := program_delete_line interp line_num
  match text with
  | none => interp
  | some t =>
    if t.length = 0 then interp
    else { interp with
           program := insert_line interp.program
             { line_number := line_num, text := t } }

/-- The scan of `program_find_line`; the result is the pointer to the node
found (the suffix starting there), `[]` for `NULL`. -/
def find_line : List ProgramLine → Int → List ProgramLine
  | [], _ => []
  | current :: rest, line_num =>
    if current.line_number = line_num then current :: rest
    else if current.line_number > line_num then []
    else find_line rest line_num

/-- `program_find_line`. -/
def program_find_line (interp : Interpreter) (line_num : Int) : List ProgramLine :=
  find_line interp.program line_num

/-- `program_clear`. -/
def program_clear (interp : Interpreter) : Interpreter :=
  { interp with program := [] }

/-! ## Variable Store (`interpreter.c`, lines 144-210) -/

/-- The scan of `var_get` over the variable list. -/
def var_find : List Variable → CStr → Option Variable
  | [], _ => none
  | current :: rest, name =>
    if str_compare_nocase current.name name = 0 then some current
    else var_find rest name

/-- `var_get`: the entry found, `none` for `NULL`. -/
def var_get (interp : Interpreter) (name : CStr) : Option Variable :=
  var_find interp.vars name

/-- Writing through the pointer returned by `var_get`: the first entry whose
name matches is replaced by its image under `f`. -/
def var_update (f : Variable → Variable) : List Variable → CStr → List Variable
  | [], _ => []
  | current :: rest, name =>
    if str_compare_nocase current.name name = 0 then f current :: rest
    else current :: var_update f rest name

/-- `var_set_number`. -/
def var_set_number (interp : Interpreter) (name : CStr) (value : ℚ) : Interpreter :=
  match var_get interp name with
  | none =>
    { interp with
      vars := { name := name, type := VarType.VAR_NUMBER,
                     value := VarValue.number value } :: interp.vars }
  | some _ =>
    { interp with
      vars := var_update
        (fun v => { v with type := VarType.VAR_NUMBER, value := VarValue.number value })
        interp.vars name }

/-- `var_set_string`. -/
def var_set_string (interp : Interpreter) (name : CStr) (value : Option CStr) :
    Interpreter :=
  match var_get interp name with
  | none =>
    { interp with
      vars := { name := name, type := VarType.VAR_STRING,
                     value := VarValue.string value } :: interp.vars }
  | some _ =>
    { interp with
      vars := var_update
        (fun v => { v with type := VarType.VAR_STRING, value := VarValue.string value })
        interp.vars name }

/-- `var_clear_all`. -/
def var_clear_all (interp : Interpreter) : Interpreter :=
  { interp with vars := [] }

/-! ## Tokenizer (`lexer.h`, `lexer.c`) -/

/-- The `TokenType` enumeration. -/
inductive TokenType where
  | TOK_NUMBER | TOK_STRING | TOK_IDENTIFIER
  | TOK_LIST | TOK_RUN | TOK_NEW | TOK_LOAD | TOK_SAVE | TOK_EXIT
  | TOK_PRINT | TOK_INPUT | TOK_LET | TOK_GOTO | TOK_GOSUB | TOK_RETURN
  | TOK_IF | TOK_THEN | TOK_ELSE | TOK_FOR | TOK_TO | TOK_STEP | TOK_NEXT
  | TOK_DO | TOK_LOOP | TOK_WHILE | TOK_WEND | TOK_REPEAT | TOK_UNTIL
  | TOK_REM | TOK_END | TOK_STOP | TOK_DIM | TOK_TRAP | TOK_RESUME
  | TOK_DATA | TOK_READ | TOK_RESTORE | TOK_POKE | TOK_PLOT | TOK_DRAW
  | TOK_PLUS | TOK_MINUS | TOK_MULTIPLY | TOK_DIVIDE | TOK_POWER
  | TOK_EQUAL | TOK_NOT_EQUAL | TOK_LESS | TOK_GREATER | TOK_LESS_EQUAL
  | TOK_GREATER_EQUAL | TOK_AND | TOK_OR | TOK_NOT
  | TOK_ABS | TOK_INT | TOK_RND | TOK_SIN | TOK_COS | TOK_TAN | TOK_SQR
  | TOK_LEN | TOK_LEFT | TOK_RIGHT | TOK_MID | TOK_STR | TOK_VAL | TOK_CHR
  | TOK_ASC | TOK_PEEK
  | TOK_LPAREN | TOK_RPAREN | TOK_COMMA | TOK_SEMICOLON | TOK_COLON
  | TOK_QUESTION
  | TOK_NEWLINE | TOK_EOF | TOK_ERROR
deriving DecidableEq, Repr

open TokenType

/-- The `Token` structure. -/
structure Token where
  type : TokenType
  text : Option CStr
  number_value : ℚ
  line_number : Nat
  column : Nat
deriving DecidableEq, Repr

/-- The `Lexer` structure (its `current_token` field is never read). -/
structure Lexer where
  input : CStr
  position : Nat
  line : Nat
  column : Nat
deriving DecidableEq, Repr

/-- The keyword table `keywords` of `lexer.c`, in source order. -/
def keywords : List (CStr × TokenType) :=
  [ (str "LIST", TOK_LIST), (str "RUN", TOK_RUN), (str "NEW", TOK_NEW),
    (str "LOAD", TOK_LOAD), (str "SAVE", TOK_SAVE), (str "EXIT", TOK_EXIT),
    (str "PRINT", TOK_PRINT), (str "INPUT", TOK_INPUT), (str "LET", TOK_LET),
    (str "GOTO", TOK_GOTO), (str "GOSUB", TOK_GOSUB), (str "RETURN", TOK_RETURN),
    (str "IF", TOK_IF), (str "THEN", TOK_THEN), (str "ELSE", TOK_ELSE),
    (str "FOR", TOK_FOR), (str "TO", TOK_TO), (str "STEP", TOK_STEP),
    (str "NEXT", TOK_NEXT), (str "DO", TOK_DO), (str "LOOP", TOK_LOOP),
    (str "WHILE", TOK_WHILE), (str "WEND", TOK_WEND), (str "REPEAT", TOK_REPEAT),
    (str "UNTIL", TOK_UNTIL), (str "REM", TOK_REM), (str "END", TOK_END),
    (str "STOP", TOK_STOP), (str "DIM", TOK_DIM), (str "TRAP", TOK_TRAP),
    (str "RESUME", TOK_RESUME), (str "DATA", TOK_DATA), (str "READ", TOK_READ),
    (str "RESTORE", TOK_RESTORE), (str "POKE", TOK_POKE), (str "PLOT", TOK_PLOT),
    (str "DRAW", TOK_DRAW), (str "AND", TOK_AND), (str "OR", TOK_OR),
    (str "NOT", TOK_NOT), (str "ABS", TOK_ABS), (str "INT", TOK_INT),
    (str "RND", TOK_RND), (str "SIN", TOK_SIN), (str "COS", TOK_COS),
    (str "TAN", TOK_TAN), (str "SQR", TOK_SQR), (str "LEN", TOK_LEN),
    (str "LEFT$", TOK_LEFT), (str "RIGHT$", TOK_RIGHT), (str "MID$", TOK_MID),
    (str "STR$", TOK_STR), (str "VAL", TOK_VAL), (str "CHR$", TOK_CHR),
    (str "PEEK", TOK_PEEK), (str "ASC", TOK_ASC) ]

/-- `lexer_init`. -/
def lexer_init (input : CStr) : Lexer :=
  { input := input, position := 0, line := 1, column := 1 }

/-- `peek_char`: the byte at the position, NUL at and past the end. -/
def peek_char (lexer : Lexer) : Nat := lexer.input.getD lexer.position 0

/-- `next_char`: the byte read and the lexer after the read. -/
def next_char (lexer : Lexer) : Nat × Lexer :=
  let c := peek_char lexer
  if c ≠ 0 then
    if c = 10 then
      (c, { lexer with position := lexer.position + 1, line := lexer.line + 1,
                       column := 1 })
    else
      (c, { lexer with position := lexer.position + 1,
                       column := lexer.column + 1 })
  else (c, lexer)

/-- Number of bytes between the position and the end of the input. -/
def remaining (lexer : Lexer) : Nat := lexer.input.length - lexer.position

/-- The loop `while (p(peek_char(lexer))) next_char(lexer);`. -/
def advance_while (p : Nat → Bool) : Nat → Lexer → Lexer
  | 0, lexer => lexer
  | fuel + 1, lexer =>
    if p (peek_char lexer) then advance_while p fuel (next_char lexer).2
    else lexer

/-- `skip_whitespace`. -/
def skip_whitespace (lexer : Lexer) : Lexer :=
  advance_while (fun c => c == 32 || c == 9) (remaining lexer) lexer

/-- `make_token`. -/
def make_token (type : TokenType) (text : Option CStr) (number_value : ℚ)
    (line col : Nat) : Token :=
  { type := type, text := text, number_value := number_value,
    line_number := line, column := col }

/-- `isspace` in the C locale. -/
def isspace (c : Nat) : Bool := c == 32 || (9 ≤ c && c ≤ 13)

/-- The number denoted by a run of decimal digits. -/
def digits_value (ds : CStr) : Nat := ds.foldl (fun acc c => 10 * acc + (c - 48)) 0

/-- The exponent part `[eE][+-]?digits` at the head of `s`, `0` when there is
none (an exponent marker without a digit is not an exponent). -/
def atof_exponent (s : CStr) : Int :=
  match s with
  | [] => 0
  | c :: r =>
    if c = 69 ∨ c = 101 then
      match r with
      | [] => 0
      | sg :: r2 =>
        if sg = 45 then
          (if (r2.takeWhile isdigit).isEmpty then 0
           else - (digits_value (r2.takeWhile isdigit) : Int))
        else if sg = 43 then (digits_value (r2.takeWhile isdigit) : Int)
        else (digits_value ((sg :: r2).takeWhile isdigit) : Int)
    else 0

/-- `atof` on decimal floating constants: leading white space, an optional
sign, digits with an optional fraction, an optional exponent; the longest such
initial part of the string is converted, `0` when there is none. -/
def atof (s : CStr) : ℚ :=
  let s0 := s.dropWhile isspace
  let neg := s0.head? = some 45
  let s1 := if s0.head? = some 45 ∨ s0.head? = some 43 then s0.tail else s0
  let ip := s1.takeWhile isdigit
  let s2 := s1.dropWhile isdigit
  let fp := if s2.head? = some 46 then s2.tail.takeWhile isdigit else []
  let s3 := if s2.head? = some 46 then s2.tail.dropWhile isdigit else s2
  if ip.isEmpty ∧ fp.isEmpty then 0
  else
    let mant : Nat := digits_value (ip ++ fp)
    let ex : Int := atof_exponent s3 - (fp.length : Int)
    let mag : ℚ :=
      if 0 ≤ ex then ((mant * 10 ^ ex.toNat : Nat) : ℚ)
      else mkRat (mant : Int) (10 ^ (-ex).toNat)
    if neg then -mag else mag

/-- The bytes `input[start .. position)` copied by `strncpy`. -/
def slice (lexer : Lexer) (start : Nat) : CStr :=
  (lexer.input.drop start).take (lexer.position - start)

/-- The fraction part of `read_number` (lines 99-104). -/
def read_fraction (lexer : Lexer) : Lexer :=
  if peek_char lexer = 46 then
    advance_while isdigit (remaining (next_char lexer).2) (next_char lexer).2
  else lexer

/-- The optional sign of the exponent in `read_number` (lines 109-111). -/
def read_exponent_sign (lexer : Lexer) : Lexer :=
  if peek_char lexer = 43 ∨ peek_char lexer = 45 then (next_char lexer).2 else lexer

/-- The exponent part of `read_number` (lines 107-115). -/
def read_exponent (lexer : Lexer) : Lexer :=
  if peek_char lexer = 69 ∨ peek_char lexer = 101 then
    advance_while isdigit (remaining (read_exponent_sign (next_char lexer).2))
      (read_exponent_sign (next_char lexer).2)
  else lexer

/-- `read_number`. -/
def read_number (lexer : Lexer) : Token × Lexer :=
  let start := lexer.position
  let line := lexer.line
  let col := lexer.column
  let l3 := read_exponent (read_fraction (advance_while isdigit (remaining lexer) lexer))
  let num_str := slice l3 start
  (make_token TOK_NUMBER (some num_str) (atof num_str) line col, l3)

/-- `read_string`. -/
def read_string (lexer : Lexer) : Token × Lexer :=
  let line := lexer.line
  let col := lexer.column
  let l1 := (next_char lexer).2
  let start := l1.position
  let l2 := advance_while (fun c => c != 34 && c != 0 && c != 10) (remaining l1) l1
  let s := slice l2 start
  let l3 := if peek_char l2 = 34 then (next_char l2).2 else l2
  (make_token TOK_STRING (some s) 0 line col, l3)

/-- The keyword scan of `read_identifier` (lines 175-181): the type of the first
table entry equal to `upper`, `TOK_IDENTIFIER` when there is none. -/
def keyword_lookup (upper : CStr) : List (CStr × TokenType) → TokenType
  | [] => TOK_IDENTIFIER
  | (keyword, type) :: rest =>
    if strcmp upper keyword = 0 then type else keyword_lookup upper rest

/-- The loop condition of `read_identifier` (lines 161-162). -/
def ident_char (c : Nat) : Bool := isalnum c || c == 95 || c == 36

/-- `read_identifier`. -/
def read_identifier (lexer : Lexer) : Token × Lexer :=
  let start := lexer.position
  let line := lexer.line
  let col := lexer.column
  let l1 := advance_while ident_char (remaining lexer) lexer
  let ident := slice l1 start
  let upper := str_upper ident
  let type := keyword_lookup upper keywords
  (make_token type (some ident) 0 line col, l1)

/-- The `switch` of `lexer_next_token` (lines 224-266), entered after the byte
`c` was consumed; `lexer` is the lexer after that byte. -/
def single_char_token (c : Nat) (line col : Nat) (lexer : Lexer) : Token × Lexer :=
  match c with
  | 43 => (make_token TOK_PLUS (some (str "+")) 0 line col, lexer)
  | 45 => (make_token TOK_MINUS (some (str "-")) 0 line col, lexer)
  | 42 => (make_token TOK_MULTIPLY (some (str "*")) 0 line col, lexer)
  | 47 => (make_token TOK_DIVIDE (some (str "/")) 0 line col, lexer)
  | 94 => (make_token TOK_POWER (some (str "^")) 0 line col, lexer)
  | 40 => (make_token TOK_LPAREN (some (str "(")) 0 line col, lexer)
  | 41 => (make_token TOK_RPAREN (some (str ")")) 0 line col, lexer)
  | 44 => (make_token TOK_COMMA (some (str ",")) 0 line col, lexer)
  | 59 => (make_token TOK_SEMICOLON (some (str ";")) 0 line col, lexer)
  | 58 => (make_token TOK_COLON (some (str ":")) 0 line col, lexer)
  | 63 => (make_token TOK_QUESTION (some (str "?")) 0 line col, lexer)
  | 61 => (make_token TOK_EQUAL (some (str "=")) 0 line col, lexer)
  | 60 =>
    if peek_char lexer = 61 then
      (make_token TOK_LESS_EQUAL (some (str "<=")) 0 line col, (next_char lexer).2)
    else if peek_char lexer = 62 then
      (make_token TOK_NOT_EQUAL (some (str "<>")) 0 line col, (next_char lexer).2)
    else (make_token TOK_LESS (some (str "<")) 0 line col, lexer)
  | 62 =>
    if peek_char lexer = 61 then
      (make_token TOK_GREATER_EQUAL (some (str ">=")) 0 line col, (next_char lexer).2)
    else (make_token TOK_GREATER (some (str ">")) 0 line col, lexer)
  | _ => (make_token TOK_ERROR none 0 line col, lexer)

/-- The newline case of `lexer_next_token` (lines 201-207): the lexer after the
line end whose first byte is `c`. -/
def newline_end (c : Nat) (lexer : Lexer) : Lexer :=
  if c = 13 ∧ peek_char (next_char lexer).2 = 10 then (next_char (next_char lexer).2).2
  else (next_char lexer).2

/-- The body of `lexer_next_token` after `skip_whitespace` (lines 193-266). -/
def token_at (lexer : Lexer) : Token × Lexer :=
  if peek_char lexer = 0 then
    (make_token TOK_EOF none 0 lexer.line lexer.column, lexer)
  else if peek_char lexer = 10 ∨ peek_char lexer = 13 then
    (make_token TOK_NEWLINE none 0 lexer.line lexer.column,
      newline_end (peek_char lexer) lexer)
  else if isdigit (peek_char lexer) then read_number lexer
  else if peek_char lexer = 34 then read_string lexer
  else if isalpha (peek_char lexer) then read_identifier lexer
  else single_char_token (peek_char lexer) lexer.line lexer.column (next_char lexer).2

/-- `lexer_next_token`. -/
def lexer_next_token (lexer : Lexer) : Token × Lexer :=
  token_at (skip_whitespace lexer)

/-- `lexer_peek_token`: position, line and column are saved, the token is read
with `lexer_next_token`, and the three saved fields are written back. -/
def lexer_peek_token (lexer : Lexer) : Token × Lexer :=
  let pos := lexer.position
  let line := lexer.line
  let col := lexer.column
  let r := lexer_next_token lexer
  (r.1, { r.2 with position := pos, line := line, column := col })

/-! ## Expression Evaluator (`interpreter.c`, lines 375-520) -/

/-- The `Value` structure. -/
structure Value where
  is_string : Bool
  number : ℚ
  string : Option CStr
deriving DecidableEq, Repr

/-- Reading the member `number` of the union of a variable. -/
def VarValue.as_number : VarValue → ℚ
  | VarValue.number d => d
  | VarValue.string _ => 0

/-- Reading the member `string` of the union of a variable. -/
def VarValue.as_string : VarValue → Option CStr
  | VarValue.number _ => none
  | VarValue.string s => s

/-- `str_duplicate` of a byte buffer: the bytes before the first NUL. -/
def buf_string (buf : List Nat) : CStr := buf.takeWhile (fun c => c != 0)

/-- The `TOK_PLUS` case of `evaluate_expression` (lines 461-471): the new
value of `left`. -/
def apply_plus (left right : Value) : Value :=
  if left.is_string && right.is_string then
    { left with string := some (left.string.getD [] ++ right.string.getD []) }
  else if !left.is_string && !right.is_string then
    { left with number := left.number + right.number }
  else left

/-- The value of the C expression `b` of type `int` (0 or 1) stored in a double. -/
def bool_double (b : Bool) : ℚ := if b then 1 else 0

/-- The variable `res` of the relational case of `evaluate_expression`
(lines 478-509) for the operator token type `op`. -/
def relational_res (op : TokenType) (left right : Value) : ℚ :=
  if left.is_string && right.is_string then
    if op = TOK_EQUAL then
      bool_double (strcmp (left.string.getD []) (right.string.getD []) = 0)
    else if op = TOK_NOT_EQUAL then
      bool_double (strcmp (left.string.getD []) (right.string.getD []) ≠ 0)
    else if op = TOK_LESS then
      bool_double (strcmp (left.string.getD []) (right.string.getD []) < 0)
    else if op = TOK_GREATER then
      bool_double (strcmp (left.string.getD []) (right.string.getD []) > 0)
    else if op = TOK_LESS_EQUAL then
      bool_double (strcmp (left.string.getD []) (right.string.getD []) ≤ 0)
    else if op = TOK_GREATER_EQUAL then
      bool_double (strcmp (left.string.getD []) (right.string.getD []) ≥ 0)
    else 0
  else if !left.is_string && !right.is_string then
    if op = TOK_EQUAL then bool_double (left.number = right.number)
    else if op = TOK_NOT_EQUAL then bool_double (left.number ≠ right.number)
    else if op = TOK_LESS then bool_double (left.number < right.number)
    else if op = TOK_GREATER then bool_double (left.number > right.number)
    else if op = TOK_LESS_EQUAL then bool_double (left.number ≤ right.number)
    else if op = TOK_GREATER_EQUAL then bool_double (left.number ≥ right.number)
    else 0
  else 0

/-- The relational case of `evaluate_expression` (lines 478-512): the new
value of `left` for the operator token type `op`. -/
def apply_relational (op : TokenType) (left right : Value) : Value :=
  { left with is_string := false,
              number := if relational_res op left right ≠ 0 then -1 else 0 }

/-- The test of lines 473-475: the token type is a relational operator. -/
def is_relational (t : TokenType) : Bool :=
  t = TOK_EQUAL || t = TOK_NOT_EQUAL || t = TOK_LESS || t = TOK_GREATER ||
  t = TOK_LESS_EQUAL || t = TOK_GREATER_EQUAL

/-- What an evaluation returns: the value and the lexer after it, `none` when
the fuel ran out. -/
abbrev EvalResult := Option (Value × Lexer)

/-- The initial `Value val = {false, 0, NULL}` of `evaluate_factor`. -/
def value_init : Value := { is_string := false, number := 0, string := none }

/-- The `TOK_IDENTIFIER` case of `evaluate_factor` (lines 395-413). -/
def factor_identifier (interp : Interpreter) (token : Token) : Value :=
  match var_get interp (token.text.getD []) with
  | some v =>
    if v.type = VarType.VAR_NUMBER then
      { value_init with is_string := false, number := v.value.as_number }
    else if v.type = VarType.VAR_STRING then
      { value_init with is_string := true, string := v.value.as_string }
    else value_init
  | none =>
    if token.text.isSome ∧ (token.text.getD []).getLast? = some 36 then
      { value_init with is_string := true, string := some [] }
    else { value_init with is_string := false, number := 0 }

/-- The body of `evaluate_factor` (lines 385-449); `expr` stands for the
recursive calls of `evaluate_expression`. -/
def factor_body (expr : Lexer → EvalResult) (interp : Interpreter) (lexer : Lexer) :
    EvalResult :=
  match (lexer_next_token lexer).1.type with
  | TOK_NUMBER =>
    some ({ value_init with is_string := false,
                            number := (lexer_next_token lexer).1.number_value },
          (lexer_next_token lexer).2)
  | TOK_STRING =>
    some ({ value_init with is_string := true, string := (lexer_next_token lexer).1.text },
          (lexer_next_token lexer).2)
  | TOK_IDENTIFIER =>
    some (factor_identifier interp (lexer_next_token lexer).1, (lexer_next_token lexer).2)
  | TOK_LPAREN =>
    match expr (lexer_next_token lexer).2 with
    | none => none
    | some (v, l2) => some (v, (lexer_next_token l2).2)
  | TOK_CHR =>
    match expr (lexer_next_token (lexer_next_token lexer).2).2 with
    | none => none
    | some (v, l3) =>
      some ({ value_init with is_string := true,
                              string := some (buf_string [to_uint8 v.number, 0]) },
            (lexer_next_token l3).2)
  | TOK_PEEK =>
    match expr (lexer_next_token (lexer_next_token lexer).2).2 with
    | none => none
    | some (v, l3) =>
      some ({ value_init with is_string := false,
                              number := (interp.ram (to_uint16 v.number) : ℚ) },
            (lexer_next_token l3).2)
  | _ => some (value_init, (lexer_next_token lexer).2)

/-- One pass through the `while (true)` loop of `evaluate_expression`
(lines 457-517); `fac` stands for the calls of `evaluate_factor`, `next` for the
next pass of the loop. -/
def loop_body (fac : Lexer → EvalResult) (next : Value → Lexer → EvalResult)
    (left : Value) (lexer : Lexer) : EvalResult :=
  if (lexer_peek_token lexer).1.type = TOK_PLUS then
    match fac (lexer_next_token (lexer_peek_token lexer).2).2 with
    | none => none
    | some (right, l2) => next (apply_plus left right) l2
  else if is_relational (lexer_peek_token lexer).1.type then
    match fac (lexer_next_token (lexer_peek_token lexer).2).2 with
    | none => none
    | some (right, l2) =>
      next (apply_relational (lexer_peek_token lexer).1.type left right) l2
  else some (left, (lexer_peek_token lexer).2)

mutual
/-- `evaluate_factor`, with fuel. -/
def eval_factor : Nat → Interpreter → Lexer → EvalResult
  | 0, _, _ => none
  | fuel + 1, interp, lexer =>
    factor_body (fun l => eval_expression fuel interp l) interp lexer
/-- `evaluate_expression`, with fuel. -/
def eval_expression : Nat → Interpreter → Lexer → EvalResult
  | 0, _, _ => none
  | fuel + 1, interp, lexer =>
    match eval_factor fuel interp lexer with
    | none => none
    | some (left, l1) => eval_loop fuel interp left l1
/-- The `while (true)` loop of `evaluate_expression`, with fuel. -/
def eval_loop : Nat → Interpreter → Value → Lexer → EvalResult
  | 0, _, _, _ => none
  | fuel + 1, interp, left, lexer =>
    loop_body (fun l => eval_factor fuel interp l)
      (fun v l => eval_loop fuel interp v l) left lexer
end

/-- `evaluate_factor`: the recursion is given fuel for the whole rest of the input. -/
def evaluate_factor (interp : Interpreter) (lexer : Lexer) : EvalResult :=
  eval_factor (2 * remaining lexer + 1) interp lexer

/-- `evaluate_expression`: the recursion is given fuel for the whole rest of the input. -/
def evaluate_expression (interp : Interpreter) (lexer : Lexer) : EvalResult :=
  eval_expression (2 * remaining lexer + 2) interp lexer

/-! ## Statement Executor and Run Loop (`interpreter.c`, lines 339-373, 522-779) -/

/-- C integer division (truncation toward zero). -/
def c_div (a b : Int) : Int := Int.tdiv a b

/-- The plotting loop of `draw_line` (lines 538-551), with fuel: the list of
calls made to `editor_plot`. -/
def draw_loop : Nat → Int → Int → Int → Int → Int → Int → Int → Int → Int →
    Option (List EditorCall)
  | 0, _, _, _, _, _, _, _, _, _ => none
  | fuel + 1, tx1, ty1, tx2, ty2, dx, dy, sx, sy, err =>
    if tx1 = tx2 ∧ ty1 = ty2 then some [EditorCall.plot tx1 ty1 42]
    else
      match draw_loop fuel
          (if 2 * err > -dy then tx1 + sx else tx1)
          (if 2 * err < dx then ty1 + sy else ty1)
          tx2 ty2 dx dy sx sy
          (if 2 * err < dx then (if 2 * err > -dy then err - dy else err) + dx
           else (if 2 * err > -dy then err - dy else err)) with
      | none => none
      | some calls => some (EditorCall.plot tx1 ty1 42 :: calls)

/-- `draw_line`. -/
def draw_line (interp : Interpreter) (x1 y1 x2 y2 : Int) : Option Interpreter :=
  match interp.editor with
  | none => some interp
  | some ed =>
    let tx1 := c_div (x1 * ed.cols) 320
    let ty1 := c_div (y1 * ed.rows) 200
    let tx2 := c_div (x2 * ed.cols) 320
    let ty2 := c_div (y2 * ed.rows) 200
    let dx : Int := (tx2 - tx1).natAbs
    let dy : Int := (ty2 - ty1).natAbs
    let sx : Int := if tx1 < tx2 then 1 else -1
    let sy : Int := if ty1 < ty2 then 1 else -1
    match draw_loop ((tx2 - tx1).natAbs + (ty2 - ty1).natAbs + 1)
        tx1 ty1 tx2 ty2 dx dy sx sy (dx - dy) with
    | none => none
    | some calls => some { interp with screen := interp.screen ++ calls }

/-- The translation of one byte of a printed text (lines 583-598). -/
def print_char (interp : Interpreter) (c : Nat) : Interpreter :=
  if c = 147 then basic_print interp (27 :: str "[2J" ++ 27 :: str "[H")
  else if c = 19 then basic_print interp (27 :: str "[H")
  else if c = 17 then basic_print interp (27 :: str "[B")
  else if c = 145 then basic_print interp (27 :: str "[A")
  else if c = 157 then basic_print interp (27 :: str "[D")
  else if c = 29 then basic_print interp (27 :: str "[C")
  else basic_print interp [c]

/-- Emission of one evaluated value by PRINT (lines 579-604). -/
def print_value (interp : Interpreter) (v : Value) : Interpreter :=
  if v.is_string then
    match v.string with
    | some s => s.foldl print_char interp
    | none => interp
  else { interp with out := interp.out ++ [OutItem.fmt_g v.number] }

/-- What a statement loop returns: the interpreter after it, `none` when the
fuel ran out. -/
abbrev ExecResult := Option Interpreter

/-- One pass through the loop of the PRINT statement (lines 569-618); `next`
stands for the next pass, `done` for what follows the loop. -/
def print_body (next : Interpreter → Lexer → ExecResult)
    (done : Interpreter → Lexer → ExecResult) (interp : Interpreter) (lexer : Lexer) :
    ExecResult :=
  if (lexer_peek_token lexer).1.type = TOK_EOF ∨
      (lexer_peek_token lexer).1.type = TOK_NEWLINE ∨
      (lexer_peek_token lexer).1.type = TOK_COLON then
    done (basic_print interp [10]) (lexer_peek_token lexer).2
  else
    match evaluate_expression interp (lexer_peek_token lexer).2 with
    | none => none
    | some (v, l1) =>
      if (lexer_peek_token l1).1.type = TOK_SEMICOLON then
        next (print_value interp v) (lexer_next_token (lexer_peek_token l1).2).2
      else if (lexer_peek_token l1).1.type = TOK_COMMA then
        next (basic_print (print_value interp v) [9])
          (lexer_next_token (lexer_peek_token l1).2).2
      else done (basic_print (print_value interp v) [10]) (lexer_peek_token l1).2

/-- The loop of the PRINT statement (lines 568-619), with fuel; `done` stands
for what follows the loop. -/
def print_loop (done : Interpreter → Lexer → ExecResult) :
    Nat → Interpreter → Lexer → ExecResult
  | 0, _, _ => none
  | fuel + 1, interp, lexer =>
    print_body (fun i l => print_loop done fuel i l) done interp lexer

/-- The loop skipping to ELSE or the end of the line (lines 650-657), with fuel. -/
def skip_to_else : Nat → Lexer → Lexer
  | 0, lexer => lexer
  | fuel + 1, lexer =>
    if (lexer_next_token lexer).1.type = TOK_EOF ∨
        (lexer_next_token lexer).1.type = TOK_NEWLINE then (lexer_next_token lexer).2
    else if (lexer_next_token lexer).1.type = TOK_ELSE then (lexer_next_token lexer).2
    else skip_to_else fuel (lexer_next_token lexer).2

/-- The THEN branch of the IF statement (lines 627-647), entered with the
lexer after THEN. -/
def exec_then (next : Interpreter → Lexer → ExecResult) (interp : Interpreter)
    (lexer : Lexer) : ExecResult :=
  if (lexer_peek_token lexer).1.type = TOK_NUMBER then
    if program_find_line interp (c_trunc (lexer_peek_token lexer).1.number_value) ≠ [] then
      some { interp with
             current_line :=
               program_find_line interp (c_trunc (lexer_peek_token lexer).1.number_value) }
    else next interp (lexer_next_token (lexer_peek_token lexer).2).2
  else next interp (lexer_peek_token lexer).2

/-- The IF statement (lines 620-662), entered with the lexer after IF; `next`
stands for the continuation of the statement loop. -/
def exec_if (next : Interpreter → Lexer → ExecResult) (interp : Interpreter)
    (lexer : Lexer) : ExecResult :=
  match evaluate_expression interp lexer with
  | none => none
  | some (cond, l1) =>
    if (lexer_next_token l1).1.type = TOK_THEN then
      if cond.number ≠ 0 then exec_then next interp (lexer_next_token l1).2
      else
        next interp
          (skip_to_else (remaining (lexer_next_token l1).2 + 1) (lexer_next_token l1).2)
    else next interp (lexer_next_token l1).2

/-- The GOTO statement (lines 663-676), entered with the lexer after GOTO. -/
def exec_goto (next : Interpreter → Lexer → ExecResult) (interp : Interpreter)
    (lexer : Lexer) : ExecResult :=
  match evaluate_expression interp lexer with
  | none => none
  | some (v, l1) =>
    if !v.is_string then
      if program_find_line interp (c_trunc v.number) ≠ [] then
        next { interp with current_line := program_find_line interp (c_trunc v.number) } l1
      else
        next { error interp (str "LINE NOT FOUND") with error_occurred := true } l1
    else next interp l1

/-- The assignment after its target was read (lines 690-703): `name` is the
target, `lexer` the lexer after it. -/
def exec_assign (next : Interpreter → Lexer → ExecResult) (interp : Interpreter)
    (name : Option CStr) (lexer : Lexer) : ExecResult :=
  match name with
  | some nm =>
    if (lexer_next_token lexer).1.type = TOK_EQUAL then
      match evaluate_expression interp (lexer_next_token lexer).2 with
      | none => none
      | some (v, l3) =>
        if v.is_string then next (var_set_string interp nm v.string) l3
        else next (var_set_number interp nm v.number) l3
    else next interp (lexer_next_token lexer).2
  | none => next interp lexer

/-- The assignment statement (lines 677-703); `token` is the LET or identifier
token just read, `lexer` the lexer after it. -/
def exec_let (next : Interpreter → Lexer → ExecResult) (interp : Interpreter)
    (token : Token) (lexer : Lexer) : ExecResult :=
  if token.type = TOK_IDENTIFIER then exec_assign next interp token.text lexer
  else if (lexer_next_token lexer).1.type = TOK_IDENTIFIER then
    exec_assign next interp (lexer_next_token lexer).1.text (lexer_next_token lexer).2
  else exec_assign next interp none (lexer_next_token lexer).2

/-- The POKE write and its forwarding to the editor (lines 711-723). -/
def poke (interp : Interpreter) (addr val : Value) : Interpreter :=
  if !addr.is_string && !val.is_string then
    match interp.editor with
    | some _ =>
      if to_uint16 addr.number = 53280 ∨ to_uint16 addr.number = 53281 then
        { interp with
          ram := fun i => if i = to_uint16 addr.number then to_uint8 val.number
                          else interp.ram i,
          screen := interp.screen ++ [EditorCall.set_background_color (to_uint8 val.number)] }
      else if 1024 ≤ to_uint16 addr.number ∧ to_uint16 addr.number ≤ 2023 then
        { interp with
          ram := fun i => if i = to_uint16 addr.number then to_uint8 val.number
                          else interp.ram i,
          screen := interp.screen ++
            [EditorCall.poke_char (to_uint16 addr.number) (to_uint8 val.number)] }
      else
        { interp with
          ram := fun i => if i = to_uint16 addr.number then to_uint8 val.number
                          else interp.ram i }
    | none =>
      { interp with
        ram := fun i => if i = to_uint16 addr.number then to_uint8 val.number
                        else interp.ram i }
  else interp

/-- The POKE statement (lines 704-727), entered with the lexer after POKE. -/
def exec_poke (next : Interpreter → Lexer → ExecResult) (interp : Interpreter)
    (lexer : Lexer) : ExecResult :=
  match evaluate_expression interp lexer with
  | none => none
  | some (addr, l1) =>
    match evaluate_expression interp (lexer_next_token l1).2 with
    | none => none
    | some (val, l2) => next (poke interp addr val) l2

/-- The PLOT statement (lines 728-741), entered with the lexer after PLOT. -/
def exec_plot (next : Interpreter → Lexer → ExecResult) (interp : Interpreter)
    (lexer : Lexer) : ExecResult :=
  match evaluate_expression interp lexer with
  | none => none
  | some (vx, l1) =>
    match evaluate_expression interp (lexer_next_token l1).2 with
    | none => none
    | some (vy, l2) =>
      if !vx.is_string && !vy.is_string then
        next { interp with graphics_x := vx.number, graphics_y := vy.number } l2
      else next interp l2

/-- The DRAW statement (lines 742-757), entered with the lexer after DRAW. -/
def exec_draw (next : Interpreter → Lexer → ExecResult) (interp : Interpreter)
    (lexer : Lexer) : ExecResult :=
  match evaluate_expression interp lexer with
  | none => none
  | some (vx, l1) =>
    match evaluate_expression interp (lexer_next_token l1).2 with
    | none => none
    | some (vy, l2) =>
      if !vx.is_string && !vy.is_string then
        match draw_line interp (c_trunc interp.graphics_x) (c_trunc interp.graphics_y)
            (c_trunc vx.number) (c_trunc vy.number) with
        | none => none
        | some interp1 =>
          next { interp1 with graphics_x := vx.number, graphics_y := vy.number } l2
      else next interp l2

/-- The dispatch of the statement loop on the token just read (lines 561-775);
`lexer` is the lexer after the token, `next` the next pass of the loop. -/
def exec_statement (next : Interpreter → Lexer → ExecResult) (interp : Interpreter)
    (token : Token) (lexer : Lexer) : ExecResult :=
  match token.type with
  | TOK_EOF => some interp
  | TOK_NEWLINE => some interp
  | TOK_PRINT => print_loop next (remaining lexer + 1) interp lexer
  | TOK_QUESTION => print_loop next (remaining lexer + 1) interp lexer
  | TOK_IF => exec_if next interp lexer
  | TOK_GOTO => exec_goto next interp lexer
  | TOK_LET => exec_let next interp token lexer
  | TOK_IDENTIFIER => exec_let next interp token lexer
  | TOK_POKE => exec_poke next interp lexer
  | TOK_PLOT => exec_plot next interp lexer
  | TOK_DRAW => exec_draw next interp lexer
  | TOK_EXIT => some { interp with exit_requested := true, running := false }
  | TOK_END => some { interp with running := false }
  | TOK_STOP => some { interp with running := false }
  | TOK_COLON => next interp lexer
  | TOK_REM => some interp
  | _ => next interp lexer

/-- The statement loop of `interpreter_execute_line` (lines 558-776), with fuel. -/
def execute_tokens : Nat → Interpreter → Lexer → ExecResult
  | 0, _, _ => none
  | fuel + 1, interp, lexer =>
    exec_statement (fun i l => execute_tokens fuel i l) interp
      (lexer_next_token lexer).1 (lexer_next_token lexer).2

/-- `interpreter_execute_line`: the statement loop is given fuel for every
byte of the line. -/
def interpreter_execute_line (interp : Interpreter) (line : CStr) : ExecResult :=
  execute_tokens (line.length + 1) interp (lexer_init line)

/-- The line number read through a program-line pointer. -/
def line_number_at (p : List ProgramLine) : Int :=
  match p with
  | [] => 0
  | l :: _ => l.line_number

/-- The text read through a program-line pointer. -/
def text_at (p : List ProgramLine) : CStr :=
  match p with
  | [] => []
  | l :: _ => l.text

/-- The end of a pass through the loop of `interpreter_run` (lines 357-369):
`i1` is the interpreter after the line was executed, `next_line` the successor
saved before.  The flag tells whether the pass ended in a `break`. -/
def run_after_line (i1 : Interpreter) (next_line : List ProgramLine) :
    Interpreter × Bool :=
  if i1.error_occurred then
    ({ i1 with
        out := i1.out ++ (str "ERROR IN LINE ").map OutItem.chr ++
          [OutItem.fmt_d (line_number_at i1.current_line), OutItem.chr 10],
        running := false, error_occurred := false }, true)
  else if i1.running ∧ i1.current_line ≠ [] ∧ i1.current_line.tail = next_line then
    ({ i1 with current_line := next_line }, false)
  else (i1, false)

/-- One pass through the body of the `while` loop of `interpreter_run`
(lines 348-369), entered with `running` set and a non-null `current_line`.
The flag tells whether the pass ended in a `break`. -/
def run_body (interp : Interpreter) : Option (Interpreter × Bool) :=
  if interp.break_requested then
    some ({ basic_print interp (10 :: str "? BREAK" ++ [10]) with
              break_requested := false, running := false }, true)
  else
    match interpreter_execute_line interp (text_at interp.current_line) with
    | none => none
    | some i1 => some (run_after_line i1 interp.current_line.tail)

/-- The `while` loop of `interpreter_run` (lines 347-370), with fuel counting
the passes. -/
def run_loop : Nat → Interpreter → ExecResult
  | 0, _ => none
  | fuel + 1, interp =>
    if interp.running ∧ interp.current_line ≠ [] then
      match run_body interp with
      | none => none
      | some (i1, true) => some i1
      | some (i1, false) => run_loop fuel i1
    else some interp

/-- `interpreter_run`, with fuel counting the passes of its loop. -/
def interpreter_run (fuel : Nat) (interp : Interpreter) : ExecResult :=
  if interp.program = [] then some interp
  else
    match run_loop fuel { interp with running := true, current_line := interp.program } with
    | none => none
    | some i1 => some { i1 with running := false }

/-! ## Histories of store operations (specification side) -/

/-- A call of the Program Store interface. -/
inductive ProgramOp where
  | add (line_num : Int) (text : Option CStr)
  | delete (line_num : Int)
deriving DecidableEq, Repr

/-- The effect of one call on the interpreter. -/
def ProgramOp.run (interp : Interpreter) : ProgramOp → Interpreter
  | ProgramOp.add line_num text => program_add_line interp line_num text
  | ProgramOp.delete line_num => program_delete_line interp line_num

/-- The effect of a sequence of calls, first call first. -/
def run_program_ops (interp : Interpreter) (ops : List ProgramOp) : Interpreter :=
  ops.foldl ProgramOp.run interp

/-- What the history says about line `n` after one more call: a call on another
number leaves the answer as it was, an `add` with a non-empty text makes it that
text, a `delete` or an `add` with an empty or null text makes it absent. -/
def ProgramOp.expect (n : Int) (acc : Option CStr) : ProgramOp → Option CStr
  | ProgramOp.add line_num text =>
    if line_num = n then
      match text with
      | none => none
      | some t => if t.length = 0 then none else some t
    else acc
  | ProgramOp.delete line_num => if line_num = n then none else acc

/-- The text the history of calls prescribes for line `n`, `none` for absent. -/
def expected_text (ops : List ProgramOp) (n : Int) : Option CStr :=
  ops.foldl (ProgramOp.expect n) none

/-- Strictly increasing line numbers in iteration order. -/
def StrictlyAscending (p : List ProgramLine) : Prop :=
  List.Pairwise (fun a b => a.line_number < b.line_number) p

/-- A call of the setters of the Variable Store. -/
inductive VarOp where
  | set_number (name : CStr) (value : ℚ)
  | set_string (name : CStr) (value : Option CStr)
deriving DecidableEq, Repr

/-- The name a setter call is made under. -/
def VarOp.name : VarOp → CStr
  | VarOp.set_number name _ => name
  | VarOp.set_string name _ => name

/-- The type tag and value a setter call stores. -/
def VarOp.binding : VarOp → VarType × VarValue
  | VarOp.set_number _ value => (VarType.VAR_NUMBER, VarValue.number value)
  | VarOp.set_string _ value => (VarType.VAR_STRING, VarValue.string value)

/-- The effect of one setter call on the interpreter. -/
def VarOp.run (interp : Interpreter) : VarOp → Interpreter
  | VarOp.set_number name value => var_set_number interp name value
  | VarOp.set_string name value => var_set_string interp name value

/-- The effect of a sequence of setter calls, first call first. -/
def run_var_ops (interp : Interpreter) (ops : List VarOp) : Interpreter :=
  ops.foldl VarOp.run interp

/-- What the history says about `name` after one more call: a call under a name
equal to `name` up to letter case replaces the binding, any other call leaves it. -/
def VarOp.expect (name : CStr) (acc : Option (VarType × VarValue)) (op : VarOp) :
    Option (VarType × VarValue) :=
  if op.name.map toupper = name.map toupper then some op.binding else acc

/-- The type tag and value the history of setter calls prescribes for `name`,
`none` when no case-variant of `name` was ever set. -/
def expected_binding (ops : List VarOp) (name : CStr) : Option (VarType × VarValue) :=
  ops.foldl (VarOp.expect name) none

/-- The type tag and value of a variable entry. -/
def Variable.binding (v : Variable) : VarType × VarValue := (v.type, v.value)

/-- Every entry of the list has a well-formed name. -/
def StoreWf (vs : List Variable) : Prop := ∀ v ∈ vs, CStr.wf v.name

/-- The lexer `l2` is the lexer `l1` moved forward over the same input: the
position did not decrease and did not pass the end of the input. -/
def Advanced (l1 l2 : Lexer) : Prop :=
  l2.input = l1.input ∧ l1.position ≤ l2.position ∧
    l2.position ≤ max l1.position l1.input.length

/-- An identifier-shaped word: a leading letter followed by bytes the
identifier loop accepts. -/
def IdentShaped (s : CStr) : Prop :=
  isalpha (s.headD 0) = true ∧ ∀ x ∈ s, ident_char x = true

instance (s : CStr) : Decidable (IdentShaped s) := by
  unfold IdentShaped; infer_instance

/-- The comparison a relational operator token stands for, on an ordered type. -/
def rel_holds {α : Type} [LT α] [LE α] (op : TokenType) (x y : α) : Prop :=
  match op with
  | TOK_EQUAL => x = y
  | TOK_NOT_EQUAL => x ≠ y
  | TOK_LESS => x < y
  | TOK_GREATER => x > y
  | TOK_LESS_EQUAL => x ≤ y
  | TOK_GREATER_EQUAL => x ≥ y
  | _ => False

/-- The kinds of the tokens from the lexer position up to, and excluding, the
end-of-input token; `fuel` bounds the number of tokens read. -/
def token_types : Nat → Lexer → List TokenType
  | 0, _ => []
  | fuel + 1, lexer =>
    if (lexer_next_token lexer).1.type = TOK_EOF then []
    else (lexer_next_token lexer).1.type :: token_types fuel (lexer_next_token lexer).2

/-- The kinds of the tokens of the rest of the line. -/
def rest_tokens (lexer : Lexer) : List TokenType := token_types (remaining lexer) lexer

/-- The interpreter at the start of a run of the stored program: `running` set,
the cursor on the first line. -/
def run_start (interp : Interpreter) : Interpreter :=
  { interp with running := true, current_line := interp.program }

/-- The interpreter holding the given numbered lines, entered with
`program_add_line` into the initial interpreter. -/
def load_lines (lines : List (Int × String)) : Interpreter :=
  lines.foldl (fun i l => program_add_line i l.1 (some (str l.2))) interpreter_init

/-- The program `10 GOTO 10`, `20 PRINT "X"`. -/
def goto_self_program : Interpreter :=
  load_lines [(10, "GOTO 10"), (20, "PRINT \"X\"")]

/-- The program `10 IF 0 THEN 100 ELSE GOTO 30`, `30 END`. -/
def if_else_program : Interpreter :=
  load_lines [(10, "IF 0 THEN 100 ELSE GOTO 30"), (30, "END")]

/-- The program `10 IF 1 THEN 30 PRINT 1`, `30 END`. -/
def if_jump_program : Interpreter :=
  load_lines [(10, "IF 1 THEN 30 PRINT 1"), (30, "END")]

/-- The program `10 GOTO 15`, `20 PRINT "X"`. -/
def goto_absent_program : Interpreter :=
  load_lines [(10, "GOTO 15"), (20, "PRINT \"X\"")]

/-- A call of the Variable Store interface, `var_clear_all` included. -/
inductive StoreOp where
  | set_number (name : CStr) (value : ℚ)
  | set_string (name : CStr) (value : Option CStr)
  | clear_all
deriving DecidableEq, Repr

/-- The effect of one call of the Variable Store interface. -/
def StoreOp.run (interp : Interpreter) : StoreOp → Interpreter
  | StoreOp.set_number name value => var_set_number interp name value
  | StoreOp.set_string name value => var_set_string interp name value
  | StoreOp.clear_all => var_clear_all interp

/-- What `basic_print(interp, "%d %s\n", line_number, text)` emits for a line. -/
def list_line (l : ProgramLine) : List OutItem :=
  OutItem.fmt_d l.line_number :: OutItem.chr 32 :: (l.text.map OutItem.chr ++ [OutItem.chr 10])

/-- The scan of `interpreter_list` over the program list (lines 271-277). -/
def list_scan : List ProgramLine → Int → Int → Interpreter → Interpreter
  | [], _, _, interp => interp
  | current :: rest, start, end_, interp =>
    if current.line_number ≥ start ∧ (end_ = -1 ∨ current.line_number ≤ end_) then
      list_scan rest start end_ { interp with out := interp.out ++ list_line current }
    else list_scan rest start end_ interp

/-- `interpreter_list`. -/
def interpreter_list (interp : Interpreter) (start end_ : Int) : Interpreter :=
  list_scan interp.program start end_ interp

/-- The test of `interpreter_list` on a line (lines 272-273). -/
def in_range (start end_ : Int) (l : ProgramLine) : Bool :=
  decide (l.line_number ≥ start ∧ (end_ = -1 ∨ l.line_number ≤ end_))

/-- The emitted form of a value: what `print_value` appends to an empty output. -/
def emitted (v : Value) : List OutItem := (print_value interpreter_init v).out

/-- The store call of the assignment for the evaluated value `v`
(lines 694-699). -/
def assign_value (interp : Interpreter) (name : CStr) (v : Value) : Interpreter :=
  if v.is_string then var_set_string interp name v.string
  else var_set_number interp name v.number

/-- The setter call the assignment makes for the evaluated value `v`. -/
def assign_op (name : CStr) (v : Value) : VarOp :=
  if v.is_string then VarOp.set_string name v.string else VarOp.set_number name v.number

/-- The program `10 PRINT "HI"`, `20 END`. -/
def hi_program : Interpreter :=
  load_lines [(10, "PRINT \"HI\""), (20, "END")]

/-- The program `10 PRINT "A": END: PRINT "B"`, `20 PRINT "C"`. -/
def end_program : Interpreter :=
  load_lines [(10, "PRINT \"A\": END: PRINT \"B\""), (20, "PRINT \"C\"")]

/-- The program `10 PRINT "A": STOP: PRINT "B"`, `20 PRINT "C"`. -/
def stop_program : Interpreter :=
  load_lines [(10, "PRINT \"A\": STOP: PRINT \"B\""), (20, "PRINT \"C\"")]

/-- The program `10 PRINT "HI"`. -/
def print_program : Interpreter :=
  load_lines [(10, "PRINT \"HI\"")]

/-- The program `10 STOP`, `20 PRINT "C"`. -/
def stop_first_program : Interpreter :=
  load_lines [(10, "STOP"), (20, "PRINT \"C\"")]

/-- The unread input: the bytes from the position to the end of the input. -/
def rest (lexer : Lexer) : CStr := lexer.input.drop lexer.position

/-- The lexer `l2` is the lexer `l1` after the bytes `cs` were read. -/
def Consumed (l1 l2 : Lexer) (cs : CStr) : Prop :=
  l2.input = l1.input ∧ l2.position = l1.position + cs.length ∧ rest l1 = cs ++ rest l2

/-- Every byte of the string is a decimal digit. -/
def all_digits (s : CStr) : Prop := ∀ c ∈ s, isdigit c = true

/-- The optional fraction of a numeric literal: nothing, or `.` followed by
digits. -/
def FracForm (s : CStr) : Prop := s = [] ∨ ∃ d, s = 46 :: d ∧ all_digits d

/-- The optional exponent of a numeric literal: nothing, or `E` or `e` followed
by an optional sign and digits. -/
def ExpForm (s : CStr) : Prop :=
  s = [] ∨ ∃ m sg d, s = m :: (sg ++ d) ∧ (m = 69 ∨ m = 101) ∧
    (sg = [] ∨ sg = [43] ∨ sg = [45]) ∧ all_digits d

/-- States of a left-to-right scan of a numeric literal. -/
inductive NumState where
  | start | int_part | frac_part | exp_mark | exp_part | dead
deriving DecidableEq, Repr

/-- The state of the scan of a numeric literal after one more byte. -/
def num_step (q : NumState) (c : Nat) : NumState :=
  match q with
  | NumState.start => if isdigit c then NumState.int_part else NumState.dead
  | NumState.int_part =>
    if isdigit c then NumState.int_part
    else if c = 46 then NumState.frac_part
    else if c = 69 ∨ c = 101 then NumState.exp_mark
    else NumState.dead
  | NumState.frac_part =>
    if isdigit c then NumState.frac_part
    else if c = 69 ∨ c = 101 then NumState.exp_mark
    else NumState.dead
  | NumState.exp_mark =>
    if isdigit c ∨ c = 43 ∨ c = 45 then NumState.exp_part else NumState.dead
  | NumState.exp_part => if isdigit c then NumState.exp_part else NumState.dead
  | NumState.dead => NumState.dead

/-- The `while (true)` loop of `evaluate_expression`, with fuel for the whole
rest of the input. -/
def evaluate_loop (interp : Interpreter) (left : Value) (lexer : Lexer) : EvalResult :=
  eval_loop (2 * remaining lexer + 1) interp left lexer

/-- The new value of `left` after the operator `op` and the right operand
(lines 459-512). -/
def apply_op (op : TokenType) (left right : Value) : Value :=
  if op = TOK_PLUS then apply_plus left right else apply_relational op left right

/-- The left-to-right fold of a first operand with a list of operators and
right operands. -/
def fold_ops (left : Value) (ops : List (TokenType × Value)) : Value :=
  ops.foldl (fun acc p => apply_op p.1 acc p.2) left

/-- The unread input at `l` reads `op1 f2 op2 f3 ...`: each `op` is `+` or a
relational operator and is followed by a factor of the given value; the chain
ends at `lend`, where the next token is none of these operators. -/
def OpChain (interp : Interpreter) : Lexer → List (TokenType × Value) → Lexer → Prop
  | l, [], lend =>
    lend = l ∧ (lexer_peek_token l).1.type ≠ TOK_PLUS ∧
      is_relational (lexer_peek_token l).1.type = false
  | l, p :: ops, lend =>
    (lexer_peek_token l).1.type = p.1 ∧ (p.1 = TOK_PLUS ∨ is_relational p.1 = true) ∧
      ∃ l2, evaluate_factor interp (lexer_next_token l).2 = some (p.2, l2) ∧
        OpChain interp l2 ops lend

/-- The number of values of `size_t` (64 bits): sums of sizes wrap around at it. -/
def size_mod : Nat := 2 ^ 64

/-- The two accounting variables of `utils.c`. -/
structure Memory where
  total_memory_limit : Nat
  memory_used : Nat
deriving DecidableEq, Repr

/-- How a call of `safe_malloc` ends: `NULL` is returned after the message
`OUT OF MEMORY`, the process exits because the system allocator failed, or a
buffer is returned. -/
inductive MallocResult where
  | null (m : Memory)
  | exit
  | buffer (m : Memory)
deriving DecidableEq, Repr

/-- `init_memory`. -/
def init_memory (limit : Nat) : Memory :=
  { total_memory_limit := limit % size_mod, memory_used := 0 }

/-- `safe_malloc` for a request of `size` bytes; `sys` tells whether the system
`malloc` returns a buffer. -/
def safe_malloc (m : Memory) (size : Nat) (sys : Bool) : MallocResult :=
  if (m.memory_used + size) % size_mod > m.total_memory_limit then MallocResult.null m
  else if !sys then MallocResult.exit
  else MallocResult.buffer { m with memory_used := (m.memory_used + size) % size_mod }

/-- The display cell of a plot call. -/
def plot_cell : EditorCall → Int × Int
  | EditorCall.plot x y _ => (x, y)
  | _ => (0, 0)

/-- Two consecutive plot calls are at most one cell apart in each coordinate. -/
def adjacent (p q : EditorCall) : Prop :=
  ((plot_cell q).1 - (plot_cell p).1).natAbs ≤ 1 ∧
  ((plot_cell q).2 - (plot_cell p).2).natAbs ≤ 1

/-- The calls plot a path of `n + 1` cells from `(x, y)` to `(x2, y2)`, each
with the character `*`, consecutive cells at most one apart in each coordinate. -/
def PlotPath (calls : List EditorCall) (x y x2 y2 : Int) (n : Nat) : Prop :=
  calls.length = n + 1 ∧ calls.head? = some (EditorCall.plot x y 42) ∧
  calls.getLast? = some (EditorCall.plot x2 y2 42) ∧
  (∀ c ∈ calls, ∃ cx cy, c = EditorCall.plot cx cy 42) ∧
  List.Chain' adjacent calls

/-- The program `10 GOTO 30: GOTO 15`, `30 END`. -/
def jump_then_fail_program : Interpreter :=
  load_lines [(10, "GOTO 30: GOTO 15"), (30, "END")]

/-- Two tokens agree in kind, text and numeric value (their source line and
column may differ). -/
def SameToken (t1 t2 : Token) : Prop :=
  t1.type = t2.type ∧ t1.text = t2.text ∧ t1.number_value = t2.number_value

/-- Two evaluations agree: both ran out of fuel, or they return the same value
and lexers with the same unread input. -/
def SameEval (r1 r2 : EvalResult) : Prop :=
  (r1 = none ∧ r2 = none) ∨
    ∃ v m1 m2, r1 = some (v, m1) ∧ r2 = some (v, m2) ∧ rest m1 = rest m2

/-- Two statements, given as functions of their continuation, end the same way:
both return the same interpreter whatever the continuation, or both hand the
same interpreter to the continuation, with lexers that have the same unread
input of at most `bound` bytes. -/
def TailCall (F1 F2 : (Interpreter → Lexer → ExecResult) → ExecResult) (bound : Nat) : Prop :=
  (∃ r, (∀ next, F1 next = some r) ∧ (∀ next, F2 next = some r)) ∨
  (∃ i2 m1 m2, rest m1 = rest m2 ∧ remaining m1 ≤ bound ∧
    (∀ next, F1 next = next i2 m1) ∧ (∀ next, F2 next = next i2 m2))

/-- The lexer after `k` more tokens were read. -/
def skip_tokens : Nat → Lexer → Lexer
  | 0, lexer => lexer
  | k + 1, lexer => skip_tokens k (lexer_next_token lexer).2

/-- A statement, given as a function of its continuation, keeps the error
signal at `e`: it returns an interpreter with that signal whatever the
continuation, or hands such an interpreter to the continuation, at a lexer that
satisfies `P`. -/
def KeepsError (P : Lexer → Prop) (e : Bool)
    (F : (Interpreter → Lexer → ExecResult) → ExecResult) : Prop :=
  (∃ r, r.error_occurred = e ∧ ∀ next, F next = some r) ∨
  (∃ i2 m, i2.error_occurred = e ∧ P m ∧ ∀ next, F next = next i2 m)

/-! ## Saving, loading and the immediate commands (`interpreter.c`,
lines 280-336; `cfbasic.c`, lines 107-189) -/

/-- `interpreter_new`. -/
def interpreter_new (interp : Interpreter) : Interpreter :=
  { var_clear_all (program_clear interp) with call_stack := [], for_stack := [] }

/-- The decimal digits of a number, last digit first; `fuel` bounds their
count. -/
def dec_digits_rev : Nat → Nat → CStr
  | 0, _ => []
  | fuel + 1, n =>
    if n < 10 then [48 + n] else (48 + n % 10) :: dec_digits_rev fuel (n / 10)

/-- What the `%d` conversion of `fprintf` writes for an `int`. -/
def format_d (n : Int) : CStr :=
  if n < 0 then 45 :: (dec_digits_rev (n.natAbs + 1) n.natAbs).reverse
  else (dec_digits_rev (n.natAbs + 1) n.natAbs).reverse

/-- What `fprintf(file, "%d %s\n", line_number, text)` writes for a line. -/
def save_line (l : ProgramLine) : CStr := format_d l.line_number ++ 32 :: (l.text ++ [10])

/-- The loop of `interpreter_save` (lines 329-333): the bytes written to the
file. -/
def save_lines : List ProgramLine → CStr
  | [] => []
  | current :: rest => save_line current ++ save_lines rest

/-- `interpreter_save`; `writable` tells whether `fopen` succeeds.  The result
is the interpreter and the content of the file written, `none` when the call
returns `false`. -/
def interpreter_save (interp : Interpreter) (writable : Bool) : Interpreter × Option CStr :=
  if !writable then (error interp (str "CANNOT SAVE FILE"), none)
  else (interp, some (save_lines interp.program))

/-- The read loop of `fgets`: at most `room` bytes are taken from the unread
content of the file, up to and including the first newline.  The result is the
bytes read and the content left unread. -/
def fgets_scan : Nat → CStr → CStr × CStr
  | 0, file => ([], file)
  | _ + 1, [] => ([], [])
  | room + 1, c :: file =>
    if c = 10 then ([10], file)
    else (c :: (fgets_scan room file).1, (fgets_scan room file).2)

/-- `fgets(line, size, file)` on the unread content of the file: `none` for
`NULL` at the end of the file. -/
def fgets (size : Nat) (file : CStr) : Option (CStr × CStr) :=
  if file = [] then none else some (fgets_scan (size - 1) file)

/-- The optional sign of the `%d` conversion of `sscanf`: whether it is `-`,
and the input after it. -/
def scan_sign (s : CStr) : Bool × CStr :=
  if s.headD 0 = 45 then (true, s.tail)
  else if s.headD 0 = 43 then (false, s.tail)
  else (false, s)

/-- The `%d` conversion of `sscanf`: white space is skipped, then an optional
sign and a non-empty run of digits are read.  The result is the value and the
input left, `none` when no digit is found. -/
def scan_d (s : CStr) : Option (Int × CStr) :=
  if (scan_sign (s.dropWhile isspace)).2.takeWhile isdigit = [] then none
  else
    some
      (if (scan_sign (s.dropWhile isspace)).1 then
         -(digits_value ((scan_sign (s.dropWhile isspace)).2.takeWhile isdigit) : Int)
       else (digits_value ((scan_sign (s.dropWhile isspace)).2.takeWhile isdigit) : Int),
       (scan_sign (s.dropWhile isspace)).2.dropWhile isdigit)

/-- `sscanf(line, "%d %[^\n]", &line_num, text)`: the two values when both
conversions succeed (the call returns 2), `none` otherwise. -/
def sscanf_line (line : CStr) : Option (Int × CStr) :=
  match scan_d line with
  | none => none
  | some (n, r) =>
    if (r.dropWhile isspace).takeWhile (fun c => c != 10) = [] then none
    else some (n, (r.dropWhile isspace).takeWhile (fun c => c != 10))

/-- The body of the loop of `interpreter_load` (lines 305-316) for the line
read by `fgets`: a final newline is removed, and the line is stored when
`sscanf` converts a number and a text. -/
def load_line (interp : Interpreter) (line : CStr) : Interpreter :=
  match sscanf_line (if line.getLast? = some 10 then line.dropLast else line) with
  | none => interp
  | some (n, text) => program_add_line interp n (some text)

/-- The loop of `interpreter_load` (lines 303-317) over the unread content of
the file, with fuel counting the calls of `fgets`. -/
def load_loop : Nat → Interpreter → CStr → Option Interpreter
  | 0, _, _ => none
  | fuel + 1, interp, file =>
    match fgets 1024 file with
    | none => some interp
    | some (line, rest) => load_loop fuel (load_line interp line) rest

/-- `interpreter_load`; `file` is the content of the named file, `none` when
`fopen` fails.  The result is the interpreter and the value returned. -/
def interpreter_load (interp : Interpreter) (file : Option CStr) :
    Option (Interpreter × Bool) :=
  match file with
  | none => some (error interp (str "FILE NOT FOUND"), false)
  | some content =>
    match load_loop (content.length + 1) (interpreter_new interp) content with
    | none => none
    | some i => some (i, true)

/-- The LIST branch of `execute_immediate_command` (lines 114-138), entered
with the lexer after LIST. -/
def immediate_list (interp : Interpreter) (lexer : Lexer) : Interpreter :=
  if (lexer_next_token lexer).1.type = TOK_NUMBER then
    if (lexer_next_token (lexer_next_token lexer).2).1.type = TOK_COMMA ∨
        (lexer_next_token (lexer_next_token lexer).2).1.type = TOK_MINUS then
      if (lexer_next_token (lexer_next_token (lexer_next_token lexer).2).2).1.type =
          TOK_NUMBER then
        interpreter_list interp (c_trunc (lexer_next_token lexer).1.number_value)
          (c_trunc (lexer_next_token
            (lexer_next_token (lexer_next_token lexer).2).2).1.number_value)
      else interpreter_list interp (c_trunc (lexer_next_token lexer).1.number_value) (-1)
    else interpreter_list interp (c_trunc (lexer_next_token lexer).1.number_value) (-1)
  else interpreter_list interp 0 (-1)

/-- `execute_immediate_command`; `fuel` is the fuel of a RUN, `file` the content
of the file a LOAD names (`none` when it cannot be opened), `writable` tells
whether the file a SAVE names can be opened. -/
def execute_immediate_command (fuel : Nat) (interp : Interpreter) (line : CStr)
    (file : Option CStr) (writable : Bool) : ExecResult :=
  match (lexer_next_token (lexer_init line)).1.type with
  | TOK_LIST => some (immediate_list interp (lexer_next_token (lexer_init line)).2)
  | TOK_RUN => interpreter_run fuel interp
  | TOK_NEW => some (interpreter_new interp)
  | TOK_LOAD =>
    if (lexer_next_token (lexer_next_token (lexer_init line)).2).1.type = TOK_STRING then
      match interpreter_load interp file with
      | none => none
      | some r => some r.1
    else some (error interp (str "FILENAME REQUIRED"))
  | TOK_SAVE =>
    if (lexer_next_token (lexer_next_token (lexer_init line)).2).1.type = TOK_STRING then
      some (interpreter_save interp writable).1
    else some (error interp (str "FILENAME REQUIRED"))
  | TOK_EXIT => some { interp with exit_requested := true }
  | _ => interpreter_execute_line interp line

/-- A session of immediate commands, first command first, none of which is a
LOAD or SAVE that opens a file; `fuel` is the fuel of each RUN. -/
def immediate_session (fuel : Nat) (interp : Interpreter) : List CStr → ExecResult
  | [] => some interp
  | line :: rest =>
    match execute_immediate_command fuel interp line none false with
    | none => none
    | some i1 => immediate_session fuel i1 rest

/-- The interpreter `i2` holds the program of `i`, and its cursor is the cursor
of `i` or the non-null result of a search of that program for a line number. -/
def CursorStep (i i2 : Interpreter) : Prop :=
  i2.program = i.program ∧
    (i2.current_line = i.current_line ∨
      (i2.current_line ≠ [] ∧ ∃ n, i2.current_line = find_line i.program n))

/-- A statement, given as a function of its continuation, returns or hands to
the continuation an interpreter whose program and cursor are related to those of
`i` by `CursorStep`. -/
def KeepsCursor (i : Interpreter)
    (F : (Interpreter → Lexer → ExecResult) → ExecResult) : Prop :=
  (∃ r, CursorStep i r ∧ ∀ next, F next = some r) ∨
  (∃ i2 m, CursorStep i i2 ∧ ∀ next, F next = next i2 m)

/-- The program `10 GOTO 30: END`, `30 PRINT "X"`. -/
def jump_then_end_program : Interpreter :=
  load_lines [(10, "GOTO 30: END"), (30, "PRINT \"X\"")]

/-- The run loop entered in the state `s` is in the state `t` after `k` passes,
none of which left the loop by a `break`. -/
def RunReach : Nat → Interpreter → Interpreter → Prop
  | 0, s, t => s = t
  | k + 1, s, t =>
    ∃ s1, s.running = true ∧ s.current_line ≠ [] ∧ run_body s = some (s1, false) ∧
      RunReach k s1 t

/-! ## Theorems -/

theorem delete_scan_eq (p : List ProgramLine) (n : Int) :
    delete_scan p n = delete_line p n := by
  cases p with
  | nil => rfl
  | cons h t => simp [delete_scan, delete_line]

theorem delete_line_cons (h : ProgramLine) (t : List ProgramLine) (n : Int) :
    delete_line (h :: t) n = if h.line_number = n then t else h :: delete_line t n := by
  show (if h.line_number = n then t else h :: delete_scan t n) = _
  rw [delete_scan_eq]

theorem mem_delete_line {p : List ProgramLine} {n : Int} {x : ProgramLine}
    (hx : x ∈ delete_line p n) : x ∈ p := by
  induction p with
  | nil => simp [delete_line] at hx
  | cons h t ih =>
    rw [delete_line_cons] at hx
    split at hx
    · exact List.mem_cons_of_mem _ hx
    · rcases List.mem_cons.mp hx with rfl | hx
      · exact List.mem_cons_self _ _
      · exact List.mem_cons_of_mem _ (ih hx)

theorem delete_line_ascending {p : List ProgramLine} (n : Int)
    (hp : StrictlyAscending p) : StrictlyAscending (delete_line p n) := by
  unfold StrictlyAscending at *
  induction p with
  | nil => simp [delete_line]
  | cons h t ih =>
    rw [delete_line_cons]
    rw [List.pairwise_cons] at hp
    split
    · exact hp.2
    · rw [List.pairwise_cons]
      exact ⟨fun x hx => hp.1 x (mem_delete_line hx), ih hp.2⟩

theorem delete_line_absent {p : List ProgramLine} (n : Int)
    (hp : StrictlyAscending p) : ∀ x ∈ delete_line p n, x.line_number ≠ n := by
  unfold StrictlyAscending at *
  induction p with
  | nil => simp [delete_line]
  | cons h t ih =>
    rw [delete_line_cons]
    rw [List.pairwise_cons] at hp
    split
    · next heq =>
      intro x hx
      have := hp.1 x hx
      omega
    · next hne =>
      intro x hx
      rcases List.mem_cons.mp hx with rfl | hx
      · exact hne
      · exact ih hp.2 x hx

theorem mem_insert_walk {c : ProgramLine} {rest : List ProgramLine} {nl x : ProgramLine}
    (hx : x ∈ insert_walk c rest nl) : x = nl ∨ x ∈ c :: rest := by
  induction rest generalizing c with
  | nil => simp [insert_walk] at hx; rcases hx with rfl | rfl <;> simp
  | cons h t ih =>
    simp only [insert_walk] at hx
    split at hx
    · rcases List.mem_cons.mp hx with rfl | hx
      · simp
      · rcases ih hx with rfl | h2
        · simp
        · right; exact List.mem_cons_of_mem _ h2
    · simp at hx; rcases hx with rfl | rfl | rfl | hx <;> simp [*]

theorem insert_walk_ascending {c : ProgramLine} {rest : List ProgramLine} {nl : ProgramLine}
    (hp : StrictlyAscending (c :: rest)) (hc : c.line_number < nl.line_number)
    (hne : ∀ x ∈ rest, x.line_number ≠ nl.line_number) :
    StrictlyAscending (insert_walk c rest nl) := by
  unfold StrictlyAscending at *
  induction rest generalizing c with
  | nil => simp [insert_walk, hc]
  | cons h t ih =>
    simp only [insert_walk]
    rw [List.pairwise_cons] at hp
    split
    · next hlt =>
      rw [List.pairwise_cons]
      refine ⟨?_, ih hp.2 hlt (fun x hx => hne x (List.mem_cons_of_mem _ hx))⟩
      intro x hx
      rcases mem_insert_walk hx with rfl | h2
      · exact hc
      · exact hp.1 x h2
    · next hge =>
      have hh : nl.line_number < h.line_number := by
        have := hne h (List.mem_cons_self _ _)
        omega
      have hp2 := hp.2
      rw [List.pairwise_cons] at hp2
      refine List.pairwise_cons.mpr ⟨?_, List.pairwise_cons.mpr ⟨?_, hp.2⟩⟩
      · intro x hx
        rcases List.mem_cons.mp hx with rfl | hx
        · exact hc
        · exact hp.1 x hx
      · intro x hx
        rcases List.mem_cons.mp hx with rfl | hx
        · exact hh
        · have := hp2.1 x hx
          omega

theorem insert_line_ascending {p : List ProgramLine} (nl : ProgramLine)
    (hp : StrictlyAscending p) (hne : ∀ x ∈ p, x.line_number ≠ nl.line_number) :
    StrictlyAscending (insert_line p nl) := by
  cases p with
  | nil => simp [insert_line, StrictlyAscending]
  | cons h t =>
    simp only [insert_line]
    split
    · next hgt =>
      unfold StrictlyAscending at *
      refine List.pairwise_cons.mpr ⟨?_, hp⟩
      intro x hx
      rcases List.mem_cons.mp hx with rfl | hx
      · omega
      · have := (List.pairwise_cons.mp hp).1 x hx
        omega
    · next hle =>
      have h1 := hne h (List.mem_cons_self _ _)
      exact insert_walk_ascending hp (by omega)
        (fun x hx => hne x (List.mem_cons_of_mem _ hx))

theorem program_add_line_ascending (interp : Interpreter) (n : Int) (text : Option CStr)
    (hp : StrictlyAscending interp.program) :
    StrictlyAscending (program_add_line interp n text).program := by
  have hd := delete_line_ascending n hp
  have ha := delete_line_absent n hp
  unfold program_add_line program_delete_line
  cases text with
  | none => exact hd
  | some t =>
    simp only
    split
    · exact hd
    · exact insert_line_ascending _ hd ha

theorem run_program_ops_ascending (ops : List ProgramOp) (interp : Interpreter)
    (hp : StrictlyAscending interp.program) :
    StrictlyAscending (run_program_ops interp ops).program := by
  induction ops generalizing interp with
  | nil => exact hp
  | cons op rest ih =>
    simp only [run_program_ops, List.foldl_cons]
    apply ih
    cases op with
    | add n t => exact program_add_line_ascending interp n t hp
    | delete n => exact delete_line_ascending n hp

/-- C1: whatever sequence of `program_add_line` / `program_delete_line` calls is
applied to the empty Program Store, the stored lines have strictly increasing
line numbers in iteration order. -/
theorem program_store_strictly_ascending (ops : List ProgramOp) :
    List.Pairwise (fun a b => a.line_number < b.line_number)
      (run_program_ops interpreter_init ops).program :=
  run_program_ops_ascending ops interpreter_init List.Pairwise.nil

theorem find_line_head_iff {p : List ProgramLine} (n : Int) (x : ProgramLine)
    (hp : StrictlyAscending p) :
    (find_line p n).head? = some x ↔ (x ∈ p ∧ x.line_number = n) := by
  unfold StrictlyAscending at hp
  induction p with
  | nil => simp [find_line]
  | cons h t ih =>
    rw [List.pairwise_cons] at hp
    simp only [find_line]
    split
    · next heq =>
      simp only [List.head?_cons, Option.some.injEq, List.mem_cons]
      constructor
      · rintro rfl; exact ⟨Or.inl rfl, heq⟩
      · rintro ⟨rfl | hx, hxn⟩
        · rfl
        · have := hp.1 x hx
          omega
    · next hne =>
      split
      · next hgt =>
        constructor
        · intro h0; simp at h0
        · rintro ⟨hx, hxn⟩
          exfalso
          rcases List.mem_cons.mp hx with rfl | hx
          · exact hne hxn
          · have := hp.1 x hx
            omega
      · next hle =>
        rw [ih hp.2]
        simp only [List.mem_cons]
        constructor
        · rintro ⟨hx, hxn⟩; exact ⟨Or.inr hx, hxn⟩
        · rintro ⟨rfl | hx, hxn⟩
          · exact absurd hxn hne
          · exact ⟨hx, hxn⟩

theorem find_line_head_congr {p q : List ProgramLine} (n : Int)
    (hp : StrictlyAscending p) (hq : StrictlyAscending q)
    (h : ∀ x : ProgramLine, x.line_number = n → (x ∈ p ↔ x ∈ q)) :
    (find_line p n).head? = (find_line q n).head? := by
  apply Option.ext
  intro x
  simp only [Option.mem_def]
  rw [find_line_head_iff n x hp, find_line_head_iff n x hq]
  constructor
  · rintro ⟨hx, hn⟩; exact ⟨(h x hn).mp hx, hn⟩
  · rintro ⟨hx, hn⟩; exact ⟨(h x hn).mpr hx, hn⟩

theorem find_line_head_none {p : List ProgramLine} (n : Int)
    (hp : StrictlyAscending p) (h : ∀ x ∈ p, x.line_number ≠ n) :
    (find_line p n).head? = none := by
  rw [Option.eq_none_iff_forall_not_mem]
  intro x hx
  rw [Option.mem_def, find_line_head_iff n x hp] at hx
  exact h x hx.1 hx.2

theorem mem_delete_line_iff {p : List ProgramLine} (n : Int) (x : ProgramLine)
    (hx : x.line_number ≠ n) : x ∈ delete_line p n ↔ x ∈ p := by
  induction p with
  | nil => simp [delete_line]
  | cons h t ih =>
    rw [delete_line_cons]
    split
    · next heq =>
      simp only [List.mem_cons]
      constructor
      · exact Or.inr
      · rintro (rfl | h2)
        · exact absurd heq hx
        · exact h2
    · simp only [List.mem_cons, ih]

theorem mem_insert_walk_iff (c : ProgramLine) (rest : List ProgramLine) (nl x : ProgramLine) :
    x ∈ insert_walk c rest nl ↔ (x = nl ∨ x ∈ c :: rest) := by
  induction rest generalizing c with
  | nil => simp [insert_walk]; tauto
  | cons h t ih =>
    simp only [insert_walk]
    split
    · simp only [List.mem_cons, ih]; tauto
    · simp only [List.mem_cons]; tauto

theorem mem_insert_line_iff (p : List ProgramLine) (nl x : ProgramLine) :
    x ∈ insert_line p nl ↔ (x = nl ∨ x ∈ p) := by
  cases p with
  | nil => simp [insert_line]
  | cons h t =>
    simp only [insert_line]
    split
    · simp only [List.mem_cons]
    · exact mem_insert_walk_iff h t nl x

theorem program_add_line_program (interp : Interpreter) (n : Int) (text : Option CStr) :
    (program_add_line interp n text).program =
      match text with
      | none => delete_line interp.program n
      | some t =>
        if t.length = 0 then delete_line interp.program n
        else insert_line (delete_line interp.program n) { line_number := n, text := t } := by
  unfold program_add_line program_delete_line
  cases text with
  | none => rfl
  | some t =>
    simp only
    split <;> rfl

theorem find_after_op (interp : Interpreter) (op : ProgramOp) (n : Int)
    (hp : StrictlyAscending interp.program) :
    ((find_line (op.run interp).program n).head?).map ProgramLine.text =
      ProgramOp.expect n (((find_line interp.program n).head?).map ProgramLine.text) op := by
  have hd : ∀ m, StrictlyAscending (delete_line interp.program m) :=
    fun m => delete_line_ascending m hp
  have habs : ∀ m, ∀ x ∈ delete_line interp.program m, x.line_number ≠ m :=
    fun m => delete_line_absent m hp
  have hdel_same : ((find_line (delete_line interp.program n) n).head?).map
      ProgramLine.text = none := by
    rw [find_line_head_none n (hd n) (habs n)]; rfl
  have hdel_other : ∀ m, m ≠ n →
      (find_line (delete_line interp.program m) n).head? =
        (find_line interp.program n).head? := by
    intro m hm
    apply find_line_head_congr n (hd m) hp
    intro x hx
    exact mem_delete_line_iff m x (by omega)
  cases op with
  | delete m =>
    simp only [ProgramOp.run, program_delete_line, ProgramOp.expect]
    split
    · next heq => subst heq; exact hdel_same
    · next hne => rw [hdel_other m hne]
  | add m text =>
    simp only [ProgramOp.run, ProgramOp.expect]
    rw [program_add_line_program]
    by_cases hm : m = n
    · subst hm
      simp only [if_true]
      cases text with
      | none => exact hdel_same
      | some t =>
        simp only
        split
        · exact hdel_same
        · have hasc := insert_line_ascending { line_number := m, text := t }
            (hd m) (habs m)
          have : (find_line (insert_line (delete_line interp.program m)
              { line_number := m, text := t }) m).head? =
              some { line_number := m, text := t } := by
            rw [find_line_head_iff m _ hasc]
            exact ⟨(mem_insert_line_iff _ _ _).mpr (Or.inl rfl), rfl⟩
          rw [this]; rfl
    · simp only [if_neg hm]
      cases text with
      | none => simp only; rw [hdel_other m hm]
      | some t =>
        simp only
        split
        · rw [hdel_other m hm]
        · have hasc := insert_line_ascending { line_number := m, text := t }
            (hd m) (habs m)
          rw [← hdel_other m hm]
          congr 1
          apply find_line_head_congr n hasc (hd m)
          intro x hx
          rw [mem_insert_line_iff]
          constructor
          · rintro (rfl | h2)
            · exact absurd hx hm
            · exact h2
          · exact Or.inr

theorem find_after_ops (ops : List ProgramOp) (interp : Interpreter) (n : Int)
    (hp : StrictlyAscending interp.program) :
    ((find_line (run_program_ops interp ops).program n).head?).map ProgramLine.text =
      ops.foldl (ProgramOp.expect n)
        (((find_line interp.program n).head?).map ProgramLine.text) := by
  induction ops generalizing interp with
  | nil => rfl
  | cons op rest ih =>
    simp only [run_program_ops, List.foldl_cons]
    have hp2 : StrictlyAscending (op.run interp).program := by
      cases op with
      | add m t => exact program_add_line_ascending interp m t hp
      | delete m => exact delete_line_ascending m hp
    have := ih (op.run interp) hp2
    simp only [run_program_ops] at this
    rw [this, find_after_op interp op n hp]

theorem find_line_number {p : List ProgramLine} (n : Int) (x : ProgramLine)
    (h : (find_line p n).head? = some x) : x.line_number = n := by
  induction p with
  | nil => simp [find_line] at h
  | cons a t ih =>
    simp only [find_line] at h
    split at h
    · next heq => simp at h; subst h; exact heq
    · split at h
      · simp at h
      · exact ih h

/-- C2: after any sequence of `program_add_line` / `program_delete_line` calls on
the empty Program Store, `program_find_line` for a number `n` returns a line with
number `n` carrying the text of the most recent `program_add_line` for `n` with a
non-empty text, when no later delete or empty-text add for `n` followed it, and
returns not-found otherwise; calls on other numbers do not enter the answer
(see `ProgramOp.expect`). -/
theorem program_find_line_most_recent (ops : List ProgramOp) (n : Int) :
    (program_find_line (run_program_ops interpreter_init ops) n).head? =
      (expected_text ops n).map (fun t => { line_number := n, text := t }) := by
  have h := find_after_ops ops interpreter_init n List.Pairwise.nil
  unfold program_find_line expected_text
  have h0 : ((find_line interpreter_init.program n).head?).map ProgramLine.text = none := rfl
  rw [h0] at h
  rw [← h]
  cases hx : (find_line (run_program_ops interpreter_init ops).program n).head? with
  | none => rfl
  | some x =>
    have hn := find_line_number n x hx
    simp only [Option.map_some']
    congr 1
    cases x
    simp only [ProgramLine.mk.injEq] at *
    exact ⟨hn, trivial⟩

theorem toupper_ne_zero {c : Nat} (hc : 0 < c) : toupper c ≠ 0 := by
  unfold toupper
  split <;> omega

theorem str_compare_nocase_eq_zero_iff (a b : CStr) (ha : CStr.wf a) (hb : CStr.wf b) :
    str_compare_nocase a b = 0 ↔ a.map toupper = b.map toupper := by
  induction a generalizing b with
  | nil =>
    cases b with
    | nil => simp [str_compare_nocase]
    | cons c t =>
      have hc := toupper_ne_zero (hb c (List.mem_cons_self _ _)).1
      simp only [str_compare_nocase, List.headD_nil, List.headD_cons, List.map_nil,
        List.map_cons]
      constructor
      · intro h
        have h0 : toupper 0 = 0 := by decide
        rw [h0] at h
        omega
      · intro h; simp at h
  | cons c1 s1 ih =>
    cases b with
    | nil =>
      have hc := toupper_ne_zero (ha c1 (List.mem_cons_self _ _)).1
      simp only [str_compare_nocase, List.headD_nil, List.headD_cons, List.map_nil,
        List.map_cons]
      constructor
      · intro h
        have h0 : toupper 0 = 0 := by decide
        rw [h0] at h
        omega
      · intro h; simp at h
    | cons c2 s2 =>
      have ha2 : CStr.wf s1 := fun c hc => ha c (List.mem_cons_of_mem _ hc)
      have hb2 : CStr.wf s2 := fun c hc => hb c (List.mem_cons_of_mem _ hc)
      simp only [str_compare_nocase, List.map_cons, List.cons.injEq]
      split
      · next hne =>
        constructor
        · intro h; omega
        · intro h; exact absurd h.1 hne
      · next heq =>
        rw [ih s2 ha2 hb2]
        constructor
        · intro h; exact ⟨by simpa using heq, h⟩
        · intro h; exact h.2

theorem var_find_congr {vs : List Variable} {q q' : CStr} (hvs : StoreWf vs)
    (hq : CStr.wf q) (hq' : CStr.wf q') (h : q.map toupper = q'.map toupper) :
    var_find vs q = var_find vs q' := by
  induction vs with
  | nil => rfl
  | cons v t ih =>
    have hv : CStr.wf v.name := hvs v (List.mem_cons_self _ _)
    have ht : StoreWf t := fun x hx => hvs x (List.mem_cons_of_mem _ hx)
    simp only [var_find]
    rw [ih ht]
    have e : str_compare_nocase v.name q = 0 ↔ str_compare_nocase v.name q' = 0 := by
      rw [str_compare_nocase_eq_zero_iff _ _ hv hq, str_compare_nocase_eq_zero_iff _ _ hv hq', h]
    by_cases h1 : str_compare_nocase v.name q = 0
    · rw [if_pos h1, if_pos (e.mp h1)]
    · rw [if_neg h1, if_neg (fun h2 => h1 (e.mpr h2))]

theorem var_find_update {vs : List Variable} {nm q : CStr} (f : Variable → Variable)
    (hf : ∀ v, (f v).name = v.name) (hvs : StoreWf vs) (hnm : CStr.wf nm) (hq : CStr.wf q) :
    var_find (var_update f vs nm) q =
      if nm.map toupper = q.map toupper then (var_find vs q).map f else var_find vs q := by
  induction vs with
  | nil => simp [var_update, var_find]
  | cons v t ih =>
    have hv : CStr.wf v.name := hvs v (List.mem_cons_self _ _)
    have ht : StoreWf t := fun x hx => hvs x (List.mem_cons_of_mem _ hx)
    have e1 := str_compare_nocase_eq_zero_iff _ _ hv hnm
    have e2 := str_compare_nocase_eq_zero_iff _ _ hv hq
    simp only [var_update]
    by_cases h1 : str_compare_nocase v.name nm = 0
    · rw [if_pos h1]
      simp only [var_find, hf]
      by_cases h2 : nm.map toupper = q.map toupper
      · have h3 : str_compare_nocase v.name q = 0 := e2.mpr ((e1.mp h1).trans h2)
        rw [if_pos h3, if_pos h2, if_pos h3]; rfl
      · have h3 : ¬ str_compare_nocase v.name q = 0 :=
          fun h => h2 ((e1.mp h1).symm.trans (e2.mp h))
        rw [if_neg h3, if_neg h2, if_neg h3]
    · rw [if_neg h1]
      simp only [var_find]
      by_cases h3 : str_compare_nocase v.name q = 0
      · have h2 : ¬ nm.map toupper = q.map toupper :=
          fun h => h1 (e1.mpr ((e2.mp h3).trans h.symm))
        simp only [if_pos h3, if_neg h2]
      · simp only [if_neg h3]
        exact ih ht

theorem var_update_wf {vs : List Variable} {nm : CStr} (f : Variable → Variable)
    (hf : ∀ v, (f v).name = v.name) (hvs : StoreWf vs) : StoreWf (var_update f vs nm) := by
  induction vs with
  | nil => simpa [var_update] using hvs
  | cons v t ih =>
    have hv : CStr.wf v.name := hvs v (List.mem_cons_self _ _)
    have ht : StoreWf t := fun x hx => hvs x (List.mem_cons_of_mem _ hx)
    simp only [var_update]
    split
    · intro x hx
      rcases List.mem_cons.mp hx with rfl | hx
      · rw [hf]; exact hv
      · exact ht x hx
    · intro x hx
      rcases List.mem_cons.mp hx with rfl | hx
      · exact hv
      · exact ih ht x hx

theorem var_op_run_vars (interp : Interpreter) (op : VarOp) :
    (op.run interp).vars =
      match var_find interp.vars op.name with
      | none =>
        { name := op.name, type := op.binding.1, value := op.binding.2 } :: interp.vars
      | some _ =>
        var_update (fun v => { v with type := op.binding.1, value := op.binding.2 })
          interp.vars op.name := by
  cases op with
  | set_number nm val =>
    simp only [VarOp.run, var_set_number, var_get, VarOp.name, VarOp.binding]
    cases var_find interp.vars nm <;> rfl
  | set_string nm val =>
    simp only [VarOp.run, var_set_string, var_get, VarOp.name, VarOp.binding]
    cases var_find interp.vars nm <;> rfl

theorem var_op_run_wf (interp : Interpreter) (op : VarOp) (hvs : StoreWf interp.vars)
    (hop : CStr.wf op.name) : StoreWf (op.run interp).vars := by
  rw [var_op_run_vars]
  cases var_find interp.vars op.name with
  | none =>
    intro x hx
    rcases List.mem_cons.mp hx with rfl | hx
    · exact hop
    · exact hvs x hx
  | some _ => exact var_update_wf _ (fun _ => rfl) hvs

theorem var_get_after_op (interp : Interpreter) (op : VarOp) (q : CStr)
    (hvs : StoreWf interp.vars) (hop : CStr.wf op.name) (hq : CStr.wf q) :
    (var_get (op.run interp) q).map Variable.binding =
      VarOp.expect q ((var_get interp q).map Variable.binding) op := by
  unfold var_get VarOp.expect
  rw [var_op_run_vars]
  cases hfind : var_find interp.vars op.name with
  | none =>
    simp only [var_find]
    have e := str_compare_nocase_eq_zero_iff _ _ hop hq
    by_cases h : str_compare_nocase op.name q = 0
    · rw [if_pos h, if_pos (e.mp h)]; rfl
    · rw [if_neg h, if_neg (fun h2 => h (e.mpr h2))]
  | some x =>
    simp only
    rw [var_find_update (fun v => { v with type := op.binding.1, value := op.binding.2 })
      (fun _ => rfl) hvs hop hq]
    split
    · next h =>
      rw [← var_find_congr hvs hop hq h, hfind]; rfl
    · rfl

theorem var_get_after_ops (ops : List VarOp) (interp : Interpreter) (q : CStr)
    (hvs : StoreWf interp.vars) (hops : ∀ op ∈ ops, CStr.wf op.name) (hq : CStr.wf q) :
    (var_get (run_var_ops interp ops) q).map Variable.binding =
      ops.foldl (VarOp.expect q) ((var_get interp q).map Variable.binding) := by
  induction ops generalizing interp with
  | nil => rfl
  | cons op rest ih =>
    have hop := hops op (List.mem_cons_self _ _)
    have hrest : ∀ o ∈ rest, CStr.wf o.name := fun o ho => hops o (List.mem_cons_of_mem _ ho)
    simp only [run_var_ops, List.foldl_cons]
    have := ih (op.run interp) (var_op_run_wf interp op hvs hop) hrest
    simp only [run_var_ops] at this
    rw [this, var_get_after_op interp op q hvs hop hq]

/-- C10: for names that are well-formed C strings, after any sequence of
`var_set_number` / `var_set_string` calls on the empty Variable Store, `var_get`
under a name equal to `name` up to letter case returns not-found when no
case-variant of `name` was ever set, and otherwise an entry carrying the type tag
and value of the most recent set under a case-variant of `name`. -/
theorem var_get_most_recent (ops : List VarOp) (name name' : CStr)
    (hops : ∀ op ∈ ops, CStr.wf op.name) (hname' : CStr.wf name')
    (hcase : name'.map toupper = name.map toupper) :
    (var_get (run_var_ops interpreter_init ops) name').map
        (fun v => (v.type, v.value)) = expected_binding ops name := by
  have h := var_get_after_ops ops interpreter_init name'
    (fun v hv => absurd hv (List.not_mem_nil v)) hops hname'
  have e : VarOp.expect name' = VarOp.expect name := by
    funext acc op
    simp only [VarOp.expect, hcase]
  unfold expected_binding
  rw [← e]
  exact h

/-- C10, at a concrete history: `a$` is set as text, then `A$` as number; the
read under `a$` returns the number 5 with the number tag. -/
theorem var_get_most_recent_witness :
    (var_get (run_var_ops interpreter_init
        [VarOp.set_string (str "a$") (some (str "old")), VarOp.set_number (str "A$") 5])
        (str "a$")).map (fun v => (v.type, v.value)) =
      some (VarType.VAR_NUMBER, VarValue.number 5) := by
  have h := var_get_most_recent
    [VarOp.set_string (str "a$") (some (str "old")), VarOp.set_number (str "A$") 5]
    (str "A$") (str "a$") (by decide) (by decide) (by decide)
  rw [h]
  decide

theorem Advanced.refl (l : Lexer) : Advanced l l :=
  ⟨rfl, Nat.le_refl _, Nat.le_max_left _ _⟩

theorem Advanced.trans {l1 l2 l3 : Lexer} (h12 : Advanced l1 l2) (h23 : Advanced l2 l3) :
    Advanced l1 l3 := by
  obtain ⟨a1, a2, a3⟩ := h12
  obtain ⟨b1, b2, b3⟩ := h23
  refine ⟨b1.trans a1, Nat.le_trans a2 b2, ?_⟩
  rw [a1] at b3
  omega

theorem Advanced.remaining_le {l1 l2 : Lexer} (h : Advanced l1 l2) :
    remaining l2 ≤ remaining l1 := by
  obtain ⟨a1, a2, _⟩ := h
  unfold remaining
  rw [a1]
  omega

theorem peek_char_pos {l : Lexer} (h : peek_char l ≠ 0) : l.position < l.input.length := by
  by_contra hlt
  apply h
  unfold peek_char
  exact List.getD_eq_default _ _ (by omega)

theorem next_char_advanced (l : Lexer) : Advanced l (next_char l).2 := by
  unfold next_char
  by_cases h : peek_char l ≠ 0
  · have hp := peek_char_pos h
    simp only [h, ne_eq, not_false_eq_true, if_true]
    split
    · exact ⟨rfl, Nat.le_succ _, by simp only; omega⟩
    · exact ⟨rfl, Nat.le_succ _, by simp only; omega⟩
  · simp only [h, if_false]
    exact Advanced.refl l

theorem next_char_position {l : Lexer} (h : peek_char l ≠ 0) :
    (next_char l).2.position = l.position + 1 := by
  unfold next_char
  simp only [h, ne_eq, not_false_eq_true, if_true]
  split <;> rfl

theorem advance_while_advanced (p : Nat → Bool) (fuel : Nat) (l : Lexer) :
    Advanced l (advance_while p fuel l) := by
  induction fuel generalizing l with
  | zero => exact Advanced.refl l
  | succ n ih =>
    simp only [advance_while]
    split
    · exact (next_char_advanced l).trans (ih _)
    · exact Advanced.refl l

theorem advance_while_of_not (p : Nat → Bool) (fuel : Nat) (l : Lexer)
    (h : p (peek_char l) = false) : advance_while p fuel l = l := by
  cases fuel with
  | zero => rfl
  | succ n => simp [advance_while, h]

/-- The loop leaves by its test: with fuel for the rest of the input, the byte
under the position after the loop fails the loop condition. -/
theorem advance_while_exit (p : Nat → Bool) (hp : p 0 = false) (fuel : Nat) (l : Lexer)
    (hfuel : remaining l ≤ fuel) : p (peek_char (advance_while p fuel l)) = false := by
  induction fuel generalizing l with
  | zero =>
    simp only [advance_while]
    have : peek_char l = 0 := by
      unfold peek_char
      unfold remaining at hfuel
      exact List.getD_eq_default _ _ (by omega)
    rw [this]; exact hp
  | succ n ih =>
    simp only [advance_while]
    split
    · next h =>
      apply ih
      have hne : peek_char l ≠ 0 := by
        intro h0; rw [h0, hp] at h; exact Bool.noConfusion h
      have hpos := peek_char_pos hne
      have hnp := next_char_position hne
      have hin := (next_char_advanced l).1
      unfold remaining at *
      rw [hin, hnp]
      omega
    · next h => simpa using h

theorem skip_whitespace_advanced (l : Lexer) : Advanced l (skip_whitespace l) :=
  advance_while_advanced _ _ _

theorem read_fraction_advanced (l : Lexer) : Advanced l (read_fraction l) := by
  unfold read_fraction
  split
  · exact (next_char_advanced _).trans (advance_while_advanced _ _ _)
  · exact Advanced.refl _

theorem read_exponent_sign_advanced (l : Lexer) : Advanced l (read_exponent_sign l) := by
  unfold read_exponent_sign
  split
  · exact next_char_advanced _
  · exact Advanced.refl _

theorem read_exponent_advanced (l : Lexer) : Advanced l (read_exponent l) := by
  unfold read_exponent
  split
  · exact (next_char_advanced _).trans
      ((read_exponent_sign_advanced _).trans (advance_while_advanced _ _ _))
  · exact Advanced.refl _

theorem read_number_advanced (l : Lexer) : Advanced l (read_number l).2 :=
  (advance_while_advanced isdigit (remaining l) l).trans
    ((read_fraction_advanced _).trans (read_exponent_advanced _))

theorem read_string_advanced (l : Lexer) : Advanced l (read_string l).2 := by
  have h1 := next_char_advanced l
  have h2 := advance_while_advanced (fun c => c != 34 && c != 0 && c != 10)
    (remaining (next_char l).2) (next_char l).2
  have h3 := next_char_advanced (advance_while (fun c => c != 34 && c != 0 && c != 10)
    (remaining (next_char l).2) (next_char l).2)
  show Advanced l (if _ then _ else _)
  split
  · exact h1.trans (h2.trans h3)
  · exact h1.trans h2

theorem read_identifier_advanced (l : Lexer) : Advanced l (read_identifier l).2 :=
  advance_while_advanced _ _ _

theorem single_char_token_cases (c line col : Nat) (l : Lexer)
    (P : Token × Lexer → Prop) (h1 : ∀ t, P (t, l)) (h2 : ∀ t, P (t, (next_char l).2)) :
    P (single_char_token c line col l) := by
  unfold single_char_token
  split
  all_goals first
    | exact h1 _
    | (split
       · exact h2 _
       · first
         | exact h1 _
         | (split
            · exact h2 _
            · exact h1 _))

theorem single_char_token_advanced (c line col : Nat) (l : Lexer) :
    Advanced l (single_char_token c line col l).2 :=
  single_char_token_cases c line col l (fun r => Advanced l r.2)
    (fun _ => Advanced.refl _) (fun _ => next_char_advanced l)

theorem newline_end_advanced (c : Nat) (l : Lexer) : Advanced l (newline_end c l) := by
  unfold newline_end
  split
  · exact (next_char_advanced _).trans (next_char_advanced _)
  · exact next_char_advanced _

theorem token_at_advanced (l : Lexer) : Advanced l (token_at l).2 := by
  unfold token_at
  split_ifs
  · exact Advanced.refl _
  · exact newline_end_advanced _ _
  · exact read_number_advanced _
  · exact read_string_advanced _
  · exact read_identifier_advanced _
  · exact (next_char_advanced _).trans (single_char_token_advanced _ _ _ _)

theorem lexer_next_token_advanced (l : Lexer) : Advanced l (lexer_next_token l).2 :=
  (skip_whitespace_advanced l).trans (token_at_advanced _)

/-- C8: `lexer_peek_token` leaves the lexer (input, position, line, column)
exactly as it was, and returns the very token (kind, text, numeric value, source
line and column) that `lexer_next_token` returns from the same state. -/
theorem lexer_peek_token_restores (l : Lexer) :
    (lexer_peek_token l).2 = l ∧
      (lexer_peek_token l).2.position = l.position ∧
      (lexer_peek_token l).2.line = l.line ∧
      (lexer_peek_token l).2.column = l.column ∧
      (lexer_peek_token l).1 = (lexer_next_token l).1 := by
  have hin := (lexer_next_token_advanced l).1
  have h : (lexer_peek_token l).2 = l := by
    unfold lexer_peek_token
    cases l
    simp only [Lexer.mk.injEq, and_true]
    simpa using hin
  refine ⟨h, ?_, ?_, ?_, rfl⟩ <;> rw [h]

theorem strcmp_eq_zero_iff (a b : CStr) (ha : CStr.wf a) (hb : CStr.wf b) :
    strcmp a b = 0 ↔ a = b := by
  induction a generalizing b with
  | nil =>
    cases b with
    | nil => simp [strcmp]
    | cons c t =>
      have hc := (hb c (List.mem_cons_self _ _)).1
      simp only [strcmp]
      constructor
      · intro h; omega
      · intro h; simp at h
  | cons c1 s1 ih =>
    cases b with
    | nil =>
      have hc := (ha c1 (List.mem_cons_self _ _)).1
      simp only [strcmp]
      constructor
      · intro h; omega
      · intro h; simp at h
    | cons c2 s2 =>
      have ha2 : CStr.wf s1 := fun c hc => ha c (List.mem_cons_of_mem _ hc)
      have hb2 : CStr.wf s2 := fun c hc => hb c (List.mem_cons_of_mem _ hc)
      simp only [strcmp, List.cons.injEq]
      split
      · next heq => rw [ih s2 ha2 hb2]; simp [heq]
      · next hne =>
        constructor
        · intro h; omega
        · intro h; exact absurd h.1 hne

/-- On well-formed strings `strcmp` is negative exactly when the first string
comes before the second in the byte-wise lexicographic order. -/
theorem strcmp_neg_iff_lt (a b : CStr) (ha : CStr.wf a) (hb : CStr.wf b) :
    strcmp a b < 0 ↔ List.lt a b := by
  induction a generalizing b with
  | nil =>
    cases b with
    | nil =>
      simp only [strcmp]
      constructor
      · intro h; omega
      · intro h; cases h
    | cons c t =>
      have hc := (hb c (List.mem_cons_self _ _)).1
      simp only [strcmp]
      constructor
      · intro _; exact List.lt.nil c t
      · intro _; omega
  | cons c1 s1 ih =>
    cases b with
    | nil =>
      simp only [strcmp]
      constructor
      · intro h; omega
      · intro h; cases h
    | cons c2 s2 =>
      have ha2 : CStr.wf s1 := fun c hc => ha c (List.mem_cons_of_mem _ hc)
      have hb2 : CStr.wf s2 := fun c hc => hb c (List.mem_cons_of_mem _ hc)
      simp only [strcmp]
      split
      · next heq =>
        subst heq
        rw [ih s2 ha2 hb2]
        constructor
        · intro h; exact List.lt.tail (Nat.lt_irrefl _) (Nat.lt_irrefl _) h
        · intro h
          cases h with
          | head _ _ h1 => exact absurd h1 (Nat.lt_irrefl _)
          | tail _ _ h3 => exact h3
      · next hne =>
        constructor
        · intro h; exact List.lt.head _ _ (by omega)
        · intro h
          cases h with
          | head _ _ h1 => omega
          | tail h1 h2 _ => omega

theorem keyword_lookup_mem : ∀ p ∈ keywords,
    keyword_lookup p.1 keywords = p.2 ∧ p.2 ≠ TOK_IDENTIFIER := by
  decide

theorem keywords_shape : ∀ p ∈ keywords,
    (65 ≤ p.1.headD 0 ∧ p.1.headD 0 ≤ 90) ∧
      ∀ x ∈ p.1, (65 ≤ x ∧ x ≤ 90) ∨ x = 36 := by
  decide

theorem keywords_wf : ∀ p ∈ keywords, CStr.wf p.1 := by
  decide

theorem keyword_lookup_none (u : CStr) (tbl : List (CStr × TokenType))
    (h : ∀ p ∈ tbl, strcmp u p.1 ≠ 0) : keyword_lookup u tbl = TOK_IDENTIFIER := by
  induction tbl with
  | nil => rfl
  | cons p t ih =>
    obtain ⟨k, ty⟩ := p
    simp only [keyword_lookup]
    rw [if_neg (h (k, ty) (List.mem_cons_self _ _))]
    exact ih (fun q hq => h q (List.mem_cons_of_mem _ hq))

theorem isalpha_bounds {c : Nat} (h : isalpha c = true) :
    (65 ≤ c ∧ c ≤ 90) ∨ (97 ≤ c ∧ c ≤ 122) := by
  unfold isalpha at h
  simp only [Bool.or_eq_true, Bool.and_eq_true, decide_eq_true_eq] at h
  exact h

theorem ident_char_zero : ident_char 0 = false := by decide

theorem ident_char_bounds {c : Nat} (h : ident_char c = true) : 0 < c ∧ c < 256 := by
  unfold ident_char isalnum isalpha isdigit at h
  simp only [Bool.or_eq_true, Bool.and_eq_true, decide_eq_true_eq, beq_iff_eq] at h
  omega

theorem toupper_bounds {c : Nat} (h : 0 < c ∧ c < 256) : 0 < toupper c ∧ toupper c < 256 := by
  unfold toupper
  split <;> omega

/-- On an identifier-shaped word, taken as the whole input, `lexer_next_token`
reads the whole word and classifies it through the keyword table. -/
theorem lexer_next_token_ident (s : CStr) (hs : IdentShaped s) :
    (lexer_next_token (lexer_init s)).1.type = keyword_lookup (str_upper s) keywords ∧
      (lexer_next_token (lexer_init s)).1.text = some s := by
  obtain ⟨hhead, hall⟩ := hs
  have hb := isalpha_bounds hhead
  have hpeek : peek_char (lexer_init s) = s.headD 0 := by
    unfold peek_char lexer_init
    cases s <;> rfl
  have hskip : skip_whitespace (lexer_init s) = lexer_init s := by
    unfold skip_whitespace
    apply advance_while_of_not
    rw [hpeek]
    simp only [Bool.or_eq_false_iff, beq_eq_false_iff_ne, ne_eq]
    omega
  have hdisp : token_at (lexer_init s) = read_identifier (lexer_init s) := by
    unfold token_at
    rw [hpeek]
    rw [if_neg (by omega), if_neg (by omega)]
    have hd : isdigit (s.headD 0) = false := by
      unfold isdigit
      simp only [Bool.and_eq_false_imp, decide_eq_true_eq, decide_eq_false_iff_not]
      omega
    rw [hd]
    simp only [Bool.false_eq_true, if_false]
    rw [if_neg (by omega), hhead]
    simp only [if_true]
  have hadv := advance_while_advanced ident_char (remaining (lexer_init s)) (lexer_init s)
  have hexit := advance_while_exit ident_char ident_char_zero
    (remaining (lexer_init s)) (lexer_init s) (Nat.le_refl _)
  obtain ⟨hin, _, hle⟩ := hadv
  have hpos : (advance_while ident_char (remaining (lexer_init s)) (lexer_init s)).position
      = s.length := by
    have hle2 : (advance_while ident_char (remaining (lexer_init s))
        (lexer_init s)).position ≤ s.length := by
      simpa [lexer_init] using hle
    by_contra hne
    have hlt : (advance_while ident_char (remaining (lexer_init s))
        (lexer_init s)).position < s.length := by omega
    unfold peek_char at hexit
    rw [hin] at hexit
    have hin2 : (lexer_init s).input = s := rfl
    rw [hin2, List.getD_eq_getElem _ _ hlt] at hexit
    have := hall _ (List.getElem_mem hlt)
    rw [this] at hexit
    exact Bool.noConfusion hexit
  have hslice : slice (advance_while ident_char (remaining (lexer_init s)) (lexer_init s))
      (lexer_init s).position = s := by
    unfold slice
    rw [hin, hpos]
    simp [lexer_init]
  unfold lexer_next_token
  rw [hskip, hdisp]
  unfold read_identifier
  simp only [make_token]
  rw [hslice]
  exact ⟨rfl, rfl⟩

theorem ident_shaped_of_upper_keyword (s : CStr) (p : CStr × TokenType)
    (hp : p ∈ keywords) (hup : str_upper s = p.1) : IdentShaped s := by
  obtain ⟨hh, hall⟩ := keywords_shape p hp
  have hchar : ∀ x, ((65 ≤ toupper x ∧ toupper x ≤ 90) ∨ toupper x = 36) →
      ((65 ≤ x ∧ x ≤ 90) ∨ (97 ≤ x ∧ x ≤ 122) ∨ x = 36) := by
    intro x hx
    unfold toupper at hx
    split at hx <;> omega
  have hmem : ∀ x ∈ s, (65 ≤ x ∧ x ≤ 90) ∨ (97 ≤ x ∧ x ≤ 122) ∨ x = 36 := by
    intro x hx
    apply hchar
    apply hall
    rw [← hup]
    exact List.mem_map_of_mem _ hx
  constructor
  · cases s with
    | nil =>
      rw [← hup] at hh
      simp [str_upper] at hh
    | cons c t =>
      rw [← hup] at hh
      simp only [str_upper, List.map_cons, List.headD_cons] at hh
      simp only [List.headD_cons]
      have : (65 ≤ c ∧ c ≤ 90) ∨ (97 ≤ c ∧ c ≤ 122) := by
        unfold toupper at hh
        split at hh <;> omega
      unfold isalpha
      simp only [Bool.or_eq_true, Bool.and_eq_true, decide_eq_true_eq]
      exact this
  · intro x hx
    have := hmem x hx
    unfold ident_char isalnum isalpha isdigit
    simp only [Bool.or_eq_true, Bool.and_eq_true, decide_eq_true_eq, beq_iff_eq]
    omega

/-- C9: a word `s` that is a keyword of the table up to the case of its letters
(its upper-casing is the keyword), taken as input, yields the token kind the
table gives that keyword, never `TOK_IDENTIFIER`, with the text `s` as written;
an identifier-shaped word whose upper-casing is no keyword yields
`TOK_IDENTIFIER`. -/
theorem keyword_any_case (s : CStr) :
    (∀ p ∈ keywords, str_upper s = p.1 →
      (lexer_next_token (lexer_init s)).1.type = p.2 ∧
      (lexer_next_token (lexer_init s)).1.type ≠ TOK_IDENTIFIER ∧
      (lexer_next_token (lexer_init s)).1.text = some s) ∧
    (IdentShaped s → (∀ p ∈ keywords, str_upper s ≠ p.1) →
      (lexer_next_token (lexer_init s)).1.type = TOK_IDENTIFIER) := by
  constructor
  · intro p hp hup
    have hs := ident_shaped_of_upper_keyword s p hp hup
    obtain ⟨h1, h2⟩ := lexer_next_token_ident s hs
    obtain ⟨h3, h4⟩ := keyword_lookup_mem p hp
    rw [hup, h3] at h1
    exact ⟨h1, by rw [h1]; exact h4, h2⟩
  · intro hs hno
    obtain ⟨h1, _⟩ := lexer_next_token_ident s hs
    rw [h1]
    apply keyword_lookup_none
    intro p hp h0
    have hwf : CStr.wf (str_upper s) := by
      intro c hc
      unfold str_upper at hc
      obtain ⟨x, hx, rfl⟩ := List.mem_map.mp hc
      exact toupper_bounds (ident_char_bounds (hs.2 x hx))
    exact hno p hp ((strcmp_eq_zero_iff _ _ hwf (keywords_wf p hp)).mp h0)

/-- C9, at concrete words: `gOtO` is the keyword GOTO in mixed case, `left$` is
LEFT$ in lower case, and `Total_1` is no keyword. -/
theorem keyword_any_case_witness :
    ((lexer_next_token (lexer_init (str "gOtO"))).1.type = TOK_GOTO ∧
      (lexer_next_token (lexer_init (str "gOtO"))).1.type ≠ TOK_IDENTIFIER ∧
      (lexer_next_token (lexer_init (str "gOtO"))).1.text = some (str "gOtO")) ∧
    (lexer_next_token (lexer_init (str "Total_1"))).1.type = TOK_IDENTIFIER :=
  ⟨(keyword_any_case (str "gOtO")).1 (str "GOTO", TOK_GOTO) (by decide) (by decide),
   (keyword_any_case (str "Total_1")).2 (by decide) (by decide)⟩

theorem advance_while_progress (p : Nat → Bool) (hp : p 0 = false) (fuel : Nat) (l : Lexer)
    (h : p (peek_char l) = true) (hfuel : 0 < fuel) :
    l.position < (advance_while p fuel l).position := by
  cases fuel with
  | zero => omega
  | succ n =>
    simp only [advance_while, h, if_true]
    have hne : peek_char l ≠ 0 := by
      intro h0; rw [h0, hp] at h; exact Bool.noConfusion h
    have h1 := next_char_position hne
    have h2 := (advance_while_advanced p n (next_char l).2).2.1
    omega

theorem remaining_pos {l : Lexer} (h : peek_char l ≠ 0) : 0 < remaining l := by
  have := peek_char_pos h
  unfold remaining
  omega

theorem token_at_progress (l : Lexer) (h : peek_char l ≠ 0) :
    l.position < (token_at l).2.position := by
  have hn := next_char_position h
  unfold token_at
  rw [if_neg h]
  split_ifs with h1 h2 h3 h4
  · have h5 : (next_char l).2.position ≤ (newline_end (peek_char l) l).position := by
      unfold newline_end
      split
      · exact (next_char_advanced (next_char l).2).2.1
      · exact Nat.le_refl _
    show l.position < (newline_end (peek_char l) l).position
    omega
  · have h5 := advance_while_progress isdigit (by decide) (remaining l) l h2 (remaining_pos h)
    have h6 := ((read_fraction_advanced _).trans (read_exponent_advanced
      (read_fraction (advance_while isdigit (remaining l) l)))).2.1
    show l.position < (read_exponent (read_fraction
      (advance_while isdigit (remaining l) l))).position
    omega
  · have h5 := (read_string_advanced l).2.1
    have h6 : (next_char l).2.position ≤ (read_string l).2.position := by
      have a1 := advance_while_advanced (fun c => c != 34 && c != 0 && c != 10)
        (remaining (next_char l).2) (next_char l).2
      have a2 := next_char_advanced (advance_while (fun c => c != 34 && c != 0 && c != 10)
        (remaining (next_char l).2) (next_char l).2)
      show _ ≤ (if _ then _ else _ : Lexer).position
      split
      · exact (a1.trans a2).2.1
      · exact a1.2.1
    omega
  · have hi : ident_char (peek_char l) = true := by
      unfold ident_char isalnum
      rw [h4]; rfl
    exact advance_while_progress ident_char ident_char_zero (remaining l) l hi (remaining_pos h)
  · have := (single_char_token_advanced (peek_char l) l.line l.column (next_char l).2).2.1
    omega

theorem token_at_eof (l : Lexer) (h : peek_char l = 0) :
    (token_at l).1.type = TOK_EOF ∧ (token_at l).2 = l := by
  unfold token_at
  rw [if_pos h]
  exact ⟨rfl, rfl⟩

/-- A token other than end-of-input moves the position forward. -/
theorem lexer_next_token_progress (l : Lexer) (h : (lexer_next_token l).1.type ≠ TOK_EOF) :
    l.position < (lexer_next_token l).2.position := by
  unfold lexer_next_token at *
  have h0 := (skip_whitespace_advanced l).2.1
  by_cases hp : peek_char (skip_whitespace l) = 0
  · exact absurd (token_at_eof _ hp).1 h
  · have := token_at_progress _ hp
    omega

theorem lexer_next_token_remaining_lt (l : Lexer) (h : (lexer_next_token l).1.type ≠ TOK_EOF) :
    remaining (lexer_next_token l).2 < remaining l := by
  have h1 := lexer_next_token_progress l h
  obtain ⟨hin, _, hle⟩ := lexer_next_token_advanced l
  unfold remaining
  rw [hin]
  omega

theorem lexer_peek_token_snd (l : Lexer) : (lexer_peek_token l).2 = l := by
  have hin := (lexer_next_token_advanced l).1
  unfold lexer_peek_token
  cases l
  simp only [Lexer.mk.injEq, and_true]
  simpa using hin

theorem lexer_peek_token_fst (l : Lexer) : (lexer_peek_token l).1 = (lexer_next_token l).1 :=
  rfl

theorem eval_factor_succ (fuel : Nat) (interp : Interpreter) (l : Lexer) :
    eval_factor (fuel + 1) interp l =
      factor_body (fun l => eval_expression fuel interp l) interp l := by
  rw [eval_factor]

theorem eval_expression_succ (fuel : Nat) (interp : Interpreter) (l : Lexer) :
    eval_expression (fuel + 1) interp l =
      match eval_factor fuel interp l with
      | none => none
      | some (left, l1) => eval_loop fuel interp left l1 := by
  rw [eval_expression]

theorem eval_loop_succ (fuel : Nat) (interp : Interpreter) (left : Value) (l : Lexer) :
    eval_loop (fuel + 1) interp left l =
      loop_body (fun l => eval_factor fuel interp l)
        (fun v l => eval_loop fuel interp v l) left l := by
  rw [eval_loop]

theorem factor_body_mono (e1 e2 : Lexer → EvalResult) (interp : Interpreter) (l : Lexer)
    (r : Value × Lexer) (hle : ∀ l r, e1 l = some r → e2 l = some r)
    (h : factor_body e1 interp l = some r) : factor_body e2 interp l = some r := by
  unfold factor_body at *
  split at h
  · exact h
  · exact h
  · exact h
  · cases he : e1 (lexer_next_token l).2 with
    | none => rw [he] at h; exact Option.noConfusion h
    | some x => rw [he] at h; rw [hle _ _ he]; exact h
  · cases he : e1 (lexer_next_token (lexer_next_token l).2).2 with
    | none => rw [he] at h; exact Option.noConfusion h
    | some x => rw [he] at h; rw [hle _ _ he]; exact h
  · cases he : e1 (lexer_next_token (lexer_next_token l).2).2 with
    | none => rw [he] at h; exact Option.noConfusion h
    | some x => rw [he] at h; rw [hle _ _ he]; exact h
  · exact h

theorem loop_body_mono (f1 f2 : Lexer → EvalResult) (n1 n2 : Value → Lexer → EvalResult)
    (left : Value) (l : Lexer) (r : Value × Lexer)
    (hf : ∀ l r, f1 l = some r → f2 l = some r)
    (hn : ∀ v l r, n1 v l = some r → n2 v l = some r)
    (h : loop_body f1 n1 left l = some r) : loop_body f2 n2 left l = some r := by
  unfold loop_body at *
  split at h
  · next hplus =>
    rw [if_pos hplus]
    cases he : f1 (lexer_next_token (lexer_peek_token l).2).2 with
    | none => rw [he] at h; exact Option.noConfusion h
    | some x => rw [he] at h; rw [hf _ _ he]; exact hn _ _ _ h
  · next hplus =>
    rw [if_neg hplus]
    split at h
    · next hrel =>
      rw [if_pos hrel]
      cases he : f1 (lexer_next_token (lexer_peek_token l).2).2 with
      | none => rw [he] at h; exact Option.noConfusion h
      | some x => rw [he] at h; rw [hf _ _ he]; exact hn _ _ _ h
    · next hrel =>
      rw [if_neg hrel]
      exact h

theorem eval_mono_succ (fuel : Nat) :
    (∀ interp l r, eval_factor fuel interp l = some r →
        eval_factor (fuel + 1) interp l = some r) ∧
    (∀ interp l r, eval_expression fuel interp l = some r →
        eval_expression (fuel + 1) interp l = some r) ∧
    (∀ interp v l r, eval_loop fuel interp v l = some r →
        eval_loop (fuel + 1) interp v l = some r) := by
  induction fuel with
  | zero =>
    refine ⟨?_, ?_, ?_⟩
    · intro interp l r h; rw [eval_factor] at h; exact Option.noConfusion h
    · intro interp l r h; rw [eval_expression] at h; exact Option.noConfusion h
    · intro interp v l r h; rw [eval_loop] at h; exact Option.noConfusion h
  | succ n ih =>
    obtain ⟨ihf, ihe, ihl⟩ := ih
    refine ⟨?_, ?_, ?_⟩
    · intro interp l r h
      rw [eval_factor_succ] at h ⊢
      exact factor_body_mono _ _ interp l r (fun l r => ihe interp l r) h
    · intro interp l r h
      rw [eval_expression_succ] at h ⊢
      cases he : eval_factor n interp l with
      | none => rw [he] at h; exact Option.noConfusion h
      | some x =>
        rw [he] at h
        rw [ihf interp l x he]
        exact ihl interp _ _ r h
    · intro interp v l r h
      rw [eval_loop_succ] at h ⊢
      exact loop_body_mono _ _ _ _ v l r (fun l r => ihf interp l r)
        (fun v l r => ihl interp v l r) h

/-- More fuel does not change the result of an evaluation that returned. -/
theorem eval_factor_mono {f g : Nat} (hfg : f ≤ g) (interp : Interpreter) (l : Lexer)
    (r : Value × Lexer) (h : eval_factor f interp l = some r) :
    eval_factor g interp l = some r := by
  induction hfg with
  | refl => exact h
  | step _ ih => exact (eval_mono_succ _).1 interp l r ih

theorem eval_expression_mono {f g : Nat} (hfg : f ≤ g) (interp : Interpreter) (l : Lexer)
    (r : Value × Lexer) (h : eval_expression f interp l = some r) :
    eval_expression g interp l = some r := by
  induction hfg with
  | refl => exact h
  | step _ ih => exact (eval_mono_succ _).2.1 interp l r ih

theorem eval_loop_mono {f g : Nat} (hfg : f ≤ g) (interp : Interpreter) (v : Value)
    (l : Lexer) (r : Value × Lexer) (h : eval_loop f interp v l = some r) :
    eval_loop g interp v l = some r := by
  induction hfg with
  | refl => exact h
  | step _ ih => exact (eval_mono_succ _).2.2 interp v l r ih

theorem factor_body_advanced (e : Lexer → EvalResult) (interp : Interpreter) (l : Lexer)
    (r : Value × Lexer) (he : ∀ l r, e l = some r → Advanced l r.2)
    (h : factor_body e interp l = some r) : Advanced l r.2 := by
  have a1 := lexer_next_token_advanced l
  have a2 := lexer_next_token_advanced (lexer_next_token l).2
  unfold factor_body at h
  split at h
  · cases h; exact a1
  · cases h; exact a1
  · cases h; exact a1
  · cases hx : e (lexer_next_token l).2 with
    | none => rw [hx] at h; exact Option.noConfusion h
    | some x =>
      rw [hx] at h; cases h
      exact a1.trans ((he _ _ hx).trans (lexer_next_token_advanced _))
  · cases hx : e (lexer_next_token (lexer_next_token l).2).2 with
    | none => rw [hx] at h; exact Option.noConfusion h
    | some x =>
      rw [hx] at h; cases h
      exact a1.trans (a2.trans ((he _ _ hx).trans (lexer_next_token_advanced _)))
  · cases hx : e (lexer_next_token (lexer_next_token l).2).2 with
    | none => rw [hx] at h; exact Option.noConfusion h
    | some x =>
      rw [hx] at h; cases h
      exact a1.trans (a2.trans ((he _ _ hx).trans (lexer_next_token_advanced _)))
  · cases h; exact a1

theorem loop_body_advanced (fac : Lexer → EvalResult) (next : Value → Lexer → EvalResult)
    (left : Value) (l : Lexer) (r : Value × Lexer)
    (hf : ∀ l r, fac l = some r → Advanced l r.2)
    (hn : ∀ v l r, next v l = some r → Advanced l r.2)
    (h : loop_body fac next left l = some r) : Advanced l r.2 := by
  have a1 := lexer_next_token_advanced l
  unfold loop_body at h
  rw [lexer_peek_token_snd] at h
  split at h
  · cases hx : fac (lexer_next_token l).2 with
    | none => rw [hx] at h; exact Option.noConfusion h
    | some x => rw [hx] at h; exact a1.trans ((hf _ _ hx).trans (hn _ _ _ h))
  · split at h
    · cases hx : fac (lexer_next_token l).2 with
      | none => rw [hx] at h; exact Option.noConfusion h
      | some x => rw [hx] at h; exact a1.trans ((hf _ _ hx).trans (hn _ _ _ h))
    · cases h; exact Advanced.refl _

theorem eval_advanced (fuel : Nat) :
    (∀ interp l r, eval_factor fuel interp l = some r → Advanced l r.2) ∧
    (∀ interp l r, eval_expression fuel interp l = some r → Advanced l r.2) ∧
    (∀ interp v l r, eval_loop fuel interp v l = some r → Advanced l r.2) := by
  induction fuel with
  | zero =>
    refine ⟨?_, ?_, ?_⟩
    · intro interp l r h; rw [eval_factor] at h; exact Option.noConfusion h
    · intro interp l r h; rw [eval_expression] at h; exact Option.noConfusion h
    · intro interp v l r h; rw [eval_loop] at h; exact Option.noConfusion h
  | succ n ih =>
    obtain ⟨ihf, ihe, ihl⟩ := ih
    refine ⟨?_, ?_, ?_⟩
    · intro interp l r h
      rw [eval_factor_succ] at h
      exact factor_body_advanced _ interp l r (fun l r => ihe interp l r) h
    · intro interp l r h
      rw [eval_expression_succ] at h
      cases he : eval_factor n interp l with
      | none => rw [he] at h; exact Option.noConfusion h
      | some x =>
        rw [he] at h
        exact (ihf interp l x he).trans (ihl interp _ _ r h)
    · intro interp v l r h
      rw [eval_loop_succ] at h
      exact loop_body_advanced _ _ v l r (fun l r => ihf interp l r)
        (fun v l r => ihl interp v l r) h

theorem evaluate_factor_advanced {interp : Interpreter} {l : Lexer} {r : Value × Lexer}
    (h : evaluate_factor interp l = some r) : Advanced l r.2 :=
  (eval_advanced _).1 interp l r h

theorem evaluate_expression_advanced {interp : Interpreter} {l : Lexer} {r : Value × Lexer}
    (h : evaluate_expression interp l = some r) : Advanced l r.2 :=
  (eval_advanced _).2.1 interp l r h

theorem factor_body_total (expr : Lexer → EvalResult) (interp : Interpreter) (l : Lexer)
    (h : ∀ l2, remaining l2 < remaining l → ∃ r, expr l2 = some r) :
    ∃ r, factor_body expr interp l = some r := by
  unfold factor_body
  split
  · exact ⟨_, rfl⟩
  · exact ⟨_, rfl⟩
  · exact ⟨_, rfl⟩
  · next heq =>
    have hlt := lexer_next_token_remaining_lt l (by rw [heq]; decide)
    obtain ⟨r, hr⟩ := h _ hlt
    rw [hr]
    exact ⟨_, rfl⟩
  · next heq =>
    have hlt := lexer_next_token_remaining_lt l (by rw [heq]; decide)
    have hle := (lexer_next_token_advanced (lexer_next_token l).2).remaining_le
    obtain ⟨r, hr⟩ := h (lexer_next_token (lexer_next_token l).2).2 (by omega)
    rw [hr]
    exact ⟨_, rfl⟩
  · next heq =>
    have hlt := lexer_next_token_remaining_lt l (by rw [heq]; decide)
    have hle := (lexer_next_token_advanced (lexer_next_token l).2).remaining_le
    obtain ⟨r, hr⟩ := h (lexer_next_token (lexer_next_token l).2).2 (by omega)
    rw [hr]
    exact ⟨_, rfl⟩
  · exact ⟨_, rfl⟩

theorem loop_body_total (fac : Lexer → EvalResult) (next : Value → Lexer → EvalResult)
    (left : Value) (l : Lexer)
    (hf : ∀ l2, remaining l2 < remaining l → ∃ r, fac l2 = some r ∧ Advanced l2 r.2)
    (hn : ∀ v l2, remaining l2 < remaining l → ∃ r, next v l2 = some r) :
    ∃ r, loop_body fac next left l = some r := by
  have key : (lexer_next_token l).1.type ≠ TOK_EOF →
      ∀ v : Value → Value, ∃ r,
        (match fac (lexer_next_token (lexer_peek_token l).2).2 with
          | none => none
          | some (right, l2) => next (v right) l2) = some r := by
    intro hne v
    have hlt := lexer_next_token_remaining_lt l hne
    rw [lexer_peek_token_snd]
    obtain ⟨x, hx, hadv⟩ := hf _ hlt
    rw [hx]
    have hle := hadv.remaining_le
    exact hn _ _ (by omega)
  unfold loop_body
  split
  · next hplus =>
    exact key (by rw [← lexer_peek_token_fst, hplus]; decide) (fun right => apply_plus left right)
  · split
    · next hrel =>
      exact key (by
        rw [← lexer_peek_token_fst]
        intro h0; rw [h0] at hrel; exact absurd hrel (by decide))
        (fun right => apply_relational (lexer_peek_token l).1.type left right)
    · exact ⟨_, rfl⟩

theorem eval_total (fuel : Nat) :
    (∀ interp l, 2 * remaining l + 1 ≤ fuel → ∃ r, eval_factor fuel interp l = some r) ∧
    (∀ interp l, 2 * remaining l + 2 ≤ fuel → ∃ r, eval_expression fuel interp l = some r) ∧
    (∀ interp v l, 2 * remaining l + 1 ≤ fuel → ∃ r, eval_loop fuel interp v l = some r) := by
  induction fuel with
  | zero =>
    refine ⟨?_, ?_, ?_⟩
    · intro interp l h; omega
    · intro interp l h; omega
    · intro interp v l h; omega
  | succ n ih =>
    obtain ⟨ihf, ihe, ihl⟩ := ih
    refine ⟨?_, ?_, ?_⟩
    · intro interp l h
      rw [eval_factor_succ]
      exact factor_body_total _ interp l (fun l2 hl2 => ihe interp l2 (by omega))
    · intro interp l h
      rw [eval_expression_succ]
      obtain ⟨x, hx⟩ := ihf interp l (by omega)
      have hle := ((eval_advanced n).1 interp l x hx).remaining_le
      rw [hx]
      exact ihl interp _ _ (by omega)
    · intro interp v l h
      rw [eval_loop_succ]
      apply loop_body_total
      · intro l2 hl2
        obtain ⟨x, hx⟩ := ihf interp l2 (by omega)
        exact ⟨x, hx, (eval_advanced n).1 interp l2 x hx⟩
      · intro v2 l2 hl2
        exact ihl interp v2 l2 (by omega)

/-- `evaluate_factor` returns on every input: its fuel never runs out. -/
theorem evaluate_factor_total (interp : Interpreter) (l : Lexer) :
    ∃ r, evaluate_factor interp l = some r :=
  (eval_total _).1 interp l (Nat.le_refl _)

/-- `evaluate_expression` returns on every input: its fuel never runs out. -/
theorem evaluate_expression_total (interp : Interpreter) (l : Lexer) :
    ∃ r, evaluate_expression interp l = some r :=
  (eval_total _).2.1 interp l (Nat.le_refl _)

/-- Any fuel above the one `evaluate_expression` takes gives the same result. -/
theorem eval_expression_enough (interp : Interpreter) (l : Lexer) (fuel : Nat)
    (h : 2 * remaining l + 2 ≤ fuel) :
    eval_expression fuel interp l = evaluate_expression interp l := by
  obtain ⟨r, hr⟩ := evaluate_expression_total interp l
  rw [hr]
  exact eval_expression_mono h interp l r hr

theorem loop_body_stop (fac : Lexer → EvalResult) (next : Value → Lexer → EvalResult)
    (left : Value) (l : Lexer) (h1 : (lexer_peek_token l).1.type ≠ TOK_PLUS)
    (h2 : is_relational (lexer_peek_token l).1.type = false) :
    loop_body fac next left l = some (left, l) := by
  unfold loop_body
  rw [if_neg h1, h2, lexer_peek_token_snd]
  simp only [Bool.false_eq_true, if_false]

/-- A binary operation `a op b` followed by a token that is no operator of the
expression level: the evaluator returns the combination of the two factors. -/
theorem evaluate_expression_binary (interp : Interpreter) (l l1 l2 : Lexer) (a b : Value)
    (ha : evaluate_factor interp l = some (a, l1))
    (hop : (lexer_peek_token l1).1.type = TOK_PLUS ∨
      is_relational (lexer_peek_token l1).1.type = true)
    (hb : evaluate_factor interp (lexer_next_token l1).2 = some (b, l2))
    (hend : (lexer_peek_token l2).1.type ≠ TOK_PLUS ∧
      is_relational (lexer_peek_token l2).1.type = false) :
    evaluate_expression interp l =
      some (if (lexer_peek_token l1).1.type = TOK_PLUS then apply_plus a b
            else apply_relational (lexer_peek_token l1).1.type a b, l2) := by
  have hadv : Advanced l l1 := evaluate_factor_advanced ha
  have hneof : (lexer_next_token l1).1.type ≠ TOK_EOF := by
    rw [← lexer_peek_token_fst]
    rcases hop with h | h
    · rw [h]; decide
    · intro h0; rw [h0] at h; exact absurd h (by decide)
  have hlt := lexer_next_token_remaining_lt l1 hneof
  have hle := hadv.remaining_le
  obtain ⟨k, hk⟩ : ∃ k, 2 * remaining l = k + 1 := ⟨2 * remaining l - 1, by omega⟩
  have hb2 : eval_factor (k + 1) interp (lexer_next_token l1).2 = some (b, l2) :=
    eval_factor_mono (by omega) interp _ _ hb
  unfold evaluate_expression
  unfold evaluate_factor at ha
  rw [eval_expression_succ, ha]
  simp only
  rw [eval_loop_succ, hk]
  unfold loop_body
  rw [lexer_peek_token_snd]
  simp only [hb2]
  have hstop : ∀ v, eval_loop (k + 1) interp v l2 = some (v, l2) := by
    intro v
    rw [eval_loop_succ, loop_body_stop _ _ _ _ hend.1 hend.2]
  simp only [hstop]
  by_cases hp : (lexer_peek_token l1).1.type = TOK_PLUS
  · simp only [hp, if_true]
  · have hr : is_relational (lexer_peek_token l1).1.type = true := by
      rcases hop with h | h
      · exact absurd h hp
      · exact h
    simp only [hp, hr, if_false, if_true]

/-- C6: when the factor `a` is followed by `+` and the factor `b` (and then by no
further operator), `evaluate_expression` yields the concatenation of the two
texts when both are Text, the Number `a + b` when both are Number, and the left
operand `a` unchanged when the tags differ. -/
theorem plus_coercion (interp : Interpreter) (l l1 l2 : Lexer) (a b : Value)
    (ha : evaluate_factor interp l = some (a, l1))
    (hplus : (lexer_peek_token l1).1.type = TOK_PLUS)
    (hb : evaluate_factor interp (lexer_next_token l1).2 = some (b, l2))
    (hend : (lexer_peek_token l2).1.type ≠ TOK_PLUS ∧
      is_relational (lexer_peek_token l2).1.type = false) :
    ∃ r, evaluate_expression interp l = some (r, l2) ∧
      (∀ sa sb, a.is_string = true → b.is_string = true →
        a.string = some sa → b.string = some sb →
        r = { is_string := true, number := a.number, string := some (sa ++ sb) }) ∧
      (a.is_string = false → b.is_string = false →
        r = { is_string := false, number := a.number + b.number, string := a.string }) ∧
      (a.is_string ≠ b.is_string → r = a) := by
  refine ⟨apply_plus a b, ?_, ?_, ?_, ?_⟩
  · rw [evaluate_expression_binary interp l l1 l2 a b ha (Or.inl hplus) hb hend, if_pos hplus]
  · intro sa sb h1 h2 h3 h4
    unfold apply_plus
    cases a; cases b
    simp only at h1 h2 h3 h4
    subst h1 h2 h3 h4
    rfl
  · intro h1 h2
    unfold apply_plus
    cases a; cases b
    simp only at h1 h2
    subst h1 h2
    rfl
  · intro h1
    unfold apply_plus
    cases a with
    | mk sa na ta =>
      cases b with
      | mk sb nb tb =>
        simp only at h1
        cases sa <;> cases sb <;> first | rfl | exact absurd rfl h1

/-- C6, at the inputs of the specification: `"2"+"3"` is the text `23`, `2+3` is
the number 5, `2+"x"` is the number 2 and `"x"+2` is the text `x`. -/
theorem plus_coercion_witness :
    (evaluate_expression interpreter_init (lexer_init (str "\"2\"+\"3\""))).map Prod.fst =
      some { is_string := true, number := 0, string := some (str "23") } ∧
    (evaluate_expression interpreter_init (lexer_init (str "2+3"))).map Prod.fst =
      some { is_string := false, number := 5, string := none } ∧
    (evaluate_expression interpreter_init (lexer_init (str "2+\"x\""))).map Prod.fst =
      some { is_string := false, number := 2, string := none } ∧
    (evaluate_expression interpreter_init (lexer_init (str "\"x\"+2"))).map Prod.fst =
      some { is_string := true, number := 0, string := some (str "x") } := by
  refine ⟨?_, ?_, ?_, ?_⟩
  · obtain ⟨r, h1, h2, _, _⟩ := plus_coercion interpreter_init
      (lexer_init (str "\"2\"+\"3\""))
      { input := str "\"2\"+\"3\"", position := 3, line := 1, column := 4 }
      { input := str "\"2\"+\"3\"", position := 7, line := 1, column := 8 }
      { is_string := true, number := 0, string := some (str "2") }
      { is_string := true, number := 0, string := some (str "3") }
      (by decide) (by decide) (by decide) (by decide)
    rw [h1, h2 (str "2") (str "3") rfl rfl rfl rfl]
    rfl
  · obtain ⟨r, h1, _, h2, _⟩ := plus_coercion interpreter_init
      (lexer_init (str "2+3"))
      { input := str "2+3", position := 1, line := 1, column := 2 }
      { input := str "2+3", position := 3, line := 1, column := 4 }
      { is_string := false, number := 2, string := none }
      { is_string := false, number := 3, string := none }
      (by decide!) (by decide) (by decide!) (by decide)
    rw [h1, h2 rfl rfl]
    simp only [Option.map_some']
    norm_num
  · obtain ⟨r, h1, _, _, h2⟩ := plus_coercion interpreter_init
      (lexer_init (str "2+\"x\""))
      { input := str "2+\"x\"", position := 1, line := 1, column := 2 }
      { input := str "2+\"x\"", position := 5, line := 1, column := 6 }
      { is_string := false, number := 2, string := none }
      { is_string := true, number := 0, string := some (str "x") }
      (by decide!) (by decide) (by decide) (by decide)
    rw [h1, h2 (by decide)]
    rfl
  · obtain ⟨r, h1, _, _, h2⟩ := plus_coercion interpreter_init
      (lexer_init (str "\"x\"+2"))
      { input := str "\"x\"+2", position := 3, line := 1, column := 4 }
      { input := str "\"x\"+2", position := 5, line := 1, column := 6 }
      { is_string := true, number := 0, string := some (str "x") }
      { is_string := false, number := 2, string := none }
      (by decide) (by decide) (by decide!) (by decide)
    rw [h1, h2 (by decide)]
    rfl

theorem bool_double_ne_zero (b : Bool) : bool_double b ≠ 0 ↔ b = true := by
  cases b <;> simp [bool_double]

theorem apply_relational_is_string (op : TokenType) (a b : Value) :
    (apply_relational op a b).is_string = false := rfl

theorem apply_relational_number (op : TokenType) (a b : Value) :
    (apply_relational op a b).number = -1 ∨ (apply_relational op a b).number = 0 := by
  unfold apply_relational
  by_cases h : relational_res op a b ≠ 0
  · left; simp only [if_pos h]
  · right; simp only [if_neg h]

theorem apply_relational_true_iff (op : TokenType) (a b : Value)
    (hop : is_relational op = true) :
    (apply_relational op a b).number = -1 ↔
      ((a.is_string = true ∧ b.is_string = true ∧
          rel_holds op (strcmp (a.string.getD []) (b.string.getD [])) 0) ∨
       (a.is_string = false ∧ b.is_string = false ∧ rel_holds op a.number b.number)) := by
  obtain ⟨sa, na, ta⟩ := a
  obtain ⟨sb, nb, tb⟩ := b
  cases op <;> first
    | exact absurd hop (by decide)
    | (cases sa <;> cases sb <;>
        simp [apply_relational, relational_res, rel_holds, bool_double_ne_zero])

/-- C7: when the factor `a` is followed by a relational operator and the factor
`b` (and then by no further operator), `evaluate_expression` yields a Number
that is -1 or 0; it is -1 exactly when both operands are Text and `strcmp`
satisfies the operator, or both are Number and the numeric comparison satisfies
the operator, and 0 otherwise (so for every mixed pair). -/
theorem relational_result (interp : Interpreter) (l l1 l2 : Lexer) (a b : Value)
    (ha : evaluate_factor interp l = some (a, l1))
    (hrel : is_relational (lexer_peek_token l1).1.type = true)
    (hb : evaluate_factor interp (lexer_next_token l1).2 = some (b, l2))
    (hend : (lexer_peek_token l2).1.type ≠ TOK_PLUS ∧
      is_relational (lexer_peek_token l2).1.type = false) :
    ∃ r, evaluate_expression interp l = some (r, l2) ∧
      r.is_string = false ∧ (r.number = -1 ∨ r.number = 0) ∧ r.number ≠ 1 ∧
      (r.number = -1 ↔
        ((a.is_string = true ∧ b.is_string = true ∧
            rel_holds (lexer_peek_token l1).1.type
              (strcmp (a.string.getD []) (b.string.getD [])) 0) ∨
         (a.is_string = false ∧ b.is_string = false ∧
            rel_holds (lexer_peek_token l1).1.type a.number b.number))) ∧
      (a.is_string ≠ b.is_string → r.number = 0) := by
  have hnp : (lexer_peek_token l1).1.type ≠ TOK_PLUS := by
    intro h; rw [h] at hrel; exact absurd hrel (by decide)
  refine ⟨apply_relational (lexer_peek_token l1).1.type a b, ?_, rfl, ?_, ?_, ?_, ?_⟩
  · rw [evaluate_expression_binary interp l l1 l2 a b ha (Or.inr hrel) hb hend, if_neg hnp]
  · exact apply_relational_number _ a b
  · rcases apply_relational_number (lexer_peek_token l1).1.type a b with h | h <;>
      rw [h] <;> norm_num
  · exact apply_relational_true_iff _ a b hrel
  · intro hmix
    rcases apply_relational_number (lexer_peek_token l1).1.type a b with h | h
    · rw [apply_relational_true_iff _ a b hrel] at h
      rcases h with ⟨h1, h2, _⟩ | ⟨h1, h2, _⟩
      · exact absurd (h1.trans h2.symm) hmix
      · exact absurd (h1.trans h2.symm) hmix
    · exact h

/-- C7, at the input of the specification: `"A"<"B"` is the Number -1. -/
theorem relational_result_witness :
    ∃ r, evaluate_expression interpreter_init (lexer_init (str "\"A\"<\"B\"")) =
        some (r, { input := str "\"A\"<\"B\"", position := 7, line := 1, column := 8 }) ∧
      r.is_string = false ∧ r.number = -1 := by
  obtain ⟨r, h1, h2, _, _, h3, _⟩ := relational_result interpreter_init
    (lexer_init (str "\"A\"<\"B\""))
    { input := str "\"A\"<\"B\"", position := 3, line := 1, column := 4 }
    { input := str "\"A\"<\"B\"", position := 7, line := 1, column := 8 }
    { is_string := true, number := 0, string := some (str "A") }
    { is_string := true, number := 0, string := some (str "B") }
    (by decide) (by decide) (by decide) (by decide)
  refine ⟨r, h1, h2, h3.mpr (Or.inl ⟨rfl, rfl, ?_⟩)⟩
  have e : (lexer_peek_token
      { input := str "\"A\"<\"B\"", position := 3, line := 1, column := 4 }).1.type
      = TOK_LESS := by decide
  rw [e]
  show strcmp (str "A") (str "B") < 0
  decide

theorem execute_tokens_succ (fuel : Nat) (interp : Interpreter) (l : Lexer) :
    execute_tokens (fuel + 1) interp l =
      exec_statement (fun i l => execute_tokens fuel i l) interp
        (lexer_next_token l).1 (lexer_next_token l).2 := by
  rw [execute_tokens]

theorem exec_statement_eof (next : Interpreter → Lexer → ExecResult) (interp : Interpreter)
    (token : Token) (l : Lexer) (h : token.type = TOK_EOF) :
    exec_statement next interp token l = some interp := by
  unfold exec_statement
  rw [h]

theorem exec_statement_goto (next : Interpreter → Lexer → ExecResult) (interp : Interpreter)
    (token : Token) (l : Lexer) (h : token.type = TOK_GOTO) :
    exec_statement next interp token l = exec_goto next interp l := by
  unfold exec_statement
  rw [h]

theorem exec_statement_if (next : Interpreter → Lexer → ExecResult) (interp : Interpreter)
    (token : Token) (l : Lexer) (h : token.type = TOK_IF) :
    exec_statement next interp token l = exec_if next interp l := by
  unfold exec_statement
  rw [h]

theorem find_line_absent (p : List ProgramLine) (n : Int)
    (h : ∀ x ∈ p, x.line_number ≠ n) : find_line p n = [] := by
  induction p with
  | nil => rfl
  | cons a t ih =>
    simp only [find_line]
    rw [if_neg (h a (List.mem_cons_self _ _))]
    split
    · rfl
    · exact ih (fun x hx => h x (List.mem_cons_of_mem _ hx))

theorem line_length_pos (line : CStr)
    (h : (lexer_next_token (lexer_init line)).1.type ≠ TOK_EOF) : 0 < line.length := by
  have := lexer_next_token_remaining_lt (lexer_init line) h
  have e : remaining (lexer_init line) = line.length := by
    simp [remaining, lexer_init]
  omega

theorem run_body_error (interp i1 : Interpreter) (hbrk : interp.break_requested = false)
    (hexec : interpreter_execute_line interp (text_at interp.current_line) = some i1)
    (herr : i1.error_occurred = true) :
    run_body interp = some
      ({ i1 with
          out := i1.out ++ (str "ERROR IN LINE ").map OutItem.chr ++
            [OutItem.fmt_d (line_number_at i1.current_line), OutItem.chr 10],
          running := false, error_occurred := false }, true) := by
  unfold run_body
  rw [hbrk, hexec]
  simp only [Bool.false_eq_true, if_false]
  unfold run_after_line
  rw [if_pos herr]

/-- C5: a line made of `GOTO` and an expression whose Number value is the number
of no stored line sets the error signal and leaves the Run Cursor (and all else
but the error stream) unchanged; a pass of the loop of `interpreter_run` over
that line ends in the `break` of the error branch, so the loop returns at once,
for every fuel, with `running = false` and no further line executed. -/
theorem goto_absent_line (interp : Interpreter) (line : CStr) (v : Value) (l1 : Lexer)
    (hgoto : (lexer_next_token (lexer_init line)).1.type = TOK_GOTO)
    (hv : evaluate_expression interp (lexer_next_token (lexer_init line)).2 = some (v, l1))
    (hnum : v.is_string = false)
    (habs : ∀ p ∈ interp.program, p.line_number ≠ c_trunc v.number)
    (heof : (lexer_next_token l1).1.type = TOK_EOF) :
    interpreter_execute_line interp line =
        some { error interp (str "LINE NOT FOUND") with error_occurred := true } ∧
      (∀ i1, interpreter_execute_line interp line = some i1 →
        i1.error_occurred = true ∧ i1.current_line = interp.current_line) ∧
      (interp.running = true → interp.current_line ≠ [] →
        interp.break_requested = false → text_at interp.current_line = line →
        ∀ fuel, ∃ i2, run_body interp = some (i2, true) ∧
          run_loop (fuel + 1) interp = some i2 ∧ i2.running = false ∧
          i2.current_line = interp.current_line) := by
  have hlen := line_length_pos line (by rw [hgoto]; decide)
  obtain ⟨k, hk⟩ : ∃ k, line.length = k + 1 := ⟨line.length - 1, by omega⟩
  have hfind : program_find_line interp (c_trunc v.number) = [] :=
    find_line_absent _ _ habs
  have hexec : interpreter_execute_line interp line =
      some { error interp (str "LINE NOT FOUND") with error_occurred := true } := by
    unfold interpreter_execute_line
    rw [execute_tokens_succ, exec_statement_goto _ _ _ _ hgoto]
    unfold exec_goto
    rw [hv]
    simp only [hnum, hfind, Bool.not_false, ne_eq, not_true_eq_false, if_true, if_false]
    rw [hk, execute_tokens_succ, exec_statement_eof _ _ _ _ heof]
  refine ⟨hexec, ?_, ?_⟩
  · intro i1 h1
    rw [hexec] at h1
    cases h1
    exact ⟨rfl, rfl⟩
  · intro hrun hcur hbrk htext fuel
    have hbody := run_body_error interp _ hbrk (by rw [htext]; exact hexec) rfl
    exact ⟨_, hbody, by rw [run_loop, if_pos ⟨hrun, hcur⟩, hbody], rfl, rfl⟩

theorem keyword_lookup_ne_eof (u : CStr) (tbl : List (CStr × TokenType))
    (h : ∀ p ∈ tbl, p.2 ≠ TOK_EOF) : keyword_lookup u tbl ≠ TOK_EOF := by
  induction tbl with
  | nil => simp [keyword_lookup]
  | cons p t ih =>
    obtain ⟨k, ty⟩ := p
    simp only [keyword_lookup]
    split
    · exact h (k, ty) (List.mem_cons_self _ _)
    · exact ih (fun q hq => h q (List.mem_cons_of_mem _ hq))

theorem keywords_ne_eof : ∀ p ∈ keywords, p.2 ≠ TOK_EOF := by decide

theorem single_char_token_ne_eof (c line col : Nat) (l : Lexer) :
    (single_char_token c line col l).1.type ≠ TOK_EOF := by
  unfold single_char_token
  split
  all_goals first
    | (simp only [make_token]; decide)
    | (split
       · simp only [make_token]; decide
       · first
         | (simp only [make_token]; decide)
         | (split
            · simp only [make_token]; decide
            · simp only [make_token]; decide))

/-- The end-of-input token is returned exactly at a NUL byte. -/
theorem token_at_type_eof_iff (l : Lexer) :
    (token_at l).1.type = TOK_EOF ↔ peek_char l = 0 := by
  constructor
  · intro h
    by_contra hp
    unfold token_at at h
    rw [if_neg hp] at h
    split_ifs at h
    · exact absurd h (by simp only [make_token]; decide)
    · exact absurd h (by simp only [read_number, make_token]; decide)
    · exact absurd h (by simp only [read_string, make_token]; decide)
    · exact absurd h (keyword_lookup_ne_eof _ _ keywords_ne_eof)
    · exact absurd h (single_char_token_ne_eof _ _ _ _)
  · intro h
    exact (token_at_eof l h).1

/-- After the end-of-input token the lexer stays where it is and returns the
end-of-input token again. -/
theorem lexer_next_token_eof_stable (l : Lexer) (h : (lexer_next_token l).1.type = TOK_EOF) :
    (lexer_next_token (lexer_next_token l).2).1.type = TOK_EOF := by
  unfold lexer_next_token at h
  have hp := (token_at_type_eof_iff _).mp h
  have h2 : (lexer_next_token l).2 = skip_whitespace l := by
    unfold lexer_next_token
    exact (token_at_eof _ hp).2
  rw [h2]
  have h3 : skip_whitespace (skip_whitespace l) = skip_whitespace l := by
    have h4 : (fun c => c == 32 || c == 9) (peek_char (skip_whitespace l)) = false := by
      rw [hp]; rfl
    exact advance_while_of_not _ _ _ h4
  unfold lexer_next_token
  rw [h3]
  exact (token_at_eof _ hp).1

theorem token_types_succ (n : Nat) (l : Lexer) (h : remaining l ≤ n) :
    token_types (n + 1) l = token_types n l := by
  induction n generalizing l with
  | zero =>
    have heof : (lexer_next_token l).1.type = TOK_EOF := by
      by_contra hne
      have := lexer_next_token_remaining_lt l hne
      omega
    simp only [token_types, heof, if_true]
  | succ n ih =>
    by_cases heof : (lexer_next_token l).1.type = TOK_EOF
    · simp only [token_types, heof, if_true]
    · have hlt := lexer_next_token_remaining_lt l heof
      rw [token_types]
      conv_rhs => rw [token_types]
      rw [if_neg heof, if_neg heof, ih _ (by omega)]

theorem token_types_fuel (n : Nat) (l : Lexer) (h : remaining l ≤ n) :
    token_types n l = token_types (remaining l) l := by
  induction n, h using Nat.le_induction with
  | base => rfl
  | succ n hn ih => rw [token_types_succ n l hn, ih]

/-- When the rest of the line holds no ELSE and no line end, the skip loop of
the IF statement runs to the end of the input. -/
theorem skip_to_else_reaches_eof (n : Nat) (l : Lexer) (h : remaining l ≤ n)
    (helse : TOK_ELSE ∉ rest_tokens l) (hnl : TOK_NEWLINE ∉ rest_tokens l) :
    (lexer_next_token (skip_to_else (n + 1) l)).1.type = TOK_EOF := by
  induction n generalizing l with
  | zero =>
    have hr : remaining l = 0 := by omega
    have heof : (lexer_next_token l).1.type = TOK_EOF := by
      by_contra hne
      have := lexer_next_token_remaining_lt l hne
      omega
    simp only [skip_to_else, heof, true_or, if_true]
    exact lexer_next_token_eof_stable l heof
  | succ n ih =>
    by_cases heof : (lexer_next_token l).1.type = TOK_EOF
    · rw [skip_to_else]
      simp only [heof, true_or, if_true]
      exact lexer_next_token_eof_stable l heof
    · have hlt := lexer_next_token_remaining_lt l heof
      obtain ⟨m, hm⟩ : ∃ m, remaining l = m + 1 := ⟨remaining l - 1, by omega⟩
      have hrest : rest_tokens l =
          (lexer_next_token l).1.type :: rest_tokens (lexer_next_token l).2 := by
        unfold rest_tokens
        rw [hm]
        simp only [token_types, heof, if_false]
        rw [token_types_fuel m _ (by omega)]
      rw [hrest] at helse hnl
      simp only [List.mem_cons, not_or] at helse hnl
      rw [skip_to_else]
      rw [if_neg (by
        intro h0
        rcases h0 with h0 | h0
        · exact heof h0
        · exact hnl.1 h0.symm)]
      rw [if_neg (fun h0 => helse.1 h0.symm)]
      exact ih _ (by omega) helse.2 hnl.2

/-- C4 (as amended): on a line `IF c THEN n <rest>` whose condition the
evaluator reads up to THEN and where THEN is followed by a number literal `n`:
when `c` evaluates to zero and `<rest>` holds no ELSE (and no line end), no
token after THEN is executed and the interpreter, its Run Cursor included, is
left unchanged; when `c` evaluates to a nonzero number and line `n` exists, the
Run Cursor is set to line `n`, nothing else changes and no token of `<rest>` is
executed. -/
theorem if_then_line_number (interp : Interpreter) (line : CStr) (cond : Value) (l1 : Lexer)
    (hif : (lexer_next_token (lexer_init line)).1.type = TOK_IF)
    (hc : evaluate_expression interp (lexer_next_token (lexer_init line)).2 = some (cond, l1))
    (hthen : (lexer_next_token l1).1.type = TOK_THEN)
    (hnum : (lexer_peek_token (lexer_next_token l1).2).1.type = TOK_NUMBER) :
    (cond.number = 0 →
      TOK_ELSE ∉ rest_tokens (lexer_next_token l1).2 →
      TOK_NEWLINE ∉ rest_tokens (lexer_next_token l1).2 →
      interpreter_execute_line interp line = some interp) ∧
    (cond.number ≠ 0 →
      program_find_line interp
        (c_trunc (lexer_peek_token (lexer_next_token l1).2).1.number_value) ≠ [] →
      interpreter_execute_line interp line =
        some { interp with
               current_line := program_find_line interp
                 (c_trunc (lexer_peek_token (lexer_next_token l1).2).1.number_value) }) := by
  have hlen := line_length_pos line (by rw [hif]; decide)
  obtain ⟨k, hk⟩ : ∃ k, line.length = k + 1 := ⟨line.length - 1, by omega⟩
  constructor
  · intro hzero helse hnl
    unfold interpreter_execute_line
    rw [execute_tokens_succ, exec_statement_if _ _ _ _ hif]
    unfold exec_if
    rw [hc]
    simp only [hthen, hzero, ne_eq, not_true_eq_false, if_true, if_false]
    rw [hk, execute_tokens_succ]
    exact exec_statement_eof _ _ _ _
      (skip_to_else_reaches_eof _ _ (Nat.le_refl _) helse hnl)
  · intro hnz hfind
    unfold interpreter_execute_line
    rw [execute_tokens_succ, exec_statement_if _ _ _ _ hif]
    unfold exec_if
    rw [hc]
    simp only [hthen, if_true]
    rw [if_pos hnz]
    unfold exec_then
    rw [if_pos hnum, if_pos hfind]

/-- The skip loop of the IF statement leaves by its tests: with fuel for the
rest of the line it stops right after an end-of-input, line-end or ELSE token. -/
theorem skip_to_else_exit (n : Nat) (l : Lexer) (h : remaining l ≤ n) :
    ∃ l0, skip_to_else (n + 1) l = (lexer_next_token l0).2 ∧
      ((lexer_next_token l0).1.type = TOK_EOF ∨
        (lexer_next_token l0).1.type = TOK_NEWLINE ∨
        (lexer_next_token l0).1.type = TOK_ELSE) := by
  induction n generalizing l with
  | zero =>
    have heof : (lexer_next_token l).1.type = TOK_EOF := by
      by_contra hne
      have := lexer_next_token_remaining_lt l hne
      omega
    exact ⟨l, by simp only [skip_to_else, heof, true_or, if_true], Or.inl heof⟩
  | succ n ih =>
    rw [skip_to_else]
    by_cases h1 : (lexer_next_token l).1.type = TOK_EOF ∨
        (lexer_next_token l).1.type = TOK_NEWLINE
    · rw [if_pos h1]
      rcases h1 with h1 | h1
      · exact ⟨l, rfl, Or.inl h1⟩
      · exact ⟨l, rfl, Or.inr (Or.inl h1)⟩
    · rw [if_neg h1]
      by_cases h2 : (lexer_next_token l).1.type = TOK_ELSE
      · rw [if_pos h2]
        exact ⟨l, rfl, Or.inr (Or.inr h2)⟩
      · rw [if_neg h2]
        have hlt := lexer_next_token_remaining_lt l (fun h0 => h1 (Or.inl h0))
        exact ih _ (by omega)

theorem find_line_suffix (p : List ProgramLine) (n : Int) : find_line p n <:+ p := by
  induction p with
  | nil => exact List.suffix_refl _
  | cons a t ih =>
    simp only [find_line]
    split
    · exact List.suffix_refl _
    · split
      · exact List.nil_suffix
      · exact ih.trans (List.suffix_cons a t)

theorem find_line_number_at (p : List ProgramLine) (n : Int) (h : find_line p n ≠ []) :
    line_number_at (find_line p n) = n := by
  cases hx : find_line p n with
  | nil => exact absurd hx h
  | cons x t =>
    have := find_line_number n x (by rw [hx]; rfl)
    simpa [line_number_at] using this

theorem suffix_eq_of_tail_eq {p s1 s2 : List ProgramLine} (h1 : s1 <:+ p) (h2 : s2 <:+ p)
    (hn1 : s1 ≠ []) (hn2 : s2 ≠ []) (ht : s1.tail = s2.tail) : s1 = s2 := by
  have hlen : s1.length = s2.length := by
    have e1 : s1.length = s1.tail.length + 1 := by
      cases s1 with
      | nil => exact absurd rfl hn1
      | cons a t => simp
    have e2 : s2.length = s2.tail.length + 1 := by
      cases s2 with
      | nil => exact absurd rfl hn2
      | cons a t => simp
    rw [e1, e2, ht]
  rcases List.suffix_or_suffix_of_suffix h1 h2 with h | h
  · exact h.eq_of_length hlen
  · exact (h.eq_of_length hlen.symm).symm

/-- The jump of a GOTO to an existing line other than the line being executed
is taken: on a line made of `GOTO` and an expression whose Number value is the
number of a stored line different from the current one, the pass of the run
loop ends with the cursor on that line and the loop goes on from there. -/
theorem goto_other_line (interp : Interpreter) (v : Value) (l1 : Lexer)
    (hgoto : (lexer_next_token (lexer_init (text_at interp.current_line))).1.type = TOK_GOTO)
    (hv : evaluate_expression interp
      (lexer_next_token (lexer_init (text_at interp.current_line))).2 = some (v, l1))
    (hnum : v.is_string = false)
    (hfind : program_find_line interp (c_trunc v.number) ≠ [])
    (heof : (lexer_next_token l1).1.type = TOK_EOF)
    (hbrk : interp.break_requested = false) (herr : interp.error_occurred = false)
    (hcur : interp.current_line ≠ []) (hsuf : interp.current_line <:+ interp.program)
    (hother : c_trunc v.number ≠ line_number_at interp.current_line) :
    run_body interp =
        some ({ interp with current_line := program_find_line interp (c_trunc v.number) },
          false) ∧
      line_number_at (program_find_line interp (c_trunc v.number)) = c_trunc v.number := by
  have hlen := line_length_pos (text_at interp.current_line) (by rw [hgoto]; decide)
  obtain ⟨k, hk⟩ : ∃ k, (text_at interp.current_line).length = k + 1 :=
    ⟨(text_at interp.current_line).length - 1, by omega⟩
  have hexec : interpreter_execute_line interp (text_at interp.current_line) =
      some { interp with current_line := program_find_line interp (c_trunc v.number) } := by
    unfold interpreter_execute_line
    rw [execute_tokens_succ, exec_statement_goto _ _ _ _ hgoto]
    unfold exec_goto
    rw [hv]
    simp only [hnum, Bool.not_false, if_true]
    rw [if_pos hfind, hk, execute_tokens_succ, exec_statement_eof _ _ _ _ heof]
  have hnum_at := find_line_number_at interp.program (c_trunc v.number) hfind
  have htail : (program_find_line interp (c_trunc v.number)).tail ≠
      interp.current_line.tail := by
    intro ht
    have := suffix_eq_of_tail_eq (find_line_suffix interp.program (c_trunc v.number))
      hsuf hfind hcur ht
    apply hother
    rw [← hnum_at]
    exact congrArg line_number_at this
  refine ⟨?_, hnum_at⟩
  have hb : ¬ (interp.break_requested = true) := by rw [hbrk]; decide
  have he : ¬ (interp.error_occurred = true) := by rw [herr]; decide
  unfold run_body
  rw [if_neg hb, hexec]
  simp only
  unfold run_after_line
  rw [if_neg he, if_neg (fun h => htail h.2.2)]

/-- C3, at the failing input `10 GOTO 10`, `20 PRINT "X"`: the line executes
its GOTO to the existing line 10 without error, yet the pass of the run loop
over line 10 leaves the cursor on line 20, and the whole run prints `X` and
ends. -/
theorem goto_self_falls_through :
    (interpreter_execute_line (run_start goto_self_program) (str "GOTO 10")).map
        (fun i => (i.current_line.map ProgramLine.line_number, i.error_occurred, i.running))
      = some ([10, 20], false, true) ∧
    (run_body (run_start goto_self_program)).map
        (fun r => (r.1.current_line.map ProgramLine.line_number, r.1.running, r.2))
      = some ([20], true, false) ∧
    (interpreter_run 3 goto_self_program).map (fun i => (i.out, i.running))
      = some ([OutItem.chr 88, OutItem.chr 10], false) := by
  decide

/-- C4, counterexample: on `IF 0 THEN 100 ELSE GOTO 30` the condition evaluates
to zero, THEN is followed by the number literal 100, and executing the line moves
the Run Cursor from line 10 to line 30. -/
theorem if_zero_else_redirects :
    (lexer_next_token (lexer_init (str "IF 0 THEN 100 ELSE GOTO 30"))).1.type = TOK_IF ∧
    (∃ cond l1,
      evaluate_expression (run_start if_else_program)
        (lexer_next_token (lexer_init (str "IF 0 THEN 100 ELSE GOTO 30"))).2 =
        some (cond, l1) ∧
      cond.number = 0 ∧ (lexer_next_token l1).1.type = TOK_THEN ∧
      (lexer_peek_token (lexer_next_token l1).2).1.type = TOK_NUMBER) ∧
    (run_start if_else_program).current_line.map ProgramLine.line_number = [10, 30] ∧
    (interpreter_execute_line (run_start if_else_program)
        (str "IF 0 THEN 100 ELSE GOTO 30")).map
        (fun i => i.current_line.map ProgramLine.line_number) = some [30] := by
  refine ⟨by decide, ⟨{ is_string := false, number := 0, string := none },
    { input := str "IF 0 THEN 100 ELSE GOTO 30", position := 4, line := 1, column := 5 },
    by decide, rfl, by decide, by decide⟩, by decide, by decide⟩

/-- C4 (as amended), at concrete lines: `IF 0 THEN 100 PRINT 1` leaves the
interpreter unchanged, `IF 1 THEN 30 PRINT 1` moves the cursor to the existing
line 30 and prints nothing. -/
theorem if_then_line_number_witness :
    interpreter_execute_line (run_start if_jump_program) (str "IF 0 THEN 100 PRINT 1") =
      some (run_start if_jump_program) ∧
    (interpreter_execute_line (run_start if_jump_program) (str "IF 1 THEN 30 PRINT 1")).map
      (fun i => (i.current_line.map ProgramLine.line_number, i.out)) = some ([30], []) := by
  constructor
  · exact (if_then_line_number (run_start if_jump_program) (str "IF 0 THEN 100 PRINT 1")
      { is_string := false, number := 0, string := none }
      { input := str "IF 0 THEN 100 PRINT 1", position := 4, line := 1, column := 5 }
      (by decide) (by decide) (by decide) (by decide)).1 rfl (by decide) (by decide)
  · rw [(if_then_line_number (run_start if_jump_program) (str "IF 1 THEN 30 PRINT 1")
      { is_string := false, number := 1, string := none }
      { input := str "IF 1 THEN 30 PRINT 1", position := 4, line := 1, column := 5 }
      (by decide) (by decide!) (by decide) (by decide)).2 (by decide) (by decide!)]
    decide!

/-- C5, at the concrete program `10 GOTO 15`, `20 PRINT "X"`: line 10 sets the
error signal with the cursor still on line 10, and the run loop returns after
that pass with `running = false`. -/
theorem goto_absent_line_witness :
    (∃ i1, interpreter_execute_line (run_start goto_absent_program) (str "GOTO 15") = some i1 ∧
      i1.error_occurred = true ∧
      i1.current_line = (run_start goto_absent_program).current_line) ∧
    (∀ fuel, ∃ i2, run_loop (fuel + 1) (run_start goto_absent_program) = some i2 ∧
      i2.running = false) := by
  have h := goto_absent_line (run_start goto_absent_program) (str "GOTO 15")
    { is_string := false, number := 15, string := none }
    { input := str "GOTO 15", position := 7, line := 1, column := 8 }
    (by decide) (by decide!) rfl (by decide!) (by decide)
  refine ⟨⟨_, h.1, h.2.1 _ h.1⟩, ?_⟩
  intro fuel
  obtain ⟨i2, _, h2, h3, _⟩ := h.2.2 (by decide) (by decide) (by decide) (by decide) fuel
  exact ⟨i2, h2, h3⟩

theorem delete_line_eq_filter {p : List ProgramLine} (n : Int) (hp : StrictlyAscending p) :
    delete_line p n = p.filter (fun l => decide (l.line_number ≠ n)) := by
  unfold StrictlyAscending at hp
  induction p with
  | nil => rfl
  | cons h t ih =>
    rw [delete_line_cons]
    rw [List.pairwise_cons] at hp
    split
    · next heq =>
      have hall : ∀ x ∈ t, decide (x.line_number ≠ n) = true := by
        intro x hx
        have := hp.1 x hx
        simp only [ne_eq, decide_not, Bool.not_eq_true', decide_eq_false_iff_not]
        omega
      rw [List.filter_cons_of_neg (by simp [heq]), List.filter_eq_self.mpr hall]
    · next hne =>
      rw [List.filter_cons_of_pos (by simp [hne]), ih hp.2]

theorem delete_line_of_absent {p : List ProgramLine} (n : Int)
    (h : ∀ l ∈ p, l.line_number ≠ n) : delete_line p n = p := by
  induction p with
  | nil => rfl
  | cons a t ih =>
    rw [delete_line_cons, if_neg (h a (List.mem_cons_self _ _)),
      ih (fun l hl => h l (List.mem_cons_of_mem _ hl))]

/-- C16: `program_add_line` with a null or empty text yields exactly the store
of `program_delete_line`; on a strictly ascending store that store holds the
lines with another number, unchanged and in the same order, and no line `n`;
`program_delete_line` on a store without line `n` changes nothing. -/
theorem add_empty_is_delete (interp : Interpreter) (n : Int) :
    program_add_line interp n none = program_delete_line interp n ∧
    program_add_line interp n (some []) = program_delete_line interp n ∧
    (List.Pairwise (fun a b => a.line_number < b.line_number) interp.program →
      (program_delete_line interp n).program =
          interp.program.filter (fun l => decide (l.line_number ≠ n)) ∧
        ∀ l ∈ (program_delete_line interp n).program, l.line_number ≠ n) ∧
    ((∀ l ∈ interp.program, l.line_number ≠ n) → program_delete_line interp n = interp) := by
  refine ⟨rfl, rfl, ?_, ?_⟩
  · intro hp
    exact ⟨delete_line_eq_filter n hp, delete_line_absent n hp⟩
  · intro h
    unfold program_delete_line
    rw [delete_line_of_absent n h]

/-- C16, at a concrete store: deleting line 20 from `10 A`, `20 B`, `30 C` keeps
lines 10 and 30 in order, and deleting the absent line 25 changes nothing. -/
theorem add_empty_is_delete_witness :
    (program_delete_line (load_lines [(10, "A"), (20, "B"), (30, "C")]) 20).program =
      [{ line_number := 10, text := str "A" }, { line_number := 30, text := str "C" }] ∧
    program_delete_line (load_lines [(10, "A"), (20, "B"), (30, "C")]) 25 =
      load_lines [(10, "A"), (20, "B"), (30, "C")] := by
  have h := add_empty_is_delete (load_lines [(10, "A"), (20, "B"), (30, "C")])
  refine ⟨?_, (h 25).2.2.2 (by decide)⟩
  rw [((h 20).2.2.1 (by decide)).1]
  decide

theorem list_scan_out (p : List ProgramLine) (start end_ : Int) (interp : Interpreter) :
    list_scan p start end_ interp =
      { interp with
        out := interp.out ++ (p.filter (in_range start end_)).flatMap list_line } := by
  induction p generalizing interp with
  | nil => simp [list_scan]
  | cons a t ih =>
    simp only [list_scan]
    split
    · next h =>
      rw [ih, List.filter_cons_of_pos (by simpa [in_range] using h)]
      simp only [List.flatMap_cons, List.append_assoc]
    · next h =>
      rw [ih, List.filter_cons_of_neg (by simpa [in_range] using h)]

/-- C17: `interpreter_list` changes nothing but the output, to which it appends
one `<number> <text>` line (closed by a newline) for each stored line with
`number >= start` and (`end == -1` or `number <= end`), in the order of the
store and so, on a strictly ascending store, in ascending line-number order; no
other line is emitted. -/
theorem interpreter_list_output (interp : Interpreter) (start end_ : Int) :
    interpreter_list interp start end_ =
      { interp with
        out := interp.out ++
          (interp.program.filter
            (fun l => decide (l.line_number ≥ start ∧ (end_ = -1 ∨ l.line_number ≤ end_)))).flatMap
            (fun l => OutItem.fmt_d l.line_number :: OutItem.chr 32 ::
              (l.text.map OutItem.chr ++ [OutItem.chr 10])) } ∧
    (List.Pairwise (fun a b => a.line_number < b.line_number) interp.program →
      List.Pairwise (fun a b => a.line_number < b.line_number)
        (interp.program.filter
          (fun l => decide (l.line_number ≥ start ∧ (end_ = -1 ∨ l.line_number ≤ end_))))) := by
  constructor
  · unfold interpreter_list
    rw [list_scan_out]
    rfl
  · intro hp
    exact hp.sublist (List.filter_sublist _)

/-- C17, at a concrete store: listing 15..-1 of `10 A`, `20 B`, `30 C` emits the
lines 20 and 30, in that order. -/
theorem interpreter_list_output_witness :
    (interpreter_list (load_lines [(10, "A"), (20, "B"), (30, "C")]) 15 (-1)).out =
      [OutItem.fmt_d 20, OutItem.chr 32, OutItem.chr 66, OutItem.chr 10,
       OutItem.fmt_d 30, OutItem.chr 32, OutItem.chr 67, OutItem.chr 10] ∧
    List.Pairwise (fun a b => a.line_number < b.line_number)
      ((load_lines [(10, "A"), (20, "B"), (30, "C")]).program.filter
        (fun l => decide (l.line_number ≥ 15 ∧ ((-1 : Int) = -1 ∨ l.line_number ≤ -1)))) := by
  have h := interpreter_list_output (load_lines [(10, "A"), (20, "B"), (30, "C")]) 15 (-1)
  refine ⟨?_, h.2 (by decide)⟩
  rw [h.1]
  decide

/-- A factor followed by a token that is no operator of the expression level is
the whole expression. -/
theorem evaluate_expression_single (interp : Interpreter) (l l1 : Lexer) (a : Value)
    (ha : evaluate_factor interp l = some (a, l1))
    (hend : (lexer_peek_token l1).1.type ≠ TOK_PLUS ∧
      is_relational (lexer_peek_token l1).1.type = false) :
    evaluate_expression interp l = some (a, l1) := by
  unfold evaluate_expression
  unfold evaluate_factor at ha
  rw [eval_expression_succ, ha]
  simp only
  rw [eval_loop_succ, loop_body_stop _ _ _ _ hend.1 hend.2]

theorem factor_body_identifier (expr : Lexer → EvalResult) (interp : Interpreter) (l : Lexer)
    (h : (lexer_next_token l).1.type = TOK_IDENTIFIER) :
    factor_body expr interp l =
      some (factor_identifier interp (lexer_next_token l).1, (lexer_next_token l).2) := by
  unfold factor_body
  rw [h]

theorem evaluate_factor_identifier (interp : Interpreter) (l : Lexer)
    (h : (lexer_next_token l).1.type = TOK_IDENTIFIER) :
    evaluate_factor interp l =
      some (factor_identifier interp (lexer_next_token l).1, (lexer_next_token l).2) := by
  unfold evaluate_factor
  rw [eval_factor_succ, factor_body_identifier _ _ _ h]

theorem factor_identifier_congr (i1 i2 : Interpreter) (token : Token)
    (hv : i1.vars = i2.vars) : factor_identifier i1 token = factor_identifier i2 token := by
  unfold factor_identifier var_get
  rw [hv]

theorem factor_body_congr (e1 e2 : Lexer → EvalResult) (i1 i2 : Interpreter) (l : Lexer)
    (he : ∀ l, e1 l = e2 l) (hv : i1.vars = i2.vars) (hr : i1.ram = i2.ram) :
    factor_body e1 i1 l = factor_body e2 i2 l := by
  unfold factor_body
  rw [factor_identifier_congr i1 i2 _ hv, hr]
  simp only [he]

theorem loop_body_congr (f1 f2 : Lexer → EvalResult) (n1 n2 : Value → Lexer → EvalResult)
    (left : Value) (l : Lexer) (hf : ∀ l, f1 l = f2 l) (hn : ∀ v l, n1 v l = n2 v l) :
    loop_body f1 n1 left l = loop_body f2 n2 left l := by
  unfold loop_body
  simp only [hf, hn]

/-- The evaluator reads the Variable Store and the memory image only. -/
theorem eval_congr (i1 i2 : Interpreter) (hv : i1.vars = i2.vars) (hr : i1.ram = i2.ram)
    (fuel : Nat) :
    (∀ l, eval_factor fuel i1 l = eval_factor fuel i2 l) ∧
    (∀ l, eval_expression fuel i1 l = eval_expression fuel i2 l) ∧
    (∀ v l, eval_loop fuel i1 v l = eval_loop fuel i2 v l) := by
  induction fuel with
  | zero =>
    refine ⟨?_, ?_, ?_⟩
    · intro l; rw [eval_factor, eval_factor]
    · intro l; rw [eval_expression, eval_expression]
    · intro v l; rw [eval_loop, eval_loop]
  | succ n ih =>
    obtain ⟨ihf, ihe, ihl⟩ := ih
    refine ⟨?_, ?_, ?_⟩
    · intro l
      rw [eval_factor_succ, eval_factor_succ]
      exact factor_body_congr _ _ i1 i2 l ihe hv hr
    · intro l
      rw [eval_expression_succ, eval_expression_succ, ihf]
      simp only [ihl]
    · intro v l
      rw [eval_loop_succ, eval_loop_succ]
      exact loop_body_congr _ _ _ _ v l ihf ihl

theorem evaluate_expression_congr (i1 i2 : Interpreter) (l : Lexer)
    (hv : i1.vars = i2.vars) (hr : i1.ram = i2.ram) :
    evaluate_expression i1 l = evaluate_expression i2 l :=
  (eval_congr i1 i2 hv hr _).2.1 l

theorem print_char_eq (interp : Interpreter) (c : Nat) :
    print_char interp c =
      { interp with out := interp.out ++ (print_char interpreter_init c).out } := by
  unfold print_char
  repeat' split
  all_goals rfl

theorem print_string_eq (s : CStr) (interp : Interpreter) :
    s.foldl print_char interp =
      { interp with out := interp.out ++ (s.foldl print_char interpreter_init).out } := by
  induction s using List.reverseRecOn with
  | nil =>
    show interp = { interp with out := interp.out ++ [] }
    rw [List.append_nil]
  | append_singleton t c ih =>
    rw [List.foldl_append, List.foldl_append]
    simp only [List.foldl_cons, List.foldl_nil]
    rw [print_char_eq (List.foldl print_char interp t) c,
      print_char_eq (List.foldl print_char interpreter_init t) c, ih]
    simp only [List.append_assoc]

/-- `print_value` appends the emitted form of the value to the output and
changes nothing else. -/
theorem print_value_eq (interp : Interpreter) (v : Value) :
    print_value interp v = { interp with out := interp.out ++ emitted v } := by
  unfold emitted print_value
  split
  · cases v.string with
    | none => simp [interpreter_init]
    | some s => exact print_string_eq s interp
  · simp [interpreter_init]

theorem print_loop_succ (done : Interpreter → Lexer → ExecResult) (fuel : Nat)
    (interp : Interpreter) (l : Lexer) :
    print_loop done (fuel + 1) interp l =
      print_body (fun i l => print_loop done fuel i l) done interp l := by
  rw [print_loop]

theorem exec_statement_print (next : Interpreter → Lexer → ExecResult) (interp : Interpreter)
    (token : Token) (l : Lexer) (h : token.type = TOK_PRINT ∨ token.type = TOK_QUESTION) :
    exec_statement next interp token l = print_loop next (remaining l + 1) interp l := by
  unfold exec_statement
  rcases h with h | h <;> rw [h]

theorem basic_print_eq (interp : Interpreter) (s : CStr) :
    basic_print interp s = { interp with out := interp.out ++ s.map OutItem.chr } := rfl

theorem print_body_item (next done : Interpreter → Lexer → ExecResult) (interp : Interpreter)
    (l l1 : Lexer) (v : Value)
    (h : ¬ ((lexer_peek_token l).1.type = TOK_EOF ∨
      (lexer_peek_token l).1.type = TOK_NEWLINE ∨ (lexer_peek_token l).1.type = TOK_COLON))
    (he : evaluate_expression interp l = some (v, l1)) :
    print_body next done interp l =
      if (lexer_peek_token l1).1.type = TOK_SEMICOLON then
        next (print_value interp v) (lexer_next_token l1).2
      else if (lexer_peek_token l1).1.type = TOK_COMMA then
        next (basic_print (print_value interp v) [9]) (lexer_next_token l1).2
      else done (basic_print (print_value interp v) [10]) l1 := by
  unfold print_body
  rw [if_neg h, lexer_peek_token_snd, he]
  simp only [lexer_peek_token_snd]

/-- C13: on a line made of PRINT (or `?`), an expression, `;` or `,`, a second
expression and the end of the line, the output grows by the emitted form of the
first value, a tab when the separator is `,` and nothing when it is `;`, the
emitted form of the second value and one newline; nothing else changes, and
`?` gives what PRINT gives. -/
theorem print_two_items (interp : Interpreter) (line : CStr) (v1 v2 : Value) (l1 l2 : Lexer)
    (hprint : (lexer_next_token (lexer_init line)).1.type = TOK_PRINT ∨
      (lexer_next_token (lexer_init line)).1.type = TOK_QUESTION)
    (h1 : ¬ ((lexer_peek_token (lexer_next_token (lexer_init line)).2).1.type = TOK_EOF ∨
      (lexer_peek_token (lexer_next_token (lexer_init line)).2).1.type = TOK_NEWLINE ∨
      (lexer_peek_token (lexer_next_token (lexer_init line)).2).1.type = TOK_COLON))
    (he1 : evaluate_expression interp (lexer_next_token (lexer_init line)).2 = some (v1, l1))
    (hsep : (lexer_peek_token l1).1.type = TOK_SEMICOLON ∨
      (lexer_peek_token l1).1.type = TOK_COMMA)
    (h2 : ¬ ((lexer_peek_token (lexer_next_token l1).2).1.type = TOK_EOF ∨
      (lexer_peek_token (lexer_next_token l1).2).1.type = TOK_NEWLINE ∨
      (lexer_peek_token (lexer_next_token l1).2).1.type = TOK_COLON))
    (he2 : evaluate_expression interp (lexer_next_token l1).2 = some (v2, l2))
    (hend : (lexer_next_token l2).1.type = TOK_EOF) :
    interpreter_execute_line interp line =
      some { interp with
             out := interp.out ++ emitted v1 ++
               (if (lexer_peek_token l1).1.type = TOK_COMMA then [OutItem.chr 9] else []) ++
               emitted v2 ++ [OutItem.chr 10] } := by
  have hlen := line_length_pos line (by
    rcases hprint with h | h <;> rw [h] <;> decide)
  obtain ⟨k, hk⟩ : ∃ k, line.length = k + 1 := ⟨line.length - 1, by omega⟩
  have hrem : 0 < remaining (lexer_next_token (lexer_init line)).2 := by
    have := lexer_next_token_remaining_lt (lexer_next_token (lexer_init line)).2 (by
      rw [← lexer_peek_token_fst]
      exact fun h => h1 (Or.inl h))
    omega
  obtain ⟨m, hm⟩ : ∃ m, remaining (lexer_next_token (lexer_init line)).2 = m + 1 :=
    ⟨remaining (lexer_next_token (lexer_init line)).2 - 1, by omega⟩
  have hpe : (lexer_peek_token l2).1.type = TOK_EOF := by
    rw [lexer_peek_token_fst]; exact hend
  have hdone : ∀ i : Interpreter, execute_tokens (k + 1) i l2 = some i := by
    intro i
    rw [execute_tokens_succ, exec_statement_eof _ _ _ _ hend]
  unfold interpreter_execute_line
  rw [hk, execute_tokens_succ, exec_statement_print _ _ _ _ hprint, hm, print_loop_succ,
    print_body_item _ _ interp _ l1 v1 h1 he1]
  rcases hsep with hs | hs
  · have hc : ¬ (lexer_peek_token l1).1.type = TOK_COMMA := by rw [hs]; decide
    rw [if_pos hs, if_neg hc]
    have he2b : evaluate_expression (print_value interp v1) (lexer_next_token l1).2 =
        some (v2, l2) := by
      rw [evaluate_expression_congr _ interp _ (by rw [print_value_eq]) (by rw [print_value_eq])]
      exact he2
    rw [print_loop_succ, print_body_item _ _ _ _ l2 v2 h2 he2b, hpe]
    simp only [reduceCtorEq, if_false]
    rw [hdone, print_value_eq, print_value_eq, basic_print_eq]
    simp only [List.append_assoc, List.append_nil, List.map_cons, List.map_nil]
  · have hc : ¬ (lexer_peek_token l1).1.type = TOK_SEMICOLON := by rw [hs]; decide
    rw [if_neg hc, if_pos hs, if_pos hs]
    have he2b : evaluate_expression (basic_print (print_value interp v1) [9])
        (lexer_next_token l1).2 = some (v2, l2) := by
      rw [evaluate_expression_congr _ interp _ (by rw [print_value_eq]; rfl)
        (by rw [print_value_eq]; rfl)]
      exact he2
    rw [print_loop_succ, print_body_item _ _ _ _ l2 v2 h2 he2b, hpe]
    simp only [reduceCtorEq, if_false]
    rw [hdone, print_value_eq, print_value_eq, basic_print_eq, basic_print_eq]
    simp only [List.append_assoc, List.map_cons, List.map_nil, List.singleton_append]

/-- C13, at the inputs of the specification: `PRINT "A";"B"` emits `AB` and a
newline, `PRINT "A","B"` emits `A`, a tab, `B` and a newline, and `? "A";"B"`
emits what `PRINT "A";"B"` emits. -/
theorem print_two_items_witness :
    (interpreter_execute_line interpreter_init (str "PRINT \"A\";\"B\"")).map
      (fun i => i.out) = some [OutItem.chr 65, OutItem.chr 66, OutItem.chr 10] ∧
    (interpreter_execute_line interpreter_init (str "PRINT \"A\",\"B\"")).map
      (fun i => i.out) =
      some [OutItem.chr 65, OutItem.chr 9, OutItem.chr 66, OutItem.chr 10] ∧
    (interpreter_execute_line interpreter_init (str "? \"A\";\"B\"")).map
      (fun i => i.out) = some [OutItem.chr 65, OutItem.chr 66, OutItem.chr 10] := by
  refine ⟨?_, ?_, ?_⟩
  · rw [print_two_items interpreter_init (str "PRINT \"A\";\"B\"")
      { is_string := true, number := 0, string := some (str "A") }
      { is_string := true, number := 0, string := some (str "B") }
      { input := str "PRINT \"A\";\"B\"", position := 9, line := 1, column := 10 }
      { input := str "PRINT \"A\";\"B\"", position := 13, line := 1, column := 14 }
      (by decide) (by decide) (by decide) (by decide) (by decide) (by decide) (by decide)]
    decide
  · rw [print_two_items interpreter_init (str "PRINT \"A\",\"B\"")
      { is_string := true, number := 0, string := some (str "A") }
      { is_string := true, number := 0, string := some (str "B") }
      { input := str "PRINT \"A\",\"B\"", position := 9, line := 1, column := 10 }
      { input := str "PRINT \"A\",\"B\"", position := 13, line := 1, column := 14 }
      (by decide) (by decide) (by decide) (by decide) (by decide) (by decide) (by decide)]
    decide
  · rw [print_two_items interpreter_init (str "? \"A\";\"B\"")
      { is_string := true, number := 0, string := some (str "A") }
      { is_string := true, number := 0, string := some (str "B") }
      { input := str "? \"A\";\"B\"", position := 5, line := 1, column := 6 }
      { input := str "? \"A\";\"B\"", position := 9, line := 1, column := 10 }
      (by decide) (by decide) (by decide) (by decide) (by decide) (by decide) (by decide)]
    decide

/-- A line made of PRINT (or `?`), one expression and the end of the line
appends the emitted form of the value and a newline to the output and changes
nothing else. -/
theorem print_one_item (interp : Interpreter) (line : CStr) (v : Value) (l1 : Lexer)
    (hprint : (lexer_next_token (lexer_init line)).1.type = TOK_PRINT ∨
      (lexer_next_token (lexer_init line)).1.type = TOK_QUESTION)
    (h1 : ¬ ((lexer_peek_token (lexer_next_token (lexer_init line)).2).1.type = TOK_EOF ∨
      (lexer_peek_token (lexer_next_token (lexer_init line)).2).1.type = TOK_NEWLINE ∨
      (lexer_peek_token (lexer_next_token (lexer_init line)).2).1.type = TOK_COLON))
    (he1 : evaluate_expression interp (lexer_next_token (lexer_init line)).2 = some (v, l1))
    (hend : (lexer_next_token l1).1.type = TOK_EOF) :
    interpreter_execute_line interp line =
      some { interp with out := interp.out ++ emitted v ++ [OutItem.chr 10] } := by
  have hlen := line_length_pos line (by
    rcases hprint with h | h <;> rw [h] <;> decide)
  obtain ⟨k, hk⟩ : ∃ k, line.length = k + 1 := ⟨line.length - 1, by omega⟩
  have hpe : (lexer_peek_token l1).1.type = TOK_EOF := by
    rw [lexer_peek_token_fst]; exact hend
  unfold interpreter_execute_line
  rw [hk, execute_tokens_succ, exec_statement_print _ _ _ _ hprint, print_loop_succ,
    print_body_item _ _ interp _ l1 v h1 he1, hpe]
  simp only [reduceCtorEq, if_false]
  rw [execute_tokens_succ, exec_statement_eof _ _ _ _ hend, print_value_eq, basic_print_eq]
  simp only [List.append_assoc, List.map_cons, List.map_nil]

/-- C12: for an identifier token whose name has no binding, `evaluate_factor`
yields the Number 0 when the name does not end in `$` and the empty Text when it
does.  The evaluator returns a value and a lexer, the interpreter it reads is no
result of it; accordingly a line `PRINT <name>` built on that read leaves the
Variable Store as it was, with the name still unbound. -/
theorem unbound_identifier_default (interp : Interpreter) (l : Lexer) (name : CStr)
    (hid : (lexer_next_token l).1.type = TOK_IDENTIFIER)
    (htext : (lexer_next_token l).1.text = some name)
    (hnone : var_get interp name = none) :
    (name.getLast? ≠ some 36 →
      evaluate_factor interp l =
        some ({ is_string := false, number := 0, string := none }, (lexer_next_token l).2)) ∧
    (name.getLast? = some 36 →
      evaluate_factor interp l =
        some ({ is_string := true, number := 0, string := some [] },
          (lexer_next_token l).2)) ∧
    (∀ line : CStr, l = (lexer_next_token (lexer_init line)).2 →
      (lexer_next_token (lexer_init line)).1.type = TOK_PRINT →
      (lexer_next_token (lexer_next_token l).2).1.type = TOK_EOF →
      ∃ i1, interpreter_execute_line interp line = some i1 ∧ i1.vars = interp.vars ∧
        var_get i1 name = none) := by
  have hfac := evaluate_factor_identifier interp l hid
  refine ⟨?_, ?_, ?_⟩
  · intro h
    rw [hfac]
    unfold factor_identifier
    rw [htext]
    simp only [Option.getD_some, hnone, Option.isSome_some, true_and]
    rw [if_neg h]
    rfl
  · intro h
    rw [hfac]
    unfold factor_identifier
    rw [htext]
    simp only [Option.getD_some, hnone, Option.isSome_some, true_and]
    rw [if_pos h]
    rfl
  · intro line hl hprint hend
    have hexpr := evaluate_expression_single interp l _ _ hfac (by
      rw [lexer_peek_token_fst, hend]
      exact ⟨by decide, by decide⟩)
    subst hl
    have h1 : ¬ ((lexer_peek_token (lexer_next_token (lexer_init line)).2).1.type = TOK_EOF ∨
        (lexer_peek_token (lexer_next_token (lexer_init line)).2).1.type = TOK_NEWLINE ∨
        (lexer_peek_token (lexer_next_token (lexer_init line)).2).1.type = TOK_COLON) := by
      rw [lexer_peek_token_fst, hid]
      decide
    exact ⟨_, print_one_item interp line _ _ (Or.inl hprint) h1 hexpr hend, rfl, hnone⟩

/-- C12, at concrete inputs: in the initial interpreter `X` is the Number 0 and
`X$` the empty Text; `PRINT X` emits `0` and a newline, `PRINT X$` just the
newline, and neither creates a binding. -/
theorem unbound_identifier_default_witness :
    evaluate_factor interpreter_init (lexer_init (str "X")) =
      some ({ is_string := false, number := 0, string := none },
        (lexer_next_token (lexer_init (str "X"))).2) ∧
    evaluate_factor interpreter_init (lexer_init (str "X$")) =
      some ({ is_string := true, number := 0, string := some [] },
        (lexer_next_token (lexer_init (str "X$"))).2) ∧
    (∃ i1, interpreter_execute_line interpreter_init (str "PRINT X") = some i1 ∧
      i1.vars = interpreter_init.vars ∧ var_get i1 (str "X") = none) ∧
    (interpreter_execute_line interpreter_init (str "PRINT X")).map
      (fun i => (i.out, i.vars)) = some ([OutItem.fmt_g 0, OutItem.chr 10], []) ∧
    (interpreter_execute_line interpreter_init (str "PRINT X$")).map
      (fun i => (i.out, i.vars)) = some ([OutItem.chr 10], []) :=
  ⟨(unbound_identifier_default interpreter_init (lexer_init (str "X")) (str "X")
      (by decide) (by decide) (by decide)).1 (by decide),
   (unbound_identifier_default interpreter_init (lexer_init (str "X$")) (str "X$")
      (by decide) (by decide) (by decide)).2.1 (by decide),
   (unbound_identifier_default interpreter_init
      (lexer_next_token (lexer_init (str "PRINT X"))).2 (str "X")
      (by decide) (by decide) (by decide)).2.2 (str "PRINT X") rfl (by decide) (by decide),
   by decide, by decide⟩

theorem assign_value_eq (interp : Interpreter) (name : CStr) (v : Value) :
    assign_value interp name v = (assign_op name v).run interp := by
  unfold assign_value assign_op
  split <;> rfl

theorem assign_op_name (name : CStr) (v : Value) : (assign_op name v).name = name := by
  unfold assign_op
  split <;> rfl

theorem var_get_after_op_other (interp : Interpreter) (op : VarOp) (q : CStr)
    (hvs : StoreWf interp.vars) (hop : CStr.wf op.name) (hq : CStr.wf q)
    (hne : op.name.map toupper ≠ q.map toupper) :
    var_get (op.run interp) q = var_get interp q := by
  unfold var_get
  rw [var_op_run_vars]
  cases hfind : var_find interp.vars op.name with
  | none =>
    simp only [var_find]
    have e := str_compare_nocase_eq_zero_iff _ _ hop hq
    rw [if_neg (fun h => hne (e.mp h))]
  | some x =>
    simp only
    rw [var_find_update (fun v => { v with type := op.binding.1, value := op.binding.2 })
      (fun _ => rfl) hvs hop hq, if_neg hne]

theorem exec_assign_eq (next : Interpreter → Lexer → ExecResult) (interp : Interpreter)
    (name : CStr) (l l1 : Lexer) (val : Value)
    (heq : (lexer_next_token l).1.type = TOK_EQUAL)
    (he : evaluate_expression interp (lexer_next_token l).2 = some (val, l1)) :
    exec_assign next interp (some name) l = next (assign_value interp name val) l1 := by
  unfold exec_assign assign_value
  simp only [heq, if_true, he]
  split <;> rfl

theorem exec_statement_let (next : Interpreter → Lexer → ExecResult) (interp : Interpreter)
    (token : Token) (l : Lexer) (h : token.type = TOK_LET ∨ token.type = TOK_IDENTIFIER) :
    exec_statement next interp token l = exec_let next interp token l := by
  unfold exec_statement
  rcases h with h | h <;> rw [h]

/-- C14: the line `LET v = e` and the line `v = e`, with the same value of `e`,
end in the same interpreter; in its Variable Store `v` carries the tag and the
payload of that value, whatever the last byte of `v`; a variable whose name
differs from `v` beyond letter case has the entry it had; and an identifier
factor `v` evaluated afterwards yields that value. -/
theorem assignment_let_optional (interp : Interpreter) (line1 line2 name : CStr)
    (val : Value) (l1 l2 : Lexer)
    (hlet : (lexer_next_token (lexer_init line1)).1.type = TOK_LET)
    (hid1 : (lexer_next_token (lexer_next_token (lexer_init line1)).2).1.type =
      TOK_IDENTIFIER)
    (hname1 : (lexer_next_token (lexer_next_token (lexer_init line1)).2).1.text = some name)
    (heq1 : (lexer_next_token (lexer_next_token
      (lexer_next_token (lexer_init line1)).2).2).1.type = TOK_EQUAL)
    (he1 : evaluate_expression interp (lexer_next_token (lexer_next_token
      (lexer_next_token (lexer_init line1)).2).2).2 = some (val, l1))
    (hend1 : (lexer_next_token l1).1.type = TOK_EOF)
    (hid2 : (lexer_next_token (lexer_init line2)).1.type = TOK_IDENTIFIER)
    (hname2 : (lexer_next_token (lexer_init line2)).1.text = some name)
    (heq2 : (lexer_next_token (lexer_next_token (lexer_init line2)).2).1.type = TOK_EQUAL)
    (he2 : evaluate_expression interp
      (lexer_next_token (lexer_next_token (lexer_init line2)).2).2 = some (val, l2))
    (hend2 : (lexer_next_token l2).1.type = TOK_EOF)
    (hstore : ∀ v ∈ interp.vars, CStr.wf v.name) (hwf : CStr.wf name) :
    ∃ s, interpreter_execute_line interp line1 = some s ∧
      interpreter_execute_line interp line2 = some s ∧
      s = (if val.is_string then var_set_string interp name val.string
           else var_set_number interp name val.number) ∧
      (var_get s name).map (fun v => (v.type, v.value)) =
        some (if val.is_string then (VarType.VAR_STRING, VarValue.string val.string)
              else (VarType.VAR_NUMBER, VarValue.number val.number)) ∧
      (∀ q, CStr.wf q → q.map toupper ≠ name.map toupper → var_get s q = var_get interp q) ∧
      (∀ tok : Token, tok.text = some name →
        factor_identifier s tok =
          if val.is_string then { is_string := true, number := 0, string := val.string }
          else { is_string := false, number := val.number, string := none }) := by
  have hlen1 := line_length_pos line1 (by rw [hlet]; decide)
  have hlen2 := line_length_pos line2 (by rw [hid2]; decide)
  obtain ⟨k1, hk1⟩ : ∃ k, line1.length = k + 1 := ⟨line1.length - 1, by omega⟩
  obtain ⟨k2, hk2⟩ : ∃ k, line2.length = k + 1 := ⟨line2.length - 1, by omega⟩
  have hget : (var_get (assign_value interp name val) name).map Variable.binding =
      some (assign_op name val).binding := by
    rw [assign_value_eq, var_get_after_op interp _ name hstore
      (by rw [assign_op_name]; exact hwf) hwf]
    unfold VarOp.expect
    rw [assign_op_name, if_pos rfl]
  refine ⟨assign_value interp name val, ?_, ?_, rfl, ?_, ?_, ?_⟩
  · unfold interpreter_execute_line
    rw [hk1, execute_tokens_succ, exec_statement_let _ _ _ _ (Or.inl hlet)]
    unfold exec_let
    rw [if_neg (by rw [hlet]; decide), if_pos hid1, hname1,
      exec_assign_eq _ interp name _ l1 val heq1 he1, execute_tokens_succ,
      exec_statement_eof _ _ _ _ hend1]
  · unfold interpreter_execute_line
    rw [hk2, execute_tokens_succ, exec_statement_let _ _ _ _ (Or.inr hid2)]
    unfold exec_let
    rw [if_pos hid2, hname2, exec_assign_eq _ interp name _ l2 val heq2 he2,
      execute_tokens_succ, exec_statement_eof _ _ _ _ hend2]
  · have h := hget
    unfold assign_op at h
    split at h
    · next hs => rw [if_pos hs]; exact h
    · next hs => rw [if_neg hs]; exact h
  · intro q hq hne
    rw [assign_value_eq]
    exact var_get_after_op_other interp _ q hstore (by rw [assign_op_name]; exact hwf) hq
      (by rw [assign_op_name]; exact fun h => hne h.symm)
  · intro tok htok
    unfold factor_identifier
    rw [htok]
    simp only [Option.getD_some]
    cases hx : var_get (assign_value interp name val) name with
    | none => rw [hx] at hget; exact Option.noConfusion hget
    | some x =>
      rw [hx] at hget
      have hb : x.binding = (assign_op name val).binding := Option.some.inj hget
      have ht : x.type = (assign_op name val).binding.1 := congrArg Prod.fst hb
      have hv : x.value = (assign_op name val).binding.2 := congrArg Prod.snd hb
      simp only
      unfold assign_op at ht hv
      by_cases hs : val.is_string = true
      · rw [if_pos hs] at ht hv ⊢
        simp only [VarOp.binding] at ht hv
        rw [ht, hv]
        simp only [reduceCtorEq, if_false, if_true, VarValue.as_string, value_init]
      · rw [if_neg hs] at ht hv ⊢
        simp only [VarOp.binding] at ht hv
        rw [ht, hv]
        simp only [if_true, VarValue.as_number, value_init]

/-- C14, at concrete lines: `LET A = "x"` and `A = "x"` end in the same
interpreter, in which `A` (a name without `$`) is bound to the Text `x`. -/
theorem assignment_let_optional_witness :
    ∃ s, interpreter_execute_line interpreter_init (str "LET A = \"x\"") = some s ∧
      interpreter_execute_line interpreter_init (str "A = \"x\"") = some s ∧
      (var_get s (str "A")).map (fun v => (v.type, v.value)) =
        some (VarType.VAR_STRING, VarValue.string (some (str "x"))) := by
  obtain ⟨s, h1, h2, _, h4, _, _⟩ := assignment_let_optional interpreter_init
    (str "LET A = \"x\"") (str "A = \"x\"") (str "A")
    { is_string := true, number := 0, string := some (str "x") }
    { input := str "LET A = \"x\"", position := 11, line := 1, column := 12 }
    { input := str "A = \"x\"", position := 7, line := 1, column := 8 }
    (by decide) (by decide) (by decide) (by decide) (by decide) (by decide)
    (by decide) (by decide) (by decide) (by decide) (by decide)
    (by decide) (by decide)
  exact ⟨s, h1, h2, h4⟩

theorem c_trunc_natCast (n : Nat) : c_trunc (n : ℚ) = (n : Int) := by
  unfold c_trunc
  simp

theorem to_uint8_natCast (n : Nat) : to_uint8 (n : ℚ) = n % 256 := by
  unfold to_uint8
  rw [c_trunc_natCast]
  omega

theorem run_loop_succ (fuel : Nat) (interp : Interpreter) :
    run_loop (fuel + 1) interp =
      if interp.running ∧ interp.current_line ≠ [] then
        match run_body interp with
        | none => none
        | some (i1, true) => some i1
        | some (i1, false) => run_loop fuel i1
      else some interp := rfl

/-- More fuel does not change a result of the run loop. -/
theorem run_loop_mono_succ (fuel : Nat) :
    ∀ (interp r : Interpreter), run_loop fuel interp = some r →
      run_loop (fuel + 1) interp = some r := by
  induction fuel with
  | zero =>
    intro interp r h
    simp [run_loop] at h
  | succ n ih =>
    intro interp r h
    rw [run_loop_succ] at h ⊢
    by_cases hc : interp.running ∧ interp.current_line ≠ []
    · rw [if_pos hc] at h ⊢
      cases hb : run_body interp with
      | none => rw [hb] at h; simp at h
      | some p =>
        obtain ⟨i1, b⟩ := p
        rw [hb] at h
        cases b with
        | true => exact h
        | false => exact ih i1 r h
    · rw [if_neg hc] at h ⊢
      exact h

theorem run_loop_mono (fuel k : Nat) (interp r : Interpreter)
    (h : run_loop fuel interp = some r) : run_loop (fuel + k) interp = some r := by
  induction k with
  | zero => exact h
  | succ n ih => exact run_loop_mono_succ (fuel + n) interp r ih

/-- More fuel does not change a result of `interpreter_run`. -/
theorem interpreter_run_mono (fuel k : Nat) (interp r : Interpreter)
    (h : interpreter_run fuel interp = some r) : interpreter_run (fuel + k) interp = some r := by
  unfold interpreter_run at h ⊢
  by_cases hp : interp.program = []
  · rw [if_pos hp] at h ⊢
    exact h
  · rw [if_neg hp] at h ⊢
    cases hl : run_loop fuel { interp with running := true, current_line := interp.program } with
    | none => rw [hl] at h; simp at h
    | some r0 =>
      rw [hl] at h
      rw [run_loop_mono fuel k _ r0 hl]
      exact h

/-- A pass of the run loop that ends in a `break` leaves `running` cleared. -/
theorem run_body_break (interp i1 : Interpreter) (h : run_body interp = some (i1, true)) :
    i1.running = false := by
  unfold run_body at h
  by_cases hb : interp.break_requested = true
  · rw [if_pos hb] at h
    have h1 : _ = i1 := congrArg Prod.fst (Option.some.inj h)
    rw [← h1]
  · rw [if_neg hb] at h
    cases he : interpreter_execute_line interp (text_at interp.current_line) with
    | none => rw [he] at h; simp at h
    | some i2 =>
      rw [he] at h
      have h0 := Option.some.inj h
      unfold run_after_line at h0
      by_cases herr : i2.error_occurred = true
      · rw [if_pos herr] at h0
        have h1 : _ = i1 := congrArg Prod.fst h0
        rw [← h1]
      · rw [if_neg herr] at h0
        split at h0
        · have h2 := congrArg Prod.snd h0
          simp at h2
        · have h2 := congrArg Prod.snd h0
          simp at h2

/-- When the run loop returns with `running` still set, the cursor is null. -/
theorem run_loop_running_null (fuel : Nat) :
    ∀ (interp r : Interpreter), run_loop fuel interp = some r → r.running = true →
      r.current_line = [] := by
  induction fuel with
  | zero =>
    intro interp r h
    simp [run_loop] at h
  | succ n ih =>
    intro interp r h hr
    rw [run_loop_succ] at h
    by_cases hc : interp.running ∧ interp.current_line ≠ []
    · rw [if_pos hc] at h
      cases hb : run_body interp with
      | none => rw [hb] at h; simp at h
      | some p =>
        obtain ⟨i1, b⟩ := p
        rw [hb] at h
        cases b with
        | true =>
          have h1 : i1 = r := Option.some.inj h
          have h2 := run_body_break interp i1 hb
          rw [h1, hr] at h2
          exact absurd h2 (by decide)
        | false => exact ih i1 r h hr
    · rw [if_neg hc] at h
      have h1 : interp = r := Option.some.inj h
      rw [h1] at hc
      by_contra hne
      exact hc ⟨hr, hne⟩

/-- C18: the freshly initialised interpreter loaded with `10 PRINT "HI"` and
`20 END` holds exactly these two lines, and `interpreter_run` (with any fuel from
three tests of the loop condition on) returns having emitted `HI` and one newline, no error message,
with `running = false` and the error signal not set. -/
theorem hi_program_run :
    hi_program.program =
      [{ line_number := 10, text := str "PRINT \"HI\"" }, { line_number := 20, text := str "END" }] ∧
    hi_program.out = [] ∧ hi_program.err = [] ∧
    ∀ k, ∃ s, interpreter_run (k + 3) hi_program = some s ∧
      s.out = [OutItem.chr 72, OutItem.chr 73, OutItem.chr 10] ∧ s.err = [] ∧
      s.running = false ∧ s.error_occurred = false := by
  refine ⟨by decide, by decide, by decide, ?_⟩
  intro k
  have h : (interpreter_run 3 hi_program).map
      (fun i => (i.out, i.err, i.running, i.error_occurred)) =
      some ([OutItem.chr 72, OutItem.chr 73, OutItem.chr 10], [], false, false) := by
    decide
  cases hr : interpreter_run 3 hi_program with
  | none => rw [hr] at h; simp at h
  | some s =>
    rw [hr] at h
    have h0 := Option.some.inj h
    refine ⟨s, ?_, ?_, ?_, ?_, ?_⟩
    · rw [Nat.add_comm]
      exact interpreter_run_mono 3 k hi_program s hr
    · exact congrArg Prod.fst h0
    · exact congrArg (fun p => p.2.1) h0
    · exact congrArg (fun p => p.2.2.1) h0
    · exact congrArg (fun p => p.2.2.2) h0

theorem exec_statement_end (next : Interpreter → Lexer → ExecResult) (interp : Interpreter)
    (token : Token) (l : Lexer) (h : token.type = TOK_END ∨ token.type = TOK_STOP) :
    exec_statement next interp token l = some { interp with running := false } := by
  unfold exec_statement
  rcases h with h | h <;> rw [h]

/-- After a line that left `running` cleared, the run loop returns at once: the
result is the interpreter after that line, with the error report added when the
error signal is set. -/
theorem run_loop_halted (fuel : Nat) (r i1 : Interpreter) (hrun : r.running = true)
    (hcur : r.current_line ≠ []) (hbrk : r.break_requested = false)
    (hexec : interpreter_execute_line r (text_at r.current_line) = some i1)
    (hstop : i1.running = false) :
    run_loop (fuel + 2) r = some (run_after_line i1 r.current_line.tail).1 ∧
    (run_after_line i1 r.current_line.tail).1.running = false ∧
    (i1.error_occurred = false → run_loop (fuel + 2) r = some i1) := by
  have hbody : run_body r = some (run_after_line i1 r.current_line.tail) := by
    unfold run_body
    rw [if_neg (by rw [hbrk]; decide), hexec]
  have hafter : i1.error_occurred = false → run_after_line i1 r.current_line.tail = (i1, false) := by
    intro he
    unfold run_after_line
    rw [if_neg (by rw [he]; decide), if_neg (by rw [hstop]; simp)]
  have hrunning : (run_after_line i1 r.current_line.tail).1.running = false := by
    by_cases he : i1.error_occurred = true
    · unfold run_after_line
      rw [if_pos he]
    · rw [hafter (by simpa using he)]
      exact hstop
  have hloop : run_loop (fuel + 2) r = some (run_after_line i1 r.current_line.tail).1 := by
    rw [run_loop_succ, if_pos ⟨hrun, hcur⟩, hbody]
    by_cases he : i1.error_occurred = true
    · unfold run_after_line
      rw [if_pos he]
    · rw [hafter (by simpa using he)]
      show run_loop (fuel + 1) i1 = some i1
      rw [run_loop_succ, if_neg (by rw [hstop]; simp)]
  refine ⟨hloop, hrunning, ?_⟩
  intro he
  rw [hloop, hafter he]

/-- C19: when the statement loop, in state `interp`, reads an END or STOP
token, the line ends there with `running` cleared and nothing else changed,
whatever follows on the line; STOP in place of END (on any line, at any
position) gives the same interpreter and output; and a pass of the run loop
over a line that ended so returns from the loop without executing another
line. -/
theorem end_stop_halt (interp : Interpreter) (l : Lexer) (fuel : Nat)
    (h : (lexer_next_token l).1.type = TOK_END ∨ (lexer_next_token l).1.type = TOK_STOP) :
    execute_tokens (fuel + 1) interp l = some { interp with running := false } ∧
    (∀ (l2 : Lexer) (fuel2 : Nat),
      (lexer_next_token l2).1.type = TOK_END ∨ (lexer_next_token l2).1.type = TOK_STOP →
      execute_tokens (fuel2 + 1) interp l2 = execute_tokens (fuel + 1) interp l) ∧
    (∀ (r : Interpreter) (k : Nat), r.running = true → r.current_line ≠ [] →
      r.break_requested = false →
      interpreter_execute_line r (text_at r.current_line) =
        execute_tokens (fuel + 1) interp l →
      run_loop (k + 2) r =
        some (run_after_line { interp with running := false } r.current_line.tail).1 ∧
      (run_after_line { interp with running := false } r.current_line.tail).1.running = false ∧
      (interp.error_occurred = false →
        run_loop (k + 2) r = some { interp with running := false })) := by
  have h1 : ∀ (l2 : Lexer) (fuel2 : Nat),
      (lexer_next_token l2).1.type = TOK_END ∨ (lexer_next_token l2).1.type = TOK_STOP →
      execute_tokens (fuel2 + 1) interp l2 = some { interp with running := false } := by
    intro l2 fuel2 h2
    rw [execute_tokens_succ, exec_statement_end _ _ _ _ h2]
  refine ⟨h1 l fuel h, ?_, ?_⟩
  · intro l2 fuel2 h2
    rw [h1 l2 fuel2 h2, h1 l fuel h]
  · intro r k hrun hcur hbrk hexec
    rw [h1 l fuel h] at hexec
    exact run_loop_halted k r _ hrun hcur hbrk hexec rfl

/-- C19, at concrete lines: `END: PRINT 1` only clears `running`; `STOP: PRINT 1`
does the same; the run of `10 STOP`, `20 PRINT "C"` returns after line 10; and
the runs of `10 PRINT "A": END: PRINT "B"`, `20 PRINT "C"` and of the same
program with STOP for END both print `A` and a newline only. -/
theorem end_stop_halt_witness :
    interpreter_execute_line interpreter_init (str "END: PRINT 1") =
      some { interpreter_init with running := false } ∧
    interpreter_execute_line interpreter_init (str "STOP: PRINT 1") =
      interpreter_execute_line interpreter_init (str "END: PRINT 1") ∧
    (∀ k, run_loop (k + 2) (run_start stop_first_program) =
      some { run_start stop_first_program with running := false }) ∧
    (interpreter_run 3 end_program).map (fun i => (i.out, i.running)) =
      some ([OutItem.chr 65, OutItem.chr 10], false) ∧
    (interpreter_run 3 stop_program).map (fun i => (i.out, i.running)) =
      some ([OutItem.chr 65, OutItem.chr 10], false) := by
  have h := end_stop_halt interpreter_init (lexer_init (str "END: PRINT 1"))
    (str "END: PRINT 1").length (Or.inl (by decide))
  have h2 := end_stop_halt (run_start stop_first_program) (lexer_init (str "STOP"))
    (str "STOP").length (Or.inr (by decide))
  refine ⟨h.1, h.2.1 (lexer_init (str "STOP: PRINT 1")) (str "STOP: PRINT 1").length
    (Or.inr (by decide)), ?_, by decide, by decide⟩
  intro k
  exact (h2.2.2 (run_start stop_first_program) k (by decide) (by decide) (by decide) rfl).2.2
    (by decide)

/-- C20, counterexample: the run of `10 PRINT "HI"`, `20 END` returns with the
Run Cursor on line 20, and the run of `10 GOTO 15`, `20 PRINT "X"`, which halts
on a runtime error, returns with the cursor on line 10; neither is null. -/
theorem run_cursor_left_on_halt :
    hi_program.program ≠ [] ∧
    (interpreter_run 3 hi_program).map
        (fun i => (i.current_line.map ProgramLine.line_number, i.running)) =
      some ([20], false) ∧
    goto_absent_program.program ≠ [] ∧
    (interpreter_run 3 goto_absent_program).map
        (fun i => (i.current_line.map ProgramLine.line_number, i.running)) =
      some ([10, 20], false) := by
  decide

theorem peek_char_rest (l : Lexer) : peek_char l = (rest l).headD 0 := by
  unfold peek_char rest
  by_cases h : l.position < l.input.length
  · rw [List.drop_eq_getElem_cons h]
    simp [List.getD_eq_getElem, h]
  · rw [List.drop_of_length_le (by omega), List.getD_eq_default _ _ (by omega)]
    rfl

theorem rest_next_char {l : Lexer} (h : peek_char l ≠ 0) :
    rest l = peek_char l :: rest (next_char l).2 := by
  have hpos := peek_char_pos h
  have hnp := next_char_position h
  have hin := (next_char_advanced l).1
  unfold rest
  rw [hin, hnp, List.drop_eq_getElem_cons hpos]
  unfold peek_char
  simp [List.getD_eq_getElem, hpos]

theorem rest_length (l : Lexer) : (rest l).length = remaining l := by
  unfold rest remaining
  simp

/-- The scanning loop in terms of the unread input: with fuel for the rest of
the input it consumes the longest run of bytes satisfying the loop condition. -/
theorem advance_while_rest (p : Nat → Bool) (hp : p 0 = false) (fuel : Nat) (l : Lexer)
    (hfuel : remaining l ≤ fuel) :
    (advance_while p fuel l).input = l.input ∧
    (advance_while p fuel l).position = l.position + ((rest l).takeWhile p).length ∧
    rest (advance_while p fuel l) = (rest l).dropWhile p := by
  induction fuel generalizing l with
  | zero =>
    have hr : rest l = [] := List.eq_nil_of_length_eq_zero (by rw [rest_length]; omega)
    simp [advance_while, hr]
  | succ n ih =>
    simp only [advance_while]
    by_cases h : p (peek_char l) = true
    · rw [if_pos h]
      have hne : peek_char l ≠ 0 := by
        intro h0; rw [h0, hp] at h; exact Bool.noConfusion h
      have hpos := peek_char_pos hne
      have hnp := next_char_position hne
      have hin := (next_char_advanced l).1
      have hrest := rest_next_char hne
      have hrem : remaining (next_char l).2 ≤ n := by
        unfold remaining at *
        rw [hin, hnp]
        omega
      obtain ⟨h1, h2, h3⟩ := ih (next_char l).2 hrem
      rw [h1, h2, h3, hin, hnp, hrest, List.takeWhile_cons_of_pos h,
        List.dropWhile_cons_of_pos h]
      refine ⟨rfl, ?_, rfl⟩
      simp only [List.length_cons]
      omega
    · rw [if_neg h]
      have hf : p (peek_char l) = false := by simpa using h
      rw [peek_char_rest] at hf
      cases hr : rest l with
      | nil => simp
      | cons c t =>
        rw [hr] at hf
        simp only [List.headD_cons] at hf
        rw [List.takeWhile_cons_of_neg (by simp [hf]), List.dropWhile_cons_of_neg (by simp [hf])]
        simp

theorem take_length_takeWhile (p : Nat → Bool) (xs : List Nat) :
    xs.take (xs.takeWhile p).length = xs.takeWhile p := by
  induction xs with
  | nil => rfl
  | cons a t ih =>
    by_cases h : p a = true
    · rw [List.takeWhile_cons_of_pos h]
      simp [ih]
    · rw [List.takeWhile_cons_of_neg h]
      rfl

/-- The text copied by `strncpy` after a scanning loop that started at the
position `start` of `l`: the run of bytes the loop consumed. -/
theorem slice_advance_while (p : Nat → Bool) (hp : p 0 = false) (l : Lexer) :
    slice (advance_while p (remaining l) l) l.position = (rest l).takeWhile p := by
  obtain ⟨h1, h2, _⟩ := advance_while_rest p hp (remaining l) l (le_refl _)
  unfold slice
  rw [h1, h2, Nat.add_sub_cancel_left]
  exact take_length_takeWhile p (rest l)

theorem skip_whitespace_of_not (l : Lexer) (h : peek_char l ≠ 32 ∧ peek_char l ≠ 9) :
    skip_whitespace l = l := by
  unfold skip_whitespace
  apply advance_while_of_not
  simp [h.1, h.2]

theorem token_at_string (l : Lexer) (h : peek_char l = 34) : token_at l = read_string l := by
  unfold token_at
  rw [h, if_neg (by decide), if_neg (by decide), if_neg (by decide), if_pos rfl]

/-- C25: when the next byte is `"`, `lexer_next_token` returns a STRING token
whose text is the run of bytes after the opening quote up to, and excluding, the
first `"`, newline or end of input (a NUL byte or the end of the list); a closing
quote is consumed, a newline is left in the unread input. -/
theorem string_token (l : Lexer) (h : peek_char l = 34) :
    (lexer_next_token l).1.type = TOK_STRING ∧
    (lexer_next_token l).1.text =
      some ((rest l).tail.takeWhile (fun c => c != 34 && c != 0 && c != 10)) ∧
    (lexer_next_token l).2.input = l.input ∧
    rest (lexer_next_token l).2 =
      (if ((rest l).tail.dropWhile (fun c => c != 34 && c != 0 && c != 10)).head? = some 34
       then ((rest l).tail.dropWhile (fun c => c != 34 && c != 0 && c != 10)).tail
       else (rest l).tail.dropWhile (fun c => c != 34 && c != 0 && c != 10)) := by
  have hskip : skip_whitespace l = l := skip_whitespace_of_not l (by rw [h]; decide)
  have hne : peek_char l ≠ 0 := by rw [h]; decide
  have hrest := rest_next_char hne
  have htail : (rest l).tail = rest (next_char l).2 := by rw [hrest]; rfl
  have hin := (next_char_advanced l).1
  obtain ⟨h1, h2, h3⟩ := advance_while_rest (fun c => c != 34 && c != 0 && c != 10) (by decide)
    (remaining (next_char l).2) (next_char l).2 (le_refl _)
  have hslice := slice_advance_while (fun c => c != 34 && c != 0 && c != 10) (by decide)
    (next_char l).2
  unfold lexer_next_token
  rw [hskip, token_at_string l h]
  unfold read_string
  simp only [make_token]
  rw [htail]
  refine ⟨trivial, by rw [hslice], ?_, ?_⟩
  · split
    · rw [(next_char_advanced _).1, h1, hin]
    · rw [h1, hin]
  · by_cases hq : peek_char (advance_while (fun c => c != 34 && c != 0 && c != 10)
        (remaining (next_char l).2) (next_char l).2) = 34
    · rw [if_pos hq]
      have hr2 := rest_next_char (by rw [hq]; decide : peek_char (advance_while
        (fun c => c != 34 && c != 0 && c != 10) (remaining (next_char l).2)
        (next_char l).2) ≠ 0)
      rw [← h3, hr2, hq]
      simp
    · rw [if_neg hq]
      rw [peek_char_rest, h3] at hq
      rw [h3, if_neg]
      intro hh
      apply hq
      cases hd : (rest (next_char l).2).dropWhile (fun c => c != 34 && c != 0 && c != 10) with
      | nil => rw [hd] at hh; simp at hh
      | cons a t => rw [hd] at hh; simpa using hh

/-- C25, at concrete inputs: the unterminated `"abc` yields the text `abc`; in
`"ab"cd` the closing quote is consumed; in `"ab` followed by a newline the
newline stays unread. -/
theorem string_token_witness :
    (lexer_next_token (lexer_init (str "\"abc"))).1.type = TOK_STRING ∧
    (lexer_next_token (lexer_init (str "\"abc"))).1.text = some (str "abc") ∧
    (lexer_next_token (lexer_init (str "\"ab\"cd"))).1.text = some (str "ab") ∧
    rest (lexer_next_token (lexer_init (str "\"ab\"cd"))).2 = str "cd" ∧
    (lexer_next_token (lexer_init (str "\"ab\ncd"))).1.text = some (str "ab") ∧
    rest (lexer_next_token (lexer_init (str "\"ab\ncd"))).2 = str "\ncd" := by
  have h1 := string_token (lexer_init (str "\"abc")) (by decide)
  have h2 := string_token (lexer_init (str "\"ab\"cd")) (by decide)
  have h3 := string_token (lexer_init (str "\"ab\ncd")) (by decide)
  refine ⟨h1.1, ?_, ?_, ?_, ?_, ?_⟩
  · rw [h1.2.1]; decide
  · rw [h2.2.1]; decide
  · rw [h2.2.2.2]; decide
  · rw [h3.2.1]; decide
  · rw [h3.2.2.2]; decide

theorem single_char_token_ne_identifier (c line col : Nat) (l : Lexer) :
    (single_char_token c line col l).1.type ≠ TOK_IDENTIFIER := by
  unfold single_char_token
  split
  all_goals first
    | (simp only [make_token]; decide)
    | (split
       · simp only [make_token]; decide
       · first
         | (simp only [make_token]; decide)
         | (split
            · simp only [make_token]; decide
            · simp only [make_token]; decide))

/-- An identifier token comes from `read_identifier`, entered on a letter. -/
theorem token_at_identifier (l : Lexer) (h : (token_at l).1.type = TOK_IDENTIFIER) :
    isalpha (peek_char l) = true ∧ token_at l = read_identifier l := by
  unfold token_at at h ⊢
  split at h
  · exact absurd h (by simp only [make_token]; decide)
  · split at h
    · exact absurd h (by simp only [make_token]; decide)
    · split at h
      · exact absurd h (by unfold read_number; simp only [make_token]; decide)
      · split at h
        · exact absurd h (by unfold read_string; simp only [make_token]; decide)
        · split at h
          · next h1 h2 h3 h4 h5 =>
            refine ⟨h5, ?_⟩
            rw [if_neg h1, if_neg h2, if_neg h3, if_neg h4, if_pos h5]
          · exact absurd h (single_char_token_ne_identifier _ _ _ _)

/-- C26, counterexample: `A$B$` is read as one IDENTIFIER token whose text holds
two `$`, the first of them inside the name. -/
theorem identifier_dollar_inside :
    (lexer_next_token (lexer_init (str "A$B$ = 1"))).1.type = TOK_IDENTIFIER ∧
    (lexer_next_token (lexer_init (str "A$B$ = 1"))).1.text = some (str "A$B$") := by
  decide

/-- C26 (as amended): the text of every IDENTIFIER token returned by
`lexer_next_token` is the longest run of letters, digits, underscores and `$`
at the first non-blank byte, and it starts with a letter; `$` may occur any
number of times, at any place after the first letter. -/
theorem identifier_token_shape (l : Lexer)
    (h : (lexer_next_token l).1.type = TOK_IDENTIFIER) :
    ∃ text, (lexer_next_token l).1.text = some text ∧
      text = (rest (skip_whitespace l)).takeWhile ident_char ∧
      isalpha (text.headD 0) = true ∧
      ∀ c ∈ text, isalpha c = true ∨ isdigit c = true ∨ c = 95 ∨ c = 36 := by
  unfold lexer_next_token at h ⊢
  obtain ⟨halpha, hdisp⟩ := token_at_identifier _ h
  have hslice := slice_advance_while ident_char ident_char_zero (skip_whitespace l)
  have hne : peek_char (skip_whitespace l) ≠ 0 := by
    intro h0; rw [h0] at halpha; exact absurd halpha (by decide)
  have hrest := rest_next_char hne
  have hid : ident_char (peek_char (skip_whitespace l)) = true := by
    unfold ident_char isalnum
    rw [halpha]
    rfl
  refine ⟨(rest (skip_whitespace l)).takeWhile ident_char, ?_, rfl, ?_, ?_⟩
  · rw [hdisp]
    unfold read_identifier
    simp only [make_token]
    rw [hslice]
  · rw [hrest, List.takeWhile_cons_of_pos hid]
    exact halpha
  · intro c hc
    have h1 := List.mem_takeWhile_imp hc
    unfold ident_char isalnum at h1
    simp only [Bool.or_eq_true, beq_iff_eq] at h1
    tauto

/-- C26 (as amended), at concrete inputs: `  Total_1$ = 5` starts with the
identifier `Total_1$`, and `A$B$ = 1` with the identifier `A$B$`. -/
theorem identifier_token_shape_witness :
    (∃ text, (lexer_next_token (lexer_init (str "  Total_1$ = 5"))).1.text = some text ∧
      text = str "Total_1$" ∧ isalpha (text.headD 0) = true) ∧
    (∃ text, (lexer_next_token (lexer_init (str "A$B$ = 1"))).1.text = some text ∧
      text = str "A$B$" ∧ isalpha (text.headD 0) = true) := by
  obtain ⟨t1, h1, h2, h3, _⟩ :=
    identifier_token_shape (lexer_init (str "  Total_1$ = 5")) (by decide)
  obtain ⟨t2, h4, h5, h6, _⟩ :=
    identifier_token_shape (lexer_init (str "A$B$ = 1")) (by decide)
  refine ⟨⟨t1, h1, ?_, h3⟩, ⟨t2, h4, ?_, h6⟩⟩
  · rw [h2]; decide
  · rw [h5]; decide

theorem Consumed.nil (l : Lexer) : Consumed l l [] := ⟨rfl, rfl, rfl⟩

theorem Consumed.append {l1 l2 l3 : Lexer} {a b : CStr} (h1 : Consumed l1 l2 a)
    (h2 : Consumed l2 l3 b) : Consumed l1 l3 (a ++ b) := by
  obtain ⟨a1, a2, a3⟩ := h1
  obtain ⟨b1, b2, b3⟩ := h2
  refine ⟨by rw [b1, a1], ?_, by rw [a3, b3, List.append_assoc]⟩
  rw [b2, a2, List.length_append]
  omega

theorem consumed_next_char {l : Lexer} (h : peek_char l ≠ 0) :
    Consumed l (next_char l).2 [peek_char l] :=
  ⟨(next_char_advanced l).1, next_char_position h, rest_next_char h⟩

theorem consumed_advance_while (p : Nat → Bool) (hp : p 0 = false) (l : Lexer) :
    Consumed l (advance_while p (remaining l) l) ((rest l).takeWhile p) ∧
    p (peek_char (advance_while p (remaining l) l)) = false := by
  obtain ⟨h1, h2, h3⟩ := advance_while_rest p hp (remaining l) l (le_refl _)
  exact ⟨⟨h1, h2, by rw [h3, List.takeWhile_append_dropWhile]⟩,
    advance_while_exit p hp _ l (le_refl _)⟩

theorem slice_consumed {l1 l2 : Lexer} {cs : CStr} (h : Consumed l1 l2 cs) :
    slice l2 l1.position = cs := by
  obtain ⟨h1, h2, h3⟩ := h
  unfold slice
  unfold rest at h3
  rw [h1, h2, Nat.add_sub_cancel_left, h3]
  simp

theorem all_digits_takeWhile (s : CStr) : all_digits (s.takeWhile isdigit) :=
  fun _ hc => List.mem_takeWhile_imp hc

/-- The fraction phase of `read_number`, entered after the integer digits. -/
theorem read_fraction_consumed (l : Lexer) (hd : isdigit (peek_char l) = false) :
    ∃ cs, Consumed l (read_fraction l) cs ∧ FracForm cs ∧
      isdigit (peek_char (read_fraction l)) = false ∧
      (cs = [] → peek_char (read_fraction l) ≠ 46) := by
  unfold read_fraction
  by_cases h : peek_char l = 46
  · rw [if_pos h]
    have hne : peek_char l ≠ 0 := by rw [h]; decide
    obtain ⟨hc, hex⟩ := consumed_advance_while isdigit (by decide) (next_char l).2
    have h1 := (consumed_next_char hne).append hc
    rw [h] at h1
    exact ⟨_, h1, Or.inr ⟨_, rfl, all_digits_takeWhile _⟩, hex, fun h0 => by simp at h0⟩
  · rw [if_neg h]
    exact ⟨[], Consumed.nil l, Or.inl rfl, hd, fun _ => h⟩

/-- The sign of the exponent of `read_number`. -/
theorem read_exponent_sign_consumed (l : Lexer) :
    ∃ sg, Consumed l (read_exponent_sign l) sg ∧ (sg = [] ∨ sg = [43] ∨ sg = [45]) ∧
      (sg = [] → peek_char (read_exponent_sign l) ≠ 43 ∧
        peek_char (read_exponent_sign l) ≠ 45) := by
  unfold read_exponent_sign
  by_cases h : peek_char l = 43 ∨ peek_char l = 45
  · rw [if_pos h]
    have hne : peek_char l ≠ 0 := by rcases h with h | h <;> rw [h] <;> decide
    refine ⟨[peek_char l], consumed_next_char hne, ?_, fun h0 => by simp at h0⟩
    rcases h with h | h <;> rw [h] <;> simp
  · rw [if_neg h]
    exact ⟨[], Consumed.nil l, Or.inl rfl, fun _ => by
      constructor
      · exact fun h1 => h (Or.inl h1)
      · exact fun h1 => h (Or.inr h1)⟩

theorem peek_char_congr {l1 l2 : Lexer} (h1 : l2.input = l1.input)
    (h2 : l2.position = l1.position) : peek_char l2 = peek_char l1 := by
  unfold peek_char
  rw [h1, h2]

/-- The exponent phase of `read_number`: either nothing is read, the next byte
being no exponent marker, or the marker, an optional sign and the longest run
of digits are read. -/
theorem read_exponent_consumed (l : Lexer) :
    ∃ cs, Consumed l (read_exponent l) cs ∧
      ((cs = [] ∧ read_exponent l = l ∧ peek_char l ≠ 69 ∧ peek_char l ≠ 101) ∨
       (∃ m sg d, cs = m :: (sg ++ d) ∧ (m = 69 ∨ m = 101) ∧
          (sg = [] ∨ sg = [43] ∨ sg = [45]) ∧ all_digits d ∧
          isdigit (peek_char (read_exponent l)) = false ∧
          (sg = [] → d = [] → peek_char (read_exponent l) ≠ 43 ∧
            peek_char (read_exponent l) ≠ 45))) := by
  unfold read_exponent
  by_cases h : peek_char l = 69 ∨ peek_char l = 101
  · rw [if_pos h]
    have hne : peek_char l ≠ 0 := by rcases h with h | h <;> rw [h] <;> decide
    obtain ⟨sg, hsg, hform, hstop⟩ := read_exponent_sign_consumed (next_char l).2
    obtain ⟨hc, hex⟩ := consumed_advance_while isdigit (by decide)
      (read_exponent_sign (next_char l).2)
    have h1 := (consumed_next_char hne).append (hsg.append hc)
    refine ⟨_, h1, Or.inr ⟨peek_char l, sg, _, rfl, h, hform, all_digits_takeWhile _, hex, ?_⟩⟩
    intro h0 hd
    have hp := peek_char_congr hc.1 (by rw [hc.2.1, hd]; rfl)
    rw [hp]
    exact hstop h0
  · rw [if_neg h]
    exact ⟨[], Consumed.nil l, Or.inl ⟨rfl, rfl, fun h1 => h (Or.inl h1),
      fun h1 => h (Or.inr h1)⟩⟩

/-- A run of digits leaves the scan in its state, in the three states that
take digits. -/
theorem foldl_num_step_digits (q : NumState)
    (hq : q = NumState.int_part ∨ q = NumState.frac_part ∨ q = NumState.exp_part)
    (d : CStr) (hd : all_digits d) : d.foldl num_step q = q := by
  induction d with
  | nil => rfl
  | cons a t ih =>
    have ha : isdigit a = true := hd a (List.mem_cons_self _ _)
    have hstep : num_step q a = q := by
      rcases hq with h | h | h <;> rw [h] <;> simp [num_step, ha]
    rw [List.foldl_cons, hstep]
    exact ih (fun c hc => hd c (List.mem_cons_of_mem _ hc))

theorem foldl_num_step_start (ip : CStr) (hne : ip ≠ []) (hd : all_digits ip) :
    ip.foldl num_step NumState.start = NumState.int_part := by
  cases ip with
  | nil => exact absurd rfl hne
  | cons a t =>
    have ha : isdigit a = true := hd a (List.mem_cons_self _ _)
    rw [List.foldl_cons]
    have : num_step NumState.start a = NumState.int_part := by simp [num_step, ha]
    rw [this]
    exact foldl_num_step_digits _ (Or.inl rfl) t (fun c hc => hd c (List.mem_cons_of_mem _ hc))

theorem foldl_num_step_frac (fr : CStr) (h : FracForm fr) :
    (fr = [] ∧ fr.foldl num_step NumState.int_part = NumState.int_part) ∨
    (fr ≠ [] ∧ fr.foldl num_step NumState.int_part = NumState.frac_part) := by
  rcases h with h | ⟨d, h, hd⟩
  · left; rw [h]; exact ⟨rfl, rfl⟩
  · right
    rw [h]
    refine ⟨by simp, ?_⟩
    rw [List.foldl_cons]
    have : num_step NumState.int_part 46 = NumState.frac_part := by decide
    rw [this]
    exact foldl_num_step_digits _ (Or.inr (Or.inl rfl)) d hd

/-- The scan of an exponent part, from a state that takes the marker: the
marker alone leaves the scan where a sign is still possible, a sign or a digit
after it leaves it in the exponent digits. -/
theorem foldl_num_step_exp (q : NumState) (hq : q = NumState.int_part ∨ q = NumState.frac_part)
    (m : Nat) (sg d : CStr) (hm : m = 69 ∨ m = 101)
    (hsg : sg = [] ∨ sg = [43] ∨ sg = [45]) (hd : all_digits d) :
    (sg = [] ∧ d = [] ∧ (m :: (sg ++ d)).foldl num_step q = NumState.exp_mark) ∨
    ((m :: (sg ++ d)).foldl num_step q = NumState.exp_part) := by
  have hstep : num_step q m = NumState.exp_mark := by
    rcases hq with h | h <;> rcases hm with h2 | h2 <;> rw [h, h2] <;> decide
  rw [List.foldl_cons, hstep]
  rcases hsg with h | h | h
  · rw [h, List.nil_append]
    cases d with
    | nil => left; exact ⟨rfl, rfl, rfl⟩
    | cons a t =>
      right
      have ha : isdigit a = true := hd a (List.mem_cons_self _ _)
      rw [List.foldl_cons]
      have : num_step NumState.exp_mark a = NumState.exp_part := by simp [num_step, ha]
      rw [this]
      exact foldl_num_step_digits _ (Or.inr (Or.inr rfl)) t
        (fun c hc => hd c (List.mem_cons_of_mem _ hc))
  · right
    rw [h]
    show d.foldl num_step (num_step NumState.exp_mark 43) = NumState.exp_part
    have : num_step NumState.exp_mark 43 = NumState.exp_part := by decide
    rw [this]
    exact foldl_num_step_digits _ (Or.inr (Or.inr rfl)) d hd
  · right
    rw [h]
    show d.foldl num_step (num_step NumState.exp_mark 45) = NumState.exp_part
    have : num_step NumState.exp_mark 45 = NumState.exp_part := by decide
    rw [this]
    exact foldl_num_step_digits _ (Or.inr (Or.inr rfl)) d hd

/-- What `read_number` reads, entered on a digit: integer digits, an optional
fraction and an optional exponent, after which the scan of the text cannot take
the next unread byte. -/
theorem read_number_consumed (l : Lexer) (h : isdigit (peek_char l) = true) :
    ∃ ip fr ex, Consumed l (read_number l).2 (ip ++ fr ++ ex) ∧
      ip ≠ [] ∧ all_digits ip ∧ FracForm fr ∧ ExpForm ex ∧
      num_step ((ip ++ fr ++ ex).foldl num_step NumState.start)
        (peek_char (read_number l).2) = NumState.dead := by
  have hne : peek_char l ≠ 0 := by
    intro h0; rw [h0] at h; exact absurd h (by decide)
  obtain ⟨hc1, hstop1⟩ := consumed_advance_while isdigit (by decide) l
  obtain ⟨fr, hc2, hfr, hstop2, hdot⟩ :=
    read_fraction_consumed (advance_while isdigit (remaining l) l) hstop1
  obtain ⟨ex, hc3, hex⟩ :=
    read_exponent_consumed (read_fraction (advance_while isdigit (remaining l) l))
  have hipne : (rest l).takeWhile isdigit ≠ [] := by
    rw [rest_next_char hne, List.takeWhile_cons_of_pos h]
    simp
  have hip := all_digits_takeWhile (rest l)
  have hstart := foldl_num_step_start _ hipne hip
  have hcons := (hc1.append hc2).append hc3
  have hrn : (read_number l).2 =
      read_exponent (read_fraction (advance_while isdigit (remaining l) l)) := rfl
  rw [hrn]
  rcases hex with ⟨h0, hsame, h69, h101⟩ | ⟨m, sg, d, h0, hm, hsg, hd, hstop3, hsign⟩
  · refine ⟨_, fr, ex, hcons, hipne, hip, hfr, Or.inl h0, ?_⟩
    rw [hsame, h0, List.append_nil, List.foldl_append, hstart]
    rcases foldl_num_step_frac fr hfr with ⟨hnil, hq⟩ | ⟨_, hq⟩
    · rw [hq]
      simp [num_step, hstop2, h69, h101, hdot hnil]
    · rw [hq]
      simp [num_step, hstop2, h69, h101]
  · refine ⟨_, fr, ex, hcons, hipne, hip, hfr, Or.inr ⟨m, sg, d, h0, hm, hsg, hd⟩, ?_⟩
    have hq : fr.foldl num_step NumState.int_part = NumState.int_part ∨
        fr.foldl num_step NumState.int_part = NumState.frac_part := by
      rcases foldl_num_step_frac fr hfr with h | h
      · exact Or.inl h.2
      · exact Or.inr h.2
    rw [List.foldl_append, List.foldl_append, hstart, h0]
    rcases foldl_num_step_exp _ hq m sg d hm hsg hd with ⟨h1, h2, h3⟩ | h3
    · rw [h3]
      have := hsign h1 h2
      simp [num_step, hstop3, this.1, this.2]
    · rw [h3]
      simp [num_step, hstop3]

theorem eval_factor_enough (interp : Interpreter) (l : Lexer) (fuel : Nat)
    (h : 2 * remaining l + 1 ≤ fuel) :
    eval_factor fuel interp l = evaluate_factor interp l := by
  obtain ⟨r, hr⟩ := (eval_total _).1 interp l (le_refl (2 * remaining l + 1))
  unfold evaluate_factor
  rw [hr]
  exact eval_factor_mono h interp l r hr

theorem eval_loop_enough (interp : Interpreter) (v : Value) (l : Lexer) (fuel : Nat)
    (h : 2 * remaining l + 1 ≤ fuel) :
    eval_loop fuel interp v l = evaluate_loop interp v l := by
  obtain ⟨r, hr⟩ := (eval_total _).2.2 interp v l (le_refl (2 * remaining l + 1))
  unfold evaluate_loop
  rw [hr]
  exact eval_loop_mono h interp v l r hr

/-- `evaluate_expression` is one factor followed by the operator loop. -/
theorem evaluate_expression_eq (interp : Interpreter) (l : Lexer) :
    evaluate_expression interp l =
      match evaluate_factor interp l with
      | none => none
      | some (left, l1) => evaluate_loop interp left l1 := by
  unfold evaluate_expression
  rw [eval_expression_succ, eval_factor_enough interp l _ (le_refl _)]
  cases hf : evaluate_factor interp l with
  | none => rfl
  | some r =>
    obtain ⟨left, l1⟩ := r
    have hle := (evaluate_factor_advanced hf).remaining_le
    exact eval_loop_enough interp left l1 _ (by simp only at hle; omega)

/-- One pass of the operator loop of `evaluate_expression`. -/
theorem evaluate_loop_eq (interp : Interpreter) (left : Value) (l : Lexer) :
    evaluate_loop interp left l =
      loop_body (evaluate_factor interp) (evaluate_loop interp) left l := by
  have hstep : ∀ (hop : (lexer_next_token l).1.type ≠ TOK_EOF) (f : Value → Value),
      (match eval_factor (2 * remaining l) interp (lexer_next_token l).2 with
        | none => none
        | some (right, l2) => eval_loop (2 * remaining l) interp (f right) l2) =
      (match evaluate_factor interp (lexer_next_token l).2 with
        | none => none
        | some (right, l2) => evaluate_loop interp (f right) l2) := by
    intro hop f
    have hlt := lexer_next_token_remaining_lt l hop
    rw [eval_factor_enough interp _ _ (by omega)]
    cases hf : evaluate_factor interp (lexer_next_token l).2 with
    | none => rfl
    | some r =>
      obtain ⟨right, l2⟩ := r
      have hle := (evaluate_factor_advanced hf).remaining_le
      exact eval_loop_enough interp _ l2 _ (by simp only at hle; omega)
  unfold evaluate_loop
  rw [eval_loop_succ]
  unfold loop_body
  rw [lexer_peek_token_snd, lexer_peek_token_fst]
  by_cases hp : (lexer_next_token l).1.type = TOK_PLUS
  · rw [if_pos hp, if_pos hp]
    exact hstep (by rw [hp]; decide) _
  · rw [if_neg hp, if_neg hp]
    by_cases hr : is_relational (lexer_next_token l).1.type = true
    · rw [if_pos hr, if_pos hr]
      exact hstep (by intro h0; rw [h0] at hr; exact absurd hr (by decide)) _
    · rw [if_neg hr, if_neg hr]

/-- The operator loop folds a chain of operators and factors from the left. -/
theorem evaluate_loop_chain (interp : Interpreter) (ops : List (TokenType × Value)) :
    ∀ (left : Value) (l lend : Lexer), OpChain interp l ops lend →
      evaluate_loop interp left l = some (fold_ops left ops, lend) := by
  induction ops with
  | nil =>
    intro left l lend h
    obtain ⟨h1, h2, h3⟩ := h
    rw [evaluate_loop_eq, loop_body_stop _ _ _ _ h2 h3, h1]
    rfl
  | cons p ops ih =>
    intro left l lend h
    obtain ⟨h1, h2, l2, h3, h4⟩ := h
    rw [evaluate_loop_eq]
    unfold loop_body
    rw [lexer_peek_token_snd, h1]
    by_cases hp : p.1 = TOK_PLUS
    · rw [if_pos hp]
      simp only [h3]
      rw [ih _ l2 lend h4]
      simp only [fold_ops, List.foldl_cons, apply_op, hp, if_true]
    · have hr : is_relational p.1 = true := by
        rcases h2 with h | h
        · exact absurd h hp
        · exact h
      rw [if_neg hp, if_pos hr]
      simp only [h3]
      rw [ih _ l2 lend h4]
      simp only [fold_ops, List.foldl_cons, apply_op, hp, if_false]

/-- C23: `evaluate_expression` folds its factors from the left with no
precedence: on `f1 op1 f2 op2 f3 ...`, every `op` being `+` or a relational
operator, it returns `((f1 op1 f2) op2 f3)...` and the lexer at the first token
after a factor that is none of these operators, that token unread; so a factor
followed by `-`, `*`, `/` or `^` is returned alone, the lexer left at that
operator. -/
theorem expression_left_fold (interp : Interpreter) (l l1 lend : Lexer) (f1 : Value)
    (ops : List (TokenType × Value))
    (hf : evaluate_factor interp l = some (f1, l1))
    (hch : OpChain interp l1 ops lend) :
    evaluate_expression interp l = some (fold_ops f1 ops, lend) ∧
    (lexer_peek_token lend).1.type ≠ TOK_PLUS ∧
    is_relational (lexer_peek_token lend).1.type = false ∧
    ((lexer_peek_token l1).1.type = TOK_MINUS ∨ (lexer_peek_token l1).1.type = TOK_MULTIPLY ∨
      (lexer_peek_token l1).1.type = TOK_DIVIDE ∨ (lexer_peek_token l1).1.type = TOK_POWER →
      evaluate_expression interp l = some (f1, l1)) := by
  have hend : ∀ (ops : List (TokenType × Value)) (l1 : Lexer), OpChain interp l1 ops lend →
      (lexer_peek_token lend).1.type ≠ TOK_PLUS ∧
        is_relational (lexer_peek_token lend).1.type = false := by
    intro ops
    induction ops with
    | nil =>
      intro l1 h
      obtain ⟨h1, h2, h3⟩ := h
      rw [h1]
      exact ⟨h2, h3⟩
    | cons p ops ih =>
      intro l1 h
      obtain ⟨_, _, l2, _, h4⟩ := h
      exact ih l2 h4
  refine ⟨?_, (hend ops l1 hch).1, (hend ops l1 hch).2, ?_⟩
  · rw [evaluate_expression_eq, hf]
    exact evaluate_loop_chain interp ops f1 l1 lend hch
  · intro hop
    rw [evaluate_expression_eq, hf]
    show evaluate_loop interp f1 l1 = some (f1, l1)
    rw [evaluate_loop_eq]
    apply loop_body_stop
    · rcases hop with h | h | h | h <;> rw [h] <;> decide
    · rcases hop with h | h | h | h <;> rw [h] <;> decide

/-- C23, at concrete inputs: `3=1+2` is (3=1)+2 = 2, `1+2=3` is (1+2)=3 = -1,
and `5-3` is 5 with the lexer left at `-`. -/
theorem expression_left_fold_witness :
    evaluate_expression interpreter_init (lexer_init (str "3=1+2")) =
      some ({ is_string := false, number := 2, string := none },
        { input := str "3=1+2", position := 5, line := 1, column := 6 }) ∧
    evaluate_expression interpreter_init (lexer_init (str "1+2=3")) =
      some ({ is_string := false, number := -1, string := none },
        { input := str "1+2=3", position := 5, line := 1, column := 6 }) ∧
    evaluate_expression interpreter_init (lexer_init (str "5-3")) =
      some ({ is_string := false, number := 5, string := none },
        { input := str "5-3", position := 1, line := 1, column := 2 }) ∧
    peek_char { input := str "5-3", position := 1, line := 1, column := 2 } = 45 := by
  have h1 := expression_left_fold interpreter_init (lexer_init (str "3=1+2"))
    { input := str "3=1+2", position := 1, line := 1, column := 2 }
    { input := str "3=1+2", position := 5, line := 1, column := 6 }
    { is_string := false, number := 3, string := none }
    [(TOK_EQUAL, { is_string := false, number := 1, string := none }),
     (TOK_PLUS, { is_string := false, number := 2, string := none })]
    (by decide!)
    ⟨by decide, Or.inr (by decide),
      { input := str "3=1+2", position := 3, line := 1, column := 4 }, by decide!,
      by decide, Or.inl rfl,
      { input := str "3=1+2", position := 5, line := 1, column := 6 }, by decide!,
      rfl, by decide, by decide⟩
  have h2 := expression_left_fold interpreter_init (lexer_init (str "1+2=3"))
    { input := str "1+2=3", position := 1, line := 1, column := 2 }
    { input := str "1+2=3", position := 5, line := 1, column := 6 }
    { is_string := false, number := 1, string := none }
    [(TOK_PLUS, { is_string := false, number := 2, string := none }),
     (TOK_EQUAL, { is_string := false, number := 3, string := none })]
    (by decide!)
    ⟨by decide, Or.inl rfl,
      { input := str "1+2=3", position := 3, line := 1, column := 4 }, by decide!,
      by decide, Or.inr (by decide),
      { input := str "1+2=3", position := 5, line := 1, column := 6 }, by decide!,
      rfl, by decide, by decide⟩
  have h3 := expression_left_fold interpreter_init (lexer_init (str "5-3"))
    { input := str "5-3", position := 1, line := 1, column := 2 }
    { input := str "5-3", position := 1, line := 1, column := 2 }
    { is_string := false, number := 5, string := none } []
    (by decide!) ⟨rfl, by decide, by decide⟩
  refine ⟨?_, ?_, h3.2.2.2 (Or.inl (by decide)), by decide⟩
  · rw [h1.1]
    decide!
  · rw [h2.1]
    decide!

/-- C27, counterexample: in `(1 ; 2` the closing `)` is missing; the factor is
the Number 1 and the token after the sub-expression, the `;`, is consumed: the
lexer is returned past it, with ` 2` unread. -/
theorem paren_consumes_other_token :
    (lexer_next_token (lexer_init (str "(1 ; 2"))).1.type = TOK_LPAREN ∧
    evaluate_expression interpreter_init (lexer_next_token (lexer_init (str "(1 ; 2"))).2 =
      some ({ is_string := false, number := 1, string := none },
        { input := str "(1 ; 2", position := 2, line := 1, column := 3 }) ∧
    (lexer_next_token { input := str "(1 ; 2", position := 2, line := 1, column := 3 }).1.type =
      TOK_SEMICOLON ∧
    evaluate_factor interpreter_init (lexer_init (str "(1 ; 2")) =
      some ({ is_string := false, number := 1, string := none },
        { input := str "(1 ; 2", position := 4, line := 1, column := 5 }) ∧
    rest { input := str "(1 ; 2", position := 4, line := 1, column := 5 } = str " 2" := by
  refine ⟨by decide, by decide!, by decide, by decide!, by decide⟩

/-- C27 (as amended): on a parenthesised sub-expression `( e` the factor is
the value of `e`, and the token that follows `e` is consumed whatever it is: the
closing `)` when it is there, any other token otherwise (at the end of the input
there is nothing to consume). -/
theorem paren_consumes_next_token (interp : Interpreter) (l l2 : Lexer) (v : Value)
    (hparen : (lexer_next_token l).1.type = TOK_LPAREN)
    (he : evaluate_expression interp (lexer_next_token l).2 = some (v, l2)) :
    evaluate_factor interp l = some (v, (lexer_next_token l2).2) ∧
    ((lexer_next_token l2).1.type ≠ TOK_EOF →
      l2.position < (lexer_next_token l2).2.position) := by
  have hlt := lexer_next_token_remaining_lt l (by rw [hparen]; decide)
  have hen := eval_expression_enough interp (lexer_next_token l).2 (2 * remaining l) (by omega)
  refine ⟨?_, fun h => lexer_next_token_progress l2 h⟩
  unfold evaluate_factor
  rw [eval_factor_succ]
  unfold factor_body
  rw [hparen]
  simp only [hen, he]

/-- C27 (as amended), at concrete inputs: in `(1)+2` the factor is 1 and the
lexer is returned after `)`; in `(1 ; 2` it is returned after `;`. -/
theorem paren_consumes_next_token_witness :
    evaluate_factor interpreter_init (lexer_init (str "(1)+2")) =
      some ({ is_string := false, number := 1, string := none },
        { input := str "(1)+2", position := 3, line := 1, column := 4 }) ∧
    evaluate_factor interpreter_init (lexer_init (str "(1 ; 2")) =
      some ({ is_string := false, number := 1, string := none },
        { input := str "(1 ; 2", position := 4, line := 1, column := 5 }) := by
  have h1 := (paren_consumes_next_token interpreter_init (lexer_init (str "(1)+2"))
    { input := str "(1)+2", position := 2, line := 1, column := 3 }
    { is_string := false, number := 1, string := none } (by decide) (by decide!)).1
  have h2 := (paren_consumes_next_token interpreter_init (lexer_init (str "(1 ; 2"))
    { input := str "(1 ; 2", position := 2, line := 1, column := 3 }
    { is_string := false, number := 1, string := none } (by decide) (by decide!)).1
  refine ⟨?_, ?_⟩
  · rw [h1]; decide
  · rw [h2]; decide

/-- The `CHR$` call: the text is the duplicate of the two-byte buffer holding
the code and a NUL. -/
theorem evaluate_factor_chr (interp : Interpreter) (l l3 : Lexer) (v : Value)
    (hchr : (lexer_next_token l).1.type = TOK_CHR)
    (he : evaluate_expression interp (lexer_next_token (lexer_next_token l).2).2 =
      some (v, l3)) :
    evaluate_factor interp l =
      some ({ is_string := true, number := 0,
              string := some (buf_string [to_uint8 v.number, 0]) },
            (lexer_next_token l3).2) := by
  have hlt := lexer_next_token_remaining_lt l (by rw [hchr]; decide)
  have hle := (lexer_next_token_advanced (lexer_next_token l).2).remaining_le
  have hen := eval_expression_enough interp (lexer_next_token (lexer_next_token l).2).2
    (2 * remaining l) (by omega)
  unfold evaluate_factor
  rw [eval_factor_succ]
  unfold factor_body
  rw [hchr]
  simp only [hen, he]
  rfl

/-- C28, counterexample: `CHR$(0)` evaluates to the empty Text, of length 0. -/
theorem chr_zero_is_empty :
    evaluate_factor interpreter_init (lexer_init (str "CHR$(0)")) =
      some ({ is_string := true, number := 0, string := some [] },
        { input := str "CHR$(0)", position := 7, line := 1, column := 8 }) := by
  decide!

/-- C28 (as amended): for every integer code `n` in 1..255 the factor
`CHR$(n)` evaluates to the Text of length one whose byte is `n`; for the code 0
it evaluates to the empty Text. -/
theorem chr_single_character (interp : Interpreter) (l l3 : Lexer) (v : Value) (n : Nat)
    (hchr : (lexer_next_token l).1.type = TOK_CHR)
    (he : evaluate_expression interp (lexer_next_token (lexer_next_token l).2).2 =
      some (v, l3))
    (hv : v.number = (n : ℚ)) (hn : n ≤ 255) :
    (1 ≤ n → evaluate_factor interp l =
      some ({ is_string := true, number := 0, string := some [n] }, (lexer_next_token l3).2)) ∧
    (n = 0 → evaluate_factor interp l =
      some ({ is_string := true, number := 0, string := some [] }, (lexer_next_token l3).2)) := by
  have h8 : to_uint8 v.number = n := by
    rw [hv, to_uint8_natCast]
    exact Nat.mod_eq_of_lt (by omega)
  rw [evaluate_factor_chr interp l l3 v hchr he, h8]
  constructor
  · intro h1
    have hne : (n != 0) = true := by simp; omega
    simp [buf_string, List.takeWhile, hne]
  · intro h0
    rw [h0]
    rfl

/-- C28 (as amended), at concrete inputs: `CHR$(65)` is the Text `A` and
`CHR$(255)` the Text made of the byte 255. -/
theorem chr_single_character_witness :
    evaluate_factor interpreter_init (lexer_init (str "CHR$(65)")) =
      some ({ is_string := true, number := 0, string := some (str "A") },
        { input := str "CHR$(65)", position := 8, line := 1, column := 9 }) ∧
    evaluate_factor interpreter_init (lexer_init (str "CHR$(255)")) =
      some ({ is_string := true, number := 0, string := some [255] },
        { input := str "CHR$(255)", position := 9, line := 1, column := 10 }) := by
  have h1 := (chr_single_character interpreter_init (lexer_init (str "CHR$(65)"))
    { input := str "CHR$(65)", position := 7, line := 1, column := 8 }
    { is_string := false, number := 65, string := none } 65 (by decide) (by decide!)
    (by norm_num) (by decide)).1 (by decide)
  have h2 := (chr_single_character interpreter_init (lexer_init (str "CHR$(255)"))
    { input := str "CHR$(255)", position := 8, line := 1, column := 9 }
    { is_string := false, number := 255, string := none } 255 (by decide) (by decide!)
    (by norm_num) (by decide)).1 (by decide)
  refine ⟨?_, ?_⟩
  · rw [h1]; decide
  · rw [h2]; decide

/-- As long as the sum `memory_used + size` does not wrap around, `safe_malloc`
refuses exactly the requests that exceed the limit, leaves the accounting
unchanged when it refuses, adds `size` when it returns a buffer, and keeps
`memory_used` within the limit. -/
theorem safe_malloc_no_wrap (m : Memory) (size : Nat) (sys : Bool)
    (hfit : m.memory_used + size < size_mod) :
    (safe_malloc m size sys = MallocResult.null m ↔
      m.memory_used + size > m.total_memory_limit) ∧
    (∀ m2, safe_malloc m size sys = MallocResult.null m2 → m2 = m) ∧
    (∀ m2, safe_malloc m size sys = MallocResult.buffer m2 →
      m2.memory_used = m.memory_used + size ∧
      m2.total_memory_limit = m.total_memory_limit ∧
      m2.memory_used ≤ m2.total_memory_limit) := by
  have hmod : (m.memory_used + size) % size_mod = m.memory_used + size :=
    Nat.mod_eq_of_lt hfit
  unfold safe_malloc
  rw [hmod]
  by_cases h : m.memory_used + size > m.total_memory_limit
  · rw [if_pos h]
    refine ⟨⟨fun _ => h, fun _ => rfl⟩, ?_, ?_⟩
    · intro m2 h2
      cases h2
      rfl
    · intro m2 h2
      cases h2
  · rw [if_neg h]
    cases sys with
    | false =>
      refine ⟨⟨fun h2 => (by cases h2), fun h2 => absurd h2 h⟩, ?_, ?_⟩
      · intro m2 h2; cases h2
      · intro m2 h2; cases h2
    | true =>
      refine ⟨⟨fun h2 => (by cases h2), fun h2 => absurd h2 h⟩, ?_, ?_⟩
      · intro m2 h2; cases h2
      · intro m2 h2
        cases h2
        exact ⟨rfl, rfl, by simpa using h⟩

/-- C30, at the failing inputs: with 100 bytes used of a limit of 2^30, the
request of 2^64 - 50 bytes exceeds the limit, but the wrapped sum is 50: the
request is passed to the system allocator, the process exits when that fails,
and a returned buffer would leave `memory_used` at 50; with 2^64 - 10 bytes used
of a limit of 2^64 - 1, the request of 20 bytes is granted and `memory_used`
drops to 10. -/
theorem safe_malloc_sum_wraps :
    100 + (2 ^ 64 - 50) > 2 ^ 30 ∧
    safe_malloc { total_memory_limit := 2 ^ 30, memory_used := 100 } (2 ^ 64 - 50) false =
      MallocResult.exit ∧
    safe_malloc { total_memory_limit := 2 ^ 30, memory_used := 100 } (2 ^ 64 - 50) true =
      MallocResult.buffer { total_memory_limit := 2 ^ 30, memory_used := 50 } ∧
    (2 ^ 64 - 10) + 20 > 2 ^ 64 - 1 ∧
    safe_malloc { total_memory_limit := 2 ^ 64 - 1, memory_used := 2 ^ 64 - 10 } 20 true =
      MallocResult.buffer { total_memory_limit := 2 ^ 64 - 1, memory_used := 10 } := by
  decide

theorem draw_loop_succ (fuel : Nat) (tx1 ty1 tx2 ty2 dx dy sx sy err : Int) :
    draw_loop (fuel + 1) tx1 ty1 tx2 ty2 dx dy sx sy err =
      if tx1 = tx2 ∧ ty1 = ty2 then some [EditorCall.plot tx1 ty1 42]
      else
        match draw_loop fuel
            (if 2 * err > -dy then tx1 + sx else tx1)
            (if 2 * err < dx then ty1 + sy else ty1)
            tx2 ty2 dx dy sx sy
            (if 2 * err < dx then (if 2 * err > -dy then err - dy else err) + dx
             else (if 2 * err > -dy then err - dy else err)) with
        | none => none
        | some calls => some (EditorCall.plot tx1 ty1 42 :: calls) := rfl

theorem plot_path_single (x y : Int) : PlotPath [EditorCall.plot x y 42] x y x y 0 := by
  refine ⟨rfl, rfl, rfl, ?_, List.chain'_singleton _⟩
  intro c hc
  rw [List.mem_singleton] at hc
  exact ⟨x, y, hc⟩

/-- A path is extended at its start by a cell next to its first cell. -/
theorem plot_path_cons (calls : List EditorCall) (x y x1 y1 x2 y2 : Int) (n : Nat)
    (h : PlotPath calls x1 y1 x2 y2 n) (hx : (x1 - x).natAbs ≤ 1) (hy : (y1 - y).natAbs ≤ 1) :
    PlotPath (EditorCall.plot x y 42 :: calls) x y x2 y2 (n + 1) := by
  obtain ⟨h1, h2, h3, h4, h5⟩ := h
  cases calls with
  | nil => simp at h1
  | cons a t =>
    simp only [List.head?_cons, Option.some.injEq] at h2
    refine ⟨by simp [h1], rfl, ?_, ?_, ?_⟩
    · rw [List.getLast?_cons_cons]
      exact h3
    · intro c hc
      rcases List.mem_cons.mp hc with h | h
      · exact ⟨x, y, h⟩
      · exact h4 c h
    · rw [List.chain'_cons]
      refine ⟨?_, h5⟩
      rw [h2]
      exact ⟨hx, hy⟩

/-- The plotting loop on a line that is at least as wide as high: the column
moves at every pass, and after as many passes as columns remain the loop ends at
the end point. -/
theorem draw_loop_wide (x2 y2 dx dy sx sy : Int) (hdx : 0 < dx) (hdy : 0 ≤ dy)
    (hle : dy ≤ dx) (hsx : sx = 1 ∨ sx = -1) (hsy : sy = 1 ∨ sy = -1) (n : Nat) :
    ∀ (fuel : Nat) (x y e ry : Int), n + 1 ≤ fuel → x2 - x = sx * n → y2 - y = sy * ry →
      0 ≤ ry → e = dx - dy + dy * n - dx * ry → 2 * e > -dy → 2 * e < 3 * dx - 2 * dy →
      (dx = dy → e = 0) →
      ∃ calls, draw_loop fuel x y x2 y2 dx dy sx sy e = some calls ∧
        PlotPath calls x y x2 y2 n := by
  induction n with
  | zero =>
    intro fuel x y e ry hfuel hx hy hry he hl hu heq
    obtain ⟨f, hf⟩ : ∃ f, fuel = f + 1 := ⟨fuel - 1, by omega⟩
    have hry0 : ry = 0 := by
      by_contra hne
      have h1 : 1 ≤ ry := by omega
      have h2 : dx * 1 ≤ dx * ry := Int.mul_le_mul_of_nonneg_left h1 (le_of_lt hdx)
      simp only [Nat.cast_zero, mul_zero, add_zero] at he
      omega
    have hxe : x = x2 := by simp at hx; omega
    have hye : y = y2 := by rw [hry0] at hy; simp at hy; omega
    rw [hf, draw_loop_succ, if_pos ⟨hxe, hye⟩, hxe, hye]
    exact ⟨_, rfl, plot_path_single x2 y2⟩
  | succ n ih =>
    intro fuel x y e ry hfuel hx hy hry he hl hu heq
    obtain ⟨f, hf⟩ : ∃ f, fuel = f + 1 := ⟨fuel - 1, by omega⟩
    have hxne : ¬ (x = x2 ∧ y = y2) := by
      intro h
      rw [h.1] at hx
      rcases hsx with h1 | h1 <;> rw [h1] at hx <;> push_cast at hx <;> omega
    have hx2 : x2 - (x + sx) = sx * n := by
      rcases hsx with h1 | h1 <;> rw [h1] at hx ⊢ <;> push_cast at hx <;> omega
    have hsx1 : (x + sx - x).natAbs ≤ 1 := by
      rcases hsx with h1 | h1 <;> rw [h1] <;> simp
    have hsy1 : (y + sy - y).natAbs ≤ 1 := by
      rcases hsy with h1 | h1 <;> rw [h1] <;> simp
    have he2 : e = dx - dy + dy * n + dy - dx * ry := by
      rw [he]; push_cast; ring
    rw [hf, draw_loop_succ, if_neg hxne]
    by_cases hy1 : 2 * e < dx
    · simp only [hl, hy1, if_true]
      have hry1 : 1 ≤ ry := by
        by_contra hne
        have h0 : ry = 0 := by omega
        rw [h0] at he2
        have h3 : 0 ≤ dy * n := Int.mul_nonneg hdy (Int.ofNat_nonneg n)
        simp only [mul_zero, sub_zero] at he2
        omega
      have hy2 : y2 - (y + sy) = sy * (ry - 1) := by
        rw [mul_sub, ← hy]; ring
      obtain ⟨calls, hc, hp⟩ := ih f (x + sx) (y + sy) (e - dy + dx) (ry - 1) (by omega) hx2 hy2
        (by omega) (by rw [he2]; ring) (by omega) (by omega) (by intro h; have := heq h; omega)
      rw [hc]
      exact ⟨_, rfl, plot_path_cons calls x y _ _ x2 y2 n hp hsx1 hsy1⟩
    · simp only [hl, hy1, if_true, if_false]
      have hlt : dy < dx := by
        by_contra hne
        have h0 : dx = dy := by omega
        have := heq h0
        omega
      obtain ⟨calls, hc, hp⟩ := ih f (x + sx) y (e - dy) ry (by omega) hx2 hy hry
        (by rw [he2]; ring) (by omega) (by omega) (by intro h; omega)
      rw [hc]
      exact ⟨_, rfl, plot_path_cons calls x y _ _ x2 y2 n hp hsx1 (by simp)⟩

/-- The plotting loop on a line that is higher than wide: the row moves at
every pass, and after as many passes as rows remain the loop ends at the end
point. -/
theorem draw_loop_tall (x2 y2 dx dy sx sy : Int) (hdx : 0 ≤ dx) (hlt : dx < dy)
    (hsx : sx = 1 ∨ sx = -1) (hsy : sy = 1 ∨ sy = -1) (n : Nat) :
    ∀ (fuel : Nat) (x y e rx : Int), n + 1 ≤ fuel → x2 - x = sx * rx → y2 - y = sy * n →
      0 ≤ rx → e = dx - dy + dy * rx - dx * n → 2 * e < dx → -(2 * e) < 3 * dy - 2 * dx →
      ∃ calls, draw_loop fuel x y x2 y2 dx dy sx sy e = some calls ∧
        PlotPath calls x y x2 y2 n := by
  induction n with
  | zero =>
    intro fuel x y e rx hfuel hx hy hrx he hl hu
    obtain ⟨f, hf⟩ : ∃ f, fuel = f + 1 := ⟨fuel - 1, by omega⟩
    have hrx0 : rx = 0 := by
      by_contra hne
      have h1 : 1 ≤ rx := by omega
      have h2 : dy * 1 ≤ dy * rx := Int.mul_le_mul_of_nonneg_left h1 (by omega)
      simp only [Nat.cast_zero, mul_zero, sub_zero] at he
      omega
    have hye : y = y2 := by simp at hy; omega
    have hxe : x = x2 := by rw [hrx0] at hx; simp at hx; omega
    rw [hf, draw_loop_succ, if_pos ⟨hxe, hye⟩, hxe, hye]
    exact ⟨_, rfl, plot_path_single x2 y2⟩
  | succ n ih =>
    intro fuel x y e rx hfuel hx hy hrx he hl hu
    obtain ⟨f, hf⟩ : ∃ f, fuel = f + 1 := ⟨fuel - 1, by omega⟩
    have hxne : ¬ (x = x2 ∧ y = y2) := by
      intro h
      rw [h.2] at hy
      rcases hsy with h1 | h1 <;> rw [h1] at hy <;> push_cast at hy <;> omega
    have hy2 : y2 - (y + sy) = sy * n := by
      rcases hsy with h1 | h1 <;> rw [h1] at hy ⊢ <;> push_cast at hy <;> omega
    have hsx1 : (x + sx - x).natAbs ≤ 1 := by
      rcases hsx with h1 | h1 <;> rw [h1] <;> simp
    have hsy1 : (y + sy - y).natAbs ≤ 1 := by
      rcases hsy with h1 | h1 <;> rw [h1] <;> simp
    have he2 : e = dx - dy + dy * rx - dx * n - dx := by
      rw [he]; push_cast; ring
    rw [hf, draw_loop_succ, if_neg hxne]
    by_cases hx1 : 2 * e > -dy
    · simp only [hl, hx1, if_true]
      have hrx1 : 1 ≤ rx := by
        by_contra hne
        have h0 : rx = 0 := by omega
        rw [h0] at he2
        have h3 : 0 ≤ dx * n := Int.mul_nonneg hdx (Int.ofNat_nonneg n)
        simp only [mul_zero, add_zero] at he2
        omega
      have hx2 : x2 - (x + sx) = sx * (rx - 1) := by
        rw [mul_sub, ← hx]; ring
      obtain ⟨calls, hc, hp⟩ := ih f (x + sx) (y + sy) (e - dy + dx) (rx - 1) (by omega) hx2 hy2
        (by omega) (by rw [he2]; ring) (by omega) (by omega)
      rw [hc]
      exact ⟨_, rfl, plot_path_cons calls x y _ _ x2 y2 n hp hsx1 hsy1⟩
    · simp only [hl, hx1, if_true, if_false]
      obtain ⟨calls, hc, hp⟩ := ih f x (y + sy) (e + dx) rx (by omega) hx hy2 hrx
        (by rw [he2]; ring) (by omega) (by omega)
      rw [hc]
      exact ⟨_, rfl, plot_path_cons calls x y _ _ x2 y2 n hp (by simp) hsy1⟩

/-- The plotting loop of `draw_line` ends: from the start values computed by
`draw_line` it plots a path of `max(|dx|, |dy|) + 1` cells from the first
to the second end point. -/
theorem draw_loop_path (x1 y1 x2 y2 : Int) (fuel : Nat)
    (hfuel : max (x2 - x1).natAbs (y2 - y1).natAbs + 1 ≤ fuel) :
    ∃ calls, draw_loop fuel x1 y1 x2 y2 ((x2 - x1).natAbs : Int) ((y2 - y1).natAbs : Int)
        (if x1 < x2 then 1 else -1) (if y1 < y2 then 1 else -1)
        (((x2 - x1).natAbs : Int) - ((y2 - y1).natAbs : Int)) = some calls ∧
      PlotPath calls x1 y1 x2 y2 (max (x2 - x1).natAbs (y2 - y1).natAbs) := by
  have hsx : (if x1 < x2 then (1 : Int) else -1) = 1 ∨ (if x1 < x2 then (1 : Int) else -1) = -1 := by
    split
    · exact Or.inl rfl
    · exact Or.inr rfl
  have hsy : (if y1 < y2 then (1 : Int) else -1) = 1 ∨ (if y1 < y2 then (1 : Int) else -1) = -1 := by
    split
    · exact Or.inl rfl
    · exact Or.inr rfl
  have hxs : x2 - x1 = (if x1 < x2 then (1 : Int) else -1) * ((x2 - x1).natAbs : Int) := by
    split <;> omega
  have hys : y2 - y1 = (if y1 < y2 then (1 : Int) else -1) * ((y2 - y1).natAbs : Int) := by
    split <;> omega
  by_cases hcase : (y2 - y1).natAbs ≤ (x2 - x1).natAbs
  · rw [max_eq_left hcase] at hfuel ⊢
    by_cases hzero : (x2 - x1).natAbs = 0
    · have hyz : (y2 - y1).natAbs = 0 := by omega
      have hxe : x1 = x2 := by omega
      have hye : y1 = y2 := by omega
      obtain ⟨f, hf⟩ : ∃ f, fuel = f + 1 := ⟨fuel - 1, by omega⟩
      rw [hf, draw_loop_succ, if_pos ⟨hxe, hye⟩, hzero, hxe, hye]
      exact ⟨_, rfl, plot_path_single x2 y2⟩
    · exact draw_loop_wide x2 y2 _ _ _ _ (by omega) (by omega) (by omega) hsx hsy _ fuel x1 y1 _
        ((y2 - y1).natAbs : Int) hfuel hxs hys (by omega) (by ring) (by omega) (by omega)
        (by intro h; omega)
  · rw [max_eq_right (by omega)] at hfuel ⊢
    exact draw_loop_tall x2 y2 _ _ _ _ (by omega) (by omega) hsx hsy _ fuel x1 y1 _
      ((x2 - x1).natAbs : Int) hfuel hxs hys (by omega) (by ring) (by omega) (by omega)

/-- `draw_line` returns: without an editor it does nothing, with an editor it
plots the path between the scaled end points. -/
theorem draw_line_path (interp : Interpreter) (x1 y1 x2 y2 : Int) :
    (interp.editor = none → draw_line interp x1 y1 x2 y2 = some interp) ∧
    (∀ ed, interp.editor = some ed →
      ∃ calls, draw_line interp x1 y1 x2 y2 =
          some { interp with screen := interp.screen ++ calls } ∧
        PlotPath calls (c_div (x1 * ed.cols) 320) (c_div (y1 * ed.rows) 200)
          (c_div (x2 * ed.cols) 320) (c_div (y2 * ed.rows) 200)
          (max (c_div (x2 * ed.cols) 320 - c_div (x1 * ed.cols) 320).natAbs
            (c_div (y2 * ed.rows) 200 - c_div (y1 * ed.rows) 200).natAbs)) := by
  constructor
  · intro h
    unfold draw_line
    rw [h]
  · intro ed h
    obtain ⟨calls, hc, hp⟩ := draw_loop_path (c_div (x1 * ed.cols) 320)
      (c_div (y1 * ed.rows) 200) (c_div (x2 * ed.cols) 320) (c_div (y2 * ed.rows) 200)
      ((c_div (x2 * ed.cols) 320 - c_div (x1 * ed.cols) 320).natAbs +
        (c_div (y2 * ed.rows) 200 - c_div (y1 * ed.rows) 200).natAbs + 1) (by omega)
    refine ⟨calls, ?_, hp⟩
    unfold draw_line
    rw [h]
    simp only [hc]

/-- After a line that left the error signal set, the run loop returns at once,
with `running` and the error signal cleared and the message `ERROR IN LINE n`
emitted, `n` being the number of the line the cursor references after the line
was executed. -/
theorem run_loop_error_report (fuel : Nat) (r i1 : Interpreter) (hrun : r.running = true)
    (hcur : r.current_line ≠ []) (hbrk : r.break_requested = false)
    (hexec : interpreter_execute_line r (text_at r.current_line) = some i1)
    (herr : i1.error_occurred = true) :
    run_loop (fuel + 1) r =
      some { i1 with
        out := i1.out ++ (str "ERROR IN LINE ").map OutItem.chr ++
          [OutItem.fmt_d (line_number_at i1.current_line), OutItem.chr 10],
        running := false, error_occurred := false } := by
  rw [run_loop_succ, if_pos ⟨hrun, hcur⟩, run_body_error r i1 hbrk hexec herr]

/-- C21, at the failing input `10 GOTO 30: GOTO 15`, `30 END`: on line 10 the
first GOTO moves the cursor to line 30 and the second GOTO, to the absent line
15, sets the error signal; the run then halts with the error signal cleared, but
its message is `ERROR IN LINE 30`, although the failing statement is on
line 10. -/
theorem error_line_names_jump_target :
    (interpreter_execute_line (run_start jump_then_fail_program)
        (str "GOTO 30: GOTO 15")).map
        (fun i => (i.error_occurred, i.current_line.map ProgramLine.line_number, i.err)) =
      some (true, [30], [str "LINE NOT FOUND"]) ∧
    (interpreter_run 3 jump_then_fail_program).map
        (fun i => (i.out, i.error_occurred, i.running)) =
      some ((str "ERROR IN LINE ").map OutItem.chr ++ [OutItem.fmt_d 30, OutItem.chr 10],
        false, false) := by
  decide!

theorem peek_char_same {l1 l2 : Lexer} (h : rest l1 = rest l2) :
    peek_char l1 = peek_char l2 := by
  rw [peek_char_rest, peek_char_rest, h]

theorem remaining_same {l1 l2 : Lexer} (h : rest l1 = rest l2) :
    remaining l1 = remaining l2 := by
  rw [← rest_length, ← rest_length, h]

theorem next_char_of_zero {l : Lexer} (h : peek_char l = 0) : (next_char l).2 = l := by
  unfold next_char
  simp only [h, ne_eq, not_true_eq_false, if_false]

theorem next_char_same {l1 l2 : Lexer} (h : rest l1 = rest l2) :
    rest (next_char l1).2 = rest (next_char l2).2 := by
  have hp := peek_char_same h
  by_cases h0 : peek_char l1 = 0
  · rw [next_char_of_zero h0, next_char_of_zero (hp ▸ h0)]
    exact h
  · have h1 := rest_next_char h0
    have h2 := rest_next_char (hp ▸ h0 : peek_char l2 ≠ 0)
    rw [h1, h2] at h
    exact (List.cons.inj h).2

theorem advance_while_same (p : Nat → Bool) (hp : p 0 = false) {l1 l2 : Lexer}
    (h : rest l1 = rest l2) :
    rest (advance_while p (remaining l1) l1) = rest (advance_while p (remaining l2) l2) := by
  rw [(advance_while_rest p hp _ l1 (le_refl _)).2.2,
    (advance_while_rest p hp _ l2 (le_refl _)).2.2, h]

theorem skip_whitespace_same {l1 l2 : Lexer} (h : rest l1 = rest l2) :
    rest (skip_whitespace l1) = rest (skip_whitespace l2) :=
  advance_while_same _ (by decide) h

/-- Two scans that start and end at the same unread input copied the same
text. -/
theorem slice_same {l1 l2 m1 m2 : Lexer} {c1 c2 : CStr} (h1 : Consumed l1 m1 c1)
    (h2 : Consumed l2 m2 c2) (h : rest l1 = rest l2) (hm : rest m1 = rest m2) :
    slice m1 l1.position = slice m2 l2.position := by
  rw [slice_consumed h1, slice_consumed h2]
  have e1 := h1.2.2
  have e2 := h2.2.2
  rw [h, e2, hm] at e1
  exact (List.append_cancel_right e1).symm

theorem read_fraction_same {l1 l2 : Lexer} (h : rest l1 = rest l2) :
    rest (read_fraction l1) = rest (read_fraction l2) := by
  unfold read_fraction
  rw [peek_char_same h]
  split
  · exact advance_while_same isdigit (by decide) (next_char_same h)
  · exact h

theorem read_exponent_sign_same {l1 l2 : Lexer} (h : rest l1 = rest l2) :
    rest (read_exponent_sign l1) = rest (read_exponent_sign l2) := by
  unfold read_exponent_sign
  rw [peek_char_same h]
  split
  · exact next_char_same h
  · exact h

theorem read_exponent_same {l1 l2 : Lexer} (h : rest l1 = rest l2) :
    rest (read_exponent l1) = rest (read_exponent l2) := by
  unfold read_exponent
  rw [peek_char_same h]
  split
  · exact advance_while_same isdigit (by decide) (read_exponent_sign_same (next_char_same h))
  · exact h

theorem read_number_same {l1 l2 : Lexer} (h : rest l1 = rest l2)
    (hd : isdigit (peek_char l1) = true) :
    SameToken (read_number l1).1 (read_number l2).1 ∧
    rest (read_number l1).2 = rest (read_number l2).2 := by
  have hd2 : isdigit (peek_char l2) = true := by rw [← peek_char_same h]; exact hd
  obtain ⟨ip1, fr1, ex1, hc1, _⟩ := read_number_consumed l1 hd
  obtain ⟨ip2, fr2, ex2, hc2, _⟩ := read_number_consumed l2 hd2
  have hrest : rest (read_number l1).2 = rest (read_number l2).2 :=
    read_exponent_same (read_fraction_same (advance_while_same isdigit (by decide) h))
  have hs := slice_same hc1 hc2 h hrest
  refine ⟨⟨rfl, ?_, ?_⟩, hrest⟩
  · show some (slice (read_number l1).2 l1.position) = some (slice (read_number l2).2 l2.position)
    rw [hs]
  · show atof (slice (read_number l1).2 l1.position) = atof (slice (read_number l2).2 l2.position)
    rw [hs]

theorem read_string_same {l1 l2 : Lexer} (h : rest l1 = rest l2) :
    SameToken (read_string l1).1 (read_string l2).1 ∧
    rest (read_string l1).2 = rest (read_string l2).2 := by
  have hn := next_char_same h
  have ha := advance_while_same (fun c => c != 34 && c != 0 && c != 10) (by decide) hn
  have hs1 := slice_advance_while (fun c => c != 34 && c != 0 && c != 10) (by decide)
    (next_char l1).2
  have hs2 := slice_advance_while (fun c => c != 34 && c != 0 && c != 10) (by decide)
    (next_char l2).2
  unfold read_string
  simp only [make_token]
  refine ⟨⟨rfl, ?_, rfl⟩, ?_⟩
  · show some _ = some _
    rw [hs1, hs2, hn]
  · rw [peek_char_same ha]
    split
    · exact next_char_same ha
    · exact ha

theorem read_identifier_same {l1 l2 : Lexer} (h : rest l1 = rest l2) :
    SameToken (read_identifier l1).1 (read_identifier l2).1 ∧
    rest (read_identifier l1).2 = rest (read_identifier l2).2 := by
  have ha := advance_while_same ident_char ident_char_zero h
  have hs1 := slice_advance_while ident_char ident_char_zero l1
  have hs2 := slice_advance_while ident_char ident_char_zero l2
  unfold read_identifier
  simp only [make_token]
  rw [hs1, hs2, h]
  exact ⟨⟨rfl, rfl, rfl⟩, ha⟩

theorem newline_end_same (c : Nat) {l1 l2 : Lexer} (h : rest l1 = rest l2) :
    rest (newline_end c l1) = rest (newline_end c l2) := by
  unfold newline_end
  rw [peek_char_same (next_char_same h)]
  split
  · exact next_char_same (next_char_same h)
  · exact next_char_same h

theorem single_char_token_same (c line1 col1 line2 col2 : Nat) {l1 l2 : Lexer}
    (h : rest l1 = rest l2) :
    SameToken (single_char_token c line1 col1 l1).1 (single_char_token c line2 col2 l2).1 ∧
    rest (single_char_token c line1 col1 l1).2 = rest (single_char_token c line2 col2 l2).2 := by
  have hp := peek_char_same h
  have hn := next_char_same h
  unfold single_char_token
  rw [hp]
  split
  all_goals first
    | exact ⟨⟨rfl, rfl, rfl⟩, h⟩
    | (split
       · exact ⟨⟨rfl, rfl, rfl⟩, hn⟩
       · first
         | exact ⟨⟨rfl, rfl, rfl⟩, h⟩
         | (split
            · exact ⟨⟨rfl, rfl, rfl⟩, hn⟩
            · exact ⟨⟨rfl, rfl, rfl⟩, h⟩))

theorem token_at_same {l1 l2 : Lexer} (h : rest l1 = rest l2) :
    SameToken (token_at l1).1 (token_at l2).1 ∧ rest (token_at l1).2 = rest (token_at l2).2 := by
  have hp := peek_char_same h
  unfold token_at
  rw [← hp]
  split
  · exact ⟨⟨rfl, rfl, rfl⟩, h⟩
  · split
    · exact ⟨⟨rfl, rfl, rfl⟩, newline_end_same _ h⟩
    · split
      · next hd => exact read_number_same h hd
      · split
        · exact read_string_same h
        · split
          · exact read_identifier_same h
          · exact single_char_token_same _ _ _ _ _ (next_char_same h)

/-- The token read and the unread input after it depend only on the unread
input before. -/
theorem lexer_next_token_same {l1 l2 : Lexer} (h : rest l1 = rest l2) :
    SameToken (lexer_next_token l1).1 (lexer_next_token l2).1 ∧
    rest (lexer_next_token l1).2 = rest (lexer_next_token l2).2 :=
  token_at_same (skip_whitespace_same h)

theorem lexer_next_token_type_same {l1 l2 : Lexer} (h : rest l1 = rest l2) :
    (lexer_next_token l1).1.type = (lexer_next_token l2).1.type :=
  (lexer_next_token_same h).1.1

theorem lexer_next_token_rest_same {l1 l2 : Lexer} (h : rest l1 = rest l2) :
    rest (lexer_next_token l1).2 = rest (lexer_next_token l2).2 :=
  (lexer_next_token_same h).2

theorem lexer_peek_token_type_same {l1 l2 : Lexer} (h : rest l1 = rest l2) :
    (lexer_peek_token l1).1.type = (lexer_peek_token l2).1.type :=
  (lexer_next_token_same h).1.1

theorem SameEval.both_some {v : Value} {m1 m2 : Lexer} (h : rest m1 = rest m2) :
    SameEval (some (v, m1)) (some (v, m2)) :=
  Or.inr ⟨v, m1, m2, rfl, rfl, h⟩

theorem SameEval.both_none : SameEval none none := Or.inl ⟨rfl, rfl⟩

theorem factor_identifier_same (interp : Interpreter) {t1 t2 : Token} (h : t1.text = t2.text) :
    factor_identifier interp t1 = factor_identifier interp t2 := by
  unfold factor_identifier
  rw [h]

/-- The closing step of the parenthesised and call factors: one more token is
read after the sub-expression. -/
theorem same_eval_after_token (r1 r2 : EvalResult) (f : Value → Value) :
    SameEval r1 r2 →
    SameEval
      (match r1 with
        | none => none
        | some (v, l3) => some (f v, (lexer_next_token l3).2))
      (match r2 with
        | none => none
        | some (v, l3) => some (f v, (lexer_next_token l3).2)) := by
  intro h
  rcases h with ⟨h1, h2⟩ | ⟨v, m1, m2, h1, h2, hm⟩
  · rw [h1, h2]; exact SameEval.both_none
  · rw [h1, h2]; exact SameEval.both_some (lexer_next_token_rest_same hm)

theorem factor_body_same (expr1 expr2 : Lexer → EvalResult) (interp : Interpreter)
    (hexpr : ∀ m1 m2, rest m1 = rest m2 → SameEval (expr1 m1) (expr2 m2))
    {l1 l2 : Lexer} (h : rest l1 = rest l2) :
    SameEval (factor_body expr1 interp l1) (factor_body expr2 interp l2) := by
  obtain ⟨⟨htype, htext, hnum⟩, hrest⟩ := lexer_next_token_same h
  have hrest2 := lexer_next_token_rest_same hrest
  unfold factor_body
  rw [htype]
  split
  · rw [hnum]; exact SameEval.both_some hrest
  · rw [htext]; exact SameEval.both_some hrest
  · rw [factor_identifier_same interp htext]; exact SameEval.both_some hrest
  · exact same_eval_after_token _ _ (fun v => v) (hexpr _ _ hrest)
  · exact same_eval_after_token _ _
      (fun v => { value_init with is_string := true,
                                  string := some (buf_string [to_uint8 v.number, 0]) })
      (hexpr _ _ hrest2)
  · exact same_eval_after_token _ _
      (fun v => { value_init with is_string := false,
                                  number := (interp.ram (to_uint16 v.number) : ℚ) })
      (hexpr _ _ hrest2)
  · exact SameEval.both_some hrest

theorem same_eval_then (r1 r2 : EvalResult) (next1 next2 : Value → Lexer → EvalResult)
    (f : Value → Value)
    (hnext : ∀ v m1 m2, rest m1 = rest m2 → SameEval (next1 v m1) (next2 v m2)) :
    SameEval r1 r2 →
    SameEval
      (match r1 with
        | none => none
        | some (right, l2) => next1 (f right) l2)
      (match r2 with
        | none => none
        | some (right, l2) => next2 (f right) l2) := by
  intro h
  rcases h with ⟨h1, h2⟩ | ⟨v, m1, m2, h1, h2, hm⟩
  · rw [h1, h2]; exact SameEval.both_none
  · rw [h1, h2]; exact hnext _ _ _ hm

theorem loop_body_same (fac1 fac2 : Lexer → EvalResult)
    (next1 next2 : Value → Lexer → EvalResult)
    (hfac : ∀ m1 m2, rest m1 = rest m2 → SameEval (fac1 m1) (fac2 m2))
    (hnext : ∀ v m1 m2, rest m1 = rest m2 → SameEval (next1 v m1) (next2 v m2))
    (left : Value) {l1 l2 : Lexer} (h : rest l1 = rest l2) :
    SameEval (loop_body fac1 next1 left l1) (loop_body fac2 next2 left l2) := by
  have htype := lexer_peek_token_type_same h
  have hrest := lexer_next_token_rest_same h
  unfold loop_body
  rw [lexer_peek_token_snd, lexer_peek_token_snd, htype]
  split
  · exact same_eval_then _ _ next1 next2 _ hnext (hfac _ _ hrest)
  · split
    · exact same_eval_then _ _ next1 next2 _ hnext (hfac _ _ hrest)
    · exact SameEval.both_some h

theorem eval_same (fuel : Nat) :
    (∀ interp l1 l2, rest l1 = rest l2 →
      SameEval (eval_factor fuel interp l1) (eval_factor fuel interp l2)) ∧
    (∀ interp l1 l2, rest l1 = rest l2 →
      SameEval (eval_expression fuel interp l1) (eval_expression fuel interp l2)) ∧
    (∀ interp v l1 l2, rest l1 = rest l2 →
      SameEval (eval_loop fuel interp v l1) (eval_loop fuel interp v l2)) := by
  induction fuel with
  | zero =>
    refine ⟨?_, ?_, ?_⟩
    · intro interp l1 l2 _; exact SameEval.both_none
    · intro interp l1 l2 _; exact SameEval.both_none
    · intro interp v l1 l2 _; exact SameEval.both_none
  | succ n ih =>
    obtain ⟨ihf, ihe, ihl⟩ := ih
    refine ⟨?_, ?_, ?_⟩
    · intro interp l1 l2 h
      rw [eval_factor_succ, eval_factor_succ]
      exact factor_body_same _ _ interp (fun m1 m2 hm => ihe interp m1 m2 hm) h
    · intro interp l1 l2 h
      rw [eval_expression_succ, eval_expression_succ]
      exact same_eval_then _ _ (fun v l => eval_loop n interp v l) (fun v l => eval_loop n interp v l)
        (fun v => v) (fun v m1 m2 hm => ihl interp v m1 m2 hm) (ihf interp l1 l2 h)
    · intro interp v l1 l2 h
      rw [eval_loop_succ, eval_loop_succ]
      exact loop_body_same _ _ _ _ (fun m1 m2 hm => ihf interp m1 m2 hm)
        (fun v m1 m2 hm => ihl interp v m1 m2 hm) v h

/-- The value of an expression and the unread input after it depend only on the
unread input before (and on the interpreter). -/
theorem evaluate_expression_same (interp : Interpreter) {l1 l2 : Lexer}
    (h : rest l1 = rest l2) :
    ∃ v m1 m2, evaluate_expression interp l1 = some (v, m1) ∧
      evaluate_expression interp l2 = some (v, m2) ∧ rest m1 = rest m2 := by
  have hs : SameEval (evaluate_expression interp l1) (evaluate_expression interp l2) := by
    unfold evaluate_expression
    rw [remaining_same h]
    exact (eval_same _).2.1 interp l1 l2 h
  obtain ⟨r, hr⟩ := evaluate_expression_total interp l1
  rcases hs with ⟨h1, _⟩ | hs
  · rw [hr] at h1; exact Option.noConfusion h1
  · exact hs

theorem factor_body_after_token (e : Lexer → EvalResult) (interp : Interpreter) (l : Lexer)
    (r : Value × Lexer) (he : ∀ l r, e l = some r → Advanced l r.2)
    (h : factor_body e interp l = some r) : Advanced (lexer_next_token l).2 r.2 := by
  have a2 := lexer_next_token_advanced (lexer_next_token l).2
  unfold factor_body at h
  split at h
  · cases h; exact Advanced.refl _
  · cases h; exact Advanced.refl _
  · cases h; exact Advanced.refl _
  · cases hx : e (lexer_next_token l).2 with
    | none => rw [hx] at h; exact Option.noConfusion h
    | some x =>
      rw [hx] at h; cases h
      exact (he _ _ hx).trans (lexer_next_token_advanced _)
  · cases hx : e (lexer_next_token (lexer_next_token l).2).2 with
    | none => rw [hx] at h; exact Option.noConfusion h
    | some x =>
      rw [hx] at h; cases h
      exact a2.trans ((he _ _ hx).trans (lexer_next_token_advanced _))
  · cases hx : e (lexer_next_token (lexer_next_token l).2).2 with
    | none => rw [hx] at h; exact Option.noConfusion h
    | some x =>
      rw [hx] at h; cases h
      exact a2.trans ((he _ _ hx).trans (lexer_next_token_advanced _))
  · cases h; exact Advanced.refl _

/-- An expression reads at least its first token. -/
theorem evaluate_expression_after_token {interp : Interpreter} {l : Lexer}
    {r : Value × Lexer} (h : evaluate_expression interp l = some r) :
    Advanced (lexer_next_token l).2 r.2 := by
  rw [evaluate_expression_eq] at h
  cases hf : evaluate_factor interp l with
  | none => rw [hf] at h; exact Option.noConfusion h
  | some p =>
    obtain ⟨a, la⟩ := p
    rw [hf] at h
    have h1 : Advanced (lexer_next_token l).2 la := by
      unfold evaluate_factor at hf
      rw [eval_factor_succ] at hf
      exact factor_body_after_token _ interp l (a, la)
        (fun m r hr => (eval_advanced _).2.1 interp m r hr) hf
    exact h1.trans ((eval_advanced _).2.2 interp a la r h)

theorem evaluate_expression_remaining_lt {interp : Interpreter} {l : Lexer}
    {r : Value × Lexer} (h : evaluate_expression interp l = some r)
    (hne : (lexer_next_token l).1.type ≠ TOK_EOF) : remaining r.2 < remaining l := by
  have h1 := (evaluate_expression_after_token h).remaining_le
  have h2 := lexer_next_token_remaining_lt l hne
  omega

theorem TailCall.mono {F1 F2 : (Interpreter → Lexer → ExecResult) → ExecResult} {a b : Nat}
    (h : TailCall F1 F2 a) (hab : a ≤ b) : TailCall F1 F2 b := by
  rcases h with h | ⟨i2, m1, m2, h1, h2, h3, h4⟩
  · exact Or.inl h
  · exact Or.inr ⟨i2, m1, m2, h1, le_trans h2 hab, h3, h4⟩

theorem TailCall.continues (i2 : Interpreter) {m1 m2 : Lexer} (h : rest m1 = rest m2) :
    TailCall (fun next => next i2 m1) (fun next => next i2 m2) (remaining m1) :=
  Or.inr ⟨i2, m1, m2, h, le_refl _, fun _ => rfl, fun _ => rfl⟩

theorem TailCall.returns (r : Interpreter) (bound : Nat) :
    TailCall (fun _ => some r) (fun _ => some r) bound :=
  Or.inl ⟨r, fun _ => rfl, fun _ => rfl⟩

/-- The loop of the PRINT statement, given fuel for the rest of the line, ends by
handing over to what follows the statement. -/
theorem print_loop_tail (fuel : Nat) :
    ∀ (interp : Interpreter) (l1 l2 : Lexer), rest l1 = rest l2 → remaining l1 + 1 ≤ fuel →
      TailCall (fun done => print_loop done fuel interp l1)
        (fun done => print_loop done fuel interp l2) (remaining l1) := by
  induction fuel with
  | zero => intro interp l1 l2 _ hf; omega
  | succ n ih =>
    intro interp l1 l2 h hf
    have htype := lexer_peek_token_type_same h
    obtain ⟨v, c1, c2, he1, he2, hc⟩ := evaluate_expression_same interp h
    have htc := lexer_peek_token_type_same hc
    have hnc := lexer_next_token_rest_same hc
    by_cases hend : (lexer_peek_token l1).1.type = TOK_EOF ∨
        (lexer_peek_token l1).1.type = TOK_NEWLINE ∨ (lexer_peek_token l1).1.type = TOK_COLON
    · refine Or.inr ⟨basic_print interp [10], l1, l2, h, le_refl _, ?_, ?_⟩
      · intro done
        show print_loop done (n + 1) interp l1 = _
        rw [print_loop_succ]
        unfold print_body
        rw [if_pos hend, lexer_peek_token_snd]
      · intro done
        show print_loop done (n + 1) interp l2 = _
        rw [print_loop_succ]
        unfold print_body
        rw [if_pos (htype ▸ hend), lexer_peek_token_snd]
    · have hne : (lexer_next_token l1).1.type ≠ TOK_EOF := by
        intro h0
        exact hend (Or.inl (by rw [lexer_peek_token_fst]; exact h0))
      have hlt := evaluate_expression_remaining_lt he1 hne
      have hle := (lexer_next_token_advanced c1).remaining_le
      simp only at hlt
      have hbody : ∀ (l : Lexer) (c : Lexer) (done : Interpreter → Lexer → ExecResult),
          ¬ ((lexer_peek_token l).1.type = TOK_EOF ∨
            (lexer_peek_token l).1.type = TOK_NEWLINE ∨
            (lexer_peek_token l).1.type = TOK_COLON) →
          evaluate_expression interp l = some (v, c) →
          print_loop done (n + 1) interp l =
            if (lexer_peek_token c).1.type = TOK_SEMICOLON then
              print_loop done n (print_value interp v) (lexer_next_token c).2
            else if (lexer_peek_token c).1.type = TOK_COMMA then
              print_loop done n (basic_print (print_value interp v) [9]) (lexer_next_token c).2
            else done (basic_print (print_value interp v) [10]) c := by
        intro l c done hnend he
        rw [print_loop_succ]
        unfold print_body
        rw [if_neg hnend, lexer_peek_token_snd, he]
        simp only [lexer_peek_token_snd]
      have hend2 : ¬ ((lexer_peek_token l2).1.type = TOK_EOF ∨
          (lexer_peek_token l2).1.type = TOK_NEWLINE ∨
          (lexer_peek_token l2).1.type = TOK_COLON) := by rw [← htype]; exact hend
      by_cases hsemi : (lexer_peek_token c1).1.type = TOK_SEMICOLON
      · have := (ih (print_value interp v) _ _ hnc (by omega)).mono
          (by omega : remaining (lexer_next_token c1).2 ≤ remaining l1)
        rcases this with ⟨r, h1, h2⟩ | ⟨i2, m1, m2, g1, g2, g3, g4⟩
        · refine Or.inl ⟨r, fun done => ?_, fun done => ?_⟩
          · show print_loop done (n + 1) interp l1 = _
            rw [hbody l1 c1 done hend he1, if_pos hsemi]; exact h1 done
          · show print_loop done (n + 1) interp l2 = _
            rw [hbody l2 c2 done hend2 he2, if_pos (htc ▸ hsemi)]; exact h2 done
        · refine Or.inr ⟨i2, m1, m2, g1, g2, fun done => ?_, fun done => ?_⟩
          · show print_loop done (n + 1) interp l1 = _
            rw [hbody l1 c1 done hend he1, if_pos hsemi]; exact g3 done
          · show print_loop done (n + 1) interp l2 = _
            rw [hbody l2 c2 done hend2 he2, if_pos (htc ▸ hsemi)]; exact g4 done
      · by_cases hcomma : (lexer_peek_token c1).1.type = TOK_COMMA
        · have := (ih (basic_print (print_value interp v) [9]) _ _ hnc (by omega)).mono
            (by omega : remaining (lexer_next_token c1).2 ≤ remaining l1)
          rcases this with ⟨r, h1, h2⟩ | ⟨i2, m1, m2, g1, g2, g3, g4⟩
          · refine Or.inl ⟨r, fun done => ?_, fun done => ?_⟩
            · show print_loop done (n + 1) interp l1 = _
              rw [hbody l1 c1 done hend he1, if_neg hsemi, if_pos hcomma]; exact h1 done
            · show print_loop done (n + 1) interp l2 = _
              rw [hbody l2 c2 done hend2 he2, if_neg (htc ▸ hsemi), if_pos (htc ▸ hcomma)]
              exact h2 done
          · refine Or.inr ⟨i2, m1, m2, g1, g2, fun done => ?_, fun done => ?_⟩
            · show print_loop done (n + 1) interp l1 = _
              rw [hbody l1 c1 done hend he1, if_neg hsemi, if_pos hcomma]; exact g3 done
            · show print_loop done (n + 1) interp l2 = _
              rw [hbody l2 c2 done hend2 he2, if_neg (htc ▸ hsemi), if_pos (htc ▸ hcomma)]
              exact g4 done
        · refine Or.inr ⟨basic_print (print_value interp v) [10], c1, c2, hc, by omega,
            fun done => ?_, fun done => ?_⟩
          · show print_loop done (n + 1) interp l1 = _
            rw [hbody l1 c1 done hend he1, if_neg hsemi, if_neg hcomma]
          · show print_loop done (n + 1) interp l2 = _
            rw [hbody l2 c2 done hend2 he2, if_neg (htc ▸ hsemi), if_neg (htc ▸ hcomma)]

theorem skip_to_else_same (n : Nat) :
    ∀ (l1 l2 : Lexer), rest l1 = rest l2 →
      rest (skip_to_else n l1) = rest (skip_to_else n l2) := by
  induction n with
  | zero => intro l1 l2 h; exact h
  | succ n ih =>
    intro l1 l2 h
    have htype := lexer_next_token_type_same h
    have hrest := lexer_next_token_rest_same h
    simp only [skip_to_else]
    rw [htype]
    split
    · exact hrest
    · split
      · exact hrest
      · exact ih _ _ hrest

theorem skip_to_else_remaining_le (n : Nat) :
    ∀ (l : Lexer), remaining (skip_to_else n l) ≤ remaining l := by
  induction n with
  | zero => intro l; exact le_refl _
  | succ n ih =>
    intro l
    have h1 := (lexer_next_token_advanced l).remaining_le
    simp only [skip_to_else]
    split
    · exact h1
    · split
      · exact h1
      · exact le_trans (ih _) h1

theorem exec_then_tail (interp : Interpreter) {l1 l2 : Lexer} (h : rest l1 = rest l2) :
    TailCall (fun next => exec_then next interp l1) (fun next => exec_then next interp l2)
      (remaining l1) := by
  obtain ⟨⟨htype, _, hnum⟩, hrest⟩ := lexer_next_token_same h
  have hle := (lexer_next_token_advanced l1).remaining_le
  unfold exec_then
  simp only [lexer_peek_token_snd, lexer_peek_token_fst]
  rw [htype, hnum]
  split
  · split
    · exact TailCall.returns _ _
    · exact (TailCall.continues interp hrest).mono hle
  · exact TailCall.continues interp h

theorem exec_if_tail (interp : Interpreter) {l1 l2 : Lexer} (h : rest l1 = rest l2) :
    TailCall (fun next => exec_if next interp l1) (fun next => exec_if next interp l2)
      (remaining l1) := by
  obtain ⟨cond, c1, c2, he1, he2, hc⟩ := evaluate_expression_same interp h
  have hadv := (evaluate_expression_advanced he1).remaining_le
  have htype := lexer_next_token_type_same hc
  have hrest := lexer_next_token_rest_same hc
  have hle := (lexer_next_token_advanced c1).remaining_le
  simp only at hadv
  unfold exec_if
  simp only [he1, he2]
  rw [htype]
  split
  · split
    · exact (exec_then_tail interp hrest).mono (by omega)
    · rw [remaining_same hrest]
      refine (TailCall.continues interp (skip_to_else_same _ _ _ hrest)).mono ?_
      have := skip_to_else_remaining_le (remaining (lexer_next_token c2).2 + 1)
        (lexer_next_token c1).2
      omega
  · exact (TailCall.continues interp hrest).mono (by omega)

theorem exec_goto_tail (interp : Interpreter) {l1 l2 : Lexer} (h : rest l1 = rest l2) :
    TailCall (fun next => exec_goto next interp l1) (fun next => exec_goto next interp l2)
      (remaining l1) := by
  obtain ⟨v, c1, c2, he1, he2, hc⟩ := evaluate_expression_same interp h
  have hadv := (evaluate_expression_advanced he1).remaining_le
  simp only at hadv
  unfold exec_goto
  simp only [he1, he2]
  split
  · split
    · exact (TailCall.continues _ hc).mono hadv
    · exact (TailCall.continues _ hc).mono hadv
  · exact (TailCall.continues _ hc).mono hadv

theorem exec_assign_tail (interp : Interpreter) (name : Option CStr) {l1 l2 : Lexer}
    (h : rest l1 = rest l2) :
    TailCall (fun next => exec_assign next interp name l1)
      (fun next => exec_assign next interp name l2) (remaining l1) := by
  have htype := lexer_next_token_type_same h
  have hrest := lexer_next_token_rest_same h
  have hle := (lexer_next_token_advanced l1).remaining_le
  obtain ⟨v, c1, c2, he1, he2, hc⟩ := evaluate_expression_same interp hrest
  have hadv := (evaluate_expression_advanced he1).remaining_le
  simp only at hadv
  unfold exec_assign
  cases name with
  | none => exact TailCall.continues interp h
  | some nm =>
    simp only [he1, he2]
    rw [htype]
    split
    · split
      · exact (TailCall.continues _ hc).mono (by omega)
      · exact (TailCall.continues _ hc).mono (by omega)
    · exact (TailCall.continues _ hrest).mono hle

theorem exec_let_tail (interp : Interpreter) {t1 t2 : Token} (ht : SameToken t1 t2)
    {l1 l2 : Lexer} (h : rest l1 = rest l2) :
    TailCall (fun next => exec_let next interp t1 l1) (fun next => exec_let next interp t2 l2)
      (remaining l1) := by
  obtain ⟨htype, htext, _⟩ := ht
  obtain ⟨⟨htype2, htext2, _⟩, hrest⟩ := lexer_next_token_same h
  have hle := (lexer_next_token_advanced l1).remaining_le
  unfold exec_let
  rw [htype, htext, htype2, htext2]
  split
  · exact exec_assign_tail interp _ h
  · split
    · exact (exec_assign_tail interp _ hrest).mono hle
    · exact (exec_assign_tail interp _ hrest).mono hle

/-- Two expressions separated by one token, as read by POKE, PLOT and DRAW. -/
theorem two_expressions_same (interp : Interpreter) {l1 l2 : Lexer} (h : rest l1 = rest l2) :
    ∃ va vb a1 a2 b1 b2, evaluate_expression interp l1 = some (va, a1) ∧
      evaluate_expression interp l2 = some (va, a2) ∧
      evaluate_expression interp (lexer_next_token a1).2 = some (vb, b1) ∧
      evaluate_expression interp (lexer_next_token a2).2 = some (vb, b2) ∧
      rest b1 = rest b2 ∧ remaining b1 ≤ remaining l1 := by
  obtain ⟨va, a1, a2, he1, he2, ha⟩ := evaluate_expression_same interp h
  obtain ⟨vb, b1, b2, hf1, hf2, hb⟩ :=
    evaluate_expression_same interp (lexer_next_token_rest_same ha)
  have h1 := (evaluate_expression_advanced he1).remaining_le
  have h2 := (lexer_next_token_advanced a1).remaining_le
  have h3 := (evaluate_expression_advanced hf1).remaining_le
  simp only at h1 h3
  exact ⟨va, vb, a1, a2, b1, b2, he1, he2, hf1, hf2, hb, by omega⟩

theorem exec_poke_tail (interp : Interpreter) {l1 l2 : Lexer} (h : rest l1 = rest l2) :
    TailCall (fun next => exec_poke next interp l1) (fun next => exec_poke next interp l2)
      (remaining l1) := by
  obtain ⟨va, vb, a1, a2, b1, b2, he1, he2, hf1, hf2, hb, hle⟩ := two_expressions_same interp h
  unfold exec_poke
  simp only [he1, he2, hf1, hf2]
  exact (TailCall.continues _ hb).mono hle

theorem exec_plot_tail (interp : Interpreter) {l1 l2 : Lexer} (h : rest l1 = rest l2) :
    TailCall (fun next => exec_plot next interp l1) (fun next => exec_plot next interp l2)
      (remaining l1) := by
  obtain ⟨va, vb, a1, a2, b1, b2, he1, he2, hf1, hf2, hb, hle⟩ := two_expressions_same interp h
  unfold exec_plot
  simp only [he1, he2, hf1, hf2]
  split
  · exact (TailCall.continues _ hb).mono hle
  · exact (TailCall.continues _ hb).mono hle

theorem draw_line_total (interp : Interpreter) (x1 y1 x2 y2 : Int) :
    ∃ r, draw_line interp x1 y1 x2 y2 = some r := by
  cases hed : interp.editor with
  | none => exact ⟨_, (draw_line_path interp x1 y1 x2 y2).1 hed⟩
  | some ed =>
    obtain ⟨calls, hc, _⟩ := (draw_line_path interp x1 y1 x2 y2).2 ed hed
    exact ⟨_, hc⟩

theorem exec_draw_tail (interp : Interpreter) {l1 l2 : Lexer} (h : rest l1 = rest l2) :
    TailCall (fun next => exec_draw next interp l1) (fun next => exec_draw next interp l2)
      (remaining l1) := by
  obtain ⟨va, vb, a1, a2, b1, b2, he1, he2, hf1, hf2, hb, hle⟩ := two_expressions_same interp h
  obtain ⟨d, hd⟩ := draw_line_total interp (c_trunc interp.graphics_x)
    (c_trunc interp.graphics_y) (c_trunc va.number) (c_trunc vb.number)
  unfold exec_draw
  simp only [he1, he2, hf1, hf2, hd]
  split
  · exact (TailCall.continues _ hb).mono hle
  · exact (TailCall.continues _ hb).mono hle

/-- Every statement of the statement loop either ends the line or hands over to
the next pass of the loop, and which of the two, with which interpreter and
which unread input, depends only on the token, the interpreter and the unread
input. -/
theorem exec_statement_tail (interp : Interpreter) {t1 t2 : Token} (ht : SameToken t1 t2)
    {l1 l2 : Lexer} (h : rest l1 = rest l2) :
    TailCall (fun next => exec_statement next interp t1 l1)
      (fun next => exec_statement next interp t2 l2) (remaining l1) := by
  have htype := ht.1
  have hprint := print_loop_tail (remaining l1 + 1) interp l1 l2 h (le_refl _)
  unfold exec_statement
  rw [htype, ← remaining_same h]
  cases htt : t2.type with
  | TOK_EOF => exact TailCall.returns _ _
  | TOK_NEWLINE => exact TailCall.returns _ _
  | TOK_PRINT => exact hprint
  | TOK_QUESTION => exact hprint
  | TOK_IF => exact exec_if_tail interp h
  | TOK_GOTO => exact exec_goto_tail interp h
  | TOK_LET => exact exec_let_tail interp ht h
  | TOK_IDENTIFIER => exact exec_let_tail interp ht h
  | TOK_POKE => exact exec_poke_tail interp h
  | TOK_PLOT => exact exec_plot_tail interp h
  | TOK_DRAW => exact exec_draw_tail interp h
  | TOK_EXIT => exact TailCall.returns _ _
  | TOK_END => exact TailCall.returns _ _
  | TOK_STOP => exact TailCall.returns _ _
  | TOK_REM => exact TailCall.returns _ _
  | _ => exact TailCall.continues interp h

/-- The statement loop gives the same result from any two lexers with the same
unread input, whatever the fuel above the length of that input. -/
theorem execute_tokens_same (n : Nat) :
    ∀ (f1 f2 : Nat) (interp : Interpreter) (l1 l2 : Lexer), remaining l1 ≤ n →
      n + 1 ≤ f1 → n + 1 ≤ f2 → rest l1 = rest l2 →
      execute_tokens f1 interp l1 = execute_tokens f2 interp l2 := by
  induction n with
  | zero =>
    intro f1 f2 interp l1 l2 hr h1 h2 h
    obtain ⟨g1, hg1⟩ : ∃ g, f1 = g + 1 := ⟨f1 - 1, by omega⟩
    obtain ⟨g2, hg2⟩ : ∃ g, f2 = g + 1 := ⟨f2 - 1, by omega⟩
    have heof : (lexer_next_token l1).1.type = TOK_EOF := by
      by_contra hne
      have := lexer_next_token_remaining_lt l1 hne
      omega
    have heof2 : (lexer_next_token l2).1.type = TOK_EOF := by
      rw [← lexer_next_token_type_same h]; exact heof
    rw [hg1, hg2, execute_tokens_succ, execute_tokens_succ,
      exec_statement_eof _ _ _ _ heof, exec_statement_eof _ _ _ _ heof2]
  | succ n ih =>
    intro f1 f2 interp l1 l2 hr h1 h2 h
    obtain ⟨g1, hg1⟩ : ∃ g, f1 = g + 1 := ⟨f1 - 1, by omega⟩
    obtain ⟨g2, hg2⟩ : ∃ g, f2 = g + 1 := ⟨f2 - 1, by omega⟩
    obtain ⟨hst, hrest⟩ := lexer_next_token_same h
    rw [hg1, hg2, execute_tokens_succ, execute_tokens_succ]
    by_cases heof : (lexer_next_token l1).1.type = TOK_EOF
    · have heof2 : (lexer_next_token l2).1.type = TOK_EOF := by rw [← hst.1]; exact heof
      rw [exec_statement_eof _ _ _ _ heof, exec_statement_eof _ _ _ _ heof2]
    · have hlt := lexer_next_token_remaining_lt l1 heof
      rcases exec_statement_tail interp hst hrest with ⟨r, e1, e2⟩ | ⟨i2, m1, m2, hm, hb, e1, e2⟩
      · exact (e1 _).trans (e2 _).symm
      · exact (e1 _).trans
          ((ih g1 g2 i2 m1 m2 (by omega) (by omega) (by omega) hm).trans (e2 _).symm)

/-- `interpreter_execute_line` returns on every line. -/
theorem execute_tokens_total (n : Nat) :
    ∀ (f : Nat) (interp : Interpreter) (l : Lexer), remaining l ≤ n → n + 1 ≤ f →
      ∃ r, execute_tokens f interp l = some r := by
  induction n with
  | zero =>
    intro f interp l hr h1
    obtain ⟨g, hg⟩ : ∃ g, f = g + 1 := ⟨f - 1, by omega⟩
    have heof : (lexer_next_token l).1.type = TOK_EOF := by
      by_contra hne
      have := lexer_next_token_remaining_lt l hne
      omega
    exact ⟨interp, by rw [hg, execute_tokens_succ, exec_statement_eof _ _ _ _ heof]⟩
  | succ n ih =>
    intro f interp l hr h1
    obtain ⟨g, hg⟩ : ∃ g, f = g + 1 := ⟨f - 1, by omega⟩
    rw [hg, execute_tokens_succ]
    by_cases heof : (lexer_next_token l).1.type = TOK_EOF
    · exact ⟨interp, by rw [exec_statement_eof _ _ _ _ heof]⟩
    · have hlt := lexer_next_token_remaining_lt l heof
      rcases exec_statement_tail interp ⟨rfl, rfl, rfl⟩ (rfl : rest (lexer_next_token l).2 = _)
        with ⟨r, e1, _⟩ | ⟨i2, m1, m2, hm, hb, e1, _⟩
      · exact ⟨r, e1 _⟩
      · obtain ⟨r, hr2⟩ := ih g i2 m1 (by omega) (by omega)
        exact ⟨r, (e1 _).trans hr2⟩

theorem interpreter_execute_line_total (interp : Interpreter) (line : CStr) :
    ∃ r, interpreter_execute_line interp line = some r :=
  execute_tokens_total line.length _ interp (lexer_init line) (by simp [remaining, lexer_init])
    (le_refl _)

/-- The statement loop continued at a lexer does what `interpreter_execute_line`
does on the unread input of that lexer, taken as a line of its own. -/
theorem execute_tokens_as_line (fuel : Nat) (interp : Interpreter) (l : Lexer)
    (hf : remaining l + 1 ≤ fuel) :
    execute_tokens fuel interp l = interpreter_execute_line interp (rest l) := by
  unfold interpreter_execute_line
  refine execute_tokens_same (remaining l) fuel _ interp l (lexer_init (rest l)) (le_refl _) hf
    (by rw [rest_length]) ?_
  simp [rest, lexer_init]

theorem rest_tokens_cons {l : Lexer} {t : TokenType} {r : List TokenType}
    (h : rest_tokens l = t :: r) :
    (lexer_next_token l).1.type = t ∧ (lexer_next_token l).1.type ≠ TOK_EOF ∧
      rest_tokens (lexer_next_token l).2 = r := by
  have heof : (lexer_next_token l).1.type ≠ TOK_EOF := by
    intro h0
    unfold rest_tokens at h
    cases hr : remaining l with
    | zero => rw [hr] at h; simp [token_types] at h
    | succ m => rw [hr] at h; simp [token_types, h0] at h
  have hlt := lexer_next_token_remaining_lt l heof
  obtain ⟨m, hm⟩ : ∃ m, remaining l = m + 1 := ⟨remaining l - 1, by omega⟩
  have hrest : rest_tokens l =
      (lexer_next_token l).1.type :: rest_tokens (lexer_next_token l).2 := by
    unfold rest_tokens
    rw [hm]
    simp only [token_types, heof, if_false]
    rw [token_types_fuel m _ (by omega)]
  rw [hrest] at h
  exact ⟨(List.cons.inj h).1, heof, (List.cons.inj h).2⟩

/-- The skip loop of a false IF stops right after the first ELSE, when no line
end comes before it. -/
theorem skip_to_else_at_else (s1 : List TokenType) :
    ∀ (s2 : List TokenType) (l : Lexer) (n : Nat), remaining l ≤ n →
      rest_tokens l = s1 ++ TOK_ELSE :: s2 → TOK_ELSE ∉ s1 → TOK_NEWLINE ∉ s1 →
      skip_to_else (n + 1) l = skip_tokens (s1.length + 1) l := by
  induction s1 with
  | nil =>
    intro s2 l n hn h _ _
    obtain ⟨h1, h2, _⟩ := rest_tokens_cons h
    rw [skip_to_else, h1, if_neg (by decide), if_pos rfl]
    rfl
  | cons t s1 ih =>
    intro s2 l n hn h helse hnl
    obtain ⟨h1, h2, h3⟩ := rest_tokens_cons h
    have hlt := lexer_next_token_remaining_lt l h2
    obtain ⟨m, hm⟩ : ∃ m, n = m + 1 := ⟨n - 1, by omega⟩
    simp only [List.mem_cons, not_or] at helse hnl
    rw [skip_to_else, h1]
    rw [if_neg (by
      intro h0
      rcases h0 with h0 | h0
      · exact h2 (h1.trans h0)
      · exact hnl.1 h0.symm)]
    rw [if_neg (fun h0 => helse.1 h0.symm), hm]
    exact ih s2 _ m (by omega) h3 helse.2 hnl.2

/-- C22: on a line `IF c THEN s1 ELSE s2` whose condition evaluates to zero,
where `s1` holds no ELSE and no line end, executing the line does exactly what
executing the text after the ELSE as a line of its own does, from the same
interpreter: no statement of `s1` has an effect; and the line returns.  When
nothing after THEN is an ELSE (or a line end), the line leaves the interpreter
unchanged. -/
theorem if_false_else (interp : Interpreter) (line : CStr) (cond : Value) (l1 : Lexer)
    (hif : (lexer_next_token (lexer_init line)).1.type = TOK_IF)
    (hc : evaluate_expression interp (lexer_next_token (lexer_init line)).2 = some (cond, l1))
    (hthen : (lexer_next_token l1).1.type = TOK_THEN)
    (hzero : cond.number = 0) :
    (∀ s1 s2, rest_tokens (lexer_next_token l1).2 = s1 ++ TOK_ELSE :: s2 →
      TOK_ELSE ∉ s1 → TOK_NEWLINE ∉ s1 →
      interpreter_execute_line interp line =
        interpreter_execute_line interp
          (rest (skip_tokens (s1.length + 1) (lexer_next_token l1).2)) ∧
      ∃ r, interpreter_execute_line interp line = some r) ∧
    (TOK_ELSE ∉ rest_tokens (lexer_next_token l1).2 →
      TOK_NEWLINE ∉ rest_tokens (lexer_next_token l1).2 →
      interpreter_execute_line interp line = some interp) := by
  have hlen := line_length_pos line (by rw [hif]; decide)
  obtain ⟨k, hk⟩ : ∃ k, line.length = k + 1 := ⟨line.length - 1, by omega⟩
  have hlt := lexer_next_token_remaining_lt (lexer_init line) (by rw [hif]; decide)
  have hadv := (evaluate_expression_advanced hc).remaining_le
  have hle := (lexer_next_token_advanced l1).remaining_le
  have hskip := skip_to_else_remaining_le (remaining (lexer_next_token l1).2 + 1)
    (lexer_next_token l1).2
  have hrem : remaining (lexer_init line) = line.length := by simp [remaining, lexer_init]
  simp only at hadv
  have hexec : interpreter_execute_line interp line =
      execute_tokens line.length interp
        (skip_to_else (remaining (lexer_next_token l1).2 + 1) (lexer_next_token l1).2) := by
    unfold interpreter_execute_line
    rw [execute_tokens_succ, exec_statement_if _ _ _ _ hif]
    unfold exec_if
    rw [hc]
    simp only [hthen, hzero, ne_eq, not_true_eq_false, if_true, if_false]
  refine ⟨?_, ?_⟩
  · intro s1 s2 hs helse hnl
    refine ⟨?_, interpreter_execute_line_total interp line⟩
    rw [hexec, skip_to_else_at_else s1 s2 _ _ (le_refl _) hs helse hnl] at *
    exact execute_tokens_as_line _ interp _ (by omega)
  · intro helse hnl
    have heof := skip_to_else_reaches_eof _ _ (le_refl _) helse hnl
    rw [hexec, hk, execute_tokens_succ, exec_statement_eof _ _ _ _ heof]

/-- C22, at concrete lines: `IF 0 THEN PRINT "A" ELSE PRINT "B"` does what the
line ` PRINT "B"` does and prints `B`; `IF 0 THEN PRINT "A"` changes nothing. -/
theorem if_false_else_witness :
    interpreter_execute_line interpreter_init (str "IF 0 THEN PRINT \"A\" ELSE PRINT \"B\"") =
      interpreter_execute_line interpreter_init (str " PRINT \"B\"") ∧
    (interpreter_execute_line interpreter_init (str " PRINT \"B\"")).map (fun i => i.out) =
      some [OutItem.chr 66, OutItem.chr 10] ∧
    interpreter_execute_line interpreter_init (str "IF 0 THEN PRINT \"A\"") =
      some interpreter_init := by
  have h1 := (if_false_else interpreter_init (str "IF 0 THEN PRINT \"A\" ELSE PRINT \"B\"")
    { is_string := false, number := 0, string := none }
    { input := str "IF 0 THEN PRINT \"A\" ELSE PRINT \"B\"", position := 4, line := 1,
      column := 5 }
    (by decide) (by decide!) (by decide) rfl).1 [TOK_PRINT, TOK_STRING] [TOK_PRINT, TOK_STRING]
    (by decide) (by decide) (by decide)
  have h2 := (if_false_else interpreter_init (str "IF 0 THEN PRINT \"A\"")
    { is_string := false, number := 0, string := none }
    { input := str "IF 0 THEN PRINT \"A\"", position := 4, line := 1, column := 5 }
    (by decide) (by decide!) (by decide) rfl).2 (by decide) (by decide)
  refine ⟨?_, by decide, h2⟩
  have hr : rest (skip_tokens ([TOK_PRINT, TOK_STRING].length + 1) (lexer_next_token
      { input := str "IF 0 THEN PRINT \"A\" ELSE PRINT \"B\"", position := 4, line := 1,
        column := 5 }).2) = str " PRINT \"B\"" := by decide
  rw [hr] at h1
  exact h1.1

/-- C38: on a line `IF c THEN n <rest>` whose condition evaluates to a nonzero
number and whose line-number literal `n` (truncated to an integer) is the number
of no stored line, the IF statement reads the literal and hands the unchanged
interpreter (error signal and cursor included) to the statement loop at the token
after `n`; executing the line does exactly what executing `<rest>` as a line of
its own does from the same interpreter, and the line returns. -/
theorem if_then_absent_line (interp : Interpreter) (line : CStr) (cond : Value) (l1 : Lexer)
    (hif : (lexer_next_token (lexer_init line)).1.type = TOK_IF)
    (hc : evaluate_expression interp (lexer_next_token (lexer_init line)).2 = some (cond, l1))
    (hthen : (lexer_next_token l1).1.type = TOK_THEN)
    (hnz : cond.number ≠ 0)
    (hnum : (lexer_next_token (lexer_next_token l1).2).1.type = TOK_NUMBER)
    (habs : ∀ p ∈ interp.program, p.line_number ≠
      c_trunc (lexer_next_token (lexer_next_token l1).2).1.number_value) :
    (∀ next, exec_if next interp (lexer_next_token (lexer_init line)).2 =
      next interp (lexer_next_token (lexer_next_token l1).2).2) ∧
    interpreter_execute_line interp line =
      interpreter_execute_line interp (rest (lexer_next_token (lexer_next_token l1).2).2) ∧
    ∃ r, interpreter_execute_line interp line = some r := by
  have hstmt : ∀ next, exec_if next interp (lexer_next_token (lexer_init line)).2 =
      next interp (lexer_next_token (lexer_next_token l1).2).2 := by
    intro next
    unfold exec_if
    rw [hc]
    simp only [hthen, hnz, ne_eq, not_false_eq_true, if_true]
    unfold exec_then
    rw [lexer_peek_token_fst, lexer_peek_token_snd, if_pos hnum]
    unfold program_find_line
    rw [find_line_absent _ _ habs, if_neg (by simp)]
  refine ⟨hstmt, ?_, interpreter_execute_line_total interp line⟩
  have hlt := lexer_next_token_remaining_lt (lexer_init line) (by rw [hif]; decide)
  have hadv := (evaluate_expression_advanced hc).remaining_le
  have hle := (lexer_next_token_advanced l1).remaining_le
  have hle2 := (lexer_next_token_advanced (lexer_next_token l1).2).remaining_le
  have hrem : remaining (lexer_init line) = line.length := by simp [remaining, lexer_init]
  simp only at hadv
  have hexec : interpreter_execute_line interp line =
      execute_tokens line.length interp (lexer_next_token (lexer_next_token l1).2).2 := by
    unfold interpreter_execute_line
    rw [execute_tokens_succ, exec_statement_if _ _ _ _ hif]
    exact hstmt _
  rw [hexec]
  exact execute_tokens_as_line _ interp _ (by omega)

/-- C38, at a concrete line: with the lines 10 and 20 stored, `IF 1 THEN 100
PRINT "A"` does what the line ` PRINT "A"` does: it prints `A`, sets no error
signal and leaves the cursor where it was. -/
theorem if_then_absent_line_witness :
    interpreter_execute_line hi_program (str "IF 1 THEN 100 PRINT \"A\"") =
      interpreter_execute_line hi_program (str " PRINT \"A\"") ∧
    (interpreter_execute_line hi_program (str " PRINT \"A\"")).map
      (fun i => (i.out, i.error_occurred, i.current_line)) =
      some ([OutItem.chr 65, OutItem.chr 10], false, hi_program.current_line) := by
  have h1 := (if_then_absent_line hi_program (str "IF 1 THEN 100 PRINT \"A\"")
    { is_string := false, number := 1, string := none }
    { input := str "IF 1 THEN 100 PRINT \"A\"", position := 4, line := 1, column := 5 }
    (by decide) (by decide!) (by decide) (by decide!) (by decide) (by decide!)).2.1
  have hr : rest (lexer_next_token (lexer_next_token
      { input := str "IF 1 THEN 100 PRINT \"A\"", position := 4, line := 1,
        column := 5 }).2).2 = str " PRINT \"A\"" := by decide
  rw [hr] at h1
  exact ⟨h1, by decide⟩

theorem factor_identifier_text_zero (interp : Interpreter) (token : Token) :
    (factor_identifier interp token).is_string = true →
      (factor_identifier interp token).number = 0 := by
  unfold factor_identifier
  cases var_get interp (token.text.getD []) with
  | some v =>
    by_cases h1 : v.type = VarType.VAR_NUMBER
    · simp only [h1, if_true]
      intro h; exact Bool.noConfusion h
    · by_cases h2 : v.type = VarType.VAR_STRING
      · simp only [h2, if_true]
        intro _; rfl
      · simp only [h1, h2, if_false]
        intro _; rfl
  | none =>
    by_cases h1 : token.text.isSome ∧ (token.text.getD []).getLast? = some 36
    · simp only [h1, and_self, if_true]
      intro _; rfl
    · simp only [h1, if_false]
      intro h; exact Bool.noConfusion h

theorem apply_plus_text_zero (left right : Value)
    (hl : left.is_string = true → left.number = 0)
    (h : (apply_plus left right).is_string = true) : (apply_plus left right).number = 0 := by
  unfold apply_plus at *
  split_ifs with h1 h2
  · rw [if_pos h1] at h; exact hl h
  · rw [if_neg h1, if_pos h2] at h
    simp only [Bool.and_eq_true, Bool.not_eq_true'] at h2
    rw [h2.1] at h; exact Bool.noConfusion h
  · rw [if_neg h1, if_neg h2] at h; exact hl h

theorem factor_body_text_zero (expr : Lexer → EvalResult) (interp : Interpreter) (l : Lexer)
    (r : Value × Lexer)
    (he : ∀ l r, expr l = some r → r.1.is_string = true → r.1.number = 0)
    (h : factor_body expr interp l = some r) (ht : r.1.is_string = true) : r.1.number = 0 := by
  unfold factor_body at h
  split at h
  · cases h; exact Bool.noConfusion ht
  · cases h; rfl
  · cases h; exact factor_identifier_text_zero _ _ ht
  · cases hx : expr (lexer_next_token l).2 with
    | none => rw [hx] at h; exact Option.noConfusion h
    | some p => rw [hx] at h; cases h; exact he _ p hx ht
  · cases hx : expr (lexer_next_token (lexer_next_token l).2).2 with
    | none => rw [hx] at h; exact Option.noConfusion h
    | some p => rw [hx] at h; cases h; rfl
  · cases hx : expr (lexer_next_token (lexer_next_token l).2).2 with
    | none => rw [hx] at h; exact Option.noConfusion h
    | some p => rw [hx] at h; cases h; exact Bool.noConfusion ht
  · cases h; rfl

theorem loop_body_text_zero (fac : Lexer → EvalResult) (next : Value → Lexer → EvalResult)
    (left : Value) (l : Lexer) (r : Value × Lexer)
    (hn : ∀ v l r, (v.is_string = true → v.number = 0) → next v l = some r →
      r.1.is_string = true → r.1.number = 0)
    (hl : left.is_string = true → left.number = 0)
    (h : loop_body fac next left l = some r) (ht : r.1.is_string = true) : r.1.number = 0 := by
  unfold loop_body at h
  split_ifs at h with h1 h2
  · cases hx : fac (lexer_next_token (lexer_peek_token l).2).2 with
    | none => rw [hx] at h; exact Option.noConfusion h
    | some p =>
      rw [hx] at h
      exact hn _ _ _ (apply_plus_text_zero left p.1 hl) h ht
  · cases hx : fac (lexer_next_token (lexer_peek_token l).2).2 with
    | none => rw [hx] at h; exact Option.noConfusion h
    | some p =>
      rw [hx] at h
      exact hn _ _ _ (fun h0 => Bool.noConfusion h0) h ht
  · cases h; exact hl ht

/-- A value the evaluator returns with the Text tag has the number 0. -/
theorem eval_text_zero (fuel : Nat) :
    (∀ interp l r, eval_factor fuel interp l = some r → r.1.is_string = true →
      r.1.number = 0) ∧
    (∀ interp l r, eval_expression fuel interp l = some r → r.1.is_string = true →
      r.1.number = 0) ∧
    (∀ interp v l r, (v.is_string = true → v.number = 0) →
      eval_loop fuel interp v l = some r → r.1.is_string = true → r.1.number = 0) := by
  induction fuel with
  | zero =>
    refine ⟨?_, ?_, ?_⟩
    · intro interp l r h; rw [eval_factor] at h; exact Option.noConfusion h
    · intro interp l r h; rw [eval_expression] at h; exact Option.noConfusion h
    · intro interp v l r _ h; rw [eval_loop] at h; exact Option.noConfusion h
  | succ n ih =>
    obtain ⟨ihf, ihe, ihl⟩ := ih
    refine ⟨?_, ?_, ?_⟩
    · intro interp l r h
      rw [eval_factor_succ] at h
      exact factor_body_text_zero _ interp l r (fun l r => ihe interp l r) h
    · intro interp l r h
      rw [eval_expression_succ] at h
      cases hx : eval_factor n interp l with
      | none => rw [hx] at h; exact Option.noConfusion h
      | some p =>
        rw [hx] at h
        exact ihl interp p.1 p.2 r (ihf interp l p hx) h
    · intro interp v l r hv h
      rw [eval_loop_succ] at h
      exact loop_body_text_zero _ _ v l r (fun v l r => ihl interp v l r) hv h

/-- C31: a value that `evaluate_factor` or `evaluate_expression` returns with
the Text tag has the number 0; so when the condition of `IF c THEN ...` evaluates
to a Text, the IF statement takes the false branch: it hands the unchanged
interpreter (cursor included) to the statement loop at the lexer reached by
skipping tokens up to and including ELSE or the token that ends the line. -/
theorem text_condition_is_false (interp : Interpreter) (l : Lexer) (cond : Value) (l1 : Lexer)
    (hc : evaluate_expression interp l = some (cond, l1))
    (htext : cond.is_string = true) :
    cond.number = 0 ∧
    (∀ m v m1, evaluate_factor interp m = some (v, m1) → v.is_string = true →
      v.number = 0) ∧
    ((lexer_next_token l1).1.type = TOK_THEN →
      (∀ next, exec_if next interp l =
        next interp
          (skip_to_else (remaining (lexer_next_token l1).2 + 1) (lexer_next_token l1).2)) ∧
      ∃ l0, skip_to_else (remaining (lexer_next_token l1).2 + 1) (lexer_next_token l1).2 =
          (lexer_next_token l0).2 ∧
        ((lexer_next_token l0).1.type = TOK_EOF ∨
          (lexer_next_token l0).1.type = TOK_NEWLINE ∨
          (lexer_next_token l0).1.type = TOK_ELSE)) := by
  have hzero : cond.number = 0 := (eval_text_zero _).2.1 interp l (cond, l1) hc htext
  refine ⟨hzero, ?_, ?_⟩
  · intro m v m1 h
    exact (eval_text_zero _).1 interp m (v, m1) h
  · intro hthen
    refine ⟨?_, skip_to_else_exit _ _ (le_refl _)⟩
    intro next
    unfold exec_if
    rw [hc]
    simp only [hthen, hzero, ne_eq, not_true_eq_false, if_true, if_false]

/-- C31, at a concrete line: with the line 10 stored, the condition of
`IF "A" THEN 10` is the Text `A` with the number 0, and the line leaves the
interpreter, cursor included, as it was. -/
theorem text_condition_is_false_witness :
    (evaluate_expression hi_program
      (lexer_next_token (lexer_init (str "IF \"A\" THEN 10"))).2).map (fun r => r.1) =
      some { is_string := true, number := 0, string := some (str "A") } ∧
    interpreter_execute_line hi_program (str "IF \"A\" THEN 10") = some hi_program := by
  have h := (text_condition_is_false hi_program
    (lexer_next_token (lexer_init (str "IF \"A\" THEN 10"))).2
    { is_string := true, number := 0, string := some (str "A") }
    { input := str "IF \"A\" THEN 10", position := 6, line := 1, column := 7 }
    (by decide!) rfl).2.2 (by decide)
  refine ⟨by decide!, ?_⟩
  unfold interpreter_execute_line
  rw [execute_tokens_succ, exec_statement_if _ _ _ _ (by decide), h.1]
  have hs : skip_to_else (remaining (lexer_next_token
      { input := str "IF \"A\" THEN 10", position := 6, line := 1, column := 7 }).2 + 1)
      (lexer_next_token
        { input := str "IF \"A\" THEN 10", position := 6, line := 1, column := 7 }).2 =
      { input := str "IF \"A\" THEN 10", position := 14, line := 1, column := 15 } := by
    decide
  rw [hs]
  rfl

/-- The loop of the PRINT statement, given fuel for the rest of the line, hands
over to what follows the statement after appending to the output some items and
then a newline; nothing else of the interpreter changes. -/
theorem print_loop_newline (fuel : Nat) :
    ∀ (interp : Interpreter) (l : Lexer), remaining l + 1 ≤ fuel →
      ∃ items m, remaining m ≤ remaining l ∧ ∀ done, print_loop done fuel interp l =
        done { interp with out := interp.out ++ items ++ [OutItem.chr 10] } m := by
  induction fuel with
  | zero => intro interp l hf; omega
  | succ n ih =>
    intro interp l hf
    by_cases hend : (lexer_peek_token l).1.type = TOK_EOF ∨
        (lexer_peek_token l).1.type = TOK_NEWLINE ∨ (lexer_peek_token l).1.type = TOK_COLON
    · refine ⟨[], l, le_refl _, ?_⟩
      intro done
      rw [print_loop_succ]
      unfold print_body
      rw [if_pos hend, lexer_peek_token_snd, List.append_nil]
      rfl
    · obtain ⟨⟨v, l1⟩, he⟩ := evaluate_expression_total interp l
      have hne : (lexer_next_token l).1.type ≠ TOK_EOF := fun h0 => hend (Or.inl h0)
      have hlt := evaluate_expression_remaining_lt he hne
      have hle := (lexer_next_token_advanced l1).remaining_le
      simp only at hlt
      by_cases hs : (lexer_peek_token l1).1.type = TOK_SEMICOLON
      · obtain ⟨items, m, hm, h⟩ := ih (print_value interp v) (lexer_next_token l1).2 (by omega)
        refine ⟨emitted v ++ items, m, by omega, ?_⟩
        intro done
        rw [print_loop_succ, print_body_item _ _ _ _ _ _ hend he, if_pos hs, h done,
          print_value_eq]
        simp only [List.append_assoc]
      · by_cases hcm : (lexer_peek_token l1).1.type = TOK_COMMA
        · obtain ⟨items, m, hm, h⟩ := ih (basic_print (print_value interp v) [9])
            (lexer_next_token l1).2 (by omega)
          refine ⟨emitted v ++ OutItem.chr 9 :: items, m, by omega, ?_⟩
          intro done
          rw [print_loop_succ, print_body_item _ _ _ _ _ _ hend he, if_neg hs, if_pos hcm,
            h done, print_value_eq, basic_print_eq]
          simp only [List.append_assoc, List.map_cons, List.map_nil, List.singleton_append,
            List.cons_append, List.nil_append]
        · refine ⟨emitted v, l1, by omega, ?_⟩
          intro done
          rw [print_loop_succ, print_body_item _ _ _ _ _ _ hend he, if_neg hs, if_neg hcm,
            print_value_eq, basic_print_eq]
          rfl

/-- C37: a PRINT (or `?`) statement, whatever follows the keyword, hands over to
the statement loop after appending to the output some items and then a newline,
and changes nothing else; with no argument (the line ends or `:` follows) it
appends just the newline; an item followed by `;` (or `,`) and then the end of the
statement is emitted followed by the newline (after a tab for `,`). -/
theorem print_ends_with_newline (interp : Interpreter) (token : Token) (l : Lexer)
    (h : token.type = TOK_PRINT ∨ token.type = TOK_QUESTION) :
    (∃ items m, ∀ next, exec_statement next interp token l =
      next { interp with out := interp.out ++ items ++ [OutItem.chr 10] } m) ∧
    (((lexer_peek_token l).1.type = TOK_EOF ∨ (lexer_peek_token l).1.type = TOK_NEWLINE ∨
        (lexer_peek_token l).1.type = TOK_COLON) →
      ∀ next, exec_statement next interp token l =
        next { interp with out := interp.out ++ [OutItem.chr 10] } l) ∧
    (∀ v l1, ¬ ((lexer_peek_token l).1.type = TOK_EOF ∨
        (lexer_peek_token l).1.type = TOK_NEWLINE ∨ (lexer_peek_token l).1.type = TOK_COLON) →
      evaluate_expression interp l = some (v, l1) →
      ((lexer_peek_token (lexer_next_token l1).2).1.type = TOK_EOF ∨
        (lexer_peek_token (lexer_next_token l1).2).1.type = TOK_NEWLINE ∨
        (lexer_peek_token (lexer_next_token l1).2).1.type = TOK_COLON) →
      ((lexer_peek_token l1).1.type = TOK_SEMICOLON →
        ∀ next, exec_statement next interp token l =
          next { interp with out := interp.out ++ emitted v ++ [OutItem.chr 10] }
            (lexer_next_token l1).2) ∧
      ((lexer_peek_token l1).1.type = TOK_COMMA →
        ∀ next, exec_statement next interp token l =
          next { interp with
                 out := interp.out ++ emitted v ++ [OutItem.chr 9, OutItem.chr 10] }
            (lexer_next_token l1).2)) := by
  refine ⟨?_, ?_, ?_⟩
  · obtain ⟨items, m, _, hm⟩ := print_loop_newline (remaining l + 1) interp l (le_refl _)
    refine ⟨items, m, ?_⟩
    intro next
    rw [exec_statement_print _ _ _ _ h]
    exact hm next
  · intro hend next
    rw [exec_statement_print _ _ _ _ h, print_loop_succ]
    unfold print_body
    rw [if_pos hend, lexer_peek_token_snd]
    rfl
  · intro v l1 hend he hend2
    have hne : (lexer_next_token l).1.type ≠ TOK_EOF := fun h0 => hend (Or.inl h0)
    have hlt := evaluate_expression_remaining_lt he hne
    have hle := (lexer_next_token_advanced l1).remaining_le
    simp only at hlt
    obtain ⟨k, hk⟩ : ∃ k, remaining l = k + 1 := ⟨remaining l - 1, by omega⟩
    have hlast : ∀ (next : Interpreter → Lexer → ExecResult) (i : Interpreter),
        print_loop next (k + 1) i (lexer_next_token l1).2 =
          next (basic_print i [10]) (lexer_next_token l1).2 := by
      intro next i
      rw [print_loop_succ]
      unfold print_body
      rw [if_pos hend2, lexer_peek_token_snd]
    refine ⟨?_, ?_⟩
    · intro hs next
      rw [exec_statement_print _ _ _ _ h, hk, print_loop_succ,
        print_body_item _ _ _ _ _ _ hend he, if_pos hs, hlast, print_value_eq, basic_print_eq]
      rfl
    · intro hcm next
      have hs : (lexer_peek_token l1).1.type ≠ TOK_SEMICOLON := by rw [hcm]; decide
      rw [exec_statement_print _ _ _ _ h, hk, print_loop_succ,
        print_body_item _ _ _ _ _ _ hend he, if_neg hs, if_pos hcm, hlast, print_value_eq,
        basic_print_eq, basic_print_eq]
      simp only [List.append_assoc, List.map_cons, List.map_nil, List.singleton_append,
        List.cons_append, List.nil_append]

/-- C37, at concrete lines: `PRINT` emits a newline, `PRINT "A";` emits `A` and
a newline, `? "A",` emits `A`, a tab and a newline. -/
theorem print_ends_with_newline_witness :
    exec_statement (fun i _ => some i) interpreter_init
        (lexer_next_token (lexer_init (str "PRINT \"A\";"))).1
        (lexer_next_token (lexer_init (str "PRINT \"A\";"))).2 =
      some { interpreter_init with
             out := interpreter_init.out ++
               emitted { is_string := true, number := 0, string := some (str "A") } ++
               [OutItem.chr 10] } ∧
    (interpreter_execute_line interpreter_init (str "PRINT")).map (fun i => i.out) =
      some [OutItem.chr 10] ∧
    (interpreter_execute_line interpreter_init (str "PRINT \"A\";")).map (fun i => i.out) =
      some [OutItem.chr 65, OutItem.chr 10] ∧
    (interpreter_execute_line interpreter_init (str "? \"A\",")).map (fun i => i.out) =
      some [OutItem.chr 65, OutItem.chr 9, OutItem.chr 10] :=
  ⟨((print_ends_with_newline interpreter_init
      (lexer_next_token (lexer_init (str "PRINT \"A\";"))).1
      (lexer_next_token (lexer_init (str "PRINT \"A\";"))).2 (Or.inl (by decide))).2.2
      { is_string := true, number := 0, string := some (str "A") }
      { input := str "PRINT \"A\";", position := 9, line := 1, column := 10 }
      (by decide) (by decide!) (by decide)).1 (by decide) (fun i _ => some i),
    by decide, by decide, by decide⟩

/-- While the input is not exhausted, `lexer_next_token` moves the position
forward. -/
theorem lexer_next_token_moves (l : Lexer) (h : peek_char l ≠ 0) :
    l.position < (lexer_next_token l).2.position := by
  unfold lexer_next_token
  have hpos := peek_char_pos h
  by_cases hw : peek_char l = 32 ∨ peek_char l = 9
  · have h1 : l.position < (skip_whitespace l).position := by
      unfold skip_whitespace
      refine advance_while_progress _ (by decide) _ l ?_ (by unfold remaining; omega)
      rcases hw with hw | hw <;> rw [hw] <;> decide
    have h2 := (token_at_advanced (skip_whitespace l)).2.1
    omega
  · rw [skip_whitespace_of_not l ⟨fun h0 => hw (Or.inl h0), fun h0 => hw (Or.inr h0)⟩]
    exact token_at_progress l h

/-- A pass of the statement loop returns, or continues on fewer unread bytes. -/
theorem exec_statement_pass (i : Interpreter) (l : Lexer) :
    (∃ r, ∀ next,
      exec_statement next i (lexer_next_token l).1 (lexer_next_token l).2 = some r) ∨
    (∃ i2 m, remaining m < remaining l ∧ ∀ next,
      exec_statement next i (lexer_next_token l).1 (lexer_next_token l).2 = next i2 m) := by
  by_cases heof : (lexer_next_token l).1.type = TOK_EOF
  · exact Or.inl ⟨i, fun next => exec_statement_eof next i _ _ heof⟩
  · have hlt := lexer_next_token_remaining_lt l heof
    rcases exec_statement_tail i (⟨rfl, rfl, rfl⟩ : SameToken (lexer_next_token l).1
        (lexer_next_token l).1) (rfl : rest (lexer_next_token l).2 = rest (lexer_next_token l).2)
      with ⟨r, h, _⟩ | ⟨i2, m1, _, _, hb, h1, _⟩
    · exact Or.inl ⟨r, h⟩
    · exact Or.inr ⟨i2, m1, by omega, h1⟩

/-- A pass of the PRINT loop leaves the loop, or continues on fewer unread
bytes. -/
theorem print_body_pass (i : Interpreter) (l : Lexer) :
    (∃ i2 m, ∀ next done, print_body next done i l = done i2 m) ∨
    (∃ i2 m, remaining m < remaining l ∧ ∀ next done, print_body next done i l = next i2 m) := by
  by_cases hend : (lexer_peek_token l).1.type = TOK_EOF ∨
      (lexer_peek_token l).1.type = TOK_NEWLINE ∨ (lexer_peek_token l).1.type = TOK_COLON
  · refine Or.inl ⟨basic_print i [10], l, ?_⟩
    intro next done
    unfold print_body
    rw [if_pos hend, lexer_peek_token_snd]
  · obtain ⟨⟨v, l1⟩, he⟩ := evaluate_expression_total i l
    have hne : (lexer_next_token l).1.type ≠ TOK_EOF := fun h0 => hend (Or.inl h0)
    have hlt := evaluate_expression_remaining_lt he hne
    have hle := (lexer_next_token_advanced l1).remaining_le
    simp only at hlt
    by_cases hs : (lexer_peek_token l1).1.type = TOK_SEMICOLON
    · refine Or.inr ⟨print_value i v, (lexer_next_token l1).2, by omega, ?_⟩
      intro next done
      rw [print_body_item _ _ _ _ _ _ hend he, if_pos hs]
    · by_cases hcm : (lexer_peek_token l1).1.type = TOK_COMMA
      · refine Or.inr ⟨basic_print (print_value i v) [9], (lexer_next_token l1).2,
          by omega, ?_⟩
        intro next done
        rw [print_body_item _ _ _ _ _ _ hend he, if_neg hs, if_pos hcm]
      · refine Or.inl ⟨basic_print (print_value i v) [10], l1, ?_⟩
        intro next done
        rw [print_body_item _ _ _ _ _ _ hend he, if_neg hs, if_neg hcm]

/-- A pass of the skip loop of the IF statement stops after the token read, or
continues on fewer unread bytes. -/
theorem skip_to_else_pass (n : Nat) (l : Lexer) :
    skip_to_else (n + 1) l = (lexer_next_token l).2 ∨
    (remaining (lexer_next_token l).2 < remaining l ∧
      skip_to_else (n + 1) l = skip_to_else n (lexer_next_token l).2) := by
  by_cases h1 : (lexer_next_token l).1.type = TOK_EOF ∨
      (lexer_next_token l).1.type = TOK_NEWLINE
  · left; rw [skip_to_else, if_pos h1]
  · by_cases h2 : (lexer_next_token l).1.type = TOK_ELSE
    · left; rw [skip_to_else, if_neg h1, if_pos h2]
    · right
      refine ⟨lexer_next_token_remaining_lt l (fun h0 => h1 (Or.inl h0)), ?_⟩
      rw [skip_to_else, if_neg h1, if_neg h2]

/-- A pass of the operator loop of `evaluate_expression` stops, or reads an
operator and a factor and continues on fewer unread bytes. -/
theorem evaluate_loop_pass (i : Interpreter) (left : Value) (l : Lexer) :
    evaluate_loop i left l = some (left, l) ∨
    (∃ right l2 left2, remaining l2 < remaining l ∧
      evaluate_factor i (lexer_next_token l).2 = some (right, l2) ∧
      evaluate_loop i left l = evaluate_loop i left2 l2) := by
  obtain ⟨⟨right, l2⟩, hf⟩ := evaluate_factor_total i (lexer_next_token l).2
  have hadv := (evaluate_factor_advanced hf).remaining_le
  simp only at hadv
  rw [evaluate_loop_eq]
  unfold loop_body
  rw [lexer_peek_token_snd, lexer_peek_token_fst, hf]
  by_cases h1 : (lexer_next_token l).1.type = TOK_PLUS
  · right
    have hlt := lexer_next_token_remaining_lt l (by rw [h1]; decide)
    refine ⟨right, l2, apply_plus left right, by omega, rfl, ?_⟩
    rw [if_pos h1]
  · by_cases h2 : is_relational (lexer_next_token l).1.type = true
    · right
      have hlt := lexer_next_token_remaining_lt l (by
        intro h0; rw [h0] at h2; exact absurd h2 (by decide))
      refine ⟨right, l2, apply_relational (lexer_next_token l).1.type left right, by omega,
        rfl, ?_⟩
      rw [if_neg h1, if_pos h2]
    · left
      rw [if_neg h1, if_neg h2]

/-- The body of `evaluate_factor` returns without a recursive call, or makes
one call of `evaluate_expression`, on fewer unread bytes. -/
theorem factor_body_pass (i : Interpreter) (l : Lexer) :
    (∃ r, ∀ expr, factor_body expr i l = some r) ∨
    (∃ (m : Lexer) (f : Value → Value), remaining m < remaining l ∧
      ∀ expr, factor_body expr i l =
        match expr m with
        | none => none
        | some (v, l3) => some (f v, (lexer_next_token l3).2)) := by
  have hle := (lexer_next_token_advanced (lexer_next_token l).2).remaining_le
  cases heq : (lexer_next_token l).1.type with
  | TOK_NUMBER =>
    exact Or.inl ⟨({ value_init with is_string := false,
                                     number := (lexer_next_token l).1.number_value },
      (lexer_next_token l).2), fun expr => by unfold factor_body; rw [heq]⟩
  | TOK_STRING =>
    exact Or.inl ⟨({ value_init with is_string := true,
                                     string := (lexer_next_token l).1.text },
      (lexer_next_token l).2), fun expr => by unfold factor_body; rw [heq]⟩
  | TOK_IDENTIFIER =>
    exact Or.inl ⟨(factor_identifier i (lexer_next_token l).1, (lexer_next_token l).2),
      fun expr => by unfold factor_body; rw [heq]⟩
  | TOK_LPAREN =>
    have hlt := lexer_next_token_remaining_lt l (by rw [heq]; decide)
    exact Or.inr ⟨(lexer_next_token l).2, fun v => v, hlt,
      fun expr => by unfold factor_body; rw [heq]⟩
  | TOK_CHR =>
    have hlt := lexer_next_token_remaining_lt l (by rw [heq]; decide)
    exact Or.inr ⟨(lexer_next_token (lexer_next_token l).2).2,
      fun v => { value_init with is_string := true,
                                 string := some (buf_string [to_uint8 v.number, 0]) },
      by omega, fun expr => by unfold factor_body; rw [heq]⟩
  | TOK_PEEK =>
    have hlt := lexer_next_token_remaining_lt l (by rw [heq]; decide)
    exact Or.inr ⟨(lexer_next_token (lexer_next_token l).2).2,
      fun v => { value_init with is_string := false,
                                 number := (i.ram (to_uint16 v.number) : ℚ) },
      by omega, fun expr => by unfold factor_body; rw [heq]⟩
  | _ =>
    exact Or.inl ⟨(value_init, (lexer_next_token l).2),
      fun expr => by unfold factor_body; rw [heq]⟩

/-- C33: `interpreter_execute_line` returns on every line, with the fuel it is
given and with any larger fuel; `lexer_next_token` moves the position forward
while the input is not exhausted and never past its end; a pass of the statement
loop, of the PRINT loop, of the skip loop of IF and of the operator loop of
`evaluate_expression` stops or continues on fewer unread bytes; the recursive
call of `evaluate_factor` is on fewer unread bytes; and the evaluator returns. -/
theorem execute_line_terminates (interp : Interpreter) (line : CStr) :
    (∃ r, interpreter_execute_line interp line = some r) ∧
    (∀ fuel, line.length + 1 ≤ fuel →
      execute_tokens fuel interp (lexer_init line) = interpreter_execute_line interp line) ∧
    (∀ l : Lexer, (peek_char l ≠ 0 → l.position < (lexer_next_token l).2.position) ∧
      l.position ≤ (lexer_next_token l).2.position ∧
      (lexer_next_token l).2.position ≤ max l.position l.input.length) ∧
    (∀ (i : Interpreter) (l : Lexer),
      (∃ r, ∀ next,
        exec_statement next i (lexer_next_token l).1 (lexer_next_token l).2 = some r) ∨
      (∃ i2 m, remaining m < remaining l ∧ ∀ next,
        exec_statement next i (lexer_next_token l).1 (lexer_next_token l).2 = next i2 m)) ∧
    (∀ (i : Interpreter) (l : Lexer),
      (∃ i2 m, ∀ next done, print_body next done i l = done i2 m) ∨
      (∃ i2 m, remaining m < remaining l ∧
        ∀ next done, print_body next done i l = next i2 m)) ∧
    (∀ (n : Nat) (l : Lexer),
      skip_to_else (n + 1) l = (lexer_next_token l).2 ∨
      (remaining (lexer_next_token l).2 < remaining l ∧
        skip_to_else (n + 1) l = skip_to_else n (lexer_next_token l).2)) ∧
    (∀ (i : Interpreter) (left : Value) (l : Lexer),
      evaluate_loop i left l = some (left, l) ∨
      (∃ right l2 left2, remaining l2 < remaining l ∧
        evaluate_factor i (lexer_next_token l).2 = some (right, l2) ∧
        evaluate_loop i left l = evaluate_loop i left2 l2)) ∧
    (∀ (i : Interpreter) (l : Lexer),
      (∃ r, ∀ expr, factor_body expr i l = some r) ∨
      (∃ (m : Lexer) (f : Value → Value), remaining m < remaining l ∧
        ∀ expr, factor_body expr i l =
          match expr m with
          | none => none
          | some (v, l3) => some (f v, (lexer_next_token l3).2))) ∧
    (∀ (i : Interpreter) (l : Lexer),
      (∃ r, evaluate_factor i l = some r) ∧ (∃ r, evaluate_expression i l = some r)) := by
  refine ⟨interpreter_execute_line_total interp line, ?_, ?_, exec_statement_pass,
    print_body_pass, skip_to_else_pass, evaluate_loop_pass, factor_body_pass,
    fun i l => ⟨evaluate_factor_total i l, evaluate_expression_total i l⟩⟩
  · intro fuel hf
    unfold interpreter_execute_line
    exact execute_tokens_same line.length fuel _ interp _ _
      (by simp [remaining, lexer_init]) hf (le_refl _) rfl
  · intro l
    obtain ⟨_, h1, h2⟩ := lexer_next_token_advanced l
    exact ⟨lexer_next_token_moves l, h1, h2⟩

theorem factor_body_closed (P : Lexer → Prop) (hP : ∀ l, P l → P (lexer_next_token l).2)
    (expr : Lexer → EvalResult) (interp : Interpreter) (l : Lexer) (r : Value × Lexer)
    (he : ∀ l r, expr l = some r → P l → P r.2)
    (h : factor_body expr interp l = some r) (hl : P l) : P r.2 := by
  unfold factor_body at h
  split at h
  · cases h; exact hP _ hl
  · cases h; exact hP _ hl
  · cases h; exact hP _ hl
  · cases hx : expr (lexer_next_token l).2 with
    | none => rw [hx] at h; exact Option.noConfusion h
    | some p => rw [hx] at h; cases h; exact hP _ (he _ p hx (hP _ hl))
  · cases hx : expr (lexer_next_token (lexer_next_token l).2).2 with
    | none => rw [hx] at h; exact Option.noConfusion h
    | some p => rw [hx] at h; cases h; exact hP _ (he _ p hx (hP _ (hP _ hl)))
  · cases hx : expr (lexer_next_token (lexer_next_token l).2).2 with
    | none => rw [hx] at h; exact Option.noConfusion h
    | some p => rw [hx] at h; cases h; exact hP _ (he _ p hx (hP _ (hP _ hl)))
  · cases h; exact hP _ hl

theorem loop_body_closed (P : Lexer → Prop) (hP : ∀ l, P l → P (lexer_next_token l).2)
    (fac : Lexer → EvalResult) (next : Value → Lexer → EvalResult)
    (left : Value) (l : Lexer) (r : Value × Lexer)
    (hf : ∀ l r, fac l = some r → P l → P r.2)
    (hn : ∀ v l r, next v l = some r → P l → P r.2)
    (h : loop_body fac next left l = some r) (hl : P l) : P r.2 := by
  unfold loop_body at h
  rw [lexer_peek_token_snd] at h
  split_ifs at h with h1 h2
  · cases hx : fac (lexer_next_token l).2 with
    | none => rw [hx] at h; exact Option.noConfusion h
    | some p =>
      rw [hx] at h
      exact hn _ _ _ h (hf _ p hx (hP _ hl))
  · cases hx : fac (lexer_next_token l).2 with
    | none => rw [hx] at h; exact Option.noConfusion h
    | some p =>
      rw [hx] at h
      exact hn _ _ _ h (hf _ p hx (hP _ hl))
  · cases h; exact hl

/-- A property of lexers that reading a token preserves is preserved by the
evaluator. -/
theorem eval_closed (P : Lexer → Prop) (hP : ∀ l, P l → P (lexer_next_token l).2)
    (fuel : Nat) :
    (∀ interp l r, eval_factor fuel interp l = some r → P l → P r.2) ∧
    (∀ interp l r, eval_expression fuel interp l = some r → P l → P r.2) ∧
    (∀ interp v l r, eval_loop fuel interp v l = some r → P l → P r.2) := by
  induction fuel with
  | zero =>
    refine ⟨?_, ?_, ?_⟩
    · intro interp l r h; rw [eval_factor] at h; exact Option.noConfusion h
    · intro interp l r h; rw [eval_expression] at h; exact Option.noConfusion h
    · intro interp v l r h; rw [eval_loop] at h; exact Option.noConfusion h
  | succ n ih =>
    obtain ⟨ihf, ihe, ihl⟩ := ih
    refine ⟨?_, ?_, ?_⟩
    · intro interp l r h
      rw [eval_factor_succ] at h
      exact factor_body_closed P hP _ interp l r (fun l r => ihe interp l r) h
    · intro interp l r h
      rw [eval_expression_succ] at h
      cases hx : eval_factor n interp l with
      | none => rw [hx] at h; exact Option.noConfusion h
      | some p =>
        rw [hx] at h
        intro hl
        exact ihl interp p.1 p.2 r h (ihf interp l p hx hl)
    · intro interp v l r h
      rw [eval_loop_succ] at h
      exact loop_body_closed P hP _ _ v l r (fun l r => ihf interp l r)
        (fun v l r => ihl interp v l r) h

theorem evaluate_expression_closed (P : Lexer → Prop)
    (hP : ∀ l, P l → P (lexer_next_token l).2) {interp : Interpreter} {l : Lexer}
    {r : Value × Lexer} (h : evaluate_expression interp l = some r) (hl : P l) : P r.2 :=
  (eval_closed P hP _).2.1 interp l r h hl

theorem skip_to_else_closed (P : Lexer → Prop) (hP : ∀ l, P l → P (lexer_next_token l).2)
    (n : Nat) : ∀ l, P l → P (skip_to_else n l) := by
  induction n with
  | zero => intro l hl; exact hl
  | succ n ih =>
    intro l hl
    rw [skip_to_else]
    split_ifs
    · exact hP _ hl
    · exact hP _ hl
    · exact ih _ (hP _ hl)

theorem var_set_number_error (interp : Interpreter) (name : CStr) (value : ℚ) :
    (var_set_number interp name value).error_occurred = interp.error_occurred := by
  unfold var_set_number
  split <;> rfl

theorem var_set_string_error (interp : Interpreter) (name : CStr) (value : Option CStr) :
    (var_set_string interp name value).error_occurred = interp.error_occurred := by
  unfold var_set_string
  split <;> rfl

theorem poke_error (interp : Interpreter) (addr val : Value) :
    (poke interp addr val).error_occurred = interp.error_occurred := by
  unfold poke
  split
  · split
    · split_ifs <;> rfl
    · rfl
  · rfl

theorem draw_line_error (interp i1 : Interpreter) (x1 y1 x2 y2 : Int)
    (h : draw_line interp x1 y1 x2 y2 = some i1) :
    i1.error_occurred = interp.error_occurred := by
  cases hed : interp.editor with
  | none =>
    rw [(draw_line_path interp x1 y1 x2 y2).1 hed] at h
    cases h; rfl
  | some ed =>
    obtain ⟨calls, hc, _⟩ := (draw_line_path interp x1 y1 x2 y2).2 ed hed
    rw [hc] at h
    cases h; rfl

theorem print_value_error (interp : Interpreter) (v : Value) :
    (print_value interp v).error_occurred = interp.error_occurred := by
  rw [print_value_eq]

/-- The PRINT loop keeps the error signal. -/
theorem print_loop_keeps (P : Lexer → Prop) (hP : ∀ l, P l → P (lexer_next_token l).2)
    (fuel : Nat) :
    ∀ (interp : Interpreter) (l : Lexer), remaining l + 1 ≤ fuel → P l →
      KeepsError P interp.error_occurred (fun done => print_loop done fuel interp l) := by
  induction fuel with
  | zero => intro interp l hf; omega
  | succ n ih =>
    intro interp l hf hl
    by_cases hend : (lexer_peek_token l).1.type = TOK_EOF ∨
        (lexer_peek_token l).1.type = TOK_NEWLINE ∨ (lexer_peek_token l).1.type = TOK_COLON
    · refine Or.inr ⟨basic_print interp [10], l, rfl, hl, ?_⟩
      intro done
      show print_loop done (n + 1) interp l = _
      rw [print_loop_succ]
      unfold print_body
      rw [if_pos hend, lexer_peek_token_snd]
    · obtain ⟨⟨v, l1⟩, he⟩ := evaluate_expression_total interp l
      have hne : (lexer_next_token l).1.type ≠ TOK_EOF := fun h0 => hend (Or.inl h0)
      have hlt := evaluate_expression_remaining_lt he hne
      have hle := (lexer_next_token_advanced l1).remaining_le
      have hl1 : P l1 := evaluate_expression_closed P hP he hl
      simp only at hlt
      by_cases hs : (lexer_peek_token l1).1.type = TOK_SEMICOLON
      · rcases ih (print_value interp v) (lexer_next_token l1).2 (by omega) (hP _ hl1) with
          ⟨r, hr, h⟩ | ⟨i2, m, hi, hm, h⟩
        · refine Or.inl ⟨r, hr.trans (print_value_error interp v), ?_⟩
          intro done
          show print_loop done (n + 1) interp l = _
          rw [print_loop_succ, print_body_item _ _ _ _ _ _ hend he, if_pos hs]
          exact h done
        · refine Or.inr ⟨i2, m, hi.trans (print_value_error interp v), hm, ?_⟩
          intro done
          show print_loop done (n + 1) interp l = _
          rw [print_loop_succ, print_body_item _ _ _ _ _ _ hend he, if_pos hs]
          exact h done
      · by_cases hcm : (lexer_peek_token l1).1.type = TOK_COMMA
        · rcases ih (basic_print (print_value interp v) [9]) (lexer_next_token l1).2
            (by omega) (hP _ hl1) with ⟨r, hr, h⟩ | ⟨i2, m, hi, hm, h⟩
          · refine Or.inl ⟨r, hr.trans (print_value_error interp v), ?_⟩
            intro done
            show print_loop done (n + 1) interp l = _
            rw [print_loop_succ, print_body_item _ _ _ _ _ _ hend he, if_neg hs, if_pos hcm]
            exact h done
          · refine Or.inr ⟨i2, m, hi.trans (print_value_error interp v), hm, ?_⟩
            intro done
            show print_loop done (n + 1) interp l = _
            rw [print_loop_succ, print_body_item _ _ _ _ _ _ hend he, if_neg hs, if_pos hcm]
            exact h done
        · refine Or.inr ⟨basic_print (print_value interp v) [10], l1,
            print_value_error interp v, hl1, ?_⟩
          intro done
          show print_loop done (n + 1) interp l = _
          rw [print_loop_succ, print_body_item _ _ _ _ _ _ hend he, if_neg hs, if_neg hcm]

theorem exec_if_keeps (P : Lexer → Prop) (hP : ∀ l, P l → P (lexer_next_token l).2)
    (interp : Interpreter) (l : Lexer) (hl : P l) :
    KeepsError P interp.error_occurred (fun next => exec_if next interp l) := by
  obtain ⟨⟨cond, l1⟩, he⟩ := evaluate_expression_total interp l
  have hl1 : P l1 := evaluate_expression_closed P hP he hl
  unfold exec_if
  simp only [he]
  by_cases hthen : (lexer_next_token l1).1.type = TOK_THEN
  · by_cases hnz : cond.number ≠ 0
    · simp only [hthen, hnz, ne_eq, not_false_eq_true, if_true]
      unfold exec_then
      simp only [lexer_peek_token_snd]
      by_cases hnum : (lexer_peek_token (lexer_next_token l1).2).1.type = TOK_NUMBER
      · by_cases hf : program_find_line interp
            (c_trunc (lexer_peek_token (lexer_next_token l1).2).1.number_value) ≠ []
        · simp only [hnum, hf, ne_eq, not_false_eq_true, if_true]
          refine Or.inl ⟨_, ?_, fun _ => rfl⟩; rfl
        · simp only [hnum, hf, if_true, if_false]
          exact Or.inr ⟨interp, _, rfl, hP _ (hP _ hl1), fun _ => rfl⟩
      · simp only [hnum, if_false]
        exact Or.inr ⟨interp, _, rfl, hP _ hl1, fun _ => rfl⟩
    · simp only [hthen, hnz, if_true, if_false]
      exact Or.inr ⟨interp, _, rfl, skip_to_else_closed P hP _ _ (hP _ hl1), fun _ => rfl⟩
  · simp only [hthen, if_false]
    exact Or.inr ⟨interp, _, rfl, hP _ hl1, fun _ => rfl⟩

theorem exec_assign_keeps (P : Lexer → Prop) (hP : ∀ l, P l → P (lexer_next_token l).2)
    (interp : Interpreter) (name : Option CStr) (l : Lexer) (hl : P l) :
    KeepsError P interp.error_occurred (fun next => exec_assign next interp name l) := by
  obtain ⟨⟨v, l3⟩, he⟩ := evaluate_expression_total interp (lexer_next_token l).2
  have hl3 : P l3 := evaluate_expression_closed P hP he (hP _ hl)
  unfold exec_assign
  cases name with
  | none => exact Or.inr ⟨interp, l, rfl, hl, fun _ => rfl⟩
  | some nm =>
    simp only [he]
    by_cases heq : (lexer_next_token l).1.type = TOK_EQUAL
    · by_cases hs : v.is_string = true
      · simp only [heq, hs, if_true]
        exact Or.inr ⟨_, l3, var_set_string_error _ _ _, hl3, fun _ => rfl⟩
      · simp only [heq, hs, if_true, if_false]
        exact Or.inr ⟨_, l3, var_set_number_error _ _ _, hl3, fun _ => rfl⟩
    · simp only [heq, if_false]
      exact Or.inr ⟨interp, _, rfl, hP _ hl, fun _ => rfl⟩

theorem exec_let_keeps (P : Lexer → Prop) (hP : ∀ l, P l → P (lexer_next_token l).2)
    (interp : Interpreter) (token : Token) (l : Lexer) (hl : P l) :
    KeepsError P interp.error_occurred (fun next => exec_let next interp token l) := by
  unfold exec_let
  split_ifs
  · exact exec_assign_keeps P hP interp _ l hl
  · exact exec_assign_keeps P hP interp _ _ (hP _ hl)
  · exact exec_assign_keeps P hP interp _ _ (hP _ hl)

theorem exec_poke_keeps (P : Lexer → Prop) (hP : ∀ l, P l → P (lexer_next_token l).2)
    (interp : Interpreter) (l : Lexer) (hl : P l) :
    KeepsError P interp.error_occurred (fun next => exec_poke next interp l) := by
  obtain ⟨⟨a, l1⟩, he1⟩ := evaluate_expression_total interp l
  obtain ⟨⟨b, l2⟩, he2⟩ := evaluate_expression_total interp (lexer_next_token l1).2
  have hl1 : P l1 := evaluate_expression_closed P hP he1 hl
  have hl2 : P l2 := evaluate_expression_closed P hP he2 (hP _ hl1)
  unfold exec_poke
  simp only [he1, he2]
  exact Or.inr ⟨_, l2, poke_error _ _ _, hl2, fun _ => rfl⟩

theorem exec_plot_keeps (P : Lexer → Prop) (hP : ∀ l, P l → P (lexer_next_token l).2)
    (interp : Interpreter) (l : Lexer) (hl : P l) :
    KeepsError P interp.error_occurred (fun next => exec_plot next interp l) := by
  obtain ⟨⟨a, l1⟩, he1⟩ := evaluate_expression_total interp l
  obtain ⟨⟨b, l2⟩, he2⟩ := evaluate_expression_total interp (lexer_next_token l1).2
  have hl1 : P l1 := evaluate_expression_closed P hP he1 hl
  have hl2 : P l2 := evaluate_expression_closed P hP he2 (hP _ hl1)
  unfold exec_plot
  simp only [he1, he2]
  split_ifs
  · refine Or.inr ⟨_, l2, ?_, hl2, fun _ => rfl⟩; rfl
  · refine Or.inr ⟨_, l2, ?_, hl2, fun _ => rfl⟩; rfl

theorem exec_draw_keeps (P : Lexer → Prop) (hP : ∀ l, P l → P (lexer_next_token l).2)
    (interp : Interpreter) (l : Lexer) (hl : P l) :
    KeepsError P interp.error_occurred (fun next => exec_draw next interp l) := by
  obtain ⟨⟨a, l1⟩, he1⟩ := evaluate_expression_total interp l
  obtain ⟨⟨b, l2⟩, he2⟩ := evaluate_expression_total interp (lexer_next_token l1).2
  have hl1 : P l1 := evaluate_expression_closed P hP he1 hl
  have hl2 : P l2 := evaluate_expression_closed P hP he2 (hP _ hl1)
  obtain ⟨d, hd⟩ := draw_line_total interp (c_trunc interp.graphics_x)
    (c_trunc interp.graphics_y) (c_trunc a.number) (c_trunc b.number)
  have hde := draw_line_error _ _ _ _ _ _ hd
  unfold exec_draw
  simp only [he1, he2]
  split_ifs
  · simp only [hd]
    exact Or.inr ⟨{ d with graphics_x := a.number, graphics_y := b.number }, l2, hde, hl2,
      fun _ => rfl⟩
  · refine Or.inr ⟨_, l2, ?_, hl2, fun _ => rfl⟩; rfl

/-- Every statement other than GOTO keeps the error signal. -/
theorem exec_statement_keeps (P : Lexer → Prop) (hP : ∀ l, P l → P (lexer_next_token l).2)
    (interp : Interpreter) (token : Token) (l : Lexer) (hg : token.type ≠ TOK_GOTO)
    (hl : P l) :
    KeepsError P interp.error_occurred (fun next => exec_statement next interp token l) := by
  have hprint := print_loop_keeps P hP (remaining l + 1) interp l (le_refl _) hl
  unfold exec_statement
  cases htt : token.type with
  | TOK_EOF => exact Or.inl ⟨interp, rfl, fun _ => rfl⟩
  | TOK_NEWLINE => exact Or.inl ⟨interp, rfl, fun _ => rfl⟩
  | TOK_PRINT => exact hprint
  | TOK_QUESTION => exact hprint
  | TOK_IF => exact exec_if_keeps P hP interp l hl
  | TOK_GOTO => exact absurd htt hg
  | TOK_LET => exact exec_let_keeps P hP interp token l hl
  | TOK_IDENTIFIER => exact exec_let_keeps P hP interp token l hl
  | TOK_POKE => exact exec_poke_keeps P hP interp l hl
  | TOK_PLOT => exact exec_plot_keeps P hP interp l hl
  | TOK_DRAW => exact exec_draw_keeps P hP interp l hl
  | TOK_EXIT => refine Or.inl ⟨_, ?_, fun _ => rfl⟩; rfl
  | TOK_END => refine Or.inl ⟨_, ?_, fun _ => rfl⟩; rfl
  | TOK_STOP => refine Or.inl ⟨_, ?_, fun _ => rfl⟩; rfl
  | TOK_REM => exact Or.inl ⟨interp, rfl, fun _ => rfl⟩
  | _ => exact Or.inr ⟨interp, l, rfl, hl, fun _ => rfl⟩

theorem rest_tokens_step (l : Lexer) :
    ((lexer_next_token l).1.type = TOK_EOF ∧ rest_tokens l = []) ∨
    ((lexer_next_token l).1.type ≠ TOK_EOF ∧
      rest_tokens l = (lexer_next_token l).1.type :: rest_tokens (lexer_next_token l).2) := by
  by_cases heof : (lexer_next_token l).1.type = TOK_EOF
  · refine Or.inl ⟨heof, ?_⟩
    unfold rest_tokens
    cases remaining l with
    | zero => rfl
    | succ k => simp only [token_types, heof, if_true]
  · refine Or.inr ⟨heof, ?_⟩
    have hlt := lexer_next_token_remaining_lt l heof
    obtain ⟨k, hk⟩ : ∃ k, remaining l = k + 1 := ⟨remaining l - 1, by omega⟩
    unfold rest_tokens
    rw [hk]
    simp only [token_types, heof, if_false]
    rw [token_types_fuel k _ (by omega)]

theorem no_goto_closed (l : Lexer) (h : TOK_GOTO ∉ rest_tokens l) :
    TOK_GOTO ∉ rest_tokens (lexer_next_token l).2 := by
  rcases rest_tokens_step l with ⟨heof, _⟩ | ⟨_, hr⟩
  · rcases rest_tokens_step (lexer_next_token l).2 with ⟨_, h2⟩ | ⟨h2, _⟩
    · rw [h2]; exact List.not_mem_nil _
    · exact absurd (lexer_next_token_eof_stable l heof) h2
  · rw [hr] at h
    exact fun h0 => h (List.mem_cons_of_mem _ h0)

theorem no_goto_first (l : Lexer) (h : TOK_GOTO ∉ rest_tokens l) :
    (lexer_next_token l).1.type ≠ TOK_GOTO := by
  rcases rest_tokens_step l with ⟨heof, _⟩ | ⟨_, hr⟩
  · rw [heof]; decide
  · rw [hr] at h
    exact fun h0 => h (h0 ▸ List.mem_cons_self _ _)

/-- The statement loop on a rest of line without a GOTO token returns an
interpreter with the error signal it was entered with. -/
theorem execute_tokens_keeps (n : Nat) :
    ∀ (f : Nat) (interp : Interpreter) (l : Lexer), remaining l ≤ n → n + 1 ≤ f →
      TOK_GOTO ∉ rest_tokens l →
      ∃ r, execute_tokens f interp l = some r ∧ r.error_occurred = interp.error_occurred := by
  induction n with
  | zero =>
    intro f interp l hr hf _
    obtain ⟨g, hg⟩ : ∃ g, f = g + 1 := ⟨f - 1, by omega⟩
    have heof : (lexer_next_token l).1.type = TOK_EOF := by
      by_contra hne
      have := lexer_next_token_remaining_lt l hne
      omega
    exact ⟨interp, by rw [hg, execute_tokens_succ, exec_statement_eof _ _ _ _ heof], rfl⟩
  | succ n ih =>
    intro f interp l hr hf hno
    obtain ⟨g, hg⟩ : ∃ g, f = g + 1 := ⟨f - 1, by omega⟩
    by_cases heof : (lexer_next_token l).1.type = TOK_EOF
    · exact ⟨interp, by rw [hg, execute_tokens_succ, exec_statement_eof _ _ _ _ heof], rfl⟩
    · have hlt := lexer_next_token_remaining_lt l heof
      rcases exec_statement_keeps
          (fun m => TOK_GOTO ∉ rest_tokens m ∧ remaining m ≤ remaining (lexer_next_token l).2)
          (fun m hm => ⟨no_goto_closed m hm.1,
            le_trans (lexer_next_token_advanced m).remaining_le hm.2⟩)
          interp (lexer_next_token l).1 (lexer_next_token l).2 (no_goto_first l hno)
          ⟨no_goto_closed l hno, le_refl _⟩ with ⟨r, hr1, h⟩ | ⟨i2, m, hi, hm, h⟩
      · exact ⟨r, by rw [hg, execute_tokens_succ]; exact h _, hr1⟩
      · obtain ⟨r, hr1, hr2⟩ := ih g i2 m (by have := hm.2; omega) (by omega) hm.1
        refine ⟨r, ?_, hr2.trans hi⟩
        rw [hg, execute_tokens_succ]
        exact (h _).trans hr1

/-- C32: a line that holds no GOTO token returns with the error signal it was
entered with; every statement other than GOTO returns or hands over with the
error signal unchanged; and a GOTO statement hands over with the error signal
set exactly when it was set before or the operand is a Number whose line is not
in the Program Store. -/
theorem error_signal_only_by_goto (interp : Interpreter) (line : CStr)
    (hno : TOK_GOTO ∉ rest_tokens (lexer_init line)) :
    (∃ r, interpreter_execute_line interp line = some r ∧
      r.error_occurred = interp.error_occurred) ∧
    (∀ (i : Interpreter) (token : Token) (l : Lexer), token.type ≠ TOK_GOTO →
      KeepsError (fun _ => True) i.error_occurred
        (fun next => exec_statement next i token l)) ∧
    (∀ (i : Interpreter) (token : Token) (l : Lexer), token.type = TOK_GOTO →
      ∃ v l1 i2, evaluate_expression i l = some (v, l1) ∧
        (∀ next, exec_statement next i token l = next i2 l1) ∧
        (i2.error_occurred = true ↔
          i.error_occurred = true ∨
            (v.is_string = false ∧ program_find_line i (c_trunc v.number) = []))) := by
  refine ⟨?_, ?_, ?_⟩
  · unfold interpreter_execute_line
    exact execute_tokens_keeps line.length _ interp _ (by simp [remaining, lexer_init])
      (le_refl _) hno
  · intro i token l hg
    exact exec_statement_keeps _ (fun _ _ => trivial) i token l hg trivial
  · intro i token l hg
    obtain ⟨⟨v, l1⟩, he⟩ := evaluate_expression_total i l
    by_cases hs : v.is_string = true
    · refine ⟨v, l1, i, he, ?_, ?_⟩
      · intro next
        rw [exec_statement_goto _ _ _ _ hg]
        unfold exec_goto
        rw [he]
        simp only [hs, Bool.not_true, Bool.false_eq_true, if_false]
      · constructor
        · exact fun h => Or.inl h
        · rintro (h | ⟨h, _⟩)
          · exact h
          · rw [hs] at h; exact Bool.noConfusion h
    · have hs2 : v.is_string = false := by
        cases hv : v.is_string with
        | true => exact absurd hv hs
        | false => rfl
      by_cases hf : program_find_line i (c_trunc v.number) ≠ []
      · refine ⟨v, l1, { i with current_line := program_find_line i (c_trunc v.number) },
          he, ?_, ?_⟩
        · intro next
          rw [exec_statement_goto _ _ _ _ hg]
          unfold exec_goto
          rw [he]
          simp only [hs2, Bool.not_false, hf, ne_eq, not_false_eq_true, if_true]
        · constructor
          · exact fun h => Or.inl h
          · rintro (h | ⟨_, h⟩)
            · exact h
            · exact absurd h hf
      · refine ⟨v, l1, { error i (str "LINE NOT FOUND") with error_occurred := true },
          he, ?_, ?_⟩
        · intro next
          rw [exec_statement_goto _ _ _ _ hg]
          unfold exec_goto
          rw [he]
          simp only [hs2, Bool.not_false, hf, if_true, if_false]
        · constructor
          · intro _
            exact Or.inr ⟨hs2, not_not.mp hf⟩
          · intro _; rfl

/-- C32, at concrete lines: with the lines 10 and 20 stored, `IF 1 THEN 100
PRINT "A"` holds no GOTO token and leaves the error signal clear, while `GOTO 15`
sets it. -/
theorem error_signal_only_by_goto_witness :
    TOK_GOTO ∉ rest_tokens (lexer_init (str "IF 1 THEN 100 PRINT \"A\"")) ∧
    (interpreter_execute_line hi_program (str "IF 1 THEN 100 PRINT \"A\"")).map
      (fun i => i.error_occurred) = some false ∧
    (interpreter_execute_line hi_program (str "GOTO 15")).map
      (fun i => i.error_occurred) = some true := by
  obtain ⟨r, hr, he⟩ := (error_signal_only_by_goto hi_program
    (str "IF 1 THEN 100 PRINT \"A\"") (by decide)).1
  refine ⟨by decide, ?_, by decide!⟩
  rw [hr]
  exact congrArg some he

/-- C35, at the failing input: with `10 PRINT "HI"`, `20 END` stored, no line of
the program holds a GOTO and a RUN alone emits `HI`, a newline and no error
message; the direct-mode statement `GOTO 15` emits nothing and leaves the error
signal set; the RUN entered after it emits `HI`, a newline and then
`ERROR IN LINE 10`, and returns before line 20 with the cursor on line 10. -/
theorem run_reports_stale_error :
    (∀ l ∈ hi_program.program, TOK_GOTO ∉ rest_tokens (lexer_init l.text)) ∧
    (immediate_session 3 hi_program [str "RUN"]).map (fun i => (i.out, i.error_occurred)) =
      some ([OutItem.chr 72, OutItem.chr 73, OutItem.chr 10], false) ∧
    (immediate_session 3 hi_program [str "GOTO 15"]).map
      (fun i => (i.out, i.error_occurred, i.program)) =
      some ([], true, hi_program.program) ∧
    (immediate_session 3 hi_program [str "GOTO 15", str "RUN"]).map
      (fun i => (i.out, line_number_at i.current_line)) =
      some ([OutItem.chr 72, OutItem.chr 73, OutItem.chr 10] ++
        (str "ERROR IN LINE ").map OutItem.chr ++ [OutItem.fmt_d 10, OutItem.chr 10], 10) := by
  refine ⟨by decide, by decide, by decide!, by decide!⟩

theorem dec_digits_rev_spec (fuel : Nat) :
    ∀ n, n < fuel →
      dec_digits_rev fuel n ≠ [] ∧ (∀ c ∈ dec_digits_rev fuel n, isdigit c = true) ∧
      (dec_digits_rev fuel n).foldr (fun c acc => 10 * acc + (c - 48)) 0 = n := by
  induction fuel with
  | zero => intro n h; omega
  | succ k ih =>
    intro n h
    rw [dec_digits_rev]
    by_cases hn : n < 10
    · rw [if_pos hn]
      refine ⟨List.cons_ne_nil _ _, ?_, ?_⟩
      · intro c hc
        rw [List.mem_singleton] at hc
        subst hc
        simp only [isdigit, Bool.and_eq_true, decide_eq_true_eq]
        omega
      · simp only [List.foldr_cons, List.foldr_nil]
        omega
    · rw [if_neg hn]
      obtain ⟨_, h2, h3⟩ := ih (n / 10) (by omega)
      refine ⟨List.cons_ne_nil _ _, ?_, ?_⟩
      · intro c hc
        rcases List.mem_cons.mp hc with rfl | hc
        · simp only [isdigit, Bool.and_eq_true, decide_eq_true_eq]
          omega
        · exact h2 c hc
      · rw [List.foldr_cons, h3]
        omega

/-- The `%d` rendering of a non-negative number is a non-empty run of digits
whose decimal value is the number. -/
theorem format_d_spec (n : Int) (h : 0 ≤ n) :
    format_d n ≠ [] ∧ (∀ c ∈ format_d n, isdigit c = true) ∧
      (digits_value (format_d n) : Int) = n := by
  obtain ⟨h1, h2, h3⟩ := dec_digits_rev_spec (n.natAbs + 1) n.natAbs (by omega)
  unfold format_d
  rw [if_neg (by omega)]
  refine ⟨?_, ?_, ?_⟩
  · intro h0
    exact h1 (List.reverse_eq_nil_iff.mp h0)
  · intro c hc
    exact h2 c (List.mem_reverse.mp hc)
  · unfold digits_value
    rw [List.foldl_reverse, h3]
    omega

theorem fgets_scan_line (s : CStr) :
    ∀ (k : Nat) (file : CStr), 10 ∉ s →
      (s.length < k → fgets_scan k (s ++ 10 :: file) = (s ++ [10], file)) ∧
      (s.length = k → fgets_scan k (s ++ 10 :: file) = (s, 10 :: file)) := by
  induction s with
  | nil =>
    intro k file _
    constructor
    · intro hk
      obtain ⟨j, hj⟩ : ∃ j, k = j + 1 := ⟨k - 1, by simp only [List.length_nil] at hk; omega⟩
      rw [hj]
      simp only [List.nil_append, fgets_scan, if_true]
    · intro hk
      rw [← hk]
      rfl
  | cons c s ih =>
    intro k file hs
    have hc : c ≠ 10 := fun h0 => hs (h0 ▸ List.mem_cons_self _ _)
    have hs2 : 10 ∉ s := fun h0 => hs (List.mem_cons_of_mem _ h0)
    constructor
    · intro hk
      obtain ⟨j, hj⟩ : ∃ j, k = j + 1 := ⟨k - 1, by simp only [List.length_cons] at hk; omega⟩
      rw [hj]
      simp only [List.cons_append, fgets_scan, hc, if_false, List.append_eq]
      rw [(ih j file hs2).1 (by simp only [List.length_cons] at hk; omega)]
    · intro hk
      rw [← hk]
      simp only [List.cons_append, List.length_cons, fgets_scan, hc, if_false, List.append_eq]
      rw [(ih s.length file hs2).2 rfl]

theorem scan_d_line (n : Int) (h : 0 ≤ n) (t : CStr) :
    scan_d (format_d n ++ 32 :: t) = some (n, 32 :: t) := by
  obtain ⟨h1, h2, h3⟩ := format_d_spec n h
  obtain ⟨d, ds, hd⟩ : ∃ d ds, format_d n = d :: ds := by
    cases hf : format_d n with
    | nil => exact absurd hf h1
    | cons d ds => exact ⟨d, ds, rfl⟩
  have hdig : isdigit d = true := h2 d (by rw [hd]; exact List.mem_cons_self _ _)
  have hrange : 48 ≤ d ∧ d ≤ 57 := by
    simpa only [isdigit, Bool.and_eq_true, decide_eq_true_eq] using hdig
  have hsp : isspace d = false := by
    simp only [isspace, Bool.or_eq_false_iff, Bool.and_eq_false_iff, beq_eq_false_iff_ne,
      decide_eq_false_iff_not]
    omega
  have hdrop : (format_d n ++ 32 :: t).dropWhile isspace = format_d n ++ 32 :: t := by
    rw [hd, List.cons_append, List.dropWhile_cons_of_neg (by rw [hsp]; decide)]
  have hsign : scan_sign (format_d n ++ 32 :: t) = (false, format_d n ++ 32 :: t) := by
    unfold scan_sign
    rw [hd, List.cons_append, List.headD_cons, if_neg (by omega), if_neg (by omega)]
  have htake : (format_d n ++ 32 :: t).takeWhile isdigit = format_d n := by
    rw [List.takeWhile_append_of_pos h2, List.takeWhile_cons_of_neg (by decide),
      List.append_nil]
  have hdw : (format_d n ++ 32 :: t).dropWhile isdigit = 32 :: t := by
    rw [List.dropWhile_append_of_pos h2, List.dropWhile_cons_of_neg (by decide)]
  unfold scan_d
  rw [hdrop, hsign]
  simp only [htake, hdw, h3, if_neg h1, Bool.false_eq_true, if_false]

theorem sscanf_line_saved (n : Int) (h : 0 ≤ n) (t : CStr) (ht : t ≠ [])
    (hnl : 10 ∉ t) (hsp : isspace (t.headD 0) = false) :
    sscanf_line (format_d n ++ 32 :: t) = some (n, t) := by
  obtain ⟨c, t2, hc⟩ : ∃ c t2, t = c :: t2 := by
    cases t with
    | nil => exact absurd rfl ht
    | cons c t2 => exact ⟨c, t2, rfl⟩
  have hdrop : (32 :: t).dropWhile isspace = t := by
    rw [List.dropWhile_cons_of_pos (by decide), hc, List.dropWhile_cons_of_neg]
    rw [hc, List.headD_cons] at hsp
    rw [hsp]; decide
  have htake : t.takeWhile (fun c => c != 10) = t := by
    rw [List.takeWhile_eq_self_iff]
    intro x hx
    simp only [bne_iff_ne, ne_eq]
    exact fun h0 => hnl (h0 ▸ hx)
  unfold sscanf_line
  rw [scan_d_line n h t]
  simp only [hdrop, htake, if_neg ht]

theorem load_line_saved (interp : Interpreter) (n : Int) (h : 0 ≤ n) (t : CStr) (ht : t ≠ [])
    (hnl : 10 ∉ t) (hsp : isspace (t.headD 0) = false) :
    load_line interp (format_d n ++ 32 :: t ++ [10]) = program_add_line interp n (some t) ∧
    load_line interp (format_d n ++ 32 :: t) = program_add_line interp n (some t) ∧
    load_line interp [10] = interp := by
  have hempty : sscanf_line (if ([10] : CStr).getLast? = some 10 then ([10] : CStr).dropLast
      else [10]) = none := by decide
  refine ⟨?_, ?_, by unfold load_line; rw [hempty]⟩
  · unfold load_line
    rw [List.getLast?_concat, if_pos rfl, List.dropLast_concat, sscanf_line_saved n h t ht hnl hsp]
  · have hlast : (format_d n ++ 32 :: t).getLast? ≠ some 10 := by
      intro h0
      have hmem := List.mem_of_getLast?_eq_some h0
      rcases List.mem_append.mp hmem with h1 | h1
      · have := (format_d_spec n h).2.1 10 h1
        exact absurd this (by decide)
      · rcases List.mem_cons.mp h1 with h2 | h2
        · exact absurd h2 (by decide)
        · exact hnl h2
    unfold load_line
    rw [if_neg hlast, sscanf_line_saved n h t ht hnl hsp]

theorem insert_walk_last (l : ProgramLine) :
    ∀ (rest : List ProgramLine) (c : ProgramLine),
      (∀ x ∈ rest, x.line_number < l.line_number) →
      insert_walk c rest l = c :: rest ++ [l] := by
  intro rest
  induction rest with
  | nil => intro c _; rfl
  | cons a rest ih =>
    intro c h
    rw [insert_walk, if_pos (h a (List.mem_cons_self _ _)),
      ih a (fun x hx => h x (List.mem_cons_of_mem _ hx))]
    rfl

/-- A line whose number is above every stored number is entered at the end of
the store. -/
theorem program_add_line_last (interp : Interpreter) (l : ProgramLine) (ht : l.text ≠ [])
    (h : ∀ x ∈ interp.program, x.line_number < l.line_number) :
    program_add_line interp l.line_number (some l.text) =
      { interp with program := interp.program ++ [l] } := by
  have hdel : delete_line interp.program l.line_number = interp.program :=
    delete_line_of_absent _ (fun x hx => ne_of_lt (h x hx))
  have hlen : l.text.length ≠ 0 := fun h0 => ht (List.length_eq_zero.mp h0)
  have hins : insert_line interp.program l = interp.program ++ [l] := by
    cases hp : interp.program with
    | nil => rfl
    | cons a rest =>
      rw [hp] at h
      rw [insert_line, if_neg (not_lt.mpr (le_of_lt (h a (List.mem_cons_self _ _)))),
        insert_walk_last l rest a (fun x hx => h x (List.mem_cons_of_mem _ hx))]
  unfold program_add_line program_delete_line
  simp only [hdel, hlen, if_false]
  show { interp with program := insert_line interp.program l } = _
  rw [hins]

/-- The loop of `interpreter_load` reads the line written for `l` and enters
it, and goes on with what follows it in the file. -/
theorem load_loop_line (interp : Interpreter) (l : ProgramLine) (file : CStr) (fuel : Nat)
    (hfuel : (save_line l ++ file).length + 1 ≤ fuel)
    (h0 : 0 ≤ l.line_number) (ht : l.text ≠ []) (hnl : 10 ∉ l.text)
    (hsp : isspace (l.text.headD 0) = false)
    (hfit : (format_d l.line_number).length + 1 + l.text.length ≤ 1023) :
    ∃ fuel2, file.length + 1 ≤ fuel2 ∧
      load_loop fuel interp (save_line l ++ file) =
        load_loop fuel2 (program_add_line interp l.line_number (some l.text)) file := by
  obtain ⟨hl1, hl2, hl3⟩ := load_line_saved interp l.line_number h0 l.text ht hnl hsp
  have hsave : save_line l ++ file = (format_d l.line_number ++ 32 :: l.text) ++ 10 :: file := by
    unfold save_line
    simp only [List.append_assoc, List.cons_append, List.nil_append]
  have hno : 10 ∉ format_d l.line_number ++ 32 :: l.text := by
    intro hmem
    rcases List.mem_append.mp hmem with h1 | h1
    · exact absurd ((format_d_spec l.line_number h0).2.1 10 h1) (by decide)
    · rcases List.mem_cons.mp h1 with h2 | h2
      · exact absurd h2 (by decide)
      · exact hnl h2
  have hlen : (format_d l.line_number ++ 32 :: l.text).length =
      (format_d l.line_number).length + 1 + l.text.length := by
    simp only [List.length_append, List.length_cons]
    omega
  have hlen2 : (save_line l ++ file).length =
      (format_d l.line_number).length + 1 + l.text.length + 1 + file.length := by
    rw [hsave]
    simp only [List.length_append, List.length_cons]
    omega
  have hne : (format_d l.line_number ++ 32 :: l.text) ++ 10 :: file ≠ [] := by
    intro h1
    have := congrArg List.length h1
    simp only [List.length_append, List.length_cons, List.length_nil] at this
    omega
  obtain ⟨hA, hB⟩ := fgets_scan_line (format_d l.line_number ++ 32 :: l.text) 1023 file hno
  rw [hsave]
  by_cases hcase : (format_d l.line_number ++ 32 :: l.text).length < 1023
  · obtain ⟨g, hg⟩ : ∃ g, fuel = g + 1 := ⟨fuel - 1, by omega⟩
    refine ⟨g, by omega, ?_⟩
    rw [hg, load_loop, fgets, if_neg hne]
    simp only [Nat.add_one_sub_one, hA hcase]
    rw [← hl1]
  · have heq : (format_d l.line_number ++ 32 :: l.text).length = 1023 := by omega
    obtain ⟨g, hg⟩ : ∃ g, fuel = g + 2 := ⟨fuel - 2, by omega⟩
    refine ⟨g, by omega, ?_⟩
    rw [hg, load_loop, fgets, if_neg hne]
    simp only [Nat.add_one_sub_one, hB heq]
    rw [hl2, load_loop, fgets, if_neg (List.cons_ne_nil _ _)]
    simp only [Nat.add_one_sub_one, fgets_scan, if_true]
    rw [(load_line_saved _ l.line_number h0 l.text ht hnl hsp).2.2]

/-- The loop of `interpreter_load` over the lines written for an ascending
list of lines, all above the lines of the store, enters them at its end. -/
theorem load_loop_lines :
    ∀ (suf : List ProgramLine) (interp : Interpreter) (fuel : Nat),
      (save_lines suf).length + 1 ≤ fuel →
      StrictlyAscending suf →
      (∀ x ∈ interp.program, ∀ y ∈ suf, x.line_number < y.line_number) →
      (∀ l ∈ suf, 0 ≤ l.line_number ∧ l.text ≠ [] ∧ 10 ∉ l.text ∧
        isspace (l.text.headD 0) = false ∧
        (format_d l.line_number).length + 1 + l.text.length ≤ 1023) →
      load_loop fuel interp (save_lines suf) =
        some { interp with program := interp.program ++ suf } := by
  intro suf
  induction suf with
  | nil =>
    intro interp fuel hf _ _ _
    obtain ⟨g, hg⟩ : ∃ g, fuel = g + 1 := ⟨fuel - 1, by omega⟩
    rw [hg, List.append_nil]
    rfl
  | cons l suf ih =>
    intro interp fuel hf hasc hlow hl
    obtain ⟨h0, ht, hnl, hsp, hfit⟩ := hl l (List.mem_cons_self _ _)
    unfold StrictlyAscending at hasc
    rw [List.pairwise_cons] at hasc
    obtain ⟨fuel2, hf2, hstep⟩ := load_loop_line interp l (save_lines suf) fuel hf h0 ht hnl
      hsp hfit
    have hadd := program_add_line_last interp l ht
      (fun x hx => hlow x hx l (List.mem_cons_self _ _))
    show load_loop fuel interp (save_line l ++ save_lines suf) = _
    rw [hstep, hadd, ih _ fuel2 hf2 hasc.2 ?_ (fun y hy => hl y (List.mem_cons_of_mem _ hy))]
    · simp only [List.append_assoc, List.singleton_append]
    · intro x hx y hy
      rcases List.mem_append.mp hx with h1 | h1
      · exact hlow x h1 y (List.mem_cons_of_mem _ hy)
      · rw [List.mem_singleton] at h1
        rw [h1]
        exact hasc.1 y hy

/-- C36: for a Program Store in ascending order whose line numbers are not
negative and whose texts are not empty, hold no newline, do not begin with white
space and fit with their number and the blank in 1023 bytes, `interpreter_save`
writes `<number> <text>` and a newline per line, and `interpreter_load` of the
file written returns `true` with a Program Store that holds exactly the lines
saved, in the same order (and with the variables and stacks cleared). -/
theorem save_load_round_trip (interp0 interp : Interpreter)
    (hasc : StrictlyAscending interp.program)
    (hlines : ∀ l ∈ interp.program, 0 ≤ l.line_number ∧ l.text ≠ [] ∧ 10 ∉ l.text ∧
      isspace (l.text.headD 0) = false ∧
      (format_d l.line_number).length + 1 + l.text.length ≤ 1023) :
    interpreter_save interp true = (interp, some (save_lines interp.program)) ∧
    interpreter_load interp0 (interpreter_save interp true).2 =
      some ({ interpreter_new interp0 with program := interp.program }, true) := by
  have hsave : interpreter_save interp true = (interp, some (save_lines interp.program)) := rfl
  refine ⟨hsave, ?_⟩
  rw [hsave]
  unfold interpreter_load
  simp only
  rw [load_loop_lines interp.program (interpreter_new interp0) _ (le_refl _) hasc
    (fun x hx => absurd hx (List.not_mem_nil _)) hlines]
  rfl

/-- C36, at a concrete store: the lines `10 PRINT "HI"` and `20 END` are
written as the text `10 PRINT "HI"`, newline, `20 END`, newline, and loading
that text into an interpreter holding another program yields exactly these two
lines. -/
theorem save_load_round_trip_witness :
    (interpreter_save hi_program true).2 = some (str "10 PRINT \"HI\"\n20 END\n") ∧
    (interpreter_load goto_self_program (some (str "10 PRINT \"HI\"\n20 END\n"))).map
      (fun r => (r.1.program, r.2)) =
      some ([{ line_number := 10, text := str "PRINT \"HI\"" },
             { line_number := 20, text := str "END" }], true) := by
  have h := (save_load_round_trip goto_self_program hi_program
    (by unfold StrictlyAscending; decide) (by decide)).2
  have hs : (interpreter_save hi_program true).2 = some (str "10 PRINT \"HI\"\n20 END\n") := by
    decide
  rw [hs] at h
  refine ⟨hs, ?_⟩
  rw [h]
  decide

theorem cursor_step_same {i i2 : Interpreter} (h1 : i2.program = i.program)
    (h2 : i2.current_line = i.current_line) : CursorStep i i2 :=
  ⟨h1, Or.inl h2⟩

theorem cursor_step_jump (i : Interpreter) (n : Int) (h : program_find_line i n ≠ []) :
    CursorStep i { i with current_line := program_find_line i n } :=
  ⟨rfl, Or.inr ⟨h, n, rfl⟩⟩

theorem cursor_step_trans {a b c : Interpreter} (h1 : CursorStep a b) (h2 : CursorStep b c) :
    CursorStep a c := by
  obtain ⟨p1, c1⟩ := h1
  obtain ⟨p2, c2⟩ := h2
  refine ⟨p2.trans p1, ?_⟩
  rcases c2 with c2 | ⟨hne, n, hn⟩
  · rcases c1 with c1 | ⟨hne, n, hn⟩
    · exact Or.inl (c2.trans c1)
    · exact Or.inr ⟨by rw [c2]; exact hne, n, c2.trans hn⟩
  · exact Or.inr ⟨hne, n, by rw [hn, p1]⟩

theorem var_set_number_cursor (interp : Interpreter) (name : CStr) (value : ℚ) :
    CursorStep interp (var_set_number interp name value) := by
  unfold var_set_number
  split <;> exact cursor_step_same rfl rfl

theorem var_set_string_cursor (interp : Interpreter) (name : CStr) (value : Option CStr) :
    CursorStep interp (var_set_string interp name value) := by
  unfold var_set_string
  split <;> exact cursor_step_same rfl rfl

theorem poke_cursor (interp : Interpreter) (addr val : Value) :
    CursorStep interp (poke interp addr val) := by
  unfold poke
  split
  · split
    · split_ifs <;> exact cursor_step_same rfl rfl
    · exact cursor_step_same rfl rfl
  · exact cursor_step_same rfl rfl

theorem draw_line_cursor (interp i1 : Interpreter) (x1 y1 x2 y2 : Int)
    (h : draw_line interp x1 y1 x2 y2 = some i1) :
    i1.program = interp.program ∧ i1.current_line = interp.current_line := by
  cases hed : interp.editor with
  | none =>
    rw [(draw_line_path interp x1 y1 x2 y2).1 hed] at h
    cases h; exact ⟨rfl, rfl⟩
  | some ed =>
    obtain ⟨calls, hc, _⟩ := (draw_line_path interp x1 y1 x2 y2).2 ed hed
    rw [hc] at h
    cases h; exact ⟨rfl, rfl⟩

theorem exec_if_cursor (interp : Interpreter) (l : Lexer) :
    KeepsCursor interp (fun next => exec_if next interp l) := by
  obtain ⟨⟨cond, l1⟩, he⟩ := evaluate_expression_total interp l
  unfold exec_if
  simp only [he]
  by_cases hthen : (lexer_next_token l1).1.type = TOK_THEN
  · by_cases hnz : cond.number ≠ 0
    · simp only [hthen, hnz, ne_eq, not_false_eq_true, if_true]
      unfold exec_then
      simp only [lexer_peek_token_snd]
      by_cases hnum : (lexer_peek_token (lexer_next_token l1).2).1.type = TOK_NUMBER
      · by_cases hf : program_find_line interp
            (c_trunc (lexer_peek_token (lexer_next_token l1).2).1.number_value) ≠ []
        · simp only [hnum, hf, ne_eq, not_false_eq_true, if_true]
          exact Or.inl ⟨_, cursor_step_jump interp _ hf, fun _ => rfl⟩
        · simp only [hnum, hf, if_true, if_false]
          exact Or.inr ⟨interp, _, cursor_step_same rfl rfl, fun _ => rfl⟩
      · simp only [hnum, if_false]
        exact Or.inr ⟨interp, _, cursor_step_same rfl rfl, fun _ => rfl⟩
    · simp only [hthen, hnz, if_true, if_false]
      exact Or.inr ⟨interp, _, cursor_step_same rfl rfl, fun _ => rfl⟩
  · simp only [hthen, if_false]
    exact Or.inr ⟨interp, _, cursor_step_same rfl rfl, fun _ => rfl⟩

theorem exec_goto_cursor (interp : Interpreter) (l : Lexer) :
    KeepsCursor interp (fun next => exec_goto next interp l) := by
  obtain ⟨⟨v, l1⟩, he⟩ := evaluate_expression_total interp l
  unfold exec_goto
  simp only [he]
  by_cases hs : v.is_string = true
  · simp only [hs, Bool.not_true, Bool.false_eq_true, if_false]
    exact Or.inr ⟨interp, l1, cursor_step_same rfl rfl, fun _ => rfl⟩
  · have hs2 : v.is_string = false := by
      cases hv : v.is_string with
      | true => exact absurd hv hs
      | false => rfl
    by_cases hf : program_find_line interp (c_trunc v.number) ≠ []
    · simp only [hs2, Bool.not_false, hf, ne_eq, not_false_eq_true, if_true]
      exact Or.inr ⟨_, l1, cursor_step_jump interp _ hf, fun _ => rfl⟩
    · simp only [hs2, Bool.not_false, hf, if_true, if_false]
      exact Or.inr ⟨{ error interp (str "LINE NOT FOUND") with error_occurred := true }, l1,
        cursor_step_same rfl rfl, fun _ => rfl⟩

theorem exec_assign_cursor (interp : Interpreter) (name : Option CStr) (l : Lexer) :
    KeepsCursor interp (fun next => exec_assign next interp name l) := by
  obtain ⟨⟨v, l3⟩, he⟩ := evaluate_expression_total interp (lexer_next_token l).2
  unfold exec_assign
  cases name with
  | none => exact Or.inr ⟨interp, l, cursor_step_same rfl rfl, fun _ => rfl⟩
  | some nm =>
    simp only [he]
    by_cases heq : (lexer_next_token l).1.type = TOK_EQUAL
    · by_cases hs : v.is_string = true
      · simp only [heq, hs, if_true]
        exact Or.inr ⟨_, l3, var_set_string_cursor _ _ _, fun _ => rfl⟩
      · simp only [heq, hs, if_true, if_false]
        exact Or.inr ⟨_, l3, var_set_number_cursor _ _ _, fun _ => rfl⟩
    · simp only [heq, if_false]
      exact Or.inr ⟨interp, _, cursor_step_same rfl rfl, fun _ => rfl⟩

theorem exec_let_cursor (interp : Interpreter) (token : Token) (l : Lexer) :
    KeepsCursor interp (fun next => exec_let next interp token l) := by
  unfold exec_let
  split_ifs
  · exact exec_assign_cursor interp _ l
  · exact exec_assign_cursor interp _ _
  · exact exec_assign_cursor interp _ _

theorem exec_poke_cursor (interp : Interpreter) (l : Lexer) :
    KeepsCursor interp (fun next => exec_poke next interp l) := by
  obtain ⟨⟨a, l1⟩, he1⟩ := evaluate_expression_total interp l
  obtain ⟨⟨b, l2⟩, he2⟩ := evaluate_expression_total interp (lexer_next_token l1).2
  unfold exec_poke
  simp only [he1, he2]
  exact Or.inr ⟨_, l2, poke_cursor _ _ _, fun _ => rfl⟩

theorem exec_plot_cursor (interp : Interpreter) (l : Lexer) :
    KeepsCursor interp (fun next => exec_plot next interp l) := by
  obtain ⟨⟨a, l1⟩, he1⟩ := evaluate_expression_total interp l
  obtain ⟨⟨b, l2⟩, he2⟩ := evaluate_expression_total interp (lexer_next_token l1).2
  unfold exec_plot
  simp only [he1, he2]
  split_ifs
  · exact Or.inr ⟨{ interp with graphics_x := a.number, graphics_y := b.number }, l2,
      cursor_step_same rfl rfl, fun _ => rfl⟩
  · exact Or.inr ⟨interp, l2, cursor_step_same rfl rfl, fun _ => rfl⟩

theorem exec_draw_cursor (interp : Interpreter) (l : Lexer) :
    KeepsCursor interp (fun next => exec_draw next interp l) := by
  obtain ⟨⟨a, l1⟩, he1⟩ := evaluate_expression_total interp l
  obtain ⟨⟨b, l2⟩, he2⟩ := evaluate_expression_total interp (lexer_next_token l1).2
  obtain ⟨d, hd⟩ := draw_line_total interp (c_trunc interp.graphics_x)
    (c_trunc interp.graphics_y) (c_trunc a.number) (c_trunc b.number)
  obtain ⟨hd1, hd2⟩ := draw_line_cursor _ _ _ _ _ _ hd
  unfold exec_draw
  simp only [he1, he2]
  split_ifs
  · simp only [hd]
    exact Or.inr ⟨{ d with graphics_x := a.number, graphics_y := b.number }, l2,
      cursor_step_same hd1 hd2, fun _ => rfl⟩
  · exact Or.inr ⟨interp, l2, cursor_step_same rfl rfl, fun _ => rfl⟩

/-- Every statement leaves the program as it is and the cursor where it was or
on a line found by a jump. -/
theorem exec_statement_cursor (interp : Interpreter) (token : Token) (l : Lexer) :
    KeepsCursor interp (fun next => exec_statement next interp token l) := by
  have hprint : KeepsCursor interp
      (fun next => print_loop next (remaining l + 1) interp l) := by
    obtain ⟨items, m, _, hm⟩ := print_loop_newline (remaining l + 1) interp l (le_refl _)
    exact Or.inr ⟨{ interp with out := interp.out ++ items ++ [OutItem.chr 10] }, m,
      cursor_step_same rfl rfl, hm⟩
  unfold exec_statement
  cases htt : token.type with
  | TOK_EOF => exact Or.inl ⟨interp, cursor_step_same rfl rfl, fun _ => rfl⟩
  | TOK_NEWLINE => exact Or.inl ⟨interp, cursor_step_same rfl rfl, fun _ => rfl⟩
  | TOK_PRINT => exact hprint
  | TOK_QUESTION => exact hprint
  | TOK_IF => exact exec_if_cursor interp l
  | TOK_GOTO => exact exec_goto_cursor interp l
  | TOK_LET => exact exec_let_cursor interp token l
  | TOK_IDENTIFIER => exact exec_let_cursor interp token l
  | TOK_POKE => exact exec_poke_cursor interp l
  | TOK_PLOT => exact exec_plot_cursor interp l
  | TOK_DRAW => exact exec_draw_cursor interp l
  | TOK_EXIT =>
    exact Or.inl ⟨{ interp with exit_requested := true, running := false },
      cursor_step_same rfl rfl, fun _ => rfl⟩
  | TOK_END =>
    exact Or.inl ⟨{ interp with running := false }, cursor_step_same rfl rfl, fun _ => rfl⟩
  | TOK_STOP =>
    exact Or.inl ⟨{ interp with running := false }, cursor_step_same rfl rfl, fun _ => rfl⟩
  | TOK_REM => exact Or.inl ⟨interp, cursor_step_same rfl rfl, fun _ => rfl⟩
  | _ => exact Or.inr ⟨interp, l, cursor_step_same rfl rfl, fun _ => rfl⟩

theorem execute_tokens_cursor (fuel : Nat) :
    ∀ (interp : Interpreter) (l : Lexer) (r : Interpreter),
      execute_tokens fuel interp l = some r → CursorStep interp r := by
  induction fuel with
  | zero =>
    intro interp l r h
    rw [execute_tokens] at h
    exact Option.noConfusion h
  | succ n ih =>
    intro interp l r h
    rw [execute_tokens_succ] at h
    rcases exec_statement_cursor interp (lexer_next_token l).1 (lexer_next_token l).2 with
      ⟨r1, hr1, hF⟩ | ⟨i2, m, hi2, hF⟩
    · have e := (hF _).symm.trans h
      cases e
      exact hr1
    · have e := (hF _).symm.trans h
      exact cursor_step_trans hi2 (ih i2 m r e)

/-- A line leaves the program as it is, and the cursor where it was or on a
line found by a jump executed on the line. -/
theorem interpreter_execute_line_cursor (interp : Interpreter) (line : CStr) (r : Interpreter)
    (h : interpreter_execute_line interp line = some r) : CursorStep interp r :=
  execute_tokens_cursor _ interp _ r h

theorem run_after_line_halt (i1 : Interpreter) (next_line : List ProgramLine)
    (h : i1.error_occurred = true ∨ i1.running = false) :
    (run_after_line i1 next_line).1.current_line = i1.current_line ∧
      (run_after_line i1 next_line).1.program = i1.program := by
  unfold run_after_line
  by_cases he : i1.error_occurred = true
  · rw [if_pos he]
    exact ⟨rfl, rfl⟩
  · rcases h with h | h
    · exact absurd h he
    · rw [if_neg he, if_neg (by rw [h]; simp)]
      exact ⟨rfl, rfl⟩

/-- The run loop keeps the program; its cursor stays a suffix of the program;
and when it returns with `running` cleared, the cursor is not null. -/
theorem run_loop_cursor (p : List ProgramLine) (fuel : Nat) :
    ∀ (s r0 : Interpreter), run_loop fuel s = some r0 →
      s.program = p → s.current_line <:+ p → (s.running = true ∨ s.current_line ≠ []) →
      r0.program = p ∧ r0.current_line <:+ p ∧ (r0.running = false → r0.current_line ≠ []) := by
  induction fuel with
  | zero =>
    intro s r0 h
    simp [run_loop] at h
  | succ n ih =>
    intro s r0 h hp hsuf hJ
    rw [run_loop_succ] at h
    by_cases hc : s.running ∧ s.current_line ≠ []
    · rw [if_pos hc] at h
      by_cases hb : s.break_requested = true
      · have hbody : run_body s = some
            ({ basic_print s (10 :: str "? BREAK" ++ [10]) with
                break_requested := false, running := false }, true) := by
          unfold run_body
          rw [if_pos hb]
        rw [hbody] at h
        have h1 : _ = r0 := Option.some.inj h
        rw [← h1]
        exact ⟨hp, hsuf, fun _ => hc.2⟩
      · cases he : interpreter_execute_line s (text_at s.current_line) with
        | none =>
          have hbody : run_body s = none := by
            unfold run_body
            rw [if_neg hb, he]
          rw [hbody] at h
          exact Option.noConfusion h
        | some i1 =>
          have hbody : run_body s = some (run_after_line i1 s.current_line.tail) := by
            unfold run_body
            rw [if_neg hb, he]
          obtain ⟨hp1, hcur⟩ := interpreter_execute_line_cursor s _ i1 he
          have hsuf1 : i1.current_line <:+ p := by
            rcases hcur with hcur | ⟨_, k, hk⟩
            · rw [hcur]; exact hsuf
            · rw [hk, hp]; exact find_line_suffix p k
          have hne1 : i1.current_line ≠ [] := by
            rcases hcur with hcur | ⟨hne, _⟩
            · rw [hcur]; exact hc.2
            · exact hne
          rw [hbody] at h
          by_cases herr : i1.error_occurred = true
          · have hafter : run_after_line i1 s.current_line.tail =
                ({ i1 with
                    out := i1.out ++ (str "ERROR IN LINE ").map OutItem.chr ++
                      [OutItem.fmt_d (line_number_at i1.current_line), OutItem.chr 10],
                    running := false, error_occurred := false }, true) := by
              unfold run_after_line
              rw [if_pos herr]
            rw [hafter] at h
            have h1 : _ = r0 := Option.some.inj h
            rw [← h1]
            exact ⟨hp1.trans hp, hsuf1, fun _ => hne1⟩
          · by_cases hadv : i1.running ∧ i1.current_line ≠ [] ∧
                i1.current_line.tail = s.current_line.tail
            · have hafter : run_after_line i1 s.current_line.tail =
                  ({ i1 with current_line := s.current_line.tail }, false) := by
                unfold run_after_line
                rw [if_neg herr, if_pos hadv]
              rw [hafter] at h
              exact ih _ r0 h (hp1.trans hp)
                ((List.tail_suffix s.current_line).trans hsuf) (Or.inl hadv.1)
            · have hafter : run_after_line i1 s.current_line.tail = (i1, false) := by
                unfold run_after_line
                rw [if_neg herr, if_neg hadv]
              rw [hafter] at h
              exact ih i1 r0 h (hp1.trans hp) hsuf1 (Or.inr hne1)
    · rw [if_neg hc] at h
      have h1 : s = r0 := Option.some.inj h
      rw [← h1]
      refine ⟨hp, hsuf, ?_⟩
      intro hrun
      rcases hJ with hJ | hJ
      · rw [hrun] at hJ; exact absurd hJ (by decide)
      · exact hJ

/-- When the run loop, entered with `running` set, returns with `running`
cleared, its last pass started in a state `t` the loop reached: either an
interrupt was pending there and the cursor is still the one of `t`, or the line
under the cursor of `t` was executed, ended with the error signal set or with
`running` cleared, and the cursor is the one that line left. -/
theorem run_loop_last (fuel : Nat) :
    ∀ (s r0 : Interpreter), run_loop fuel s = some r0 → s.running = true →
      r0.running = false →
      ∃ k t, RunReach k s t ∧ t.running = true ∧ t.current_line ≠ [] ∧
        ((t.break_requested = true ∧ r0.current_line = t.current_line) ∨
          (t.break_requested = false ∧
            ∃ i1, interpreter_execute_line t (text_at t.current_line) = some i1 ∧
              (i1.error_occurred = true ∨ i1.running = false) ∧
              r0.current_line = i1.current_line ∧ CursorStep t i1)) := by
  induction fuel with
  | zero =>
    intro s r0 h
    simp [run_loop] at h
  | succ n ih =>
    intro s r0 h hrun hstop
    rw [run_loop_succ] at h
    by_cases hc : s.running ∧ s.current_line ≠ []
    · rw [if_pos hc] at h
      by_cases hb : s.break_requested = true
      · have hbody : run_body s = some
            ({ basic_print s (10 :: str "? BREAK" ++ [10]) with
                break_requested := false, running := false }, true) := by
          unfold run_body
          rw [if_pos hb]
        rw [hbody] at h
        have h1 : _ = r0 := Option.some.inj h
        exact ⟨0, s, rfl, hc.1, hc.2, Or.inl ⟨hb, h1 ▸ rfl⟩⟩
      · have hb2 : s.break_requested = false := by
          cases hv : s.break_requested with
          | true => exact absurd hv hb
          | false => rfl
        cases he : interpreter_execute_line s (text_at s.current_line) with
        | none =>
          have hbody : run_body s = none := by
            unfold run_body
            rw [if_neg hb, he]
          rw [hbody] at h
          exact Option.noConfusion h
        | some i1 =>
          have hbody : run_body s = some (run_after_line i1 s.current_line.tail) := by
            unfold run_body
            rw [if_neg hb, he]
          have hstep := interpreter_execute_line_cursor s _ i1 he
          rw [hbody] at h
          by_cases herr : i1.error_occurred = true
          · have hafter : run_after_line i1 s.current_line.tail =
                ({ i1 with
                    out := i1.out ++ (str "ERROR IN LINE ").map OutItem.chr ++
                      [OutItem.fmt_d (line_number_at i1.current_line), OutItem.chr 10],
                    running := false, error_occurred := false }, true) := by
              unfold run_after_line
              rw [if_pos herr]
            rw [hafter] at h
            have h1 : _ = r0 := Option.some.inj h
            exact ⟨0, s, rfl, hc.1, hc.2, Or.inr ⟨hb2, i1, he, Or.inl herr, h1 ▸ rfl, hstep⟩⟩
          · by_cases hi1 : i1.running = true
            · have hflag : (run_after_line i1 s.current_line.tail).2 = false := by
                unfold run_after_line
                rw [if_neg herr]
                split <;> rfl
              have hrun1 : (run_after_line i1 s.current_line.tail).1.running = true := by
                unfold run_after_line
                rw [if_neg herr]
                split
                · exact hi1
                · exact hi1
              have hpair : run_after_line i1 s.current_line.tail =
                  ((run_after_line i1 s.current_line.tail).1, false) := by
                rw [← hflag]
              rw [hpair] at h
              obtain ⟨k, t, hreach, ht⟩ := ih _ r0 h hrun1 hstop
              exact ⟨k + 1, t, ⟨_, hc.1, hc.2, hbody.trans (congrArg some hpair), hreach⟩, ht⟩
            · have hi2 : i1.running = false := by
                cases hv : i1.running with
                | true => exact absurd hv hi1
                | false => rfl
              have hafter : run_after_line i1 s.current_line.tail = (i1, false) := by
                unfold run_after_line
                rw [if_neg herr, if_neg (by rw [hi2]; simp)]
              rw [hafter] at h
              have h2 : run_loop n i1 = some r0 := h
              have h1 : i1 = r0 := by
                cases n with
                | zero => simp [run_loop] at h2
                | succ m =>
                  rw [run_loop_succ, if_neg (by rw [hi2]; simp)] at h2
                  exact Option.some.inj h2
              exact ⟨0, s, rfl, hc.1, hc.2, Or.inr ⟨hb2, i1, he, Or.inr hi2, h1 ▸ rfl, hstep⟩⟩
    · rw [if_neg hc] at h
      have h1 : s = r0 := Option.some.inj h
      rw [h1, hstop] at hrun
      exact absurd hrun (by decide)

/-- C20 (as amended): when `interpreter_run` returns on a non-empty program,
`running` is false and the program is the one entered; the run was started with
the cursor on the head of the program list, which has the lowest number of an
ascending list; the cursor is null at return when the loop was left with
`running` still set (the run went past the last line); when the loop was left
with `running` cleared (END, STOP, EXIT, a runtime error or an interrupt) the
cursor is not cleared: it is not null, references a line of the program, and is
the cursor the last pass of the loop left, that pass having started in a state
`t` the loop reached: the cursor of `t` when an interrupt was pending there,
otherwise the cursor after the line of `t`, which ended with the error signal
set or with `running` cleared.  A line leaves the cursor where it was or on a
line found by a jump executed on it; the pass of the loop that halts after the
line does not move it; a pass that finds an interrupt pending leaves it on the
line about to be executed, so on an interrupt pending at run start the cursor
stays on the first line.  (A program need not halt, so the statement is about
runs that return.) -/
theorem run_cursor_at_return (interp r : Interpreter) (fuel : Nat)
    (hprog : interp.program ≠ []) (hret : interpreter_run fuel interp = some r) :
    r.running = false ∧
    (run_start interp).current_line = interp.program ∧
    (StrictlyAscending interp.program →
      ∀ l ∈ interp.program, line_number_at (run_start interp).current_line ≤ l.line_number) ∧
    (∃ r0, run_loop fuel (run_start interp) = some r0 ∧ r = { r0 with running := false } ∧
      (r0.running = true → r.current_line = []) ∧
      (r0.running = false → r.current_line ≠ [] ∧ r.current_line <:+ interp.program ∧
        ∃ k t, RunReach k (run_start interp) t ∧ t.running = true ∧ t.current_line ≠ [] ∧
          ((t.break_requested = true ∧ r.current_line = t.current_line) ∨
            (t.break_requested = false ∧
              ∃ i1, interpreter_execute_line t (text_at t.current_line) = some i1 ∧
                (i1.error_occurred = true ∨ i1.running = false) ∧
                r.current_line = i1.current_line ∧ CursorStep t i1)))) ∧
    r.program = interp.program ∧
    (∀ (s i1 : Interpreter), interpreter_execute_line s (text_at s.current_line) = some i1 →
      CursorStep s i1 ∧
      ((i1.error_occurred = true ∨ i1.running = false) →
        ∀ next_line, (run_after_line i1 next_line).1.current_line = i1.current_line)) ∧
    (∀ s : Interpreter, s.break_requested = true →
      ∃ s1, run_body s = some (s1, true) ∧ s1.current_line = s.current_line) ∧
    (interp.break_requested = true → r.current_line = interp.program) := by
  unfold interpreter_run at hret
  rw [if_neg hprog] at hret
  cases hl : run_loop fuel { interp with running := true, current_line := interp.program } with
  | none => rw [hl] at hret; simp at hret
  | some r0 =>
    rw [hl] at hret
    have hr : { r0 with running := false } = r := Option.some.inj hret
    obtain ⟨hc1, hc2, hc3⟩ := run_loop_cursor interp.program fuel _ r0 hl rfl
      (List.suffix_refl _) (Or.inl rfl)
    refine ⟨by rw [← hr], rfl, ?_, ⟨r0, hl, hr.symm, ?_, ?_⟩, by rw [← hr]; exact hc1, ?_, ?_,
      ?_⟩
    · intro hasc l hl2
      show line_number_at interp.program ≤ l.line_number
      cases hp : interp.program with
      | nil => exact absurd hp hprog
      | cons a t =>
        rw [hp] at hasc hl2
        rcases List.mem_cons.mp hl2 with h2 | h2
        · rw [h2]
          exact le_refl _
        · exact le_of_lt (List.rel_of_pairwise_cons hasc h2)
    · intro hrun
      rw [← hr]
      exact run_loop_running_null fuel _ r0 hl hrun
    · intro hrun
      have hlast := run_loop_last fuel _ r0 hl rfl hrun
      rw [← hr]
      exact ⟨hc3 hrun, hc2, hlast⟩
    · intro s i1 he
      exact ⟨interpreter_execute_line_cursor s _ i1 he,
        fun hh next_line => (run_after_line_halt i1 next_line hh).1⟩
    · intro s hb
      refine ⟨{ basic_print s (10 :: str "? BREAK" ++ [10]) with
                break_requested := false, running := false }, ?_, rfl⟩
      unfold run_body
      rw [if_pos hb]
    · intro hbrk
      cases fuel with
      | zero => simp [run_loop] at hl
      | succ n =>
        rw [run_loop_succ, if_pos ⟨rfl, hprog⟩] at hl
        unfold run_body at hl
        rw [if_pos hbrk] at hl
        have h0 : _ = r0 := Option.some.inj hl
        rw [← hr, ← h0]
        rfl

/-- C20 (as amended), at concrete programs: the run of `10 GOTO 30: END`,
`30 PRINT "X"` halts on the END of line 10 and returns with `running = false` and
the cursor on line 30, where the GOTO put it; the run of `10 PRINT "HI"` goes
past its last line and returns with a null cursor. -/
theorem run_cursor_at_return_witness :
    (∃ r, interpreter_run 2 jump_then_end_program = some r ∧ r.running = false ∧
      r.current_line ≠ [] ∧ r.current_line <:+ jump_then_end_program.program ∧
      r.current_line.map ProgramLine.line_number = [30] ∧ r.out = []) ∧
    (∃ r, interpreter_run 2 print_program = some r ∧ r.running = false ∧
      r.current_line = [] ∧
      (run_start print_program).current_line.map ProgramLine.line_number = [10]) := by
  constructor
  · have h : (interpreter_run 2 jump_then_end_program).map
        (fun i => (i.current_line.map ProgramLine.line_number, i.out)) =
        some ([30], []) := by decide!
    have hrun : (run_loop 2 (run_start jump_then_end_program)).map (fun i => i.running) =
        some false := by decide!
    cases hr : interpreter_run 2 jump_then_end_program with
    | none => rw [hr] at h; simp at h
    | some r =>
      obtain ⟨h1, _, _, ⟨r0, h3, _, _, h6⟩, _⟩ :=
        run_cursor_at_return jump_then_end_program r 2 (by decide) hr
      rw [h3] at hrun
      rw [hr] at h
      have h0 := Option.some.inj h
      have h7 := h6 (Option.some.inj hrun)
      exact ⟨r, rfl, h1, h7.1, h7.2.1, congrArg Prod.fst h0, congrArg Prod.snd h0⟩
  · have h : (interpreter_run 2 print_program).isSome = true := by decide
    have hrun : (run_loop 2 (run_start print_program)).map (fun i => i.running) =
        some true := by decide
    cases hr : interpreter_run 2 print_program with
    | none => rw [hr] at h; simp at h
    | some r =>
      obtain ⟨h1, _, _, ⟨r0, h3, _, h5, _⟩, _⟩ :=
        run_cursor_at_return print_program r 2 (by decide) hr
      rw [h3] at hrun
      exact ⟨r, rfl, h1, h5 (Option.some.inj hrun), by decide⟩

end CFBasic
